import Mathlib

/-!
# Grouped evaluation (`dogroups.c`): a shallow embedding

R values are modelled as finite trees (`SEXP`).  The only mutable objects that
matter to `dogroups` are the scratch buffers it marks as special (`.SD`
columns, `.BY` columns, `.I`, `.N`, `.GRP`): a value may point into one of
them, which is the `SEXP.buf` node.  Every other value is immutable while the
group loop runs, so it is represented by its contents.

Integers of the C code (`int`, `R_len_t`) are unbounded here: 32-bit overflow
is outside the model.  The doubles of line 405 are rationals rounded to the
nearest binary64 number after every operation.  Diagnostic printing under
`verbose` and garbage collector protection have no effect on the values
modelled and are left out; the progress report is embedded with the loop in a
section of its own.
-/

set_option autoImplicit false

namespace DataTable

/-! ## Values -/

/-- Type tags of R values (`TYPEOF`). -/
inductive SEXPTYPE where
  | NILSXP | SYMSXP | CLOSXP | BUILTINSXP
  | LGLSXP | INTSXP | REALSXP | CPLXSXP | STRSXP | VECSXP | EXPRSXP | RAWSXP
  deriving DecidableEq, Repr

/-- Identity of a scratch buffer that `dogroups` reuses for every group. -/
inductive BufId where
  | SD (j : Nat)
  | BY (j : Nat)
  | I
  | N
  | GRP
  deriving DecidableEq, Repr

mutual
/-- An R value.  `vec` is any non-NULL object: its type tag, its elements (only
vector types have any), its attribute pairlist, `TRUELENGTH` and the ALTREP
bit.  `buf b view` is a pointer to scratch buffer `b`; `view` is what the buffer
held when the pointer was last read. -/
inductive SEXP where
  | null : SEXP
  | vec (ty : SEXPTYPE) (items : List Item) (attrib : List (String × SEXP))
      (truelength : Int) (altrep : Bool) : SEXP
  | buf (b : BufId) (view : SEXP) : SEXP
/-- One element of a vector: `int` carries the payload of a logical, integer,
real, complex or raw element, `str` a string, `elt` an element of a list;
`na` is the missing value and `uninit` memory that was never written. -/
inductive Item where
  | na : Item
  | int (v : Int) : Item
  | str (s : String) : Item
  | uninit : Item
  | elt (x : SEXP) : Item
end

instance : Inhabited SEXP := ⟨SEXP.null⟩
instance : Inhabited Item := ⟨Item.uninit⟩

abbrev NA_INTEGER : Int := -2147483648

mutual
/-- Structural equality test on values (used to evaluate concrete examples). -/
def SEXP.beq : SEXP → SEXP → Bool
  | .null, .null => true
  | .vec t1 i1 a1 l1 r1, .vec t2 i2 a2 l2 r2 =>
      t1 == t2 && Item.beqList i1 i2 && SEXP.beqAttrib a1 a2 && l1 == l2 && r1 == r2
  | .buf b1 v1, .buf b2 v2 => b1 == b2 && SEXP.beq v1 v2
  | _, _ => false
def Item.beq : Item → Item → Bool
  | .na, .na => true
  | .int a, .int b => a == b
  | .str a, .str b => a == b
  | .uninit, .uninit => true
  | .elt a, .elt b => SEXP.beq a b
  | _, _ => false
def Item.beqList : List Item → List Item → Bool
  | [], [] => true
  | a :: r, b :: s => Item.beq a b && Item.beqList r s
  | _, _ => false
def SEXP.beqAttrib : List (String × SEXP) → List (String × SEXP) → Bool
  | [], [] => true
  | (t1, v1) :: r, (t2, v2) :: s => t1 == t2 && SEXP.beq v1 v2 && SEXP.beqAttrib r s
  | _, _ => false
end

/-- Equality test on lists of columns. -/
def SEXP.beqCols : List SEXP → List SEXP → Bool
  | [], [] => true
  | a :: r, b :: s => SEXP.beq a b && SEXP.beqCols r s
  | _, _ => false

/-- The object a value denotes: a pointer to a scratch buffer is followed. -/
def SEXP.node : SEXP → SEXP
  | .buf _ v => v.node
  | x => x

def TYPEOF (x : SEXP) : SEXPTYPE :=
  match x.node with
  | .vec ty _ _ _ _ => ty
  | _ => .NILSXP

def isNull (x : SEXP) : Bool := TYPEOF x == .NILSXP

def SEXPTYPE.isVectorAtomic : SEXPTYPE → Bool
  | .LGLSXP | .INTSXP | .REALSXP | .CPLXSXP | .STRSXP | .RAWSXP => true
  | _ => false

def SEXPTYPE.isVector : SEXPTYPE → Bool
  | .LGLSXP | .INTSXP | .REALSXP | .CPLXSXP | .STRSXP | .RAWSXP | .VECSXP | .EXPRSXP => true
  | _ => false

def isVectorAtomic (x : SEXP) : Bool := (TYPEOF x).isVectorAtomic
def isVector (x : SEXP) : Bool := (TYPEOF x).isVector
/-- `isNewList` of R: true for `NULL` and for `VECSXP`. -/
def isNewList (x : SEXP) : Bool := TYPEOF x == .NILSXP || TYPEOF x == .VECSXP

/-- The elements of a vector (`DATAPTR`); no elements for anything else. -/
def SEXP.items (x : SEXP) : List Item :=
  match x.node with
  | .vec ty its _ _ _ => if ty.isVector then its else []
  | _ => []

/-- `LENGTH` macro: the number of elements of a vector. -/
def LENGTH (x : SEXP) : Nat := x.items.length

/-- `length()` of R: 0 for `NULL`, `LENGTH` for vectors, 1 for any other object
(pairlists and environments, whose length is a count, are not modelled). -/
def length (x : SEXP) : Nat :=
  match TYPEOF x with
  | .NILSXP => 0
  | ty => if ty.isVector then LENGTH x else 1

def ATTRIB (x : SEXP) : List (String × SEXP) :=
  match x.node with
  | .vec _ _ a _ _ => a
  | _ => []

def TRUELENGTH (x : SEXP) : Int :=
  match x.node with
  | .vec _ _ _ tl _ => tl
  | _ => 0

def ALTREP (x : SEXP) : Bool :=
  match x.node with
  | .vec _ _ _ _ alt => alt
  | _ => false

def getAttrib (x : SEXP) (name : String) : SEXP :=
  match (ATTRIB x).find? (fun p => p.1 == name) with
  | some p => p.2
  | none => .null

/-- Element `i` of a C array of items; reading outside the array yields
indeterminate memory. -/
def getI (xs : List Item) (i : Int) : Item :=
  if i < 0 then .uninit else xs.getD i.toNat .uninit

/-- Store into element `i` of a C array of items; a store outside the array is
dropped here (in C it is undefined behaviour). -/
def setI (xs : List Item) (i : Int) (v : Item) : List Item :=
  if i < 0 then xs else xs.set i.toNat v

def Item.toSEXP : Item → SEXP
  | .elt x => x
  | _ => .null

def VECTOR_ELT (x : SEXP) (i : Int) : SEXP := (getI x.items i).toSEXP

/-- Element `i` of a C `int` array given as a list; a read outside the array,
which is undefined in C, yields 0 here. -/
def getInt (xs : List Int) (i : Int) : Int :=
  if i < 0 then 0 else xs.getD i.toNat 0

/-- Payload of an integer element as a C `int`. -/
def Item.toInt : Item → Int
  | .int v => v
  | .na => NA_INTEGER
  | _ => 0

def intItem (v : Int) : Item := if v = NA_INTEGER then .na else .int v

/-- The strings of a character vector. -/
def strings (x : SEXP) : List String :=
  x.items.filterMap (fun it => match it with | .str s => some s | _ => none)

/-- `isDataFrame` of R: the class attribute includes "data.frame". -/
def isDataFrame (x : SEXP) : Bool := (strings (getAttrib x "class")).contains "data.frame"

/-- `isArray` of R: a vector with an integer `dim` attribute of length at least 1. -/
def isArray (x : SEXP) : Bool :=
  isVector x && TYPEOF (getAttrib x "dim") == .INTSXP && decide (1 ≤ LENGTH (getAttrib x "dim"))

/-! ## Errors and allocation -/

/-- The fatal errors `dogroups` and its helpers raise. -/
inductive Err where
  | internal (msg : String)
  | envNotEnvironment
  | bynamesLength
  | iSDLength
  | xSDLength
  | jNotVectorOrList
  | entryNotVector (j : Nat) (grp : Nat)
  | arrayDims (j : Nat) (grp : Nat) (nDimensions : Nat)
  | rhsNull
  | recycleAssign (vlen : Nat) (grp : Nat) (grpn : Int) (col : Nat)
  | ncolMismatch
  | firstGroupNull (j : Nat)
  | typeMismatch (j : Nat) (grp : Nat)
  | recycleAgg (thislen : Nat) (j : Nat) (grp : Nat) (maxn : Nat)
  | ansLength
  | growVectorNull
  | allocInvalidType
  deriving DecidableEq, Repr

/-- What `allocVector` leaves in each element: `R_NilValue` in a list, the empty
string in a character vector, unwritten memory in the other types. -/
def freshItem : SEXPTYPE → Item
  | .VECSXP | .EXPRSXP => .elt .null
  | .STRSXP => .str ""
  | _ => .uninit

/-- `allocVector` of R for the types the code allocates: `NULL` for `NILSXP`, a
fresh vector for a vector type, an error for any other type. -/
def allocVector (ty : SEXPTYPE) (n : Nat) : Except Err SEXP :=
  if ty = .NILSXP then .ok .null
  else if ty.isVector then .ok (.vec ty (List.replicate n (freshItem ty)) [] 0 false)
  else .error .allocInvalidType

/-- The missing value `writeNA` stores for a type (`R_NilValue` in a list). -/
def naItem : SEXPTYPE → Item
  | .VECSXP | .EXPRSXP => .elt .null
  | _ => .na

/-- Replace the elements of a vector object, keeping everything else. -/
def SEXP.withItems : SEXP → List Item → SEXP
  | .vec ty _ a tl alt, its => .vec ty its a tl alt
  | .buf b v, its => .buf b (v.withItems its)
  | .null, _ => .null

/-- Replace the attributes of an object. -/
def SEXP.withAttrib : SEXP → List (String × SEXP) → SEXP
  | .vec ty its _ tl alt, a => .vec ty its a tl alt
  | .buf b v, a => .buf b (v.withAttrib a)
  | .null, _ => .null

/-- `copyMostAttrib(from, to)` of R: every attribute of `from` except names,
dim and dimnames is installed on `to`. -/
def copyMostAttrib (src dst : SEXP) : SEXP :=
  let keep := (ATTRIB src).filter
    (fun p => !(p.1 == "names" || p.1 == "dim" || p.1 == "dimnames"))
  dst.withAttrib ((ATTRIB dst).filter (fun p => !(keep.map Prod.fst).contains p.1) ++ keep)

def SEXP.withTL : SEXP → Int → SEXP
  | .vec ty its a _ alt, tl => .vec ty its a tl alt
  | .buf b v, tl => .buf b (v.withTL tl)
  | .null, _ => .null

/-! ## Helpers of the repository that live outside `dogroups.c` -/

/-- Modelled from the spec: the copy loop of `memrecycle` (assign.c, not part of
the sources at hand).  "A length-1 result broadcasts to all rows of the group; a
result of length equal to the group size copies element-wise."  Row `k` of the
`len` rows goes to `target[start + k]`, or to `target[where[start + k] - 1]`
when a `where` vector is given (entries below 1 are skipped); the value is
`source[sourceStart]` when one item is recycled and `source[sourceStart + k]`
otherwise.  Conversion between element types is not modelled: the payload
travels unchanged. -/
def memrecycleItems (tgt : List Item) (wher : List Int) (start : Int) (len : Nat)
    (src : List Item) (sourceStart : Int) (slen : Nat) : List Item :=
  (List.range len).foldl
    (fun (t : List Item) (k : Nat) =>
      let v := getI src (if slen = 1 then sourceStart else sourceStart + k)
      if wher.isEmpty then setI t (start + k) v
      else if getInt wher (start + k) < 1 then t
      else setI t (getInt wher (start + k) - 1) v)
    tgt

/-- Modelled from the spec: `memrecycle` (assign.c, not part of the sources at
hand), as `dogroups` calls it.  Nothing is done for `len < 1` or an empty
source; `sourceLen = -1` means all of `source`; a source of more than one item
whose length differs from `len` is the recycling error ("any other length is
rejected with a fatal error"). -/
def memrecycle (target : SEXP) (wher : List Int) (start len : Int) (source : SEXP)
    (sourceStart sourceLen : Int) : Except Err SEXP :=
  if len < 1 then .ok target
  else
    let slen : Nat := if 0 ≤ sourceLen then sourceLen.toNat else length source
    if slen = 0 then .ok target
    else if 1 < slen ∧ (slen : Int) ≠ len then
      .error (.internal "recycle length error not caught earlier")
    else
      .ok (target.withItems
        (memrecycleItems target.items wher start len.toNat source.items sourceStart slen))

/-- Modelled from the spec: `writeNA(v, from, n, false)` (utils.c, not part of
the sources at hand) fills `v[from .. from+n-1]` with the missing value of the
type of `v`. -/
def writeNA (v : SEXP) (start : Int) (n : Nat) : SEXP :=
  v.withItems ((List.range n).foldl
    (fun (t : List Item) (k : Nat) => setI t (start + k) (naItem (TYPEOF v))) v.items)

/-- Modelled from the spec: `subsetVectorRaw(ans, source, idx, anyNA)` (subset.c,
not part of the sources at hand): "rows are gathered in permutation order", so
`ans[k] = source[idx[k] - 1]`, and the missing value where `idx[k]` is NA. -/
def subsetVectorRaw (ans source idx : SEXP) (anyNA : Bool) : SEXP :=
  ans.withItems ((List.range (LENGTH idx)).foldl
    (fun (t : List Item) (k : Nat) =>
      let e := (getI idx.items k).toInt
      setI t k (if anyNA && e == NA_INTEGER then naItem (TYPEOF source)
                else getI source.items (e - 1)))
    ans.items)

/-- Modelled from the spec: `allocNAVectorLike(x, n)` (utils.c, not part of the
sources at hand): "new target columns are allocated NA-filled at full table
length", with the type and the attributes of `x`. -/
def allocNAVectorLike (x : SEXP) (n : Nat) : Except Err SEXP :=
  (allocVector (TYPEOF x) n).map (fun v => writeNA (copyMostAttrib x v) 0 n)

mutual
/-- Modelled from the spec: `copyAsPlain` (utils.c, not part of the sources at
hand) makes "a deep, fully independent copy": pointers to scratch buffers are
replaced by copies of what the buffers hold, and the copy carries no marker. -/
def copyAsPlain : SEXP → SEXP
  | .null => .null
  | .vec ty items attrib _ _ => .vec ty (copyAsPlainItems items) (copyAsPlainAttribs attrib) 0 false
  | .buf _ v => copyAsPlain v
def copyAsPlainItem : Item → Item
  | .elt x => .elt (copyAsPlain x)
  | .na => .na
  | .int v => .int v
  | .str s => .str s
  | .uninit => .uninit
def copyAsPlainItems : List Item → List Item
  | [] => []
  | it :: r => copyAsPlainItem it :: copyAsPlainItems r
def copyAsPlainAttribs : List (String × SEXP) → List (String × SEXP)
  | [] => []
  | (t, v) :: r => (t, copyAsPlain v) :: copyAsPlainAttribs r
end

/-! ## `anySpecialStatic` (dogroups.c lines 6-64) -/

/-- The body of `anySpecialStatic` for an object of type `ty` with `n = length(x)`,
given the outcome `scan` of the loop over its elements. -/
def anySpecialVec (ty : SEXPTYPE) (n : Nat) (tl : Int) (alt : Bool) (scan : Bool) : Bool :=
  if n = 0 then false
  else if ty.isVectorAtomic then alt || decide (tl < 0)
  else if ty = .NILSXP ∨ ty = .VECSXP then decide (tl < 0) || scan
  else false

/-- Value of `length(x)` for an object with type tag `ty` and elements `items`. -/
def lengthOf (ty : SEXPTYPE) (items : List Item) : Nat :=
  if ty = .NILSXP then 0 else if ty.isVector then items.length else 1

mutual
/-- The function `anySpecialStatic`. -/
def anySpecialStatic : SEXP → Bool
  | .null => false
  | .buf _ v => anySpecialStatic v
  | .vec ty items _ tl alt => anySpecialVec ty (lengthOf ty items) tl alt (anySpecialLoop items)
/-- The `for` loop over the elements of a list. -/
def anySpecialLoop : List Item → Bool
  | [] => false
  | it :: r => anySpecialIter it || anySpecialLoop r
/-- One iteration: `anySpecialStatic(list_el)`, then the attributes of `list_el`. -/
def anySpecialIter : Item → Bool
  | .elt x => anySpecialElt x
  | _ => false
def anySpecialElt : SEXP → Bool
  | .null => false
  | .buf _ v => anySpecialElt v
  | .vec ty items attrib tl alt =>
      anySpecialVec ty (lengthOf ty items) tl alt (anySpecialLoop items) || anySpecialAttribs attrib
/-- The inner `for` loop over the attribute pairlist of an element. -/
def anySpecialAttribs : List (String × SEXP) → Bool
  | [] => false
  | (_, v) :: r => anySpecialStatic v || anySpecialAttribs r
end

/-! ## `keepattr` and `growVector` (dogroups.c lines 512-567) -/

def keepattr (dst src : SEXP) : SEXP := dst.withAttrib (ATTRIB src)

def growVector (x : SEXP) (newlen : Nat) : Except Err SEXP :=
  if isNull x then .error .growVectorNull
  else
    match allocVector (TYPEOF x) newlen with
    | .error e => .error e
    | .ok newx =>
      let len := if newlen < length x then newlen else length x
      if len = 0 then .ok (keepattr newx x)
      else
        match TYPEOF x with
        | .RAWSXP | .LGLSXP | .INTSXP | .REALSXP | .CPLXSXP | .STRSXP | .VECSXP =>
            .ok (keepattr (newx.withItems (x.items.take len ++ newx.items.drop len)) x)
        | _ => .error (.internal "type not supported")

/-! ## The working set -/

/-- A scratch buffer: the vector as allocated for the largest group, and the
logical length `SETLENGTH` gave it for the current group. -/
structure Buffer where
  store : SEXP
  len : Nat

/-- What R code sees of a buffer: its first `len` elements. -/
def Buffer.view (b : Buffer) : SEXP := b.store.withItems (b.store.items.take b.len)

def Buffer.SETLENGTH (b : Buffer) (n : Int) : Buffer := { b with len := n.toNat }

def Buffer.SET_TRUELENGTH (b : Buffer) (tl : Int) : Buffer := { b with store := b.store.withTL tl }

/-- Store integer `v` into element `k` of an integer buffer. -/
def Buffer.setInt (b : Buffer) (k : Int) (v : Int) : Buffer :=
  { b with store := b.store.withItems (setI b.store.items k (intItem v)) }

/-- The special symbols the expression sees (`.SD`, `.BY`, `.I`, `.N`, `.GRP`),
the second element of the row names of `.SD`, and the one-row views `.iSD`
and `.xSD`. -/
structure WorkingSet where
  SDall : List Buffer
  BY : List Buffer
  I : Buffer
  N : Buffer
  GRP : Buffer
  rownames : Int
  iSD : List SEXP
  xSD : List SEXP

def WorkingSet.view (ws : WorkingSet) : BufId → SEXP
  | .SD j => match ws.SDall.get? j with
    | some b => b.view
    | none => .null
  | .BY j => match ws.BY.get? j with
    | some b => b.view
    | none => .null
  | .I => ws.I.view
  | .N => ws.N.view
  | .GRP => ws.GRP.view

mutual
/-- Reading a value the expression returned: every pointer to a scratch buffer
shows what the buffer holds now. -/
def instantiate (ws : WorkingSet) : SEXP → SEXP
  | .null => .null
  | .vec ty items attrib tl alt =>
      .vec ty (instantiateItems ws items) (instantiateAttribs ws attrib) tl alt
  | .buf b _ => .buf b (ws.view b)
def instantiateItem (ws : WorkingSet) : Item → Item
  | .elt x => .elt (instantiate ws x)
  | .na => .na
  | .int v => .int v
  | .str s => .str s
  | .uninit => .uninit
def instantiateItems (ws : WorkingSet) : List Item → List Item
  | [] => []
  | it :: r => instantiateItem ws it :: instantiateItems ws r
def instantiateAttribs (ws : WorkingSet) : List (String × SEXP) → List (String × SEXP)
  | [] => []
  | (t, v) :: r => (t, instantiate ws v) :: instantiateAttribs ws r
end

/-! ## Arguments and state of `dogroups` -/

/-- A table handed over by reference: the column slots (over-allocated, unused
slots hold `R_NilValue`), `LENGTH(dt)`, and the names vector with its length. -/
structure Table where
  cols : List SEXP
  ncol : Nat
  names : List String
  nnames : Nat

/-- Element `i` of a list of columns (`R_NilValue` outside it). -/
def getS (xs : List SEXP) (i : Int) : SEXP :=
  if i < 0 then .null else xs.getD i.toNat .null

/-- The arguments of `dogroups`.  `jexp` stands for `eval(jexp, env)`: the value
of the expression as a function of the working set it is evaluated in.
`SDall`, `iSD`, `xSD` are the objects bound in `env` on entry. -/
structure Args where
  dt : Table
  dtcols : List Int
  groups : List SEXP
  grpcols : List Int
  jiscols : Option (List Int)
  xjiscols : Option (List Int)
  grporder : List Int
  order : List Int
  starts : List Int
  lens : List Int
  jexp : WorkingSet → SEXP
  jexpIsSymbolOtherThanSD : Bool
  lhs : Option (List Int)
  newnames : List String
  on_ : Bool
  SDall : List SEXP
  iSD : List SEXP
  xSD : List SEXP

/-- A warning raised with `warning()`. -/
inductive Warning where
  | zeroLength (j : Nat) (grp : Nat) (maxn : Nat)
  deriving DecidableEq, Repr

/-- The variables of `dogroups` that live across iterations of the group loop. -/
structure State where
  ws : WorkingSet
  dt : Table
  ans : Option (List SEXP)
  ansNames : List Item
  njval : Nat
  ansloc : Nat
  estn : Int
  NullWarnDone : Bool
  warnings : List Warning

/-- A fatal error, with the table as it stands when the error is raised (the
table is modified in place, so this is what the caller is left with). -/
structure Failure where
  err : Err
  dt : Table

def Args.ngrp (a : Args) : Nat := a.starts.length
def Args.ngrpcols (a : Args) : Nat := a.grpcols.length
def Args.nrowgroups (a : Args) : Nat := length (getS a.groups 0)
def Args.maxGrpSize (a : Args) : Int := a.lens.foldl (fun m l => if l > m then l else m) 0
/-- The flag `anyNA` that `check_idx` computes for `order`. -/
def Args.anyNA (a : Args) : Bool := a.order.any (· == NA_INTEGER)

/-- Apply `f j x` to every element `x` at position `j` (a `for` loop over columns
that stops at the first error). -/
def forCols {α β : Type} (f : Nat → α → Except Err β) : Nat → List α → Except Err (List β)
  | _, [] => .ok []
  | j, x :: xs =>
    match f j x with
    | .error e => .error e
    | .ok y =>
      match forCols f (j + 1) xs with
      | .error e => .error e
      | .ok ys => .ok (y :: ys)

def Buffer.update (b : Buffer) (f : SEXP → Except Err SEXP) : Except Err Buffer :=
  (f b.store).map (fun st => { b with store := st })

/-! ## Filling the working set for one group (dogroups.c lines 192-260) -/

/-- The test of lines 189-190 and 218: the start of group `i` is NA, or a
permutation is active and its entry at the start of the group is NA. -/
def noMatch (a : Args) (i : Nat) : Bool :=
  getInt a.starts i == NA_INTEGER ||
    (a.order.length != 0 && getInt a.order (getInt a.starts i - 1) == NA_INTEGER)

/-- Line 214: the row of the key table that holds the key of group `i`. -/
def igrpOf (a : Args) (i : Nat) : Int :=
  if a.jiscols.isSome then (i : Int)
  else if a.grporder.length ≠ 0 then getInt a.grporder (getInt a.starts i - 1) - 1
  else getInt a.starts i - 1

/-- Lines 207-210: `.iSD` receives row `i` of the columns of `groups` it mirrors. -/
def fillISD (a : Args) (i : Nat) (iSD : List SEXP) : Except Err (List SEXP) :=
  if iSD.length ≠ 0 ∧ length (getS iSD 0) ≠ 0 then
    forCols (fun (j : Nat) (col : SEXP) =>
      memrecycle col [] 0 1 (getS a.groups (getInt (a.jiscols.getD []) j - 1)) i 1) 0 iSD
  else .ok iSD

/-- Lines 215-217: `.BY` receives the key of the group. -/
def fillBY (a : Args) (i : Nat) (BY : List Buffer) : Except Err (List Buffer) :=
  if 0 ≤ igrpOf a i ∧ a.nrowgroups ≠ 0 then
    forCols (fun (j : Nat) (b : Buffer) => b.update (fun st =>
      memrecycle st [] 0 1 (getS a.groups (getInt a.grpcols j - 1)) (igrpOf a i) 1)) 0 BY
  else .ok BY

/-- Lines 192-217: `.N`, `.GRP`, the row names and lengths of `.SD`, `.iSD`, `.BY`. -/
def populateHead (a : Args) (i : Nat) (ws : WorkingSet) : Except Err WorkingSet := do
  let iSD ← fillISD a i ws.iSD
  let BY ← fillBY a i ws.BY
  .ok { ws with
        N := ws.N.setInt 0 (if getInt a.starts i = NA_INTEGER then 0 else getInt a.lens i)
        GRP := ws.GRP.setInt 0 ((i : Int) + 1)
        rownames := -(getInt a.lens i)
        SDall := ws.SDall.map (fun b => b.SETLENGTH (getInt a.lens i))
        iSD := iSD
        BY := BY }

/-- Lines 218-235: a no-match group. -/
def populateNoMatch (ws : WorkingSet) : WorkingSet :=
  { ws with
    SDall := ws.SDall.map (fun b => { b with store := writeNA b.store 0 1 })
    I := (ws.I.SETLENGTH 1).setInt 0 0
    xSD := ws.xSD.map (fun c => writeNA c 0 1) }

/-- Line 241: the first row of a group whose rows are contiguous. -/
def rownumOf (a : Args) (i : Nat) : Int :=
  if getInt a.lens i ≠ 0 then getInt a.starts i - 1 else -1

/-- Lines 238-242: `.I` for a group whose rows are contiguous. -/
def fillIContiguous (a : Args) (i : Nat) (I : Buffer) : Buffer :=
  (List.range (getInt a.lens i).toNat).foldl
    (fun (b : Buffer) (j : Nat) => b.setInt j (rownumOf a i + j + 1))
    (I.SETLENGTH (getInt a.lens i))

/-- Lines 240-249: the rows of the group are contiguous in the table. -/
def populateContiguous (a : Args) (dt : Table) (i : Nat) (ws : WorkingSet) :
    Except Err WorkingSet :=
  if 0 ≤ rownumOf a i then do
    let SDall ← forCols (fun (j : Nat) (b : Buffer) => b.update (fun st =>
        memrecycle st [] 0 (getInt a.lens i) (getS dt.cols (getInt a.dtcols j - 1))
          (rownumOf a i) (getInt a.lens i))) 0 ws.SDall
    let xSD ← forCols (fun (j : Nat) (col : SEXP) =>
        memrecycle col [] 0 1 (getS dt.cols (getInt (a.xjiscols.getD []) j - 1))
          (rownumOf a i) 1) 0 ws.xSD
    .ok { ws with I := fillIContiguous a i ws.I, SDall := SDall, xSD := xSD }
  else .ok { ws with I := fillIContiguous a i ws.I }

/-- Lines 238 and 251-252: `.I` for a group gathered through `order`. -/
def fillIGather (a : Args) (i : Nat) (I : Buffer) : Buffer :=
  (List.range (getInt a.lens i).toNat).foldl
    (fun (b : Buffer) (k : Nat) => b.setInt k (getInt a.order (getInt a.starts i - 1 + k)))
    (I.SETLENGTH (getInt a.lens i))

/-- Lines 250-259: the rows of the group are gathered through `order`. -/
def populateGather (a : Args) (dt : Table) (i : Nat) (ws : WorkingSet) : WorkingSet :=
  { ws with
    I := fillIGather a i ws.I
    SDall := ws.SDall.mapIdx (fun (j : Nat) (b : Buffer) =>
      { b with store := subsetVectorRaw b.store (getS dt.cols (getInt a.dtcols j - 1))
                          (fillIGather a i ws.I).view a.anyNA }) }

/-- Lines 192-260 for group `i`: the working set the expression is evaluated in. -/
def populate (a : Args) (dt : Table) (i : Nat) (ws : WorkingSet) : Except Err WorkingSet := do
  let ws2 ← populateHead a i ws
  if noMatch a i then .ok (populateNoMatch ws2)
  else if a.order.length = 0 then populateContiguous a dt i ws2
  else .ok (populateGather a dt i ws2)

/-- The value of `grpn` after line 260: 1 for a no-match group (line 230),
the length the plan records otherwise. -/
def grpnOf (a : Args) (i : Nat) : Int :=
  if noMatch a i then 1 else getInt a.lens i

/-! ## Shape of the result (lines 266-297) -/

/-- The list in which a bare vector result is wrapped (`listwrap`). -/
def listwrap (jval : SEXP) : SEXP := .vec .VECSXP [.elt jval] [] 0 false

/-- Number of dimensions whose extent exceeds 1 (line 291). -/
def nDimensions (dims : SEXP) : Nat := (dims.items.filter (fun d => decide (d.toInt > 1))).length

/-- The loop of lines 283-296 over the entries of a list result. -/
def checkEntries (i : Nat) : Nat → List Item → Except Err Unit
  | _, [] => .ok ()
  | j, it :: r =>
    if isNull it.toSEXP then checkEntries i (j + 1) r
    else if !isVector it.toSEXP || isDataFrame it.toSEXP then
      .error (.entryNotVector (j + 1) (i + 1))
    else if isArray it.toSEXP && decide (1 < nDimensions (getAttrib it.toSEXP "dim")) then
      .error (.arrayDims (j + 1) (i + 1) (nDimensions (getAttrib it.toSEXP "dim")))
    else checkEntries i (j + 1) r

/-- Lines 266-297: `none` when the group contributes nothing (`continue`),
otherwise the result as a list of columns. -/
def shape (a : Args) (i : Nat) (jval : SEXP) : Except Err (Option SEXP) :=
  if isNull jval then .ok none
  else if isVectorAtomic jval || a.jexpIsSymbolOtherThanSD then .ok (some (listwrap jval))
  else if !isNewList jval then .error .jNotVectorOrList
  else if LENGTH jval = 0 then .ok none
  else do
    checkEntries i 0 jval.items
    .ok (some jval)

/-! ## Assignment by reference (lines 298-344) -/

/-- Store `v` in slot `i` of a list of columns. -/
def setS (xs : List SEXP) (i : Int) (v : SEXP) : List SEXP :=
  if i < 0 then xs else xs.set i.toNat v

/-- The value assigned to target `j`: `VECTOR_ELT(jval, j % LENGTH(jval))`. -/
def RHSof (jval : SEXP) (j : Nat) : SEXP := VECTOR_ELT jval ((j % LENGTH jval : Nat) : Int)

/-- Lines 301-311: every target is checked before any column is added. -/
def checkRHS (jval : SEXP) (i : Nat) (grpn : Int) : Nat → List Int → Except Err Unit
  | _, [] => .ok ()
  | j, l :: r =>
    if isNull (RHSof jval j) then .error .rhsNull
    else if 1 < length (RHSof jval j) ∧ (length (RHSof jval j) : Int) ≠ grpn then
      .error (.recycleAssign (length (RHSof jval j)) (i + 1) grpn l.toNat)
    else checkRHS jval i grpn (j + 1) r

/-- The name given to a new column in slot `colj` (line 328). -/
def newName (a : Args) (origncol : Nat) (colj : Int) : String :=
  if colj - origncol < 0 then "" else a.newnames.getD (colj - origncol).toNat ""

/-- Lines 317-330: the first time a new column is assigned to, it is allocated
filled with NA over the whole table and added to the table. -/
def addColumn (a : Args) (dt : Table) (origncol : Nat) (n : Nat) (colj : Int) (RHS : SEXP) :
    Except Err Table :=
  if isNull (getS dt.cols colj) then
    if (dt.cols.length : Int) < colj + 1 then
      .error (.internal "Trying to add new column by reference but tl is full")
    else do
      let target ← allocNAVectorLike RHS n
      .ok { cols := setS dt.cols colj (copyMostAttrib RHS target)
            ncol := dt.ncol + 1
            names := if colj < 0 then dt.names else dt.names.set colj.toNat (newName a origncol colj)
            nnames := dt.nnames + 1 }
  else .ok dt

/-- The source handed to `memrecycle` for a list column: the Aliasing Guard of
lines 331-335 and 437-441. -/
def guarded (target source : SEXP) : SEXP :=
  if isNewList target && anySpecialStatic source then copyAsPlain source else source

/-- An error of type `Err` raised while the table stands as `dt`. -/
def withDt {α : Type} (dt : Table) (e : Except Err α) : Except Failure α :=
  match e with
  | .error err => .error ⟨err, dt⟩
  | .ok x => .ok x

/-- Lines 314-340 for target `j`, which is column `l` of the table. -/
def assignOne (a : Args) (i : Nat) (jval : SEXP) (grpn : Int) (origncol n : Nat) (j : Nat)
    (l : Int) (dt : Table) : Except Failure Table := do
  let dt1 ← withDt dt (addColumn a dt origncol n (l - 1) (RHSof jval j))
  let t ← withDt dt1 (memrecycle (getS dt1.cols (l - 1)) a.order (getInt a.starts i - 1) grpn
            (guarded (getS dt1.cols (l - 1)) (RHSof jval j)) 0 (-1))
  .ok { dt1 with cols := setS dt1.cols (l - 1) t }

/-- Lines 313-341: the loop that writes the group's values into the targets. -/
def assignCols (a : Args) (i : Nat) (jval : SEXP) (grpn : Int) (origncol n : Nat) :
    Nat → List Int → Table → Except Failure Table
  | _, [], dt => .ok dt
  | j, l :: r, dt => do
    let dt1 ← assignOne a i jval grpn origncol n j l dt
    assignCols a i jval grpn origncol n (j + 1) r dt1

/-- Lines 298-344 for one group. -/
def assignStep (a : Args) (i : Nat) (lhs : List Int) (jval : SEXP) (grpn : Int) (dt : Table) :
    Except Failure Table := do
  withDt dt (checkRHS jval i grpn 0 lhs)
  assignCols a i jval grpn dt.ncol (LENGTH (getS dt.cols 0)) 0 lhs dt

/-! ## Aggregation (lines 345-445 and 462) -/

/-- Lines 348-351: the length of the longest column of the result. -/
def maxnOf (jval : SEXP) (njval : Nat) : Nat :=
  (List.range njval).foldl (fun (m : Nat) (j : Nat) => if length (VECTOR_ELT jval j) > m
    then length (VECTOR_ELT jval j) else m) 0

/-- Lines 355-368: the size guessed from the first group. -/
def guessEstn (a : Args) (grpn : Int) (maxn : Nat) : Int :=
  if grpn = 0 then 0
  else if maxn = 1 then (a.starts.length : Int)
  else if (maxn : Int) ≥ grpn then a.lens.foldl (fun e l => e + l) 0
  else (maxn : Int) * (a.starts.length : Int)

/-- The value of `maxn` after line 356: the empty case resets it to 0. -/
def firstMaxn (grpn : Int) (maxn : Nat) : Nat := if grpn = 0 then 0 else maxn

/-- The value of `estn` after line 369. -/
def firstEstn (a : Args) (grpn : Int) (maxn : Nat) : Int :=
  if guessEstn a grpn maxn < (firstMaxn grpn maxn : Int) then (firstMaxn grpn maxn : Int)
  else guessEstn a grpn maxn

/-- Lines 373-377: a result column for a key column. -/
def allocKey (a : Args) (estn : Nat) (g : Int) : Except Err SEXP :=
  (allocVector (TYPEOF (getS a.groups (g - 1))) estn).map (copyMostAttrib (getS a.groups (g - 1)))

/-- Lines 378-391: a result column for column `j` of the first result. -/
def allocRes (jval : SEXP) (estn : Nat) (j : Nat) : Except Err SEXP :=
  if isNull (VECTOR_ELT jval j) then .error (.firstGroupNull (j + 1))
  else (allocVector (TYPEOF (VECTOR_ELT jval j)) estn).map (copyMostAttrib (VECTOR_ELT jval j))

/-- Lines 370-391: the result columns are allocated with the types of the key
columns and of the columns of the first result. -/
def allocAns (a : Args) (jval : SEXP) (njval : Nat) (estn : Nat) : Except Err (List SEXP) := do
  let keys ← forCols (fun (_ : Nat) (g : Int) => allocKey a estn g) 0 a.grpcols
  let res ← forCols (fun (j : Nat) (_ : Nat) => allocRes jval estn j) 0 (List.range njval)
  .ok (keys ++ res)

/-- Lines 392-402: the names of the result, taken from the first group. -/
def namesOfAns (a : Args) (jval : SEXP) (njval : Nat) : List Item :=
  if isNull (getAttrib jval "names") then []
  else List.replicate a.ngrpcols (freshItem .STRSXP) ++
    (List.range njval).map (fun (j : Nat) => getI (getAttrib jval "names").items j)

/-! ### The double arithmetic of line 405 -/

/-- The conversion `(int)` of a double: the truncation towards zero. -/
def truncToInt (q : ℚ) : Int := Int.tdiv q.num q.den

/-- The integer nearest to `s`, the even one of the two when `s` is half way
between them. -/
def roundMantissa (s : ℚ) : Int :=
  if s - (⌊s⌋ : ℚ) < 1 / 2 then ⌊s⌋
  else if 1 / 2 < s - (⌊s⌋ : ℚ) then ⌊s⌋ + 1
  else if ⌊s⌋ % 2 = 0 then ⌊s⌋
  else ⌊s⌋ + 1

/-- The number of halvings that bring `n` below 2, in at most `fuel` steps. -/
def log2Fuel : Nat → Nat → Nat
  | 0, _ => 0
  | fuel + 1, n => if 2 ≤ n then log2Fuel fuel (n / 2) + 1 else 0

/-- The position of the leading bit of `n`: `2^(ilog2 n) ≤ n < 2^(ilog2 n + 1)`
for `n ≥ 1`. -/
def ilog2 (n : Nat) : Nat := log2Fuel n n

/-- The exponent `e` of the last bit of the double nearest to `x ≠ 0`:
`2^52 ≤ |x| / 2^e < 2^53`.  With `k` the difference of the positions of the
leading bits of the numerator and of the denominator, `|x|` lies between
`2^(k-1)` and `2^(k+1)`. -/
def binadeOf (x : ℚ) : Int :=
  if (2 : ℚ) ^ ((ilog2 x.num.natAbs : Int) - (ilog2 x.den : Int)) ≤ |x| then
    (ilog2 x.num.natAbs : Int) - (ilog2 x.den : Int) - 52
  else (ilog2 x.num.natAbs : Int) - (ilog2 x.den : Int) - 53

/-- The `double` that a real number is rounded to (IEEE 754 binary64, round to
nearest, ties to even): a 53-bit integer times a power of 2.  Overflow and
subnormal numbers, far from the values of line 405, are not modelled. -/
def roundDouble (x : ℚ) : ℚ :=
  if x = 0 then 0
  else (roundMantissa (x / (2 : ℚ) ^ binadeOf x) : ℚ) * (2 : ℚ) ^ binadeOf x

/-- Line 405, the right-hand side `((double)ngrp/i)*1.1*(ansloc+maxn)`: the
quotient of two doubles, its product with the double `1.1`, and the product of
that with `ansloc+maxn`, each rounded to a double.  The integers are converted
to doubles exactly.  (The division by `i = 0`, which gives no number in C, does
not occur: the accumulator is regrown only for `i ≥ 1`.) -/
def regrowDouble (a : Args) (i : Nat) (need : Nat) : ℚ :=
  roundDouble
    (roundDouble (roundDouble ((a.ngrp : ℚ) / (i : ℚ)) * roundDouble (11 / 10)) * (need : ℚ))

/-- Line 405: `estn = ((double)ngrp/i)*1.1*(ansloc+maxn)`, the double converted
to `int`. -/
def regrowEstn (a : Args) (i : Nat) (need : Nat) : Int := truncToInt (regrowDouble a i need)

/-- Lines 407-409: every column is regrown to the new size. -/
def growAns (a : Args) (njval : Nat) (ans : List SEXP) (estn : Nat) : Except Err (List SEXP) :=
  if ans.length ≠ a.ngrpcols + njval then .error .ansLength
  else forCols (fun (_ : Nat) (col : SEXP) => growVector col estn) 0 ans

/-- Lines 413-415: the key of the group, recycled over the rows of its result. -/
def writeKeys (a : Args) (igrp : Int) (ansloc maxn : Nat) (ans : List SEXP) :
    Except Err (List SEXP) :=
  forCols (fun (j : Nat) (g : Int) =>
    memrecycle (getS ans j) [] ansloc maxn (getS a.groups (g - 1)) igrp 1) 0 a.grpcols

/-- Lines 418-444 for result column `j`. -/
def writeResCol (i : Nat) (grpn : Int) (ansloc maxn : Nat) (target source : SEXP) (j : Nat) :
    Except Err SEXP :=
  if length source = 0 then .ok (writeNA target ansloc maxn)
  else if TYPEOF source ≠ TYPEOF target then .error (.typeMismatch (j + 1) (i + 1))
  else if 1 < length source ∧ length source ≠ maxn ∧ 0 < grpn then
    .error (.recycleAgg (length source) (j + 1) (i + 1) maxn)
  else memrecycle target [] ansloc maxn (guarded target source) 0 (-1)

/-- Lines 417-445: the loop over the columns of the result. -/
def writeRes (a : Args) (i : Nat) (grpn : Int) (ansloc maxn : Nat) (jval : SEXP) (njval : Nat)
    (ans : List SEXP) : Except Err (List SEXP) :=
  forCols (fun (j : Nat) (_ : Nat) =>
    writeResCol i grpn ansloc maxn (getS ans ((j + a.ngrpcols : Nat) : Int)) (VECTOR_ELT jval j) j)
    0 (List.range njval)

/-- Lines 425-428: the zero-length warning this group raises, if any: the first
column of length 0, when the warning was not given before and `maxn > 1`. -/
def zeroLengthWarning (i : Nat) (maxn : Nat) (jval : SEXP) (njval : Nat) (done : Bool) :
    Option Warning :=
  if !done && decide (1 < maxn) then
    ((List.range njval).find? (fun (j : Nat) => length (VECTOR_ELT jval j) == 0)).map
      (fun j => Warning.zeroLength (j + 1) (i + 1) maxn)
  else none

/-- What lines 352-411 settle: the columns with room for the group, their
names, `estn`, and `maxn`. -/
structure Room where
  ans : List SEXP
  names : List Item
  estn : Int
  maxn : Nat

/-- Lines 352-411: make room for the rows of this group. -/
def ensureRoom (a : Args) (i : Nat) (s : State) (grpn : Int) (jval : SEXP) (njval maxn : Nat) :
    Except Err Room :=
  if ((s.ansloc + maxn : Nat) : Int) > s.estn then
    if s.estn = -1 then do
      let ans ← allocAns a jval njval (firstEstn a grpn maxn).toNat
      .ok { ans := ans, names := namesOfAns a jval njval, estn := firstEstn a grpn maxn,
            maxn := firstMaxn grpn maxn }
    else do
      let ans ← growAns a njval (s.ans.getD []) (regrowEstn a i (s.ansloc + maxn)).toNat
      .ok { ans := ans, names := s.ansNames, estn := regrowEstn a i (s.ansloc + maxn),
            maxn := maxn }
  else .ok { ans := s.ans.getD [], names := s.ansNames, estn := s.estn, maxn := maxn }

/-- Line 346: the number of columns every result must have. -/
def njvalOf (s : State) (jval : SEXP) : Nat := if s.njval = 0 then LENGTH jval else s.njval

/-- Lines 345-468 for one group in aggregation mode. -/
def aggStep (a : Args) (i : Nat) (s : State) (ws : WorkingSet) (jval : SEXP) : Except Err State :=
  if njvalOf s jval ≠ LENGTH jval then .error .ncolMismatch
  else do
    let r ← ensureRoom a i s (grpnOf a i) jval (njvalOf s jval) (maxnOf jval (njvalOf s jval))
    let keys ← writeKeys a (igrpOf a i) s.ansloc r.maxn r.ans
    let res ← writeRes a i (grpnOf a i) s.ansloc r.maxn jval (njvalOf s jval) r.ans
    .ok { ws := ws
          dt := s.dt
          ans := some (keys ++ res)
          ansNames := r.names
          njval := njvalOf s jval
          ansloc := s.ansloc + r.maxn
          estn := r.estn
          NullWarnDone := s.NullWarnDone ||
            (zeroLengthWarning i r.maxn jval (njvalOf s jval) s.NullWarnDone).isSome
          warnings := s.warnings ++
            (zeroLengthWarning i r.maxn jval (njvalOf s jval) s.NullWarnDone).toList }

/-! ## The group loop and `dogroups` -/

/-- Line 182: an empty group is skipped unless it is the last group and no
result has been started. -/
def skipEmpty (a : Args) (i : Nat) (s : State) : Bool :=
  getInt a.starts i == 0 && (decide (i + 1 < a.ngrp) || decide (s.estn > -1))

/-- The value of the expression for group `i`, read in working set `ws`. -/
def evalJ (a : Args) (ws : WorkingSet) : SEXP := instantiate ws (a.jexp ws)

/-- Group `i` is evaluated: the loop reaches `eval(jexp, env)` for it (it is
skipped neither by line 182 nor by lines 188-191). -/
def evaluated (a : Args) (i : Nat) (s : State) : Bool :=
  !(skipEmpty a i s) && !(a.lhs.isSome && noMatch a i)

/-- Lines 266-468: what is done with the value `jval` of the expression. -/
def afterEval (a : Args) (i : Nat) (s : State) (ws : WorkingSet) (jv : SEXP) :
    Except Failure State := do
  let r ← withDt s.dt (shape a i jv)
  match r with
  | none => .ok { s with ws := ws }
  | some jval =>
    match a.lhs with
    | some lhs => do
      let dt ← assignStep a i lhs jval (grpnOf a i) s.dt
      .ok { s with ws := ws, dt := dt }
    | none => withDt s.dt (aggStep a i s ws jval)

/-- One iteration of the loop of lines 180-469. -/
def groupStep (a : Args) (i : Nat) (s : State) : Except Failure State :=
  if evaluated a i s then do
    let ws ← withDt s.dt (populate a s.dt i s.ws)
    afterEval a i s ws (evalJ a ws)
  else .ok s

/-- The state after the first `n` iterations of the group loop, from `s`. -/
def runUpTo (a : Args) (s : State) : Nat → Except Failure State
  | 0 => .ok s
  | n + 1 => do
    let s1 ← runUpTo a s n
    groupStep a n s1

/-- Lines 96-107: the buffer of `.BY` for key column `g`. -/
def initBY (a : Args) (g : Int) : Except Err Buffer :=
  (allocVector (TYPEOF (getS a.groups (g - 1))) (if a.nrowgroups ≠ 0 then 1 else 0)).map
    (fun v => { store := (copyMostAttrib (getS a.groups (g - 1)) v).withTL (-1),
                len := if a.nrowgroups ≠ 0 then 1 else 0 })

/-- Lines 144-154: column `j` of `.SDall` becomes a marked buffer. -/
def initSD (a : Args) (j : Nat) (this : SEXP) : Except Err Buffer :=
  if (LENGTH this : Int) ≠ a.maxGrpSize then .error (.internal "SDall length != maxGrpSize")
  else .ok { store := (copyMostAttrib (getS a.dt.cols (getInt a.dtcols j - 1)) this).withTL
                        (-a.maxGrpSize),
             len := LENGTH this }

/-- Lines 94-167: the working set before the first group.  `.BY` gets one
column per key column, `.I` is allocated for the largest group, and every
special is marked with a negative `TRUELENGTH`. -/
def initWS (a : Args) : Except Err WorkingSet := do
  let BY ← forCols (fun (_ : Nat) (g : Int) => initBY a g) 0 a.grpcols
  if a.jiscols.isNone ∧ a.grpcols.length ≠ a.groups.length then .error .bynamesLength
  else do
    let SDall ← forCols (fun (j : Nat) (this : SEXP) => initSD a j this) 0 a.SDall
    if a.iSD.length ≠ (a.jiscols.getD []).length then .error .iSDLength
    else if a.xSD.length ≠ (a.xjiscols.getD []).length then .error .xSDLength
    else
      .ok { SDall := SDall
            BY := BY
            I := { store := .vec .INTSXP (List.replicate a.maxGrpSize.toNat .uninit) []
                              (-a.maxGrpSize) false,
                   len := a.maxGrpSize.toNat }
            N := { store := .vec .INTSXP [.uninit] [] (-1) false, len := 1 }
            GRP := { store := .vec .INTSXP [.uninit] [] (-1) false, len := 1 }
            rownames := 0
            iSD := a.iSD
            xSD := a.xSD }

/-- Lines 477-484: the result is cut back to the rows written. -/
def trimAns (a : Args) (s : State) : Except Err (Option (List SEXP)) :=
  match a.lhs, s.ans with
  | none, some ans =>
    if s.ansloc < LENGTH (getS ans 0) then
      (forCols (fun (_ : Nat) (col : SEXP) => growVector col s.ansloc) 0 ans).map some
    else .ok (some ans)
  | _, _ => .ok none

/-- Lines 485-499: lengths and `TRUELENGTH` of the specials are restored. -/
def resetWS (a : Args) (ws : WorkingSet) : WorkingSet :=
  { ws with
    SDall := ws.SDall.map (fun b => (b.SETLENGTH a.maxGrpSize).SET_TRUELENGTH a.maxGrpSize)
    I := (ws.I.SETLENGTH a.maxGrpSize).SET_TRUELENGTH a.maxGrpSize
    BY := ws.BY.map (fun b => b.SET_TRUELENGTH b.len)
    N := ws.N.SET_TRUELENGTH 1
    GRP := ws.GRP.SET_TRUELENGTH 1 }

/-- What `dogroups` leaves behind when it returns: the value returned (`none`
is `R_NilValue`) with its names, the table, the working set, the warnings. -/
structure Result where
  ans : Option (List SEXP)
  ansNames : List Item
  dt : Table
  ws : WorkingSet
  warnings : List Warning

def initState (a : Args) (ws : WorkingSet) : State :=
  { ws := ws, dt := a.dt, ans := none, ansNames := [], njval := 0, ansloc := 0, estn := -1,
    NullWarnDone := false, warnings := [] }

/-- Lines 76-170: the checks and allocations made before the group loop. -/
def preamble (a : Args) : Except Failure State :=
  if a.jiscols.isSome ∧ a.order.length ≠ 0 ∧ ¬ a.on_ then
    .error ⟨.internal "jiscols not NULL but o__ has length", a.dt⟩
  else if a.xjiscols.isSome ∧ a.order.length ≠ 0 ∧ ¬ a.on_ then
    .error ⟨.internal "xjiscols not NULL but o__ has length", a.dt⟩
  else do
    let ws ← withDt a.dt (initWS a)
    .ok (initState a ws)

/-- The state of `dogroups` when it is about to process group `i` (0-based). -/
def stateAt (a : Args) (i : Nat) : Except Failure State := do
  let s0 ← preamble a
  runUpTo a s0 i

/-- Lines 470-509: what happens after the loop. -/
def finish (a : Args) (s : State) : Except Failure Result := do
  let ans ← withDt s.dt (trimAns a s)
  .ok { ans := ans, ansNames := s.ansNames, dt := s.dt, ws := resetWS a s.ws,
        warnings := s.warnings }

/-- The function `dogroups` (lines 66-510). -/
def dogroups (a : Args) : Except Failure Result := do
  let s ← stateAt a a.ngrp
  finish a s

/-! ## Vocabulary for statements about a run -/

/-- The working set in which the expression is evaluated for group `i`, when the
run gets that far and the group is evaluated. -/
def wsAt (a : Args) (i : Nat) : Option WorkingSet :=
  match stateAt a i with
  | .ok s =>
    if evaluated a i s then
      match populate a s.dt i s.ws with
      | .ok ws => some ws
      | .error _ => none
    else none
  | .error _ => none

/-- The value the expression returns for group `i`. -/
def jvalAt (a : Args) (i : Nat) : Option SEXP := (wsAt a i).map (evalJ a)

/-- The result of group `i` as a list of columns, when the group is evaluated
and its result is neither `NULL` nor an empty list ("group `i` contributes"). -/
def resultAt (a : Args) (i : Nat) : Option SEXP :=
  match jvalAt a i with
  | some jv =>
    match shape a i jv with
    | .ok (some cols) => some cols
    | _ => none
  | none => none

def contributes (a : Args) (i : Nat) : Bool := (resultAt a i).isSome

/-- Group `f` is the first contributing group and its result is `cols`. -/
def firstResult (a : Args) (f : Nat) (cols : SEXP) : Prop :=
  resultAt a f = some cols ∧ ∀ k, k < f → contributes a k = false

/-! ## Vocabulary of the statements -/

/-- The fatal shape errors of lines 278, 287 and 294. -/
def Err.isShape : Err → Bool
  | .jNotVectorOrList => true
  | .entryNotVector _ _ => true
  | .arrayDims _ _ _ => true
  | _ => false

/-- Entry `e` of a list result is rejected by lines 286-295: it is not a vector,
or it is a data frame, or it is an array with more than one dimension of extent
greater than 1. -/
def badEntry (e : SEXP) : Bool :=
  !isVector e || isDataFrame e || (isArray e && decide (1 < nDimensions (getAttrib e "dim")))

/-- The one-element integer buffer behind `.N` and `.GRP`, holding `x`. -/
def intBuf (x : Item) : Buffer := { store := .vec .INTSXP [x] [] (-1) false, len := 1 }

/-- The value `dogroups` stores in `.N` for group `i` (line 193). -/
def nOf (a : Args) (i : Nat) : Int :=
  if getInt a.starts i = NA_INTEGER then 0 else getInt a.lens i

/-- `c` is a vector of type `ty` with `n` elements (not a pointer to a scratch
buffer). -/
def IsCol (c : SEXP) (ty : SEXPTYPE) (n : Nat) : Prop :=
  ∃ its att tl alt, c = .vec ty its att tl alt ∧ ty.isVector = true ∧ its.length = n

/-- Shape of `.N` and `.GRP`: one-element integer vectors marked special. -/
def CountersOK (ws : WorkingSet) : Prop := (∃ x, ws.N = intBuf x) ∧ (∃ x, ws.GRP = intBuf x)

/-- The Aliasing Guard for a target column of type `ty`. -/
def guardFor (ty : SEXPTYPE) (source : SEXP) : SEXP := guarded (.vec ty [] [] 0 false) source

/-- The length of the longest column of the result of group `k` (0 when the
group does not contribute). -/
def widthAt (a : Args) (k : Nat) : Nat :=
  match resultAt a k with
  | some cols => maxnOf cols (LENGTH cols)
  | none => 0

/-- Group `k` is the first contributing group. -/
def isFirst (a : Args) (k : Nat) : Bool :=
  contributes a k && (List.range k).all (fun k1 => !contributes a k1)

/-- The number of rows group `k` adds to the result: the length of the longest
column of its result, except that the first contributing group adds no row
when it has no rows itself (line 356). -/
def rowsAt (a : Args) (k : Nat) : Nat :=
  if isFirst a k && decide (grpnOf a k = 0) then 0 else widthAt a k

/-- The key of group `k` in key column `j`. -/
def keyItem (a : Args) (k : Nat) (j : Nat) : Item :=
  getI (getS a.groups (getInt a.grpcols j - 1)).items (igrpOf a k)

/-- The `w` rows a group adds to a result column of type `ty` from its column
`src`: NA when `src` is empty, the single element of `src` recycled, or the
elements of `src`, after the Aliasing Guard. -/
def resBlock (ty : SEXPTYPE) (w : Nat) (src : SEXP) : List Item :=
  if length src = 0 then List.replicate w (naItem ty)
  else (List.range w).map
    (fun (r : Nat) => getI (guardFor ty src).items (if length src = 1 then (0 : Int) else 0 + r))

/-- The rows group `k` adds to column `c` of the result (key columns first),
`ty` being the type of that column. -/
def blockAt (a : Args) (ty : SEXPTYPE) (c : Nat) (k : Nat) : List Item :=
  match resultAt a k with
  | none => []
  | some cols =>
    if c < a.ngrpcols then List.replicate (rowsAt a k) (keyItem a k c)
    else resBlock ty (rowsAt a k) (VECTOR_ELT cols ((c - a.ngrpcols : Nat) : Int))

/-- The key columns named by `grpcols` are vectors. -/
def KeysOK (a : Args) : Prop := ∀ g, g ∈ a.grpcols → isVector (getS a.groups (g - 1)) = true

/-- The type of column `c` of the result (key columns first) when `cols` is the
result of the first contributing group. -/
def colType (a : Args) (cols : SEXP) (c : Nat) : SEXPTYPE :=
  if c < a.ngrpcols then TYPEOF (getS a.groups (getInt a.grpcols c - 1))
  else TYPEOF (VECTOR_ELT cols ((c - a.ngrpcols : Nat) : Int))

/-- The accumulator holds `ngrpcols + njval` columns, column `c` being a vector
of type `tys c` with `n` elements. -/
def AnsOK (a : Args) (njval : Nat) (tys : Nat → SEXPTYPE) (ans : List SEXP) (n : Nat) : Prop :=
  ans.length = a.ngrpcols + njval ∧
    ∀ c : Nat, c < a.ngrpcols + njval → IsCol (getS ans c) (tys c) n

/-- The number of rows the groups before `n` add to the result. -/
def rowsUpTo (a : Args) (n : Nat) : Nat := ((List.range n).map (rowsAt a)).sum

/-- The rows the groups before `n` add to column `c`, in group order. -/
def writtenUpTo (a : Args) (ty : SEXPTYPE) (c : Nat) (n : Nat) : List Item :=
  (List.range n).flatMap (blockAt a ty c)

/-- No group before `n` contributed: nothing is allocated. -/
def NotStarted (a : Args) (n : Nat) (s : State) : Prop :=
  (∀ k, k < n → contributes a k = false) ∧ s.estn = -1 ∧ s.ans = none ∧ s.njval = 0 ∧
    s.ansloc = 0

/-- Some group `f` before `n` was the first to contribute: the accumulator has
the columns its result calls for, all of length `estn`, and its first `ansloc`
rows are the rows of the groups before `n`. -/
def Started (a : Args) (n : Nat) (s : State) : Prop :=
  ∃ f colsf ans, f < n ∧ firstResult a f colsf ∧ s.njval = LENGTH colsf ∧ 0 < s.njval ∧
    0 ≤ s.estn ∧ (s.ansloc : Int) ≤ s.estn ∧ s.ans = some ans ∧
    AnsOK a s.njval (colType a colsf) ans s.estn.toNat ∧
    s.ansloc = rowsUpTo a n ∧
    ∀ c : Nat, c < a.ngrpcols + s.njval →
      (getS ans c).items.take s.ansloc = writtenUpTo a (colType a colsf c) c n

/-- The invariant of the aggregation loop before group `n`. -/
def RunInv (a : Args) (n : Nat) (s : State) : Prop :=
  s.dt = a.dt ∧ (NotStarted a n s ∨ Started a n s)

/-- Target `j` of an assignment is rejected by lines 303-310: the value for it
is NULL, or it has more than one element and not as many as the group has
rows. -/
def badRHS (jval : SEXP) (grpn : Int) (j : Nat) : Bool :=
  isNull (RHSof jval j) ||
    (decide (1 < length (RHSof jval j)) && decide ((length (RHSof jval j) : Int) ≠ grpn))

/-- The two errors of the check of lines 301-311. -/
def Err.isAssignLength : Err → Bool
  | .rhsNull => true
  | .recycleAssign _ _ _ _ => true
  | _ => false

/-- The row of the table (0-based) that row `k` of group `i` is: row
`starts[i] - 1 + k`, read through the ordering permutation when there is one. -/
def rowOf (a : Args) (i k : Nat) : Int :=
  if a.order.isEmpty then getInt a.starts i - 1 + k
  else getInt a.order (getInt a.starts i - 1 + k) - 1

/-- Target column `l` (1-based) can take the value `RHS`: its slot exists in the
table, and it holds a vector already or, being empty, is to receive a new
column of the vector type of `RHS`. -/
def TargetOK (dt : Table) (l : Int) (RHS : SEXP) : Prop :=
  1 ≤ l ∧ l ≤ dt.cols.length ∧
    (if isNull (getS dt.cols (l - 1)) then (TYPEOF RHS).isVector = true
     else ∃ ty m, IsCol (getS dt.cols (l - 1)) ty m)

/-- The recycling law for target `j` of group `i`, read in the table `dt` the
group leaves: in every row `k` of the group that lies in the target column, a
value of length 1 is found (broadcast), and a value with one element per row of
the group has its element `k` there (element-wise copy; stated for a row that
no later row of the group coincides with).  The value is read after the
Aliasing Guard. -/
def Recycled (a : Args) (lhs : List Int) (i : Nat) (jval : SEXP) (dt : Table) (j : Nat) : Prop :=
  ∀ k : Nat, (k : Int) < grpnOf a i → 0 ≤ rowOf a i k →
    rowOf a i k < LENGTH (getS dt.cols (getInt lhs j - 1)) →
    (length (RHSof jval j) = 1 →
      getI (getS dt.cols (getInt lhs j - 1)).items (rowOf a i k) =
        getI (guardFor (TYPEOF (getS dt.cols (getInt lhs j - 1))) (RHSof jval j)).items 0) ∧
    ((length (RHSof jval j) : Int) = grpnOf a i →
      (∀ k1 : Nat, k < k1 → (k1 : Int) < grpnOf a i → rowOf a i k1 ≠ rowOf a i k) →
      getI (getS dt.cols (getInt lhs j - 1)).items (rowOf a i k) =
        getI (guardFor (TYPEOF (getS dt.cols (getInt lhs j - 1))) (RHSof jval j)).items k)

def intVec (xs : List Int) : SEXP := .vec .INTSXP (xs.map intItem) [] 0 false
def strVec (xs : List String) : SEXP := .vec .STRSXP (xs.map Item.str) [] 0 false
def listOf (xs : List SEXP) : SEXP := .vec .VECSXP (xs.map Item.elt) [] 0 false

/-- The table of the comment in `anySpecialStatic`: `x = 1,2,1,2`, `y = 1,2,3,4`,
with one spare column slot. -/
def exTable : Table :=
  { cols := [intVec [1, 2, 1, 2], intVec [1, 2, 3, 4], .null], ncol := 2,
    names := ["x", "y", ""], nnames := 2 }

/-- `DT[, j, by = x]` on `exTable`: `.SD` has the column `y`, the rows are
grouped through the ordering permutation `1,3,2,4`, and `j` is the expression
handed in. -/
def exArgs (j : WorkingSet → SEXP) : Args :=
  { dt := exTable, dtcols := [2], groups := [intVec [1, 2, 1, 2]], grpcols := [1],
    jiscols := none, xjiscols := none, grporder := [1, 3, 2, 4], order := [1, 3, 2, 4],
    starts := [1, 3], lens := [2, 2], jexp := j, jexpIsSymbolOtherThanSD := false,
    lhs := none, newnames := [], on_ := false, SDall := [intVec [0, 0]], iSD := [], xSD := [] }

/-- The value of `.GRP` in a working set. -/
def grpOf (ws : WorkingSet) : Int := (getI ws.GRP.view.items 0).toInt

/-- A one-column data frame. -/
def exFrame : SEXP :=
  .vec .VECSXP [.elt (intVec [1])] [("class", strVec ["data.frame"])] 0 false

/-- `j` is a symbol bound to a list that holds a data frame. -/
def c8SymbolArgs : Args :=
  { exArgs (fun _ => listOf [exFrame]) with jexpIsSymbolOtherThanSD := true }

/-- `j = list(1L, NULL)` for the second group, `list(1L, 2L)` for the first. -/
def c8NullArgs : Args :=
  exArgs (fun ws => if grpOf ws = 1 then listOf [intVec [1], intVec [2]]
    else listOf [intVec [1], .null])

/-- `j = list(<data frame>)` written out as a call. -/
def c8FrameArgs : Args := exArgs (fun _ => listOf [exFrame])

/-- `DT[c(NA, NA), .N, by = x]` on `exTable`: both rows asked for are NA, so the
single group has a start of 1, a recorded length of 2, and NA entries in the
permutation. -/
def c9PermArgs : Args :=
  { dt := exTable, dtcols := [2], groups := [.vec .INTSXP [.na, .na] [] 0 false],
    grpcols := [1], jiscols := none, xjiscols := none, grporder := [],
    order := [NA_INTEGER, NA_INTEGER], starts := [1], lens := [2],
    jexp := fun ws => ws.N.view, jexpIsSymbolOtherThanSD := false, lhs := none,
    newnames := [], on_ := false, SDall := [intVec [0, 0]], iSD := [], xSD := [] }

/-- A join by each row of a two-row key table (`by = .EACHI`): the first row
matches rows 1-2 of `exTable`, the second matches nothing (start NA) and the
plan records `len2` as its length. -/
def joinArgs (len2 : Int) (j : WorkingSet → SEXP) : Args :=
  { dt := exTable, dtcols := [2], groups := [intVec [1, 9]], grpcols := [1],
    jiscols := some [], xjiscols := none, grporder := [], order := [],
    starts := [1, NA_INTEGER], lens := [2, len2], jexp := j,
    jexpIsSymbolOtherThanSD := false, lhs := none, newnames := [], on_ := false,
    SDall := [intVec [0, 0]], iSD := [], xSD := [] }

/-- `j` returns one column for the first group and two for the second. -/
def c6Args : Args :=
  exArgs (fun ws => if grpOf ws = 1 then listOf [intVec [1]] else listOf [intVec [1], intVec [2]])

/-- `j` returns an integer for the first group and a string for the second. -/
def c7Args : Args := exArgs (fun ws => if grpOf ws = 1 then intVec [1] else strVec ["a"])

/-- `j = list(1L, 5L)` for the first group and `list(3L, character(0))` for the
second. -/
def c7EmptyArgs : Args :=
  exArgs (fun ws => if grpOf ws = 1 then listOf [intVec [1], intVec [5]]
    else listOf [intVec [3], strVec []])

/-- `j` returns one row for the first group and three for the second: the
size guessed from the first group (2 rows) is too small. -/
def c2Args : Args := exArgs (fun ws => if grpOf ws = 1 then intVec [7] else intVec [7, 8, 9])

/-- `DT[, 7L, by = x]` on a table without rows: the plan has one group, empty
(start 0, length 0), evaluated once to learn the shape of the result. -/
def c2EmptyArgs : Args :=
  { dt := { cols := [intVec [], intVec [], .null], ncol := 2, names := ["x", "y", ""],
            nnames := 2 },
    dtcols := [2], groups := [intVec []], grpcols := [1], jiscols := none, xjiscols := none,
    grporder := [], order := [], starts := [0], lens := [0], jexp := fun _ => intVec [7],
    jexpIsSymbolOtherThanSD := false, lhs := none, newnames := [], on_ := false,
    SDall := [intVec []], iSD := [], xSD := [] }

/-- `DT[, sum(y), by = x]` on `exTable`, the sum written out for the two rows
of a group. -/
def c1Args : Args :=
  exArgs (fun ws => intVec [(getI (ws.view (.SD 0)).items 0).toInt +
    (getI (ws.view (.SD 0)).items 1).toInt])

/-- `DT[, z := j, by = x]` on `exTable`: the new column `z` goes to the spare
slot 3. -/
def assignArgs (j : WorkingSet → SEXP) : Args :=
  { exArgs j with lhs := some [3], newnames := ["z"] }

/-- `z := y + 10L` by group, written out for the two rows of a group. -/
def c4Args : Args :=
  assignArgs (fun ws => intVec [(getI (ws.view (.SD 0)).items 0).toInt + 10,
    (getI (ws.view (.SD 0)).items 1).toInt + 10])

/-- `z := integer(0)` by group. -/
def c4ZeroArgs : Args := assignArgs (fun _ => intVec [])

/-- `z := 10L` for the first group and a value of three items for the second,
which has two rows. -/
def c5Args : Args :=
  assignArgs (fun ws => if grpOf ws = 1 then intVec [10] else intVec [1, 2, 3])

/-- A double: NA (or NaN), or a finite number. Finite numbers are kept exact. -/
inductive Dbl
  | na
  | num (q : ℚ)
  deriving DecidableEq

def Dbl.add : Dbl → Dbl → Dbl
  | .num a, .num b => .num (a + b)
  | _, _ => .na

def Dbl.sub : Dbl → Dbl → Dbl
  | .num a, .num b => .num (a - b)
  | _, _ => .na

def Dbl.isNA : Dbl → Bool
  | .na => true
  | .num _ => false

/-- An atomic vector, as far as frollR.c tells the types apart. An element of `int` is a C
int, `NA_INTEGER` included; an element of `lgl` is `none` for NA. -/
inductive Atomic
  | lgl (xs : List (Option Bool))
  | int (xs : List Int)
  | real (xs : List Dbl)
  | str (xs : List String)
  deriving DecidableEq

def Atomic.length : Atomic → Nat
  | .lgl xs => xs.length
  | .int xs => xs.length
  | .real xs => xs.length
  | .str xs => xs.length

/-- An element of a list: an atomic vector, or an object of another kind (NULL, a list, a
function) of the given length. -/
inductive Elt
  | atomic (a : Atomic)
  | other (len : Nat)
  deriving DecidableEq

def Elt.length : Elt → Nat
  | .atomic a => a.length
  | .other n => n

/-- The objects handed over as `obj`, `k`, `fill`, `narm`, `hasna` and `adaptive`. -/
inductive RObj
  | null
  | atomic (a : Atomic)
  | list (xs : List Elt)
  deriving DecidableEq

def RObj.xlength : RObj → Nat
  | .null => 0
  | .atomic a => a.length
  | .list xs => xs.length

def RObj.isVectorAtomic : RObj → Bool
  | .atomic _ => true
  | _ => false

def RObj.isNewList : RObj → Bool
  | .atomic _ => false
  | _ => true

/-- The errors raised by frollR.c, one per message, and those raised below it. -/
inductive FErr
  /-- "x must be of type numeric or logical, or a list, data.frame or data.table of such" -/
  | xType
  /-- "n must be non 0 length" -/
  | nLength
  /-- "%s must be TRUE or FALSE" -/
  | notTrueOrFalse (arg : String)
  /-- "n must be integer, list is accepted for adaptive TRUE" -/
  | nList
  /-- "n must be integer" -/
  | nInteger
  /-- "n must be positive integer values (> 0)" -/
  | nPositive
  /-- "n must be integer vector or list of integer vectors" -/
  | nAdaptive
  /-- "hasNA must be TRUE, FALSE or NA" -/
  | hasNA
  /-- "using hasNA FALSE and na.rm TRUE does not make sense, ..." -/
  | hasNAnarm
  /-- "using adaptive TRUE and align argument different than 'right' is not implemented" -/
  | alignAdaptive
  /-- "adaptive rolling function can only process 'x' having equal length of elements, ..." -/
  | xLengths
  /-- "length of integer vector(s) provided as list to 'n' argument must be equal to number of
  observations provided in 'x'" -/
  | nLengths
  /-- "fill must be a vector of length 1" -/
  | fillLength
  /-- "fill must be numeric or logical" -/
  | fillType
  /-- An `internal_error` -/
  | internal (what : String)
  /-- The error of `allocVector` for a negative length -/
  | negativeLength
  /-- An error raised by `ansMsg` for a kernel, or by the callback of `frollapply` -/
  | kernel
  deriving DecidableEq

/-- The errors about the arguments of the call, each with a message for the user. The
others are the internal errors (for a `fun`, `align` or `algo` that the R caller should have
rejected), the error of an allocation, and the errors of the kernels. -/
def FErr.isParameter : FErr → Bool
  | .internal _ => false
  | .negativeLength => false
  | .kernel => false
  | _ => true

/-- Modelled from the spec: `coerceAs` is not in src/. "Integer/boolean inputs are coerced to
floating point": NA stays NA, TRUE is 1 and FALSE is 0; a real vector is returned as it is.
It is not called on strings. -/
def coerceAsReal : Atomic → List Dbl
  | .lgl xs => xs.map (fun b => match b with
      | none => Dbl.na
      | some true => Dbl.num 1
      | some false => Dbl.num 0)
  | .int xs => xs.map (fun v => if v = NA_INTEGER then Dbl.na else Dbl.num v)
  | .real xs => xs
  | .str xs => xs.map (fun _ => Dbl.na)

/-- The loop of `coerceToRealListR` over the elements. -/
def coerceElts : List Elt → Except FErr (List (List Dbl))
  | [] => .ok []
  | .atomic (.str _) :: _ => .error .xType
  | .other _ :: _ => .error .xType
  | .atomic a :: r =>
    match coerceElts r with
    | .error e => .error e
    | .ok ys => .ok (coerceAsReal a :: ys)

/-- The function `coerceToRealListR`: an atomic `obj` is wrapped into a list of one. -/
def coerceToRealListR : RObj → Except FErr (List (List Dbl))
  | .null => .ok []
  | .atomic a => coerceElts [.atomic a]
  | .list xs => coerceElts xs

/-- R's coercion of a double to an integer (`coerceVector(k, INTSXP)`): NA for NA, NaN and
the values out of range, else the truncation towards zero. -/
def Dbl.toInt : Dbl → Int
  | .na => NA_INTEGER
  | .num q => if q ≥ 2147483648 ∨ q ≤ -2147483648 then NA_INTEGER else Int.tdiv q.num q.den

/-- Modelled from the spec: the macro `IS_TRUE_OR_FALSE` (data.table.h) is not in src/. It
is read from its name and from the error raised when it fails, "%s must be TRUE or FALSE":
a logical vector of length 1 that is not NA. The value of the flag is returned. -/
def RObj.trueOrFalse : RObj → Option Bool
  | .atomic (.lgl [some b]) => some b
  | _ => none

/-- The window widths after the checks: `iik` for fixed windows, `ikl` for adaptive ones. -/
inductive Widths
  | fixed (iik : List Int)
  | adaptive (ikl : List (List Int))
  deriving DecidableEq

/-- The number of windows `nk`. -/
def Widths.nk : Widths → Nat
  | .fixed iik => iik.length
  | .adaptive ikl => ikl.length

def Widths.kl : Widths → List (List Int)
  | .fixed _ => []
  | .adaptive ikl => ikl

/-- Lines 60-63: `while (i < nk && INTEGER(ik)[i] > 0) i++; if (i != nk) error(...)`. -/
def checkPositive (ik : List Int) : Except FErr Widths :=
  if (ik.takeWhile (fun v => decide (v > 0))).length ≠ ik.length then .error .nPositive
  else .ok (.fixed ik)

/-- Lines 78-86: the elements of a list `k` in adaptive mode. -/
def adaptiveElts : List Elt → Except FErr (List (List Int))
  | [] => .ok []
  | .atomic (.int ks) :: r =>
    match adaptiveElts r with
    | .error e => .error e
    | .ok ys => .ok (ks :: ys)
  | .atomic (.real ks) :: r =>
    match adaptiveElts r with
    | .error e => .error e
    | .ok ys => .ok (ks.map Dbl.toInt :: ys)
  | _ :: _ => .error .nAdaptive

/-- Lines 47-88 of `frollfunR`: the checks on `k`. -/
def checkN (k : RObj) (badaptive : Bool) : Except FErr Widths :=
  if !badaptive then
    match k with
    | .null => .error .nList
    | .list _ => .error .nList
    | .atomic (.int ks) => checkPositive ks
    | .atomic (.real ks) => checkPositive (ks.map Dbl.toInt)
    | .atomic _ => .error .nInteger
  else
    match k with
    | .atomic (.int ks) => .ok (.adaptive [ks])
    | .atomic (.real ks) => .ok (.adaptive [ks.map Dbl.toInt])
    | .atomic _ => .error .nAdaptive
    | .list xs => (adaptiveElts xs).map Widths.adaptive
    | .null => .ok (.adaptive [])

/-- Decoding of `align`: right is 1, center is 0, left is -1. -/
def decodeAlign (align : String) : Except FErr Int :=
  if align = "right" then .ok 1
  else if align = "center" then .ok 0
  else if align = "left" then .ok (-1)
  else .error (.internal "align")

/-- An element of the answer list: `none` for R_NilValue, else a real vector, a cell of
which is `none` until it is written. -/
abbrev Slot := Option (List (Option Dbl))

/-- A `for (i=0; i<n; i++)` loop whose body may raise an error. -/
def forUpTo {σ ε : Type} (n : Nat) (body : Nat → σ → Except ε σ) (s : σ) : Except ε σ :=
  (List.range n).foldlM (fun s i => body i s) s

/-- The length `inx[i]` of column `i`. -/
def inx (x : List (List Dbl)) (i : Nat) : Nat := (x.getD i []).length

/-- Lines 124-129: the extra input validation of adaptive mode, for column `i` and window
`j`. -/
def allocCheck (badaptive : Bool) (x : List (List Dbl)) (kl : List (List Int)) (i j : Nat) :
    Option FErr :=
  if badaptive = true then
    if i > 0 ∧ inx x i ≠ inx x (i - 1) then some .xLengths
    else if (kl.getD j []).length ≠ inx x 0 then some .nLengths
    else none
  else none

/-- Lines 124-131: the body of the inner loop, for column `i` and window `j`. -/
def allocOne (badaptive : Bool) (x : List (List Dbl)) (kl : List (List Int)) (nk i j : Nat)
    (ans : List Slot) : Except FErr (List Slot) :=
  match allocCheck badaptive x kl i j with
  | some e => .error e
  | none => .ok (ans.set (i * nk + j) (some (List.replicate (inx x i) none)))

/-- Lines 115-134 (and 265-278 of `frollapplyR`, with `badaptive` false): the answer list
and its vectors. -/
def allocAnswers (badaptive : Bool) (x : List (List Dbl)) (kl : List (List Int)) (nk : Nat) :
    Except FErr (List Slot) :=
  forUpTo x.length (fun i ans => forUpTo nk (fun j ans => allocOne badaptive x kl nk i j ans) ans)
    (List.replicate (nk * x.length) none)

inductive Sfun
  | MEAN
  | SUM
  deriving DecidableEq

def decodeFun (fn : String) : Except FErr Sfun :=
  if fn = "mean" then .ok .MEAN
  else if fn = "sum" then .ok .SUM
  else .error (.internal "fun")

/-- Lines 145-149 (and 258-262): the checks on `fill` and its value as a double. -/
def checkFill : RObj → Except FErr Dbl
  | .atomic (.str xs) => if xs.length ≠ 1 then .error .fillLength else .error .fillType
  | .atomic a => if a.length ≠ 1 then .error .fillLength else .ok ((coerceAsReal a).getD 0 .na)
  | .list xs => if xs.length ≠ 1 then .error .fillLength else .error .fillType
  | .null => .error .fillLength

def decodeAlgo (algo : String) : Except FErr Nat :=
  if algo = "fast" then .ok 0
  else if algo = "exact" then .ok 1
  else .error (.internal "algo")

/-- Lines 94-100, 152-157: `hasna` as the tri-state `ihasna`, once checked against `narm`. -/
def checkHasNA (hasna : RObj) (bnarm : Bool) : Except FErr Int :=
  match hasna with
  | .atomic (.lgl [h]) =>
    if h = some false ∧ bnarm = true then .error .hasNAnarm
    else .ok (match h with
      | none => 0
      | some true => 1
      | some false => -1)
  | _ => .error .hasNA

/-- What lines 34-113 of `frollfunR` settle. -/
structure Checked where
  x : List (List Dbl)
  badaptive : Bool
  widths : Widths
  bnarm : Bool
  ihasna : Int
  ialign : Int

/-- Lines 34-113 of `frollfunR`, in the order of the source: the checks made before the
answer is allocated. -/
def checkArgs (obj k : RObj) (align : String) (narm hasna adaptive : RObj) :
    Except FErr Checked := do
  let x ← coerceToRealListR obj
  if k.xlength = 0 then .error .nLength
  else
    match adaptive.trueOrFalse with
    | none => .error (.notTrueOrFalse "adaptive")
    | some badaptive => do
      let widths ← checkN k badaptive
      match narm.trueOrFalse with
      | none => .error (.notTrueOrFalse "na.rm")
      | some bnarm => do
        let ihasna ← checkHasNA hasna bnarm
        let ialign ← decodeAlign align
        if badaptive = true ∧ ialign ≠ 1 then .error .alignAdaptive
        else .ok { x := x, badaptive := badaptive, widths := widths, bnarm := bnarm,
                   ihasna := ihasna, ialign := ialign }

/-- What the checks of `frollfunR` leave for the calls of the kernels. -/
structure Plan where
  x : List (List Dbl)
  widths : Widths
  ialign : Int
  ans : List Slot
  sfun : Sfun
  dfill : Dbl
  bnarm : Bool
  ihasna : Int
  ialgo : Nat

/-- Lines 34-174 of `frollfunR`, in the order of the source. -/
def validate (fn : String) (obj k fill : RObj) (algo align : String) (narm hasna adaptive : RObj) :
    Except FErr Plan := do
  let c ← checkArgs obj k align narm hasna adaptive
  let ans ← allocAnswers c.badaptive c.x c.widths.kl c.widths.nk
  let sfun ← decodeFun fn
  let dfill ← checkFill fill
  let ialgo ← decodeAlgo algo
  .ok { x := c.x, widths := c.widths, ialign := c.ialign, ans := ans, sfun := sfun,
        dfill := dfill, bnarm := c.bnarm, ihasna := c.ihasna, ialgo := ialgo }

/-- The window of a kernel call: `iik[j]`, or the array `ikl[j]`. -/
inductive Width
  | fixed (k : Int)
  | adaptive (ks : List Int)
  deriving DecidableEq

/-- One call of a kernel: the function called, the column `dx[x]` and its length `nx`, the
index `ans` of the output `dans[ans]` handed over, and the window. -/
structure Call where
  kernel : String
  x : Nat
  nx : Nat
  ans : Nat
  k : Width
  deriving DecidableEq

/-- Modelled from the spec: the type `ans_t` (data.table.h) is not in src/. "Each output
buffer tracks a status code"; lines 131 and 188-196 show the fields `dbl_v`, the cells of the
output vector, and `status`. This is what a kernel leaves in the `ans_t` it is handed. -/
structure KOut where
  dbl_v : Nat → Dbl
  status : Nat

/-- The functions called by frollR.c and defined elsewhere. The arguments of the kernels are
those of the source, in its order, without the output and `verbose`; a kernel writes every
cell of the vector it is handed and no other. `frollapply` is `none` when the callback
raises an error; `raises` tells the statuses for which `ansMsg` raises an error. -/
structure Kernels where
  frollmean : Nat → List Dbl → Int → Int → Dbl → Bool → Int → KOut
  frollsum : Nat → List Dbl → Int → Int → Dbl → Bool → Int → KOut
  fadaptiverollmean : Nat → List Dbl → List Int → Dbl → Bool → Int → KOut
  fadaptiverollsum : Nat → List Dbl → List Int → Dbl → Bool → Int → KOut
  frollapply : List Dbl → Int → Int → Dbl → Option (Nat → Dbl)
  raises : Nat → Bool
  fitsInInt32 : List Dbl → Bool

/-- The state of the loop over the pairs: the calls made, the answer list, and the
statuses `dans[.].status`. -/
structure Dispatch where
  calls : List Call
  ans : List Slot
  status : List Nat

/-- The vector of a slot once a kernel has written it. -/
def written (s : Slot) (v : Nat → Dbl) : Slot :=
  s.map (fun cells => (List.range cells.length).map (fun p => some (v p)))

/-- Lines 185-200: the kernel call for column `i` and window `j`. -/
def kernelCall (K : Kernels) (p : Plan) (i j : Nat) : Call × KOut :=
  let xi := p.x.getD i []
  let out := i * p.widths.nk + j
  match p.sfun, p.widths with
  | .MEAN, .fixed iik =>
    (⟨"frollmean", i, inx p.x i, out, .fixed (iik.getD j 0)⟩,
      K.frollmean p.ialgo xi (iik.getD j 0) p.ialign p.dfill p.bnarm p.ihasna)
  | .MEAN, .adaptive ikl =>
    (⟨"fadaptiverollmean", i, inx p.x i, out, .adaptive (ikl.getD j [])⟩,
      K.fadaptiverollmean p.ialgo xi (ikl.getD j []) p.dfill p.bnarm p.ihasna)
  | .SUM, .fixed iik =>
    (⟨"frollsum", i, inx p.x i, out, .fixed (iik.getD j 0)⟩,
      K.frollsum p.ialgo xi (iik.getD j 0) p.ialign p.dfill p.bnarm p.ihasna)
  | .SUM, .adaptive ikl =>
    (⟨"fadaptiverollsum", i, inx p.x i, out, .adaptive (ikl.getD j [])⟩,
      K.fadaptiverollsum p.ialgo xi (ikl.getD j []) p.dfill p.bnarm p.ihasna)

/-- One iteration of the loops of lines 183-202. -/
def dispatchOne (K : Kernels) (p : Plan) (i j : Nat) (d : Dispatch) : Dispatch :=
  let c := kernelCall K p i j
  { calls := d.calls ++ [c.1],
    ans := d.ans.set c.1.ans (written (d.ans.getD c.1.ans none) c.2.dbl_v),
    status := d.status.set c.1.ans c.2.status }

/-- Lines 183-202: the loops over the columns and the windows. -/
def dispatch (K : Kernels) (p : Plan) : Dispatch :=
  (List.range p.x.length).foldl
    (fun d i => (List.range p.widths.nk).foldl (fun d j => dispatchOne K p i j d) d)
    { calls := [], ans := p.ans, status := List.replicate (p.x.length * p.widths.nk) 0 }

/-- Modelled from the spec: `ansMsg` is not in src/. "Each output buffer tracks a status
code"; "all warnings/errors are replayed on the controlling thread only after the parallel
region completes". An error is raised when a kernel left a status that stands for one; the
status 0 that line 131 sets stands for none. -/
def ansMsg (K : Kernels) (status : List Nat) : Bool :=
  status.any (fun st => decide (st ≠ 0) && K.raises st)

/-- What the functions return: `obj` itself when it is empty, else the answer list, or its
only vector. -/
inductive FRet
  | input (obj : RObj)
  | vec (v : Slot)
  | list (vs : List Slot)
  deriving DecidableEq

/-- The last line of both functions:
`isVectorAtomic(obj) && length(ans) == 1 ? VECTOR_ELT(ans, 0) : ans`. -/
def returned (obj : RObj) (ans : List Slot) : FRet :=
  if obj.isVectorAtomic = true ∧ ans.length = 1 then .vec (ans.getD 0 none) else .list ans

/-- What a call leaves: the kernel calls made, and the value returned or the error. -/
structure Outcome where
  calls : List Call
  value : Except FErr FRet

/-- The function `frollfunR`. -/
def frollfunR (K : Kernels) (fn : String) (obj k fill : RObj) (algo align : String)
    (narm hasna adaptive : RObj) : Outcome :=
  if obj.xlength = 0 then { calls := [], value := .ok (.input obj) }
  else
    match validate fn obj k fill algo align narm hasna adaptive with
    | .error e => { calls := [], value := .error e }
    | .ok p =>
      let d := dispatch K p
      { calls := d.calls,
        value := if ansMsg K d.status = true then .error .kernel else .ok (returned obj d.ans) }

/-- Lines 230-245 of `frollapplyR`: the checks on `k`. -/
def checkApplyN (K : Kernels) : RObj → Except FErr (List Int)
  | .atomic (.int ks) => if ks.length = 0 then .error .nLength else .ok ks
  | .atomic (.real ks) =>
    if K.fitsInInt32 ks = true then
      (if ks.length = 0 then .error .nLength else .ok (ks.map Dbl.toInt))
    else .error .nInteger
  | _ => .error .nInteger

/-- Lines 227-278 of `frollapplyR`, in the order of the source. -/
structure ApplyPlan where
  x : List (List Dbl)
  ik : List Int
  ialign : Int
  dfill : Dbl
  ans : List Slot

def validateApply (K : Kernels) (obj k fill : RObj) (align : String) : Except FErr ApplyPlan := do
  let x ← coerceToRealListR obj
  let ik ← checkApplyN K k
  let ialign ← decodeAlign align
  let dfill ← checkFill fill
  let ans ← allocAnswers false x [] ik.length
  pure { x := x, ik := ik, ialign := ialign, dfill := dfill, ans := ans }

/-- Lines 291-293: the calls of `frollapply` for window `j` over the columns from `i` on;
an error of the callback ends the run. -/
def applyCols (K : Kernels) (p : ApplyPlan) (j : Nat) (kj : Int) :
    List Nat → Dispatch → Dispatch × Option FErr
  | [], d => (d, none)
  | i :: r, d =>
    let out := i * p.ik.length + j
    let d1 : Dispatch := { d with calls := d.calls ++ [⟨"frollapply", i, inx p.x i, out, .fixed kj⟩] }
    match K.frollapply (p.x.getD i []) kj p.ialign p.dfill with
    | none => (d1, some .kernel)
    | some v => applyCols K p j kj r { d1 with ans := d1.ans.set out (written (d1.ans.getD out none) v) }

/-- Lines 286-296: the loop over the windows from `j` on; `allocVector(REALSXP, ik[j])`
raises an error for a negative length. -/
def applyWindows (K : Kernels) (p : ApplyPlan) : Nat → List Int → Dispatch → Dispatch × Option FErr
  | _, [], d => (d, none)
  | j, kj :: r, d =>
    if kj < 0 then (d, some .negativeLength)
    else
      match applyCols K p j kj (List.range p.x.length) d with
      | (d1, some e) => (d1, some e)
      | (d1, none) => applyWindows K p (j + 1) r d1

/-- The function `frollapplyR`; `fn` and `rho` are inside `K.frollapply`. -/
def frollapplyR (K : Kernels) (obj k fill : RObj) (align : String) : Outcome :=
  if obj.xlength = 0 then { calls := [], value := .ok (.input obj) }
  else
    match validateApply K obj k fill align with
    | .error e => { calls := [], value := .error e }
    | .ok p =>
      match applyWindows K p 0 p.ik { calls := [], ans := p.ans, status := [] } with
      | (d, some e) => { calls := d.calls, value := .error e }
      | (d, none) => { calls := d.calls, value := .ok (returned obj d.ans) }

/-! ### The sum kernel, from the spec -/

/-- Modelled from the spec: the sum of a window, part of `frollsum`, which is not in src/.
It is NA as soon as a value is NA, unless the NA values are dropped. -/
def windowSum (narm : Bool) (w : List Dbl) : Dbl :=
  w.foldl (fun acc v => if v.isNA && narm then acc else acc.add v) (.num 0)

/-- Modelled from the spec: the window of width `k` that ends at position `p` ("right
anchors the window ending at the current position"), part of `frollsum`, which is not in
src/. -/
def windowAt (x : List Dbl) (k p : Nat) : List Dbl := (x.drop (p + 1 - k)).take (min k (p + 1))

/-- Modelled from the spec: `frollsum` is not in src/. The exact algorithm "recomputes the
aggregate from scratch over the window's elements for every output position"; "positions
where a full window does not fit the sequence bounds are set to the configured fill value";
right alignment "anchors the window ending at the current position". -/
def exactSum (x : List Dbl) (k : Nat) (fill : Dbl) (narm : Bool) : List Dbl :=
  (List.range x.length).map (fun p => if p + 1 < k then fill else windowSum narm (windowAt x k p))

/-- Modelled from the spec: one step of the fast algorithm at position `p`, from the running
total `w`: "add the entering element and remove the exiting one. On encountering a value
that invalidates the running total (NaN/missing), locally rescan just the current window to
recompute exactly, then resume incremental tracking". -/
def fastStep (x : List Dbl) (k : Nat) (narm : Bool) (p : Nat) (w : Dbl) : Dbl :=
  let w1 := if p ≥ k then (w.add (x.getD p .na)).sub (x.getD (p - k) .na) else w.add (x.getD p .na)
  if w1.isNA then windowSum narm (windowAt x k p) else w1

/-- Modelled from the spec: the fast algorithm, "a single forward sweep maintaining a running
aggregate over the trailing window", right aligned, with the fill value where the window
does not fit. -/
def fastSum (x : List Dbl) (k : Nat) (fill : Dbl) (narm : Bool) : List Dbl :=
  ((List.range x.length).foldl
    (fun (s : Dbl × List Dbl) p =>
      let w := fastStep x k narm p s.1
      (w, s.2 ++ [if p + 1 < k then fill else w]))
    (Dbl.num 0, [])).2

/-- Modelled from the spec: `frollsum` is not in src/. For a positive width and right
alignment it is the fast (`algo` 0) or the exact (`algo` 1) algorithm of the spec; for the
other arguments the spec does not fix the value, and the kernel `K.frollsum` is kept. -/
def specFrollsum (K : Kernels) (algo : Nat) (x : List Dbl) (k : Int) (align : Int) (fill : Dbl)
    (narm : Bool) (hasna : Int) : KOut :=
  if 0 < k ∧ align = 1 ∧ algo = 0 then
    { dbl_v := fun p => (fastSum x k.toNat fill narm).getD p fill, status := 0 }
  else if 0 < k ∧ align = 1 ∧ algo = 1 then
    { dbl_v := fun p => (exactSum x k.toNat fill narm).getD p fill, status := 0 }
  else K.frollsum algo x k align fill narm hasna

/-- The kernels with `frollsum` as the spec describes it. -/
def withSpecSum (K : Kernels) : Kernels := { K with frollsum := specFrollsum K }

/-! ### Arguments of the examples -/

def rTRUE : RObj := .atomic (.lgl [some true])
def rFALSE : RObj := .atomic (.lgl [some false])
def rNA : RObj := .atomic (.lgl [none])
def reals (qs : List ℚ) : RObj := .atomic (.real (qs.map Dbl.num))
def ints (ks : List Int) : RObj := .atomic (.int ks)

/-- Kernels for the examples: each writes NA into every cell and leaves the status alone;
the callback of `frollapply` returns 1. -/
def exKernels : Kernels where
  frollmean := fun _ _ _ _ _ _ _ => { dbl_v := fun _ => .na, status := 0 }
  frollsum := fun _ _ _ _ _ _ _ => { dbl_v := fun _ => .na, status := 0 }
  fadaptiverollmean := fun _ _ _ _ _ _ => { dbl_v := fun _ => .na, status := 0 }
  fadaptiverollsum := fun _ _ _ _ _ _ => { dbl_v := fun _ => .na, status := 0 }
  frollapply := fun _ _ _ _ => some (fun _ => .num 1)
  raises := fun st => st == 3
  fitsInInt32 := fun _ => true

/-! ## The group loop with its progress report (lines 90-92, 446-461, 470-476)

`dogroups` reads the wall clock and prints a progress line when `showProgressArg` is set.
The variables of the report (`nextTime`, `hasPrinted`) are local variables of `dogroups`
like `ans`, `ansloc` and `estn`, and the report stands in the body of the loop, between the
writes of the group and `ansloc += maxn`.  So the loop is embedded a second time, with the
report in its place and one record for all the local variables.  `clock 0` is the reading of
`wallclock()` at line 91, `clock (i + 1)` the reading at line 449 for group `i`, and
`clock (ngrp + 1)` the reading at line 473. -/

/-- The numbers of a progress line: "Processed %d groups out of %d. ... Time elapsed: %ds.
ETA: %ds." -/
structure ProgressLine where
  processed : Nat
  ngrp : Nat
  elapsed : Int
  ETA : Int
  deriving DecidableEq

/-- Line 405, `((double)ngrp/i)*1.1*(ansloc+maxn)` assigned to an `int`, with the rounding
of the double arithmetic made explicit: `fl` rounds an exact result to a double, `fl (11/10)`
is the constant `1.1`, and the integers are converted exactly. -/
def regrowEstnRounded (fl : ℚ → ℚ) (a : Args) (i need : Nat) : Int :=
  truncToInt (fl (fl (fl ((a.ngrp : ℚ) / (i : ℚ)) * fl (11 / 10)) * (need : ℚ)))

/-- The local variables of `dogroups` that live across the iterations of the group loop:
those of `State`, and those of the report, `nextTime`, `hasPrinted`, and the lines printed
so far. -/
structure Locals where
  s : State
  nextTime : ℚ
  hasPrinted : Bool
  printed : List ProgressLine

/-- Line 90: `LOGICAL(showProgressArg)[0]==1 && ngrp > 1`. -/
def showProgressOf (a : Args) (showProgressArg : Bool) : Bool :=
  showProgressArg && decide (a.ngrp > 1)

/-- Lines 91-92 on the state the checks before the loop leave: the first line is due 3
seconds after the start. -/
def initLocals (showProgress : Bool) (clock : Nat → ℚ) (s : State) : Locals :=
  { s := s, nextTime := if showProgress then roundDouble (clock 0 + 3) else 0,
    hasPrinted := false,
    printed := [] }

/-- Line 450: `avgTimePerGroup = (now-startTime)/(i+1)` and
`ETA = (int)(avgTimePerGroup*(ngrp-i-1))`, in doubles. -/
def etaOf (a : Args) (clock : Nat → ℚ) (i : Nat) : Int :=
  truncToInt (roundDouble
    (roundDouble (roundDouble (clock (i + 1) - clock 0) / ((i : ℚ) + 1)) *
      ((a.ngrp : ℚ) - (i : ℚ) - 1)))

/-- Lines 448-461: the report at the end of the work for group `i`, a piece of the loop
body that has all the local variables at hand. -/
def reportStep (a : Args) (showProgress : Bool) (clock : Nat → ℚ) (i : Nat) (v : Locals) :
    Locals :=
  if showProgress = true ∧ clock (i + 1) ≥ v.nextTime then
    { v with
      nextTime := roundDouble (clock (i + 1) + 1)
      hasPrinted := true
      printed :=
        if v.hasPrinted = true ∨ etaOf a clock i ≥ 0 then
          v.printed ++ [{ processed := i + 1, ngrp := a.ngrp,
                          elapsed := truncToInt (roundDouble (clock (i + 1) - clock 0)),
                          ETA := etaOf a clock i }]
        else v.printed }
  else v

/-- Lines 345-468 for one group in aggregation mode, with the report: the checks and the
writes of lines 345-445, the report of lines 446-461, then `ansloc += maxn` (line 462). -/
def aggStepShowing (a : Args) (showProgress : Bool) (clock : Nat → ℚ) (i : Nat) (v : Locals)
    (ws : WorkingSet) (jval : SEXP) : Except Err Locals :=
  if njvalOf v.s jval ≠ LENGTH jval then .error .ncolMismatch
  else do
    let r ← ensureRoom a i v.s (grpnOf a i) jval (njvalOf v.s jval)
      (maxnOf jval (njvalOf v.s jval))
    let keys ← writeKeys a (igrpOf a i) v.s.ansloc r.maxn r.ans
    let res ← writeRes a i (grpnOf a i) v.s.ansloc r.maxn jval (njvalOf v.s jval) r.ans
    let v1 := reportStep a showProgress clock i
      { v with
        s := { ws := ws
               dt := v.s.dt
               ans := some (keys ++ res)
               ansNames := r.names
               njval := njvalOf v.s jval
               ansloc := v.s.ansloc
               estn := r.estn
               NullWarnDone := v.s.NullWarnDone ||
                 (zeroLengthWarning i r.maxn jval (njvalOf v.s jval) v.s.NullWarnDone).isSome
               warnings := v.s.warnings ++
                 (zeroLengthWarning i r.maxn jval (njvalOf v.s jval)
                   v.s.NullWarnDone).toList } }
    .ok { v1 with s := { v1.s with ansloc := v1.s.ansloc + r.maxn } }

/-- Lines 266-468 with the report: every `continue` of the loop (a NULL or empty value,
the end of the assignment) comes before the report. -/
def afterEvalShowing (a : Args) (showProgress : Bool) (clock : Nat → ℚ) (i : Nat) (v : Locals)
    (ws : WorkingSet) (jv : SEXP) : Except Failure Locals := do
  let r ← withDt v.s.dt (shape a i jv)
  match r with
  | none => .ok { v with s := { v.s with ws := ws } }
  | some jval =>
    match a.lhs with
    | some lhs => do
      let dt ← assignStep a i lhs jval (grpnOf a i) v.s.dt
      .ok { v with s := { v.s with ws := ws, dt := dt } }
    | none => withDt v.s.dt (aggStepShowing a showProgress clock i v ws jval)

/-- One iteration of the loop of lines 180-469, with the report. -/
def groupStepShowing (a : Args) (showProgress : Bool) (clock : Nat → ℚ) (i : Nat)
    (v : Locals) : Except Failure Locals :=
  if evaluated a i v.s then do
    let ws ← withDt v.s.dt (populate a v.s.dt i v.s.ws)
    afterEvalShowing a showProgress clock i v ws (evalJ a ws)
  else .ok v

/-- The first `n` iterations of the group loop with the report, from `v`. -/
def runShowing (a : Args) (showProgress : Bool) (clock : Nat → ℚ) (v : Locals) :
    Nat → Except Failure Locals
  | 0 => .ok v
  | n + 1 => do
    let v1 ← runShowing a showProgress clock v n
    groupStepShowing a showProgress clock n v1

/-- Lines 470-476: a last line is printed when one was printed before. -/
def lastReport (a : Args) (showProgress : Bool) (clock : Nat → ℚ) (v : Locals) : Locals :=
  if showProgress && v.hasPrinted then
    { v with
      printed := v.printed ++ [{ processed := a.ngrp, ngrp := a.ngrp,
                                 elapsed := truncToInt
                                   (roundDouble (clock (a.ngrp + 1) - clock 0)),
                                 ETA := 0 }] }
  else v

/-- The function `dogroups` with its argument `showProgressArg` and the readings of the
wall clock: what it returns, with the progress lines it printed, or its failure. -/
def dogroupsShowing (a : Args) (showProgressArg : Bool) (clock : Nat → ℚ) :
    Except Failure (Result × List ProgressLine) := do
  let s0 ← preamble a
  let v ← runShowing a (showProgressOf a showProgressArg) clock
    (initLocals (showProgressOf a showProgressArg) clock s0) a.ngrp
  let r ← finish a (lastReport a (showProgressOf a showProgressArg) clock v).s
  .ok (r, (lastReport a (showProgressOf a showProgressArg) clock v).printed)

/-! ## What the scan of `anySpecialStatic` looks at -/

/-- The scan stops at `x`: `x` is not empty, and it is an atomic vector that is marked
(negative `TRUELENGTH`) or ALTREP, or a list that is marked. -/
def isSpecial (x : SEXP) : Bool :=
  decide (length x ≠ 0) &&
    ((isVectorAtomic x && (ALTREP x || decide (TRUELENGTH x < 0))) ||
      (TYPEOF x == .VECSXP && decide (TRUELENGTH x < 0)))

mutual
/-- The values reachable from `x` in the words of the spec, "the value's structure
(elements and their attributes)": `x` itself and, when `x` is a list, what is reachable
from its elements and from the attributes of its elements. -/
def reachable : SEXP → List SEXP
  | .null => [.null]
  | .buf _ v => reachable v
  | .vec ty items attrib tl alt =>
      .vec ty items attrib tl alt :: (if ty = .VECSXP then reachableItems items else [])
def reachableItems : List Item → List SEXP
  | [] => []
  | it :: r => reachableItem it ++ reachableItems r
def reachableItem : Item → List SEXP
  | .elt x => reachableElt x
  | _ => []
/-- What is reachable from an element of a list: from the element, and from its
attributes. -/
def reachableElt : SEXP → List SEXP
  | .null => [.null]
  | .buf _ v => reachableElt v
  | .vec ty items attrib tl alt =>
      (.vec ty items attrib tl alt :: (if ty = .VECSXP then reachableItems items else [])) ++
        reachableAttribs attrib
def reachableAttribs : List (String × SEXP) → List SEXP
  | [] => []
  | (_, v) :: r => reachable v ++ reachableAttribs r
end

/-! ## More examples -/

/-- A table of 23 rows, each a group of its own (`x = 1..23`), with an expression
that returns one row for every group but the sixth, for which it returns 45
rows: the capacity guessed from the first group is 23, and the sixth group
(index 5) brings the rows needed to 50. -/
def c18Args : Args :=
  { dt := { cols := [intVec ((List.range 23).map (fun (k : Nat) => (k : Int) + 1)),
                     intVec (List.replicate 23 0), .null],
            ncol := 2, names := ["x", "y", ""], nnames := 2 },
    dtcols := [2], groups := [intVec ((List.range 23).map (fun (k : Nat) => (k : Int) + 1))],
    grpcols := [1], jiscols := none, xjiscols := none, grporder := [], order := [],
    starts := (List.range 23).map (fun (k : Nat) => (k : Int) + 1),
    lens := List.replicate 23 1,
    jexp := fun ws => if grpOf ws = 6 then intVec (List.replicate 45 7) else intVec [7],
    jexpIsSymbolOtherThanSD := false, lhs := none, newnames := [], on_ := false,
    SDall := [intVec [0]], iSD := [], xSD := [] }

/-- A plan of two empty groups (start 0, length 0) on a table without rows, with
`j = 7L`. -/
def c20Args : Args := { c2EmptyArgs with starts := [0, 0], lens := [0, 0] }

/-- `DT[, NULL, by = x]` on a table without rows. -/
def c20NullArgs : Args := { c2EmptyArgs with jexp := fun _ => .null }

/-! ## Vocabulary for the accumulator, the warning and the array reads -/

/-- The types `growVector` copies: the cases of its `switch` (lines 538-561). -/
def SEXPTYPE.isGrowable : SEXPTYPE → Bool
  | .RAWSXP | .LGLSXP | .INTSXP | .REALSXP | .CPLXSXP | .STRSXP | .VECSXP => true
  | _ => false

/-- `j = list(1:3, 1:2)` on `exTable` grouped by `x`: the second column has two
items where the result has three rows. -/
def c25Args : Args := exArgs (fun _ => listOf [intVec [1, 2, 3], intVec [1, 2]])

/-- `j = list(1L, NULL)` for every group of `exTable` grouped by `x`: the first
group already has a NULL column. -/
def c22Args : Args := exArgs (fun _ => listOf [intVec [1], .null])

/-- The first column of length 0 of the result of group `k`, when the group
adds more than one row to the result. -/
def zeroColAt (a : Args) (k : Nat) : Option Nat :=
  match resultAt a k with
  | some cols =>
    if 1 < rowsAt a k then
      (List.range (LENGTH cols)).find? (fun (j : Nat) => length (VECTOR_ELT cols j) == 0)
    else none
  | none => none

/-- The warning due for group `k`: about its first column of length 0, when it
adds more than one row. -/
def warningAt (a : Args) (k : Nat) : Option Warning :=
  (zeroColAt a k).map (fun j => Warning.zeroLength (j + 1) (k + 1) (rowsAt a k))

/-- The warning due for the groups before `n`: the one of the first group that
has one. -/
def warningUpTo (a : Args) (n : Nat) : Option Warning :=
  (List.range n).findSome? (warningAt a)

/-- The first group returns `list(1:2, 5:6, 7:8)`, the second
`list(3:4, integer(0), integer(0))`: two columns of length 0 in a group of two
rows. -/
def c21Args : Args :=
  exArgs (fun ws => if grpOf ws = 1 then listOf [intVec [1, 2], intVec [5, 6], intVec [7, 8]]
    else listOf [intVec [3, 4], intVec [], intVec []])

/-- `j = list(1:3, integer(0))` on a table without rows: the single, empty group
is evaluated once. -/
def c21EmptyArgs : Args :=
  { c2EmptyArgs with jexp := fun _ => listOf [intVec [1, 2, 3], intVec []] }

/-! ## The indices at which the permutation arrays are read -/

/-- `k` is an index of the C array `xs`: `0 <= k < length`. -/
def inBounds (xs : List Int) (k : Int) : Bool := decide (0 ≤ k) && decide (k < (xs.length : Int))

/-- Lines 189-190 and line 218: the index at which `iorder` is read by the test
`istarts[i] == NA_INTEGER || (LENGTH(order) && iorder[istarts[i]-1] == NA_INTEGER)`:
`istarts[i]-1`, read only when the start is not NA and the permutation is not
empty (`||` and `&&` evaluate their right operand only when it is needed). -/
def orderTestRead (a : Args) (i : Nat) : List Int :=
  if getInt a.starts i = NA_INTEGER then []
  else if a.order.length ≠ 0 then [getInt a.starts i - 1]
  else []

/-- Line 214: the index at which `grporder` is read to find `igrp`:
`istarts[i]-1`, read only when `jiscols` is NULL and `grporder` is not empty. -/
def grporderRead (a : Args) (i : Nat) : List Int :=
  if a.jiscols.isSome then []
  else if a.grporder.length ≠ 0 then [getInt a.starts i - 1]
  else []

/-- Lines 251-252: the indices `rownum + k`, `k < grpn`, at which `iorder` is
read to fill `.I`. -/
def gatherReads (a : Args) (i : Nat) : List Int :=
  (List.range (getInt a.lens i).toNat).map (fun (k : Nat) => getInt a.starts i - 1 + (k : Int))

/-- The indices at which iteration `i` of the group loop reads `iorder`, in the
order of the reads, from state `s`: none when the group is skipped by line
182; the test of lines 189-190 in assignment mode, after which a no-match group
is left; then the test of line 218 and, for a group that is not a no-match
when a permutation is given, the loop of lines 251-252. -/
def orderReads (a : Args) (i : Nat) (s : State) : List Int :=
  if skipEmpty a i s then []
  else if a.lhs.isSome && noMatch a i then orderTestRead a i
  else
    (if a.lhs.isSome then orderTestRead a i else []) ++ orderTestRead a i ++
      (if noMatch a i || a.order.length == 0 then [] else gatherReads a i)

/-- The indices at which iteration `i` of the group loop reads `grporder`, from
state `s`: that of line 214 when the iteration gets there. -/
def grporderReads (a : Args) (i : Nat) (s : State) : List Int :=
  if evaluated a i s then grporderRead a i else []

/-- A well-formed group plan for a table of `n` rows: every start is 0 (an
empty group), NA (no match), or in `1..n` with `start - 1 + length` within the
permutation when there is one. -/
def PlanOK (a : Args) (n : Nat) : Prop :=
  ∀ i : Nat, i < a.ngrp →
    getInt a.starts i = 0 ∨ getInt a.starts i = NA_INTEGER ∨
      (1 ≤ getInt a.starts i ∧ getInt a.starts i ≤ (n : Int) ∧
        (a.order.length ≠ 0 →
          getInt a.starts i - 1 + getInt a.lens i ≤ (a.order.length : Int)))

/-- `X[i, .N, by = .EACHI, on = "x", nomatch = NULL]` with `exTable` as `X`, which
is not sorted by `x`, so that the permutation `1,3,2,4` that sorts it is passed
as `order`, and a table `i` of one row whose key, 9, matches no row of `X`: the
plan has one group, with start 0 and length 0. -/
def c24Args : Args :=
  { dt := exTable, dtcols := [2], groups := [intVec [9]], grpcols := [1],
    jiscols := some [], xjiscols := none, grporder := [], order := [1, 3, 2, 4],
    starts := [0], lens := [0], jexp := fun ws => ws.N.view,
    jexpIsSymbolOtherThanSD := false, lhs := none, newnames := [], on_ := true,
    SDall := [intVec []], iSD := [], xSD := [] }

/-! ## The equality test decides equality -/

mutual
theorem sexp_beq_eq : ∀ (a b : SEXP), SEXP.beq a b = true → a = b
  | .null, .null, _ => rfl
  | .vec t1 i1 a1 l1 r1, .vec t2 i2 a2 l2 r2, h => by
      simp only [SEXP.beq, Bool.and_eq_true, beq_iff_eq] at h
      obtain ⟨⟨⟨⟨h1, h2⟩, h3⟩, h4⟩, h5⟩ := h
      rw [h1, items_beq_eq _ _ h2, attribs_beq_eq _ _ h3, h4, h5]
  | .buf b1 v1, .buf b2 v2, h => by
      simp only [SEXP.beq, Bool.and_eq_true, beq_iff_eq] at h
      rw [h.1, sexp_beq_eq _ _ h.2]
  | .null, .vec .., h => by simp [SEXP.beq] at h
  | .null, .buf .., h => by simp [SEXP.beq] at h
  | .vec .., .null, h => by simp [SEXP.beq] at h
  | .vec .., .buf .., h => by simp [SEXP.beq] at h
  | .buf .., .null, h => by simp [SEXP.beq] at h
  | .buf .., .vec .., h => by simp [SEXP.beq] at h
theorem item_beq_eq : ∀ (a b : Item), Item.beq a b = true → a = b
  | .na, .na, _ => rfl
  | .int a, .int b, h => by simp only [Item.beq, beq_iff_eq] at h; rw [h]
  | .str a, .str b, h => by simp only [Item.beq, beq_iff_eq] at h; rw [h]
  | .uninit, .uninit, _ => rfl
  | .elt a, .elt b, h => by simp only [Item.beq] at h; rw [sexp_beq_eq _ _ h]
  | .na, .int _, h | .na, .str _, h | .na, .uninit, h | .na, .elt _, h => by
      simp [Item.beq] at h
  | .int _, .na, h | .int _, .str _, h | .int _, .uninit, h | .int _, .elt _, h => by
      simp [Item.beq] at h
  | .str _, .na, h | .str _, .int _, h | .str _, .uninit, h | .str _, .elt _, h => by
      simp [Item.beq] at h
  | .uninit, .na, h | .uninit, .int _, h | .uninit, .str _, h | .uninit, .elt _, h => by
      simp [Item.beq] at h
  | .elt _, .na, h | .elt _, .int _, h | .elt _, .str _, h | .elt _, .uninit, h => by
      simp [Item.beq] at h
theorem items_beq_eq : ∀ (a b : List Item), Item.beqList a b = true → a = b
  | [], [], _ => rfl
  | a :: r, b :: s, h => by
      simp only [Item.beqList, Bool.and_eq_true] at h
      rw [item_beq_eq _ _ h.1, items_beq_eq _ _ h.2]
  | [], _ :: _, h => by simp [Item.beqList] at h
  | _ :: _, [], h => by simp [Item.beqList] at h
theorem attribs_beq_eq : ∀ (a b : List (String × SEXP)), SEXP.beqAttrib a b = true → a = b
  | [], [], _ => rfl
  | (t1, v1) :: r, (t2, v2) :: s, h => by
      simp only [SEXP.beqAttrib, Bool.and_eq_true, beq_iff_eq] at h
      rw [h.1.1, sexp_beq_eq _ _ h.1.2, attribs_beq_eq _ _ h.2]
  | [], _ :: _, h => by simp [SEXP.beqAttrib] at h
  | _ :: _, [], h => by simp [SEXP.beqAttrib] at h
end

theorem cols_beq_eq : ∀ (a b : List SEXP), SEXP.beqCols a b = true → a = b
  | [], [], _ => rfl
  | a :: r, b :: s, h => by
      simp only [SEXP.beqCols, Bool.and_eq_true] at h
      rw [sexp_beq_eq _ _ h.1, cols_beq_eq _ _ h.2]
  | [], _ :: _, h => by simp [SEXP.beqCols] at h
  | _ :: _, [], h => by simp [SEXP.beqCols] at h

/-- An optional value is `some x` when the equality test says so. -/
theorem some_of_beq {o : Option SEXP} {x : SEXP}
    (h : (match o with
      | some v => SEXP.beq v x
      | none => false) = true) : o = some x := by
  cases o with
  | none => simp at h
  | some v => simp only at h; rw [sexp_beq_eq _ _ h]

/-- An optional value that passes a test is some value passing the test. -/
theorem exists_of_check {α : Type} {o : Option α} {p : α → Bool}
    (h : (match o with
      | some v => p v
      | none => false) = true) : ∃ v, o = some v ∧ p v = true := by
  cases o with
  | none => simp at h
  | some v => exact ⟨v, rfl, h⟩

/-! ## Sequencing in the error monad -/

theorem bind_ok_iff {ε α β : Type} (e : Except ε α) (f : α → Except ε β) (y : β) :
    (e >>= f) = .ok y ↔ ∃ x, e = .ok x ∧ f x = .ok y := by
  cases e with
  | error z => simp [bind, Except.bind]
  | ok x => simp [bind, Except.bind]

theorem bind_error_iff {ε α β : Type} (e : Except ε α) (f : α → Except ε β) (z : ε) :
    (e >>= f) = .error z ↔ e = .error z ∨ ∃ x, e = .ok x ∧ f x = .error z := by
  cases e with
  | error z => simp [bind, Except.bind]
  | ok x => simp [bind, Except.bind]

theorem bind_of_ok {ε α β : Type} {e : Except ε α} {x : α} (h : e = .ok x)
    (f : α → Except ε β) : (e >>= f) = f x := by
  subst h; rfl

theorem bind_of_error {ε α β : Type} {e : Except ε α} {z : ε} (h : e = .error z)
    (f : α → Except ε β) : (e >>= f) = .error z := by
  subst h; rfl

theorem withDt_ok_iff {α : Type} (dt : Table) (e : Except Err α) (x : α) :
    withDt dt e = .ok x ↔ e = .ok x := by
  cases e <;> simp [withDt]

theorem withDt_error_iff {α : Type} (dt : Table) (e : Except Err α) (f : Failure) :
    withDt dt e = .error f ↔ ∃ err, e = .error err ∧ f = ⟨err, dt⟩ := by
  cases e with
  | error z =>
    simp only [withDt, Except.error.injEq, exists_eq_left']
    exact ⟨fun h => h.symm, fun h => h.symm⟩
  | ok x => simp [withDt]

/-! ## The group loop: how an error ends the run -/

theorem runUpTo_succ (a : Args) (s : State) (n : Nat) :
    runUpTo a s (n + 1) = (runUpTo a s n >>= groupStep a n) := rfl

theorem runUpTo_error_mono {a : Args} {s : State} {n : Nat} {f : Failure}
    (h : runUpTo a s n = .error f) : ∀ m, n ≤ m → runUpTo a s m = .error f := by
  intro m hm
  induction m with
  | zero =>
    have : n = 0 := Nat.le_zero.mp hm
    subst this; exact h
  | succ m ih =>
    rcases Nat.lt_or_ge n (m + 1) with hlt | hge
    · have := ih (Nat.lt_succ_iff.mp hlt)
      rw [runUpTo_succ, bind_of_error this]
    · have : n = m + 1 := Nat.le_antisymm hm hge
      subst this; exact h

theorem stateAt_succ (a : Args) (n : Nat) :
    stateAt a (n + 1) = (stateAt a n >>= groupStep a n) := by
  unfold stateAt
  cases preamble a with
  | error f => rfl
  | ok s0 => rfl

theorem stateAt_zero (a : Args) : stateAt a 0 = preamble a := by
  unfold stateAt
  cases preamble a with
  | error f => rfl
  | ok s0 => rfl

theorem stateAt_error_mono {a : Args} {n : Nat} {f : Failure}
    (h : stateAt a n = .error f) : ∀ m, n ≤ m → stateAt a m = .error f := by
  intro m hm
  unfold stateAt at h ⊢
  cases hp : preamble a with
  | error f0 =>
    rw [hp] at h
    exact h
  | ok s0 =>
    rw [hp] at h
    exact runUpTo_error_mono h m hm

/-- A run that reaches group `m` reached every earlier group. -/
theorem stateAt_ok_of_le {a : Args} {m : Nat} {s : State} (h : stateAt a m = .ok s) :
    ∀ n, n ≤ m → ∃ s1, stateAt a n = .ok s1 := by
  intro n hn
  cases h1 : stateAt a n with
  | error f =>
    have := stateAt_error_mono h1 m hn
    rw [this] at h; cases h
  | ok s1 => exact ⟨s1, rfl⟩

/-- A group whose iteration raises an error makes `dogroups` fail with that
error. -/
theorem dogroups_error_of_step {a : Args} {i : Nat} {s : State} {f : Failure}
    (hi : i < a.ngrp) (hs : stateAt a i = .ok s) (hstep : groupStep a i s = .error f) :
    dogroups a = .error f := by
  have h1 : stateAt a (i + 1) = .error f := by
    rw [stateAt_succ, bind_of_ok hs]; exact hstep
  have h2 := stateAt_error_mono h1 a.ngrp hi
  unfold dogroups
  rw [bind_of_error h2]

theorem wsAt_eq_some {a : Args} {i : Nat} {ws : WorkingSet} (h : wsAt a i = some ws) :
    ∃ s, stateAt a i = .ok s ∧ evaluated a i s = true ∧ populate a s.dt i s.ws = .ok ws := by
  unfold wsAt at h
  cases hs : stateAt a i with
  | error f => simp [hs] at h
  | ok s =>
    simp only [hs] at h
    by_cases he : evaluated a i s = true
    · simp only [he, if_true] at h
      cases hp : populate a s.dt i s.ws with
      | error e => simp [hp] at h
      | ok w =>
        simp only [hp, Option.some.injEq] at h
        exact ⟨s, rfl, he, h ▸ hp⟩
    · simp [he] at h

theorem wsAt_of_state {a : Args} {i : Nat} {s : State} {ws : WorkingSet}
    (hs : stateAt a i = .ok s) (he : evaluated a i s = true)
    (hp : populate a s.dt i s.ws = .ok ws) : wsAt a i = some ws := by
  unfold wsAt
  simp [hs, he, hp]

theorem jvalAt_eq_some {a : Args} {i : Nat} {jv : SEXP} (h : jvalAt a i = some jv) :
    ∃ s ws, stateAt a i = .ok s ∧ evaluated a i s = true ∧
      populate a s.dt i s.ws = .ok ws ∧ jv = evalJ a ws := by
  unfold jvalAt at h
  cases hw : wsAt a i with
  | none => simp [hw] at h
  | some ws =>
    simp only [hw, Option.map_some', Option.some.injEq] at h
    obtain ⟨s, h1, h2, h3⟩ := wsAt_eq_some hw
    exact ⟨s, ws, h1, h2, h3, h.symm⟩

/-- When the loop reaches the evaluation of group `i`, the iteration is the
code after `eval`. -/
theorem groupStep_of_evaluated {a : Args} {i : Nat} {s : State} {ws : WorkingSet}
    (he : evaluated a i s = true) (hp : populate a s.dt i s.ws = .ok ws) :
    groupStep a i s = afterEval a i s ws (evalJ a ws) := by
  unfold groupStep
  rw [if_pos he, hp]
  rfl

theorem groupStep_of_skipped {a : Args} {i : Nat} {s : State}
    (he : evaluated a i s = false) : groupStep a i s = .ok s := by
  unfold groupStep
  simp [he]

theorem dogroups_error_of_shape {a : Args} {i : Nat} {jv : SEXP} {e : Err}
    (hi : i < a.ngrp) (hj : jvalAt a i = some jv) (he : shape a i jv = .error e) :
    ∃ f, dogroups a = .error f ∧ f.err = e := by
  obtain ⟨s, ws, h1, h2, h3, h4⟩ := jvalAt_eq_some hj
  subst h4
  refine ⟨⟨e, s.dt⟩, ?_, rfl⟩
  apply dogroups_error_of_step hi h1
  rw [groupStep_of_evaluated h2 h3]
  unfold afterEval
  rw [he]
  rfl

/-! ## Shape of the result -/

theorem checkEntries_error (i : Nat) (items : List Item) :
    ∀ k, (∃ it ∈ items, isNull it.toSEXP = false ∧ badEntry it.toSEXP = true) →
      ∃ e, checkEntries i k items = .error e ∧ e.isShape = true := by
  induction items with
  | nil => intro k h; obtain ⟨it, hm, _⟩ := h; cases hm
  | cons hd tl ih =>
    intro k h
    unfold checkEntries
    by_cases hn : isNull hd.toSEXP = true
    · simp only [hn, if_true]
      apply ih
      obtain ⟨it, hm, h1, h2⟩ := h
      rcases List.mem_cons.mp hm with rfl | hm
      · rw [hn] at h1; cases h1
      · exact ⟨it, hm, h1, h2⟩
    · simp only [hn]
      by_cases hb1 : (!isVector hd.toSEXP || isDataFrame hd.toSEXP) = true
      · simp only [hb1, if_true]
        exact ⟨_, rfl, rfl⟩
      · simp only [hb1]
        by_cases hb2 : (isArray hd.toSEXP &&
            decide (1 < nDimensions (getAttrib hd.toSEXP "dim"))) = true
        · simp only [hb2, if_true]
          exact ⟨_, rfl, rfl⟩
        · simp only [hb2]
          have hbad : badEntry hd.toSEXP = false := by
            unfold badEntry
            simp only [Bool.not_eq_true] at hb1 hb2
            rw [hb1, hb2]; rfl
          obtain ⟨it, hm, h1, h2⟩ := h
          rcases List.mem_cons.mp hm with rfl | hm
          · rw [hbad] at h2; cases h2
          · simpa using ih (k + 1) ⟨it, hm, h1, h2⟩

theorem getI_mem {xs : List Item} {j : Nat} (h : j < xs.length) : getI xs (j : Int) ∈ xs := by
  unfold getI
  have : ¬ ((j : Int) < 0) := by omega
  simp only [this, if_false, Int.toNat_ofNat]
  rw [List.getD_eq_getElem _ _ h]
  exact List.getElem_mem h

theorem shape_error_of_bad (a : Args) (i : Nat) (jv : SEXP)
    (hsym : a.jexpIsSymbolOtherThanSD = false) (hnn : isNull jv = false)
    (hbad : (isVectorAtomic jv = false ∧ isNewList jv = false) ∨
      (isVectorAtomic jv = false ∧ ∃ j : Nat, j < LENGTH jv ∧
        isNull (VECTOR_ELT jv j) = false ∧ badEntry (VECTOR_ELT jv j) = true)) :
    ∃ e, shape a i jv = .error e ∧ e.isShape = true := by
  unfold shape
  rcases hbad with ⟨h1, h2⟩ | ⟨h1, j, hj, hn, hb⟩
  · simp [hnn, hsym, h1, h2, Err.isShape]
  · simp only [hnn, hsym, h1, Bool.or_self, Bool.false_eq_true, if_false]
    by_cases hl : isNewList jv = true
    · have hlen : ¬ (LENGTH jv = 0) := by omega
      simp only [hl, Bool.not_true, Bool.false_eq_true, if_false, hlen]
      obtain ⟨e, he, hs⟩ := checkEntries_error i jv.items 0
        ⟨getI jv.items j, getI_mem hj, hn, hb⟩
      exact ⟨e, by rw [bind_of_error he], hs⟩
    · simp [hl, Err.isShape]

/-- C8 (amended): when the expression is not a bare symbol other than `.SD`, a
group whose evaluated result is not NULL makes `dogroups` fail with a fatal
shape error if the result is neither an atomic vector nor a list, or if it is
a list with a non-NULL entry that is not a vector, is a data frame, or is an
array with more than one dimension of extent greater than 1. -/
theorem C8_shape_error_is_fatal (a : Args) (i : Nat) (jv : SEXP)
    (hsym : a.jexpIsSymbolOtherThanSD = false) (hi : i < a.ngrp)
    (hj : jvalAt a i = some jv) (hnn : isNull jv = false)
    (hbad : (isVectorAtomic jv = false ∧ isNewList jv = false) ∨
      (isNewList jv = true ∧ ∃ j : Nat, j < LENGTH jv ∧
        isNull (VECTOR_ELT jv j) = false ∧ badEntry (VECTOR_ELT jv j) = true)) :
    ∃ f, dogroups a = .error f ∧ f.err.isShape = true := by
  have hbad2 : (isVectorAtomic jv = false ∧ isNewList jv = false) ∨
      (isVectorAtomic jv = false ∧ ∃ j : Nat, j < LENGTH jv ∧
        isNull (VECTOR_ELT jv j) = false ∧ badEntry (VECTOR_ELT jv j) = true) := by
    rcases hbad with h | ⟨hl, h⟩
    · exact Or.inl h
    · refine Or.inr ⟨?_, h⟩
      unfold isNewList at hl
      unfold isNull at hnn
      unfold isVectorAtomic
      simp only [hnn, Bool.false_or, beq_iff_eq] at hl
      rw [hl]; rfl
  obtain ⟨e, he, hs⟩ := shape_error_of_bad a i jv hsym hnn hbad2
  obtain ⟨f, hf, hfe⟩ := dogroups_error_of_shape hi hj he
  exact ⟨f, hf, by rw [hfe]; exact hs⟩

/-- C8, witness: `j = list(<data frame>)` is rejected for the first group. -/
theorem C8_witness :
    ∃ f, dogroups c8FrameArgs = .error f ∧ f.err.isShape = true := by
  obtain ⟨jv, hj, hp⟩ := exists_of_check (o := jvalAt c8FrameArgs 0)
    (p := fun jv => !isNull jv && isNewList jv && decide (0 < LENGTH jv) &&
      !isNull (VECTOR_ELT jv 0) && badEntry (VECTOR_ELT jv 0)) (by decide!)
  simp only [Bool.and_eq_true, Bool.not_eq_true', decide_eq_true_eq] at hp
  obtain ⟨⟨⟨⟨h1, h2⟩, h3⟩, h4⟩, h5⟩ := hp
  exact C8_shape_error_is_fatal c8FrameArgs 0 jv (by decide!) (by decide!) hj h1
    (Or.inr ⟨h2, 0, h3, h4, h5⟩)

/-- C8, counterexample: a result that is a list holding a data frame is accepted
when `j` is a bare symbol other than `.SD` (the result is wrapped as one
column without looking at its entries), and a list result with a NULL entry,
which is not a vector, is accepted for a later group. -/
theorem C8_counterexample :
    (∃ jv, jvalAt c8SymbolArgs 0 = some jv ∧
      (!isNull jv && isNewList jv && decide (0 < LENGTH jv) &&
        badEntry (VECTOR_ELT jv 0)) = true) ∧
    (dogroups c8SymbolArgs).isOk = true ∧
    (∃ jv, jvalAt c8NullArgs 1 = some jv ∧
      (!isNull jv && isNewList jv && decide (1 < LENGTH jv) &&
        !isVector (VECTOR_ELT jv 1)) = true) ∧
    (dogroups c8NullArgs).isOk = true :=
  ⟨exists_of_check (by decide!), by decide!, exists_of_check (by decide!), by decide!⟩

/-! ## Loops over columns -/

theorem forCols_ok {α β : Type} (f : Nat → α → Except Err β)
    (h : ∀ j x, ∃ y, f j x = .ok y) : ∀ (xs : List α) (k : Nat), ∃ ys, forCols f k xs = .ok ys := by
  intro xs
  induction xs with
  | nil => intro k; exact ⟨[], rfl⟩
  | cons x xs ih =>
    intro k
    obtain ⟨y, hy⟩ := h k x
    obtain ⟨ys, hys⟩ := ih (k + 1)
    exact ⟨y :: ys, by simp [forCols, hy, hys]⟩

theorem forCols_length {α β : Type} (f : Nat → α → Except Err β) :
    ∀ (xs : List α) (k : Nat) (ys : List β), forCols f k xs = .ok ys → ys.length = xs.length := by
  intro xs
  induction xs with
  | nil => intro k ys h; simp [forCols] at h; subst h; rfl
  | cons x xs ih =>
    intro k ys h
    unfold forCols at h
    cases hy : f k x with
    | error e => simp [hy] at h
    | ok y =>
      simp only [hy] at h
      cases hys : forCols f (k + 1) xs with
      | error e => simp [hys] at h
      | ok ys1 =>
        simp only [hys, Except.ok.injEq] at h
        subst h
        simp [ih (k + 1) ys1 hys]

theorem forCols_get {α β : Type} (f : Nat → α → Except Err β) :
    ∀ (xs : List α) (k : Nat) (ys : List β), forCols f k xs = .ok ys →
      ∀ (j : Nat) (hj : j < xs.length) (hj2 : j < ys.length),
        f (k + j) (xs.get ⟨j, hj⟩) = .ok (ys.get ⟨j, hj2⟩) := by
  intro xs
  induction xs with
  | nil => intro k ys _ j hj; simp at hj
  | cons x xs ih =>
    intro k ys h j hj hj2
    unfold forCols at h
    cases hy : f k x with
    | error e => simp [hy] at h
    | ok y =>
      simp only [hy] at h
      cases hys : forCols f (k + 1) xs with
      | error e => simp [hys] at h
      | ok ys1 =>
        simp only [hys, Except.ok.injEq] at h
        subst h
        cases j with
        | zero => simpa using hy
        | succ j =>
          have := ih (k + 1) ys1 hys j (by simpa using hj) (by simpa using hj2)
          simp only [List.get_eq_getElem, List.getElem_cons_succ] at this ⊢
          rw [← this]
          congr 1
          omega

theorem forCols_error {α β : Type} (f : Nat → α → Except Err β) :
    ∀ (xs : List α) (k : Nat) (j : Nat) (hj : j < xs.length),
      (∃ e, f (k + j) (xs.get ⟨j, hj⟩) = .error e) → ∃ e, forCols f k xs = .error e := by
  intro xs
  induction xs with
  | nil => intro k j hj; simp at hj
  | cons x xs ih =>
    intro k j hj he
    unfold forCols
    cases hy : f k x with
    | error e => exact ⟨e, rfl⟩
    | ok y =>
      simp only
      cases j with
      | zero =>
        obtain ⟨e, he⟩ := he
        simp [hy] at he
      | succ j =>
        have hj' : j < xs.length := by simpa using hj
        have : ∃ e, f (k + 1 + j) (xs.get ⟨j, hj'⟩) = .error e := by
          obtain ⟨e, he⟩ := he
          refine ⟨e, ?_⟩
          simp only [List.get_eq_getElem, List.getElem_cons_succ] at he ⊢
          rw [← he]; congr 1; omega
        obtain ⟨e, he2⟩ := ih (k + 1) j hj' this
        exact ⟨e, by simp [he2]⟩

/-! ## `memrecycle` cannot fail when the lengths agree -/

theorem memrecycle_ok (target : SEXP) (wher : List Int) (start len : Int) (source : SEXP)
    (sourceStart sourceLen : Int) (h : sourceLen = 1 ∨ sourceLen = len) :
    ∃ t, memrecycle target wher start len source sourceStart sourceLen = .ok t := by
  unfold memrecycle
  by_cases h1 : len < 1
  · simp [h1]
  · simp only [h1, if_false]
    rcases h with h | h
    · subst h
      simp
    · subst h
      have h0 : 0 ≤ sourceLen := by omega
      have h3 : ((sourceLen.toNat : Int)) = sourceLen := Int.toNat_of_nonneg h0
      simp only [h0, if_true, h3, ne_eq, not_true_eq_false, and_false, if_false]
      by_cases h2 : sourceLen.toNat = 0
      · simp [h2]
      · simp [h2]

theorem Buffer.update_ok (b : Buffer) (f : SEXP → Except Err SEXP)
    (h : ∃ t, f b.store = .ok t) : ∃ b1, b.update f = .ok b1 := by
  obtain ⟨t, ht⟩ := h
  exact ⟨{ b with store := t }, by simp [Buffer.update, ht, Except.map]⟩

theorem fillISD_ok (a : Args) (i : Nat) (iSD : List SEXP) :
    ∃ r, fillISD a i iSD = .ok r := by
  unfold fillISD
  by_cases hc : iSD.length ≠ 0 ∧ length (getS iSD 0) ≠ 0
  · rw [if_pos hc]
    exact forCols_ok _ (fun j x => memrecycle_ok _ _ _ _ _ _ _ (Or.inl rfl)) iSD 0
  · rw [if_neg hc]; exact ⟨_, rfl⟩

theorem fillBY_ok (a : Args) (i : Nat) (BY : List Buffer) :
    ∃ r, fillBY a i BY = .ok r := by
  unfold fillBY
  by_cases hc : 0 ≤ igrpOf a i ∧ a.nrowgroups ≠ 0
  · rw [if_pos hc]
    exact forCols_ok _ (fun j x => Buffer.update_ok x _
      (memrecycle_ok _ _ _ _ _ _ _ (Or.inl rfl))) BY 0
  · rw [if_neg hc]; exact ⟨_, rfl⟩

theorem populateHead_ok (a : Args) (i : Nat) (ws : WorkingSet) :
    ∃ ws1, populateHead a i ws = .ok ws1 := by
  unfold populateHead
  obtain ⟨iSD, h1⟩ := fillISD_ok a i ws.iSD
  obtain ⟨BY, h2⟩ := fillBY_ok a i ws.BY
  rw [bind_of_ok h1, bind_of_ok h2]
  exact ⟨_, rfl⟩

theorem populateContiguous_ok (a : Args) (dt : Table) (i : Nat) (ws : WorkingSet) :
    ∃ ws1, populateContiguous a dt i ws = .ok ws1 := by
  unfold populateContiguous
  by_cases hr : 0 ≤ rownumOf a i
  · rw [if_pos hr]
    obtain ⟨ys, hys⟩ := forCols_ok (fun (j : Nat) (b : Buffer) => b.update (fun st =>
        memrecycle st [] 0 (getInt a.lens i) (getS dt.cols (getInt a.dtcols j - 1))
          (rownumOf a i) (getInt a.lens i)))
        (fun j x => Buffer.update_ok x _ (memrecycle_ok _ _ _ _ _ _ _ (Or.inr rfl))) ws.SDall 0
    obtain ⟨zs, hzs⟩ := forCols_ok (fun (j : Nat) (col : SEXP) =>
        memrecycle col [] 0 1 (getS dt.cols (getInt (a.xjiscols.getD []) j - 1))
          (rownumOf a i) 1)
        (fun j x => memrecycle_ok _ _ _ _ _ _ _ (Or.inl rfl)) ws.xSD 0
    rw [bind_of_ok hys, bind_of_ok hzs]
    exact ⟨_, rfl⟩
  · rw [if_neg hr]; exact ⟨_, rfl⟩

/-- Filling the working set never fails. -/
theorem populate_ok (a : Args) (dt : Table) (i : Nat) (ws : WorkingSet) :
    ∃ ws1, populate a dt i ws = .ok ws1 := by
  unfold populate
  obtain ⟨ws2, h2⟩ := populateHead_ok a i ws
  rw [bind_of_ok h2]
  by_cases hn : noMatch a i = true
  · rw [if_pos hn]; exact ⟨_, rfl⟩
  · rw [if_neg hn]
    by_cases ho : a.order.length = 0
    · rw [if_pos ho]; exact populateContiguous_ok a dt i ws2
    · rw [if_neg ho]; exact ⟨_, rfl⟩

/-- What filling the working set does, field by field. -/
theorem populateHead_eq {a : Args} {i : Nat} {ws ws1 : WorkingSet}
    (h : populateHead a i ws = .ok ws1) :
    ∃ iSD BY, fillISD a i ws.iSD = .ok iSD ∧ fillBY a i ws.BY = .ok BY ∧
      ws1 = { ws with
        N := ws.N.setInt 0 (nOf a i)
        GRP := ws.GRP.setInt 0 ((i : Int) + 1)
        rownames := -(getInt a.lens i)
        SDall := ws.SDall.map (fun b => b.SETLENGTH (getInt a.lens i))
        iSD := iSD
        BY := BY } := by
  unfold populateHead at h
  obtain ⟨iSD, h1, h⟩ := (bind_ok_iff _ _ _).mp h
  obtain ⟨BY, h2, h⟩ := (bind_ok_iff _ _ _).mp h
  injection h with h
  exact ⟨iSD, BY, h1, h2, h.symm⟩

theorem populate_eq {a : Args} {dt : Table} {i : Nat} {ws ws1 : WorkingSet}
    (h : populate a dt i ws = .ok ws1) :
    ∃ ws2, populateHead a i ws = .ok ws2 ∧
      ((noMatch a i = true ∧ ws1 = populateNoMatch ws2) ∨
       (noMatch a i = false ∧ a.order.length = 0 ∧ populateContiguous a dt i ws2 = .ok ws1) ∨
       (noMatch a i = false ∧ a.order.length ≠ 0 ∧ ws1 = populateGather a dt i ws2)) := by
  unfold populate at h
  obtain ⟨ws2, h2, h⟩ := (bind_ok_iff _ _ _).mp h
  refine ⟨ws2, h2, ?_⟩
  by_cases hn : noMatch a i = true
  · rw [if_pos hn] at h
    injection h with h
    exact Or.inl ⟨hn, h.symm⟩
  · rw [if_neg hn] at h
    have hn' : noMatch a i = false := by simpa using hn
    by_cases ho : a.order.length = 0
    · rw [if_pos ho] at h
      exact Or.inr (Or.inl ⟨hn', ho, h⟩)
    · rw [if_neg ho] at h
      injection h with h
      exact Or.inr (Or.inr ⟨hn', ho, h.symm⟩)

theorem populateContiguous_eq {a : Args} {dt : Table} {i : Nat} {ws ws1 : WorkingSet}
    (h : populateContiguous a dt i ws = .ok ws1) :
    ∃ SDall xSD, ws1 = { ws with I := fillIContiguous a i ws.I, SDall := SDall, xSD := xSD } ∧
      ((0 ≤ rownumOf a i ∧
        forCols (fun (j : Nat) (b : Buffer) => b.update (fun st =>
          memrecycle st [] 0 (getInt a.lens i) (getS dt.cols (getInt a.dtcols j - 1))
            (rownumOf a i) (getInt a.lens i))) 0 ws.SDall = .ok SDall) ∨
       (rownumOf a i < 0 ∧ SDall = ws.SDall ∧ xSD = ws.xSD)) := by
  unfold populateContiguous at h
  by_cases hr : 0 ≤ rownumOf a i
  · rw [if_pos hr] at h
    obtain ⟨SDall, h1, h⟩ := (bind_ok_iff _ _ _).mp h
    obtain ⟨xSD, h2, h⟩ := (bind_ok_iff _ _ _).mp h
    injection h with h
    exact ⟨SDall, xSD, h.symm, Or.inl ⟨hr, h1⟩⟩
  · rw [if_neg hr] at h
    injection h with h
    exact ⟨ws.SDall, ws.xSD, h.symm, Or.inr ⟨by omega, rfl, rfl⟩⟩

/-! ## `.N` and `.GRP` along the run -/

theorem intBuf_setInt (x : Item) (v : Int) : (intBuf x).setInt 0 v = intBuf (intItem v) := by
  simp [intBuf, Buffer.setInt, SEXP.items, SEXP.node, SEXPTYPE.isVector, setI, SEXP.withItems]

theorem intBuf_view (x : Item) : (intBuf x).view = .vec .INTSXP [x] [] (-1) false := by
  simp [intBuf, Buffer.view, SEXP.items, SEXP.node, SEXPTYPE.isVector, SEXP.withItems]

theorem populate_N {a : Args} {dt : Table} {i : Nat} {ws ws1 : WorkingSet}
    (h : populate a dt i ws = .ok ws1) :
    ws1.N = ws.N.setInt 0 (nOf a i) ∧ ws1.GRP = ws.GRP.setInt 0 ((i : Int) + 1) := by
  obtain ⟨ws2, h2, h3⟩ := populate_eq h
  obtain ⟨iSD, BY, _, _, e2⟩ := populateHead_eq h2
  rcases h3 with ⟨_, e⟩ | ⟨_, _, e⟩ | ⟨_, _, e⟩
  · subst e; subst e2; exact ⟨rfl, rfl⟩
  · obtain ⟨SDall, xSD, e, _⟩ := populateContiguous_eq e
    subst e; subst e2; exact ⟨rfl, rfl⟩
  · subst e; subst e2; exact ⟨rfl, rfl⟩

theorem aggStep_ws {a : Args} {i : Nat} {s s1 : State} {ws : WorkingSet} {jval : SEXP}
    (h : aggStep a i s ws jval = .ok s1) : s1.ws = ws ∧ s1.dt = s.dt := by
  unfold aggStep at h
  by_cases hc : njvalOf s jval ≠ LENGTH jval
  · rw [if_pos hc] at h; cases h
  · rw [if_neg hc] at h
    obtain ⟨r, _, h⟩ := (bind_ok_iff _ _ _).mp h
    obtain ⟨keys, _, h⟩ := (bind_ok_iff _ _ _).mp h
    obtain ⟨res, _, h⟩ := (bind_ok_iff _ _ _).mp h
    injection h with h
    subst h
    exact ⟨rfl, rfl⟩

theorem afterEval_ws {a : Args} {i : Nat} {s s1 : State} {ws : WorkingSet} {jv : SEXP}
    (h : afterEval a i s ws jv = .ok s1) : s1.ws = ws := by
  unfold afterEval at h
  obtain ⟨r, _, h⟩ := (bind_ok_iff _ _ _).mp h
  cases r with
  | none =>
    injection h with h; subst h; rfl
  | some jval =>
    simp only at h
    cases hl : a.lhs with
    | none =>
      simp only [hl] at h
      exact (aggStep_ws ((withDt_ok_iff _ _ _).mp h)).1
    | some lhs =>
      simp only [hl] at h
      obtain ⟨dt, _, h⟩ := (bind_ok_iff _ _ _).mp h
      injection h with h; subst h; rfl

/-- What an iteration that succeeds does to the working set: nothing (the group
is skipped), or the working set is the one filled for the group. -/
theorem groupStep_ws {a : Args} {i : Nat} {s s1 : State} (h : groupStep a i s = .ok s1) :
    (evaluated a i s = false ∧ s1 = s) ∨
      (evaluated a i s = true ∧ populate a s.dt i s.ws = .ok s1.ws) := by
  by_cases he : evaluated a i s = true
  · right
    obtain ⟨ws, hp⟩ := populate_ok a s.dt i s.ws
    rw [groupStep_of_evaluated he hp] at h
    rw [afterEval_ws h]
    exact ⟨he, hp⟩
  · left
    have he' : evaluated a i s = false := by simpa using he
    rw [groupStep_of_skipped he'] at h
    injection h with h
    exact ⟨he', h.symm⟩

/-- What the preamble allocates. -/
theorem initWS_eq {a : Args} {ws : WorkingSet} (h : initWS a = .ok ws) :
    ∃ BY SDall, forCols (fun (_ : Nat) (g : Int) => initBY a g) 0 a.grpcols = .ok BY ∧
      forCols (fun (j : Nat) (this : SEXP) => initSD a j this) 0 a.SDall = .ok SDall ∧
      ws = { SDall := SDall
             BY := BY
             I := { store := .vec .INTSXP (List.replicate a.maxGrpSize.toNat .uninit) []
                               (-a.maxGrpSize) false,
                    len := a.maxGrpSize.toNat }
             N := { store := .vec .INTSXP [.uninit] [] (-1) false, len := 1 }
             GRP := { store := .vec .INTSXP [.uninit] [] (-1) false, len := 1 }
             rownames := 0
             iSD := a.iSD
             xSD := a.xSD } := by
  unfold initWS at h
  obtain ⟨BY, h1, h⟩ := (bind_ok_iff _ _ _).mp h
  by_cases c1 : a.jiscols.isNone ∧ a.grpcols.length ≠ a.groups.length
  · rw [if_pos c1] at h; cases h
  · rw [if_neg c1] at h
    obtain ⟨SDall, h2, h⟩ := (bind_ok_iff _ _ _).mp h
    by_cases c2 : a.iSD.length ≠ (a.jiscols.getD []).length
    · rw [if_pos c2] at h; cases h
    · rw [if_neg c2] at h
      by_cases c3 : a.xSD.length ≠ (a.xjiscols.getD []).length
      · rw [if_pos c3] at h; cases h
      · rw [if_neg c3] at h
        injection h with h
        exact ⟨BY, SDall, h1, h2, h.symm⟩

theorem initWS_counters {a : Args} {ws : WorkingSet} (h : initWS a = .ok ws) : CountersOK ws := by
  obtain ⟨BY, SDall, _, _, e⟩ := initWS_eq h
  subst e
  exact ⟨⟨_, rfl⟩, ⟨_, rfl⟩⟩

theorem populate_counters {a : Args} {dt : Table} {i : Nat} {ws ws1 : WorkingSet}
    (h : populate a dt i ws = .ok ws1) (hc : CountersOK ws) :
    ws1.N = intBuf (intItem (nOf a i)) ∧ ws1.GRP = intBuf (intItem ((i : Int) + 1)) := by
  obtain ⟨⟨x, hx⟩, ⟨y, hy⟩⟩ := hc
  obtain ⟨h1, h2⟩ := populate_N h
  rw [h1, h2, hx, hy, intBuf_setInt, intBuf_setInt]
  exact ⟨rfl, rfl⟩

theorem preamble_eq {a : Args} {s : State} (h : preamble a = .ok s) :
    ∃ ws, initWS a = .ok ws ∧ s = initState a ws := by
  unfold preamble at h
  by_cases c1 : a.jiscols.isSome ∧ a.order.length ≠ 0 ∧ ¬ a.on_
  · rw [if_pos c1] at h; cases h
  · rw [if_neg c1] at h
    by_cases c2 : a.xjiscols.isSome ∧ a.order.length ≠ 0 ∧ ¬ a.on_
    · rw [if_pos c2] at h; cases h
    · rw [if_neg c2] at h
      obtain ⟨ws, h1, h⟩ := (bind_ok_iff _ _ _).mp h
      injection h with h
      exact ⟨ws, (withDt_ok_iff _ _ _).mp h1, h.symm⟩

theorem preamble_counters {a : Args} {s : State} (h : preamble a = .ok s) : CountersOK s.ws := by
  obtain ⟨ws, h1, e⟩ := preamble_eq h
  subst e
  exact initWS_counters h1

theorem runUpTo_counters {a : Args} {s0 : State} (h0 : CountersOK s0.ws) :
    ∀ (n : Nat) (s : State), runUpTo a s0 n = .ok s → CountersOK s.ws := by
  intro n
  induction n with
  | zero => intro s h; simp [runUpTo] at h; subst h; exact h0
  | succ n ih =>
    intro s h
    rw [runUpTo_succ] at h
    obtain ⟨s1, h1, h⟩ := (bind_ok_iff _ _ _).mp h
    rcases groupStep_ws h with ⟨_, hw⟩ | ⟨_, hw⟩
    · rw [hw]; exact ih s1 h1
    · obtain ⟨hN, hG⟩ := populate_counters hw (ih s1 h1)
      exact ⟨⟨_, hN⟩, ⟨_, hG⟩⟩

theorem stateAt_counters {a : Args} {i : Nat} {s : State} (h : stateAt a i = .ok s) :
    CountersOK s.ws := by
  unfold stateAt at h
  obtain ⟨s0, hp, h⟩ := (bind_ok_iff _ _ _).mp h
  exact runUpTo_counters (preamble_counters hp) i s h

/-! ## What the expression sees of `.N` -/

theorem wsAt_N {a : Args} {i : Nat} {ws : WorkingSet} (h : wsAt a i = some ws) :
    ws.N.view = .vec .INTSXP [intItem (nOf a i)] [] (-1) false := by
  obtain ⟨s, hs, _, hp⟩ := wsAt_eq_some h
  obtain ⟨hN, _⟩ := populate_counters hp (stateAt_counters hs)
  rw [hN, intBuf_view]

theorem evaluated_of_NA_start {a : Args} {i : Nat} {s : State} (hagg : a.lhs = none)
    (hna : getInt a.starts i = NA_INTEGER) : evaluated a i s = true := by
  unfold evaluated skipEmpty
  rw [hna, hagg]
  rfl

/-- C9 (amended): in aggregation mode, a group whose start is NA is evaluated
with the row count `.N` equal to 0; a group whose start is not NA is evaluated
with `.N` equal to the length the plan records for it, also when the entry of
the permutation at its start is NA. -/
theorem C9_N_of_no_match (a : Args) (i : Nat) (s : State) (hagg : a.lhs = none)
    (hs : stateAt a i = .ok s) :
    (getInt a.starts i = NA_INTEGER →
      ∃ ws, wsAt a i = some ws ∧ ws.N.view = .vec .INTSXP [.int 0] [] (-1) false) ∧
    (getInt a.starts i ≠ NA_INTEGER →
      ∀ ws, wsAt a i = some ws →
        ws.N.view = .vec .INTSXP [intItem (getInt a.lens i)] [] (-1) false) := by
  constructor
  · intro hna
    obtain ⟨ws, hp⟩ := populate_ok a s.dt i s.ws
    have hw := wsAt_of_state hs (evaluated_of_NA_start hagg hna) hp
    refine ⟨ws, hw, ?_⟩
    rw [wsAt_N hw]
    simp [nOf, hna, intItem]
  · intro hna ws hw
    rw [wsAt_N hw]
    simp [nOf, hna]

/-- The run of a concrete input reaches group `i`. -/
theorem exists_state_of_isOk {a : Args} {i : Nat} (h : (stateAt a i).isOk = true) :
    ∃ s, stateAt a i = .ok s := by
  cases hs : stateAt a i with
  | error f => rw [hs] at h; cases h
  | ok s => exact ⟨s, rfl⟩

/-- C9, witness: in the join of `joinArgs`, the second key row matches nothing
and `.N` is 0 there. -/
theorem C9_witness :
    ∃ ws, wsAt (joinArgs 1 (fun ws => ws.N.view)) 1 = some ws ∧
      ws.N.view = .vec .INTSXP [.int 0] [] (-1) false := by
  obtain ⟨s, hs⟩ := exists_state_of_isOk (a := joinArgs 1 (fun ws => ws.N.view)) (i := 1)
    (by decide!)
  exact (C9_N_of_no_match (joinArgs 1 (fun ws => ws.N.view)) 1 s rfl hs).1 (by decide!)

/-- C9, counterexample: a group of rows asked for with NA indices is a no-match
group in the sense of the claim (the entry of the permutation at its start is
NA), it is evaluated in aggregation mode, and `.N` is 2 there, not 0. -/
theorem C9_counterexample :
    c9PermArgs.lhs = none ∧ noMatch c9PermArgs 0 = true ∧
      ∃ ws, wsAt c9PermArgs 0 = some ws ∧
        ws.N.view = .vec .INTSXP [.int 2] [] (-1) false := by
  refine ⟨rfl, by decide!, ?_⟩
  obtain ⟨ws, hw, hp⟩ := exists_of_check (o := wsAt c9PermArgs 0)
    (p := fun ws => SEXP.beq ws.N.view (.vec .INTSXP [.int 2] [] (-1) false)) (by decide!)
  exact ⟨ws, hw, sexp_beq_eq _ _ hp⟩

/-! ## What the expression sees of `.SD` for a no-match group -/

/-- C10, the code at the failing input: the second group of `joinArgs 2` has an
NA start and a recorded length of 2.  The expression sees `.I` with logical
length 1, but the `.SD` column with logical length 2, whose second element is
the value 2 left over from the previous group. -/
theorem C10_stale_row_in_SD :
    noMatch (joinArgs 2 (fun ws => ws.N.view)) 1 = true ∧
    ∃ ws, wsAt (joinArgs 2 (fun ws => ws.N.view)) 1 = some ws ∧
      LENGTH ws.I.view = 1 ∧
      ws.view (.SD 0) = .vec .INTSXP [.na, .int 2] [] (-2) false := by
  refine ⟨by decide!, ?_⟩
  obtain ⟨ws, hw, hp⟩ := exists_of_check (o := wsAt (joinArgs 2 (fun ws => ws.N.view)) 1)
    (p := fun ws => decide (LENGTH ws.I.view = 1) &&
      SEXP.beq (ws.view (.SD 0)) (.vec .INTSXP [.na, .int 2] [] (-2) false)) (by decide!)
  simp only [Bool.and_eq_true, decide_eq_true_eq] at hp
  exact ⟨ws, hw, hp.1, sexp_beq_eq _ _ hp.2⟩

/-! ## Writing a run of elements into an array -/

theorem setI_nat (xs : List Item) (i : Nat) (v : Item) : setI xs (i : Int) v = xs.set i v := by
  unfold setI
  have : ¬ ((i : Int) < 0) := by omega
  simp [this]

theorem getI_nat (xs : List Item) (i : Nat) : getI xs (i : Int) = xs.getD i .uninit := by
  unfold getI
  have : ¬ ((i : Int) < 0) := by omega
  simp [this]

/-- Writing `g 0, ..., g (n-1)` at positions `start, ..., start+n-1` of an array
that is long enough replaces exactly that run. -/
theorem foldl_set_range (g : Nat → Item) (start : Nat) :
    ∀ (n : Nat) (tgt : List Item), start + n ≤ tgt.length →
      (List.range n).foldl (fun (t : List Item) (k : Nat) => t.set (start + k) (g k)) tgt =
        tgt.take start ++ (List.range n).map g ++ tgt.drop (start + n) := by
  intro n
  induction n with
  | zero => intro tgt _; simp
  | succ n ih =>
    intro tgt h
    rw [List.range_succ, List.foldl_append, ih tgt (by omega)]
    simp only [List.foldl_cons, List.foldl_nil, List.map_append, List.map_cons, List.map_nil]
    have hlen : (tgt.take start ++ (List.range n).map g).length = start + n := by
      simp; omega
    rw [show start + n = (tgt.take start ++ (List.range n).map g).length + 0 by omega]
    rw [List.set_append_right _ _ (by omega)]
    simp only [Nat.add_sub_cancel_left, List.append_assoc]
    congr 1
    congr 1
    have hd : tgt.drop (start + n) = tgt[start + n] :: tgt.drop (start + n + 1) := by
      rw [List.drop_eq_getElem_cons (by omega)]
    rw [hlen, Nat.add_zero, hd]
    simp [Nat.add_assoc]

theorem foldl_setI_range (g : Nat → Item) (start : Nat) (n : Nat) (tgt : List Item)
    (h : start + n ≤ tgt.length) :
    (List.range n).foldl (fun (t : List Item) (k : Nat) => setI t ((start : Int) + k) (g k)) tgt =
      tgt.take start ++ (List.range n).map g ++ tgt.drop (start + n) := by
  have : (fun (t : List Item) (k : Nat) => setI t ((start : Int) + k) (g k)) =
      (fun (t : List Item) (k : Nat) => t.set (start + k) (g k)) := by
    funext t k
    rw [show ((start : Int) + (k : Int)) = ((start + k : Nat) : Int) by push_cast; rfl]
    exact setI_nat t (start + k) (g k)
  rw [this]
  exact foldl_set_range g start n tgt h

theorem foldl_setI_length (f : Nat → Int) (g : Nat → Item) :
    ∀ (ks : List Nat) (tgt : List Item),
      (ks.foldl (fun (t : List Item) (k : Nat) => setI t (f k) (g k)) tgt).length = tgt.length := by
  intro ks
  induction ks with
  | nil => intro tgt; rfl
  | cons k ks ih =>
    intro tgt
    simp only [List.foldl_cons]
    rw [ih]
    unfold setI
    split <;> simp

/-- The elements `memrecycle` leaves in a target written without a `where`
vector, when the target has room for the rows. -/
theorem memrecycleItems_nowhere (tgt src : List Item) (start len : Nat) (sourceStart : Int)
    (slen : Nat) (h : start + len ≤ tgt.length) :
    memrecycleItems tgt [] start len src sourceStart slen =
      tgt.take start ++
        (List.range len).map
          (fun (k : Nat) => getI src (if slen = 1 then sourceStart else sourceStart + k)) ++
        tgt.drop (start + len) := by
  unfold memrecycleItems
  simp only [List.isEmpty_nil, if_true]
  exact foldl_setI_range _ start len tgt h

theorem memrecycleItems_length (tgt src : List Item) (wher : List Int) (start : Int) (len : Nat)
    (sourceStart : Int) (slen : Nat) :
    (memrecycleItems tgt wher start len src sourceStart slen).length = tgt.length := by
  unfold memrecycleItems
  generalize List.range len = ks
  induction ks generalizing tgt with
  | nil => rfl
  | cons k ks ih =>
    simp only [List.foldl_cons]
    rw [ih]
    split
    · unfold setI; split <;> simp
    · split
      · rfl
      · unfold setI; split <;> simp

theorem writeNA_items_fold (ty : SEXPTYPE) (start n : Nat) (tgt : List Item)
    (h : start + n ≤ tgt.length) :
    (List.range n).foldl (fun (t : List Item) (k : Nat) => setI t ((start : Int) + k) (naItem ty)) tgt =
      tgt.take start ++ List.replicate n (naItem ty) ++ tgt.drop (start + n) := by
  rw [foldl_setI_range (fun _ => naItem ty) start n tgt h]
  congr 2
  induction n with
  | zero => rfl
  | succ n ih =>
    rw [List.range_succ, List.map_append, ih (by omega), List.replicate_succ']
    rfl

/-! ## Columns of the result -/

theorem IsCol.typeof {c : SEXP} {ty : SEXPTYPE} {n : Nat} (h : IsCol c ty n) : TYPEOF c = ty := by
  obtain ⟨its, att, tl, alt, rfl, _, _⟩ := h
  rfl

theorem IsCol.length_items {c : SEXP} {ty : SEXPTYPE} {n : Nat} (h : IsCol c ty n) :
    c.items.length = n := by
  obtain ⟨its, att, tl, alt, rfl, hv, hl⟩ := h
  simp [SEXP.items, SEXP.node, hv, hl]

theorem IsCol.LENGTH_eq {c : SEXP} {ty : SEXPTYPE} {n : Nat} (h : IsCol c ty n) : LENGTH c = n :=
  h.length_items

theorem IsCol.withItems {c : SEXP} {ty : SEXPTYPE} {n : Nat} (h : IsCol c ty n)
    (its : List Item) (m : Nat) (hl : its.length = m) :
    IsCol (c.withItems its) ty m ∧ (c.withItems its).items = its := by
  obtain ⟨its0, att, tl, alt, rfl, hv, _⟩ := h
  exact ⟨⟨its, att, tl, alt, rfl, hv, hl⟩, by simp [SEXP.withItems, SEXP.items, SEXP.node, hv]⟩

theorem IsCol.withAttrib {c : SEXP} {ty : SEXPTYPE} {n : Nat} (h : IsCol c ty n)
    (att : List (String × SEXP)) :
    IsCol (c.withAttrib att) ty n ∧ (c.withAttrib att).items = c.items := by
  obtain ⟨its0, att0, tl, alt, rfl, hv, hl⟩ := h
  exact ⟨⟨its0, att, tl, alt, rfl, hv, hl⟩, by simp [SEXP.withAttrib, SEXP.items, SEXP.node]⟩

theorem allocVector_isCol {ty : SEXPTYPE} {n : Nat} {v : SEXP} (h : allocVector ty n = .ok v)
    (hv : ty.isVector = true) : IsCol v ty n ∧ v.items = List.replicate n (freshItem ty) := by
  unfold allocVector at h
  have hn : ty ≠ .NILSXP := by
    intro e; subst e; cases hv
  rw [if_neg hn, if_pos hv] at h
  injection h with h
  subst h
  exact ⟨⟨_, _, _, _, rfl, hv, by simp⟩, by simp [SEXP.items, SEXP.node, hv]⟩

theorem allocVector_type_isVector {ty : SEXPTYPE} {n : Nat} {v : SEXP}
    (h : allocVector ty n = .ok v) (hn : ty ≠ .NILSXP) : ty.isVector = true := by
  unfold allocVector at h
  rw [if_neg hn] at h
  by_cases hv : ty.isVector = true
  · exact hv
  · rw [if_neg hv] at h; cases h

theorem copyMostAttrib_isCol {src v : SEXP} {ty : SEXPTYPE} {n : Nat} (h : IsCol v ty n) :
    IsCol (copyMostAttrib src v) ty n ∧ (copyMostAttrib src v).items = v.items := by
  unfold copyMostAttrib
  exact h.withAttrib _

theorem memrecycle_cases {t t1 : SEXP} {wher : List Int} {start len : Int} {src : SEXP}
    {ss sl : Int} (h : memrecycle t wher start len src ss sl = .ok t1) :
    t1 = t ∨ t1 = t.withItems (memrecycleItems t.items wher start len.toNat src.items ss
      (if 0 ≤ sl then sl.toNat else length src)) := by
  unfold memrecycle at h
  by_cases h1 : len < 1
  · rw [if_pos h1] at h; injection h with h; exact Or.inl h.symm
  · rw [if_neg h1] at h
    simp only at h
    by_cases h2 : (if 0 ≤ sl then sl.toNat else length src) = 0
    · rw [if_pos h2] at h; injection h with h; exact Or.inl h.symm
    · rw [if_neg h2] at h
      by_cases h3 : 1 < (if 0 ≤ sl then sl.toNat else length src) ∧
          (((if 0 ≤ sl then sl.toNat else length src) : Nat) : Int) ≠ len
      · rw [if_pos h3] at h; cases h
      · rw [if_neg h3] at h; injection h with h; exact Or.inr h.symm

theorem memrecycle_isCol {t t1 : SEXP} {wher : List Int} {start len : Int} {src : SEXP}
    {ss sl : Int} {ty : SEXPTYPE} {n : Nat}
    (h : memrecycle t wher start len src ss sl = .ok t1) (hc : IsCol t ty n) : IsCol t1 ty n := by
  rcases memrecycle_cases h with e | e
  · rw [e]; exact hc
  · rw [e]
    exact (hc.withItems _ n (by rw [memrecycleItems_length]; exact hc.length_items)).1

/-- The elements of a result column after `memrecycle` has written `len` rows
at `start` (no `where` vector, all of a non-empty `source`). -/
theorem memrecycle_items {t t1 : SEXP} {start len : Nat} {src : SEXP} {ss : Int}
    {ty : SEXPTYPE} {n : Nat}
    (h : memrecycle t [] start len src ss (-1) = .ok t1) (hc : IsCol t ty n)
    (hroom : start + len ≤ n) (hsrc : length src ≠ 0) :
    t1.items = t.items.take start ++
      (List.range len).map
        (fun (k : Nat) => getI src.items (if length src = 1 then ss else ss + k)) ++
      t.items.drop (start + len) := by
  unfold memrecycle at h
  by_cases h1 : (len : Int) < 1
  · rw [if_pos h1] at h; injection h with h; subst h
    have : len = 0 := by omega
    subst this
    simp
  · rw [if_neg h1] at h
    have hneg : ¬ ((0 : Int) ≤ -1) := by omega
    simp only [hneg, if_false, hsrc] at h
    split at h
    · cases h
    · injection h with h
      subst h
      rw [(hc.withItems _ n (by rw [memrecycleItems_length]; exact hc.length_items)).2]
      rw [Int.toNat_ofNat]
      exact memrecycleItems_nowhere _ _ _ _ _ _ (by rw [hc.length_items]; exact hroom)

/-- The elements of a key column after `memrecycle` has recycled one key over
`len` rows at `start`. -/
theorem memrecycle_key_items {t t1 : SEXP} {start len : Nat} {src : SEXP} {ss : Int}
    {ty : SEXPTYPE} {n : Nat}
    (h : memrecycle t [] start len src ss 1 = .ok t1) (hc : IsCol t ty n)
    (hroom : start + len ≤ n) :
    t1.items = t.items.take start ++ List.replicate len (getI src.items ss) ++
      t.items.drop (start + len) := by
  unfold memrecycle at h
  by_cases h1 : (len : Int) < 1
  · rw [if_pos h1] at h; injection h with h; subst h
    have : len = 0 := by omega
    subst this
    simp
  · rw [if_neg h1] at h
    simp only [Int.toNat_one, zero_le_one, if_true, one_ne_zero, if_false, lt_self_iff_false,
      false_and] at h
    injection h with h
    subst h
    rw [(hc.withItems _ n (by rw [memrecycleItems_length]; exact hc.length_items)).2]
    rw [Int.toNat_ofNat, memrecycleItems_nowhere _ _ _ _ _ _ (by rw [hc.length_items]; exact hroom)]
    congr 2
    simp only [if_true]
    clear h1 hroom
    induction len with
    | zero => rfl
    | succ m ih => rw [List.range_succ, List.map_append, ih, List.replicate_succ']; rfl

theorem writeNA_isCol {t : SEXP} {start : Int} {len : Nat} {ty : SEXPTYPE} {n : Nat}
    (hc : IsCol t ty n) : IsCol (writeNA t start len) ty n := by
  unfold writeNA
  exact (hc.withItems _ n (by rw [foldl_setI_length]; exact hc.length_items)).1

theorem writeNA_items {t : SEXP} {start len : Nat} {ty : SEXPTYPE} {n : Nat}
    (hc : IsCol t ty n) (hroom : start + len ≤ n) :
    (writeNA t start len).items = t.items.take start ++ List.replicate len (naItem ty) ++
      t.items.drop (start + len) := by
  unfold writeNA
  rw [(hc.withItems _ n (by rw [foldl_setI_length]; exact hc.length_items)).2, hc.typeof]
  exact writeNA_items_fold ty start len _ (by rw [hc.length_items]; exact hroom)

theorem length_of_isCol {c : SEXP} {ty : SEXPTYPE} {n : Nat} (h : IsCol c ty n) : length c = n := by
  obtain ⟨its, att, tl, alt, rfl, hv, hl⟩ := h
  unfold length
  have ht : TYPEOF (SEXP.vec ty its att tl alt) = ty := rfl
  rw [ht]
  cases ty <;> simp_all [SEXPTYPE.isVector, LENGTH, SEXP.items, SEXP.node]

theorem isNull_of_isCol {c : SEXP} {ty : SEXPTYPE} {n : Nat} (h : IsCol c ty n) :
    isNull c = false := by
  obtain ⟨its, att, tl, alt, rfl, hv, hl⟩ := h
  unfold isNull
  have ht : TYPEOF (SEXP.vec ty its att tl alt) = ty := rfl
  rw [ht]
  cases ty <;> simp_all [SEXPTYPE.isVector]

/-- `growVector` on a column: the new length, the type, and the elements kept. -/
theorem growVector_isCol {x y : SEXP} {m : Nat} {ty : SEXPTYPE} {n : Nat}
    (h : growVector x m = .ok y) (hc : IsCol x ty n) :
    IsCol y ty m ∧ ∀ k, k ≤ n → k ≤ m → y.items.take k = x.items.take k := by
  unfold growVector at h
  rw [isNull_of_isCol hc] at h
  simp only [Bool.false_eq_true, if_false] at h
  rw [hc.typeof, length_of_isCol hc] at h
  have hv : ty.isVector = true := by
    obtain ⟨_, _, _, _, _, hv, _⟩ := hc
    exact hv
  cases ha : allocVector ty m with
  | error e => rw [ha] at h; cases h
  | ok newx =>
    rw [ha] at h
    simp only at h
    obtain ⟨hn1, hn2⟩ := allocVector_isCol ha hv
    by_cases hz : (if m < n then m else n) = 0
    · rw [if_pos hz] at h
      injection h with h
      subst h
      refine ⟨(hn1.withAttrib _).1, ?_⟩
      intro k hk1 hk2
      have : k = 0 := by
        split at hz <;> omega
      subst this
      simp
    · rw [if_neg hz] at h
      have key : ∀ (r : Except Err SEXP),
          r = .ok (keepattr (newx.withItems
            (x.items.take (if m < n then m else n) ++ newx.items.drop (if m < n then m else n))) x) →
          r = .ok y → IsCol y ty m ∧ ∀ k, k ≤ n → k ≤ m → y.items.take k = x.items.take k := by
        intro r hr hy
        rw [hr] at hy
        injection hy with hy
        subst hy
        have hlen : (x.items.take (if m < n then m else n) ++
            newx.items.drop (if m < n then m else n)).length = m := by
          rw [List.length_append, List.length_take, List.length_drop, hc.length_items,
            hn1.length_items]
          split <;> omega
        obtain ⟨w1, w2⟩ := hn1.withItems _ m hlen
        obtain ⟨a1, a2⟩ := w1.withAttrib (ATTRIB x)
        refine ⟨a1, ?_⟩
        intro k hk1 hk2
        unfold keepattr
        rw [a2, w2, List.take_append_of_le_length (by
          rw [List.length_take, hc.length_items]; split <;> omega)]
        rw [List.take_take]
        congr 1
        split <;> omega
      cases ty <;> first
        | exact key _ rfl h
        | exact absurd hv (by decide)
        | exact absurd h (by simp)

/-! ## One iteration in aggregation mode -/

theorem resultAt_of_ws {a : Args} {n : Nat} {ws : WorkingSet} (hw : wsAt a n = some ws) :
    resultAt a n =
      match shape a n (evalJ a ws) with
      | .ok (some cols) => some cols
      | _ => none := by
  unfold resultAt jvalAt
  rw [hw]
  rfl

theorem resultAt_of_not_evaluated {a : Args} {n : Nat} {s : State} (hs : stateAt a n = .ok s)
    (he : evaluated a n s = false) : resultAt a n = none := by
  unfold resultAt jvalAt wsAt
  rw [hs]
  simp [he]

/-- The two things an iteration that succeeds can do in aggregation mode: leave
the accumulator alone (the group does not contribute), or run the aggregation
step on the result of the group. -/
theorem step_cases {a : Args} {n : Nat} {s s1 : State} (hagg : a.lhs = none)
    (hs : stateAt a n = .ok s) (h : groupStep a n s = .ok s1) :
    (resultAt a n = none ∧ s1.dt = s.dt ∧ s1.ans = s.ans ∧ s1.njval = s.njval ∧
      s1.ansloc = s.ansloc ∧ s1.estn = s.estn) ∨
    (∃ cols ws, resultAt a n = some cols ∧ wsAt a n = some ws ∧
      aggStep a n s ws cols = .ok s1) := by
  by_cases he : evaluated a n s = true
  · obtain ⟨ws, hp⟩ := populate_ok a s.dt n s.ws
    have hw := wsAt_of_state hs he hp
    rw [groupStep_of_evaluated he hp] at h
    unfold afterEval at h
    obtain ⟨r, hr, h⟩ := (bind_ok_iff _ _ _).mp h
    have hr := (withDt_ok_iff _ _ _).mp hr
    cases r with
    | none =>
      left
      injection h with h
      subst h
      refine ⟨?_, rfl, rfl, rfl, rfl, rfl⟩
      rw [resultAt_of_ws hw, hr]
    | some cols =>
      right
      simp only [hagg] at h
      refine ⟨cols, ws, ?_, hw, (withDt_ok_iff _ _ _).mp h⟩
      rw [resultAt_of_ws hw, hr]
  · have he : evaluated a n s = false := by simpa using he
    left
    rw [groupStep_of_skipped he] at h
    injection h with h
    subst h
    exact ⟨resultAt_of_not_evaluated hs he, rfl, rfl, rfl, rfl, rfl⟩

theorem aggStep_eq {a : Args} {i : Nat} {s s1 : State} {ws : WorkingSet} {jval : SEXP}
    (h : aggStep a i s ws jval = .ok s1) :
    njvalOf s jval = LENGTH jval ∧
    ∃ r keys res,
      ensureRoom a i s (grpnOf a i) jval (njvalOf s jval) (maxnOf jval (njvalOf s jval)) = .ok r ∧
      writeKeys a (igrpOf a i) s.ansloc r.maxn r.ans = .ok keys ∧
      writeRes a i (grpnOf a i) s.ansloc r.maxn jval (njvalOf s jval) r.ans = .ok res ∧
      s1.dt = s.dt ∧ s1.ans = some (keys ++ res) ∧ s1.njval = njvalOf s jval ∧
      s1.ansloc = s.ansloc + r.maxn ∧ s1.estn = r.estn := by
  unfold aggStep at h
  by_cases hc : njvalOf s jval ≠ LENGTH jval
  · rw [if_pos hc] at h; cases h
  · rw [if_neg hc] at h
    obtain ⟨r, h1, h⟩ := (bind_ok_iff _ _ _).mp h
    obtain ⟨keys, h2, h⟩ := (bind_ok_iff _ _ _).mp h
    obtain ⟨res, h3, h⟩ := (bind_ok_iff _ _ _).mp h
    injection h with h
    subst h
    exact ⟨by simpa using hc, r, keys, res, h1, h2, h3, rfl, rfl, rfl, rfl, rfl⟩

/-- The three ways room is made for a group. -/
theorem ensureRoom_cases {a : Args} {i : Nat} {s : State} {grpn : Int} {jval : SEXP}
    {njval maxn : Nat} {r : Room} (h : ensureRoom a i s grpn jval njval maxn = .ok r) :
    (s.estn = -1 ∧ allocAns a jval njval (firstEstn a grpn maxn).toNat = .ok r.ans ∧
      r.estn = firstEstn a grpn maxn ∧ r.maxn = firstMaxn grpn maxn) ∨
    (s.estn ≠ -1 ∧ ((s.ansloc + maxn : Nat) : Int) > s.estn ∧
      growAns a njval (s.ans.getD []) (regrowEstn a i (s.ansloc + maxn)).toNat = .ok r.ans ∧
      r.estn = regrowEstn a i (s.ansloc + maxn) ∧ r.maxn = maxn) ∨
    (((s.ansloc + maxn : Nat) : Int) ≤ s.estn ∧ r.ans = s.ans.getD [] ∧ r.estn = s.estn ∧
      r.maxn = maxn) := by
  unfold ensureRoom at h
  by_cases h1 : ((s.ansloc + maxn : Nat) : Int) > s.estn
  · rw [if_pos h1] at h
    by_cases h2 : s.estn = -1
    · rw [if_pos h2] at h
      obtain ⟨ans, ha, h⟩ := (bind_ok_iff _ _ _).mp h
      injection h with h
      subst h
      exact Or.inl ⟨h2, ha, rfl, rfl⟩
    · rw [if_neg h2] at h
      obtain ⟨ans, ha, h⟩ := (bind_ok_iff _ _ _).mp h
      injection h with h
      subst h
      exact Or.inr (Or.inl ⟨h2, h1, ha, rfl, rfl⟩)
  · rw [if_neg h1] at h
    injection h with h
    subst h
    exact Or.inr (Or.inr ⟨by omega, rfl, rfl, rfl⟩)

/-! ## Indexing lists of columns -/

theorem getS_nat (xs : List SEXP) (j : Nat) : getS xs (j : Int) = xs.getD j .null := by
  unfold getS
  have : ¬ ((j : Int) < 0) := by omega
  simp [this]

theorem getS_lt {xs : List SEXP} {j : Nat} (h : j < xs.length) :
    getS xs (j : Int) = xs.get ⟨j, h⟩ := by
  rw [getS_nat, List.getD_eq_getElem _ _ h]
  rfl

theorem getS_append_left {xs ys : List SEXP} {j : Nat} (h : j < xs.length) :
    getS (xs ++ ys) (j : Int) = getS xs (j : Int) := by
  rw [getS_nat, getS_nat, List.getD_eq_getElem _ _ (by simp; omega), List.getD_eq_getElem _ _ h,
    List.getElem_append_left h]

theorem getS_append_right {xs ys : List SEXP} {j : Nat} (h : xs.length ≤ j) :
    getS (xs ++ ys) (j : Int) = getS ys ((j - xs.length : Nat) : Int) := by
  rw [getS_nat, getS_nat]
  simp only [List.getD_eq_getElem?_getD]
  rw [List.getElem?_append_right h]

theorem getInt_nat {xs : List Int} {j : Nat} (h : j < xs.length) :
    getInt xs (j : Int) = xs.get ⟨j, h⟩ := by
  unfold getInt
  have : ¬ ((j : Int) < 0) := by omega
  simp only [this, if_false, Int.toNat_ofNat]
  rw [List.getD_eq_getElem _ _ h]
  rfl

/-- The outcome of a loop over columns, column by column. -/
theorem forCols_getS {α : Type} (f : Nat → α → Except Err SEXP) (xs : List α) (ys : List SEXP)
    (h : forCols f 0 xs = .ok ys) (j : Nat) (hj : j < xs.length) :
    f j (xs.get ⟨j, hj⟩) = .ok (getS ys (j : Int)) := by
  have hl := forCols_length f xs 0 ys h
  have := forCols_get f xs 0 ys h j hj (by omega)
  rw [Nat.zero_add] at this
  rw [this, getS_lt (by omega)]

/-! ## Allocating, regrowing and writing the accumulator -/

theorem allocKey_isCol {a : Args} {N : Nat} {g : Int} {v : SEXP}
    (h : allocKey a N g = .ok v) (hk : isVector (getS a.groups (g - 1)) = true) :
    IsCol v (TYPEOF (getS a.groups (g - 1))) N := by
  unfold allocKey at h
  cases ha : allocVector (TYPEOF (getS a.groups (g - 1))) N with
  | error e => rw [ha] at h; cases h
  | ok w =>
    rw [ha] at h
    injection h with h
    subst h
    exact (copyMostAttrib_isCol (allocVector_isCol ha hk).1).1

theorem allocRes_isCol {jval : SEXP} {N j : Nat} {v : SEXP} (h : allocRes jval N j = .ok v) :
    IsCol v (TYPEOF (VECTOR_ELT jval j)) N := by
  unfold allocRes at h
  by_cases hn : isNull (VECTOR_ELT jval j) = true
  · rw [if_pos hn] at h; cases h
  · rw [if_neg hn] at h
    cases ha : allocVector (TYPEOF (VECTOR_ELT jval j)) N with
    | error e => rw [ha] at h; cases h
    | ok w =>
      rw [ha] at h
      injection h with h
      subst h
      have hne : TYPEOF (VECTOR_ELT jval j) ≠ .NILSXP := by
        intro e
        apply hn
        unfold isNull
        rw [e]; rfl
      exact (copyMostAttrib_isCol (allocVector_isCol ha (allocVector_type_isVector ha hne)).1).1

theorem allocAns_ok {a : Args} {jval : SEXP} {njval N : Nat} {ans : List SEXP}
    (h : allocAns a jval njval N = .ok ans) (hk : KeysOK a) :
    AnsOK a njval (colType a jval) ans N := by
  unfold allocAns at h
  obtain ⟨keys, h1, h⟩ := (bind_ok_iff _ _ _).mp h
  obtain ⟨res, h2, h⟩ := (bind_ok_iff _ _ _).mp h
  injection h with h
  subst h
  have l1 := forCols_length _ _ _ _ h1
  have l2 := forCols_length _ _ _ _ h2
  rw [List.length_range] at l2
  refine ⟨by rw [List.length_append, l1, l2]; rfl, ?_⟩
  intro c hc
  unfold colType
  by_cases hck : c < a.ngrpcols
  · rw [if_pos hck, getS_append_left (by rw [l1]; exact hck)]
    have hg := forCols_getS _ _ _ h1 c hck
    rw [getInt_nat hck]
    exact allocKey_isCol hg (hk _ (List.get_mem _ _ _))
  · rw [if_neg hck, getS_append_right (by rw [l1]; exact Nat.le_of_not_lt hck), l1]
    have hlt : c - a.ngrpcols < (List.range njval).length := by
      rw [List.length_range]; unfold Args.ngrpcols at hc hck ⊢; omega
    have hg := forCols_getS _ _ _ h2 (c - a.grpcols.length) hlt
    exact allocRes_isCol hg

theorem growAns_ok {a : Args} {njval N M : Nat} {tys : Nat → SEXPTYPE} {ans ans1 : List SEXP}
    (h : growAns a njval ans M = .ok ans1) (hok : AnsOK a njval tys ans N) :
    AnsOK a njval tys ans1 M ∧
      ∀ c : Nat, c < a.ngrpcols + njval → ∀ k, k ≤ N → k ≤ M →
        (getS ans1 c).items.take k = (getS ans c).items.take k := by
  unfold growAns at h
  by_cases hl : ans.length ≠ a.ngrpcols + njval
  · rw [if_pos hl] at h; cases h
  · rw [if_neg hl] at h
    have l1 := forCols_length _ _ _ _ h
    have key : ∀ c : Nat, c < a.ngrpcols + njval →
        growVector (getS ans c) M = .ok (getS ans1 c) := by
      intro c hc
      have hlt : c < ans.length := by rw [hok.1]; exact hc
      have := forCols_getS _ _ _ h c hlt
      rw [← getS_lt hlt] at this
      exact this
    refine ⟨⟨by rw [l1]; exact hok.1, fun c hc => (growVector_isCol (key c hc) (hok.2 c hc)).1⟩, ?_⟩
    intro c hc k hk1 hk2
    exact (growVector_isCol (key c hc) (hok.2 c hc)).2 k hk1 hk2

/-- What the key columns hold after the key of the group is written. -/
theorem writeKeys_ok {a : Args} {igrp : Int} {ansloc maxn N njval : Nat} {tys : Nat → SEXPTYPE}
    {ans keys : List SEXP} (h : writeKeys a igrp ansloc maxn ans = .ok keys)
    (hok : AnsOK a njval tys ans N) (hroom : ansloc + maxn ≤ N) :
    keys.length = a.ngrpcols ∧
      ∀ c : Nat, c < a.ngrpcols →
        IsCol (getS keys c) (tys c) N ∧
        (getS keys c).items = (getS ans c).items.take ansloc ++
          List.replicate maxn (getI (getS a.groups (getInt a.grpcols c - 1)).items igrp) ++
          (getS ans c).items.drop (ansloc + maxn) := by
  unfold writeKeys at h
  have l1 := forCols_length _ _ _ _ h
  refine ⟨l1, ?_⟩
  intro c hc
  have hg := forCols_getS _ _ _ h c hc
  simp only at hg
  have hcol := hok.2 c (by omega)
  rw [getInt_nat hc]
  exact ⟨memrecycle_isCol hg hcol, memrecycle_key_items hg hcol hroom⟩

theorem guarded_eq_guardFor {target source : SEXP} {ty : SEXPTYPE} (h : TYPEOF target = ty) :
    guarded target source = guardFor ty source := by
  unfold guardFor guarded isNewList
  rw [h]
  rfl

mutual
theorem copyAsPlain_typeof : ∀ (x : SEXP), TYPEOF (copyAsPlain x) = TYPEOF x
  | .null => rfl
  | .vec _ _ _ _ _ => rfl
  | .buf _ v => by
      have := copyAsPlain_typeof v
      simpa [copyAsPlain, TYPEOF, SEXP.node] using this
end

theorem copyAsPlainItems_length : ∀ (xs : List Item), (copyAsPlainItems xs).length = xs.length
  | [] => rfl
  | _ :: r => by simp [copyAsPlainItems, copyAsPlainItems_length r]

mutual
theorem copyAsPlain_items_length : ∀ (x : SEXP), (copyAsPlain x).items.length = x.items.length
  | .null => rfl
  | .vec ty its _ _ _ => by
      by_cases hv : ty.isVector = true
      · simp [copyAsPlain, SEXP.items, SEXP.node, hv, copyAsPlainItems_length]
      · simp [copyAsPlain, SEXP.items, SEXP.node, hv]
  | .buf _ v => by
      have := copyAsPlain_items_length v
      simpa [copyAsPlain, SEXP.items, SEXP.node] using this
end

theorem copyAsPlain_length (x : SEXP) : length (copyAsPlain x) = length x := by
  unfold length LENGTH
  rw [copyAsPlain_typeof, copyAsPlain_items_length]

theorem guarded_length (target source : SEXP) : length (guarded target source) = length source := by
  unfold guarded
  split
  · exact copyAsPlain_length source
  · rfl

/-- What a result column holds after the rows of the group are written. -/
theorem writeResCol_ok {i : Nat} {grpn : Int} {ansloc maxn N : Nat} {ty : SEXPTYPE}
    {target source t1 : SEXP} {j : Nat}
    (h : writeResCol i grpn ansloc maxn target source j = .ok t1)
    (hc : IsCol target ty N) (hroom : ansloc + maxn ≤ N) :
    IsCol t1 ty N ∧
      t1.items = target.items.take ansloc ++ resBlock ty maxn source ++
        target.items.drop (ansloc + maxn) := by
  unfold writeResCol at h
  unfold resBlock
  by_cases h0 : length source = 0
  · rw [if_pos h0] at h
    injection h with h
    subst h
    rw [if_pos h0]
    exact ⟨writeNA_isCol hc, writeNA_items hc hroom⟩
  · rw [if_neg h0] at h
    rw [if_neg h0]
    by_cases h1 : TYPEOF source ≠ TYPEOF target
    · rw [if_pos h1] at h; cases h
    · rw [if_neg h1] at h
      by_cases h2 : 1 < length source ∧ length source ≠ maxn ∧ 0 < grpn
      · rw [if_pos h2] at h; cases h
      · rw [if_neg h2] at h
        refine ⟨memrecycle_isCol h hc, ?_⟩
        have := memrecycle_items h hc hroom (by rw [guarded_length]; exact h0)
        rw [this, guarded_length, guarded_eq_guardFor hc.typeof]

theorem writeRes_ok {a : Args} {i : Nat} {grpn : Int} {ansloc maxn N njval : Nat}
    {tys : Nat → SEXPTYPE} {jval : SEXP} {ans res : List SEXP}
    (h : writeRes a i grpn ansloc maxn jval njval ans = .ok res)
    (hok : AnsOK a njval tys ans N) (hroom : ansloc + maxn ≤ N) :
    res.length = njval ∧
      ∀ j : Nat, j < njval →
        IsCol (getS res j) (tys (j + a.ngrpcols)) N ∧
        (getS res j).items = (getS ans ((j + a.ngrpcols : Nat) : Int)).items.take ansloc ++
          resBlock (tys (j + a.ngrpcols)) maxn (VECTOR_ELT jval j) ++
          (getS ans ((j + a.ngrpcols : Nat) : Int)).items.drop (ansloc + maxn) := by
  unfold writeRes at h
  have l1 := forCols_length _ _ _ _ h
  rw [List.length_range] at l1
  refine ⟨l1, ?_⟩
  intro j hj
  have hg := forCols_getS _ _ _ h j (by rw [List.length_range]; exact hj)
  simp only at hg
  exact writeResCol_ok hg (hok.2 (j + a.ngrpcols) (by omega)) hroom

/-! ## Rows added group by group -/

theorem shape_some_pos {a : Args} {i : Nat} {jv cols : SEXP}
    (h : shape a i jv = .ok (some cols)) : 0 < LENGTH cols := by
  unfold shape at h
  by_cases h1 : isNull jv = true
  · rw [if_pos h1] at h; cases h
  · rw [if_neg h1] at h
    by_cases h2 : (isVectorAtomic jv || a.jexpIsSymbolOtherThanSD) = true
    · rw [if_pos h2] at h
      injection h with h
      injection h with h
      subst h
      simp [LENGTH, listwrap, TYPEOF, SEXP.node, SEXP.items, SEXPTYPE.isVector, SEXPTYPE.isVectorAtomic]
    · rw [if_neg h2] at h
      by_cases h3 : (!isNewList jv) = true
      · rw [if_pos h3] at h; cases h
      · rw [if_neg h3] at h
        by_cases h4 : LENGTH jv = 0
        · rw [if_pos h4] at h; cases h
        · rw [if_neg h4] at h
          obtain ⟨u, _, h⟩ := (bind_ok_iff _ _ _).mp h
          injection h with h
          injection h with h
          subst h
          omega

theorem resultAt_pos {a : Args} {n : Nat} {cols : SEXP} (h : resultAt a n = some cols) :
    0 < LENGTH cols := by
  unfold resultAt at h
  cases hj : jvalAt a n with
  | none => rw [hj] at h; cases h
  | some jv =>
    rw [hj] at h
    simp only at h
    cases hs : shape a n jv with
    | error e => rw [hs] at h; cases h
    | ok o =>
      cases o with
      | none => rw [hs] at h; cases h
      | some c =>
        rw [hs] at h
        injection h with h
        subst h
        exact shape_some_pos hs

theorem rowsUpTo_succ (a : Args) (n : Nat) : rowsUpTo a (n + 1) = rowsUpTo a n + rowsAt a n := by
  unfold rowsUpTo
  rw [List.range_succ, List.map_append, List.sum_append]
  simp

theorem writtenUpTo_succ (a : Args) (ty : SEXPTYPE) (c n : Nat) :
    writtenUpTo a ty c (n + 1) = writtenUpTo a ty c n ++ blockAt a ty c n := by
  unfold writtenUpTo
  rw [List.range_succ, List.flatMap_append]
  simp

theorem widthAt_of_none {a : Args} {k : Nat} (h : resultAt a k = none) : widthAt a k = 0 := by
  unfold widthAt
  rw [h]

theorem rowsAt_of_none {a : Args} {k : Nat} (h : resultAt a k = none) : rowsAt a k = 0 := by
  unfold rowsAt
  rw [widthAt_of_none h]
  simp

theorem blockAt_of_none {a : Args} {ty : SEXPTYPE} {c k : Nat} (h : resultAt a k = none) :
    blockAt a ty c k = [] := by
  unfold blockAt
  rw [h]

theorem resultAt_none_of_not_contributes {a : Args} {k : Nat} (h : contributes a k = false) :
    resultAt a k = none := by
  unfold contributes at h
  cases hr : resultAt a k with
  | none => rfl
  | some c => rw [hr] at h; cases h

theorem rowsUpTo_of_none {a : Args} : ∀ {n : Nat}, (∀ k, k < n → contributes a k = false) →
    rowsUpTo a n = 0
  | 0, _ => rfl
  | n + 1, h => by
    rw [rowsUpTo_succ, rowsUpTo_of_none (fun k hk => h k (by omega)),
      rowsAt_of_none (resultAt_none_of_not_contributes (h n (by omega)))]

theorem writtenUpTo_of_none {a : Args} {ty : SEXPTYPE} {c : Nat} :
    ∀ {n : Nat}, (∀ k, k < n → contributes a k = false) → writtenUpTo a ty c n = []
  | 0, _ => rfl
  | n + 1, h => by
    rw [writtenUpTo_succ, writtenUpTo_of_none (fun k hk => h k (by omega)),
      blockAt_of_none (resultAt_none_of_not_contributes (h n (by omega)))]
    rfl

theorem isFirst_of_none_before {a : Args} {n : Nat} {cols : SEXP}
    (hr : resultAt a n = some cols) (h : ∀ k, k < n → contributes a k = false) :
    isFirst a n = true := by
  unfold isFirst contributes
  rw [hr]
  simp only [Option.isSome_some, Bool.true_and, List.all_eq_true, List.mem_range,
    Bool.not_eq_true']
  intro k hk
  exact h k hk

theorem isFirst_false_of_earlier {a : Args} {n f : Nat} (hf : f < n)
    (hc : contributes a f = true) : isFirst a n = false := by
  unfold isFirst
  have : (List.range n).all (fun k1 => !contributes a k1) = false := by
    rw [List.all_eq_false]
    exact ⟨f, List.mem_range.mpr hf, by simp [hc]⟩
  rw [this]
  simp

theorem resBlock_length (ty : SEXPTYPE) (w : Nat) (src : SEXP) : (resBlock ty w src).length = w := by
  unfold resBlock
  split <;> simp

/-! ### The double arithmetic of line 405 -/

theorem log2Fuel_spec : ∀ (fuel n : Nat), n ≤ fuel → 1 ≤ n →
    2 ^ log2Fuel fuel n ≤ n ∧ n < 2 ^ (log2Fuel fuel n + 1)
  | 0, n, h, h1 => by omega
  | fuel + 1, n, h, h1 => by
    unfold log2Fuel
    by_cases h2 : 2 ≤ n
    · rw [if_pos h2]
      obtain ⟨ih1, ih2⟩ := log2Fuel_spec fuel (n / 2) (by omega) (by omega)
      rw [pow_succ] at ih2 ⊢
      rw [pow_succ, pow_succ]
      generalize 2 ^ log2Fuel fuel (n / 2) = p at ih1 ih2
      constructor <;> omega
    · rw [if_neg h2]
      constructor <;> simp <;> omega

/-- The leading bit of `n ≥ 1` is at position `ilog2 n`. -/
theorem ilog2_spec {n : Nat} (h : 1 ≤ n) : 2 ^ ilog2 n ≤ n ∧ n < 2 ^ (ilog2 n + 1) :=
  log2Fuel_spec n n (Nat.le_refl _) h

theorem roundMantissa_ge (s : ℚ) : s - 1 / 2 ≤ (roundMantissa s : ℚ) := by
  have h1 := Int.floor_le s
  have h2 := Int.lt_floor_add_one s
  unfold roundMantissa
  split_ifs <;> push_cast <;> linarith

/-- The exponent chosen for `x > 0` puts `x / 2^e` at `2^52` or above. -/
theorem binadeOf_le {x : ℚ} (hx : 0 < x) : (2 : ℚ) ^ (binadeOf x + 52) ≤ x := by
  unfold binadeOf
  by_cases h : (2 : ℚ) ^ ((ilog2 x.num.natAbs : Int) - (ilog2 x.den : Int)) ≤ |x|
  · rw [if_pos h]
    rw [abs_of_pos hx] at h
    have e : (ilog2 x.num.natAbs : Int) - (ilog2 x.den : Int) - 52 + 52 =
        (ilog2 x.num.natAbs : Int) - (ilog2 x.den : Int) := by omega
    rw [e]
    exact h
  · rw [if_neg h]
    have hnum : 0 < x.num := Rat.num_pos.mpr hx
    have hn1 : 1 ≤ x.num.natAbs := by omega
    have hd1 : 1 ≤ x.den := x.den_pos
    obtain ⟨hn, _⟩ := ilog2_spec hn1
    obtain ⟨_, hd⟩ := ilog2_spec hd1
    have e : (ilog2 x.num.natAbs : Int) - (ilog2 x.den : Int) - 53 + 52 =
        (ilog2 x.num.natAbs : Int) - ((ilog2 x.den + 1 : Nat) : Int) := by
      push_cast
      omega
    rw [e, zpow_sub₀ (by norm_num : (2 : ℚ) ≠ 0), zpow_natCast, zpow_natCast]
    have hx2 : x = (x.num.natAbs : ℚ) / (x.den : ℚ) := by
      have h1 : ((x.num.natAbs : Int) : ℚ) = (x.num : ℚ) := by
        rw [Int.natAbs_of_nonneg (le_of_lt hnum)]
      have h2 : ((x.num.natAbs : Nat) : ℚ) = ((x.num.natAbs : Int) : ℚ) :=
        (Int.cast_natCast _).symm
      rw [h2, h1]
      exact (Rat.num_div_den x).symm
    have hn' : ((2 : ℚ) ^ ilog2 x.num.natAbs) ≤ (x.num.natAbs : ℚ) := by exact_mod_cast hn
    have hd' : (x.den : ℚ) ≤ (2 : ℚ) ^ (ilog2 x.den + 1) := by exact_mod_cast le_of_lt hd
    have hdpos : (0 : ℚ) < (x.den : ℚ) := by exact_mod_cast hd1
    have hnn : (0 : ℚ) ≤ (x.num.natAbs : ℚ) := by positivity
    calc (2 : ℚ) ^ ilog2 x.num.natAbs / (2 : ℚ) ^ (ilog2 x.den + 1)
        ≤ (x.num.natAbs : ℚ) / (x.den : ℚ) := div_le_div₀ hnn hn' hdpos hd'
      _ = x := hx2.symm

/-- Rounding to a double lowers a positive number by at most one part in `2^53`. -/
theorem roundDouble_ge {x : ℚ} (hx : 0 < x) : x * (1 - 1 / 2 ^ 53) ≤ roundDouble x := by
  unfold roundDouble
  rw [if_neg (ne_of_gt hx)]
  have hp : (0 : ℚ) < (2 : ℚ) ^ binadeOf x := zpow_pos (by norm_num) _
  have hb := binadeOf_le hx
  rw [zpow_add₀ (by norm_num : (2 : ℚ) ≠ 0)] at hb
  have hm := roundMantissa_ge (x / (2 : ℚ) ^ binadeOf x)
  have h1 : (x / (2 : ℚ) ^ binadeOf x - 1 / 2) * (2 : ℚ) ^ binadeOf x ≤
      (roundMantissa (x / (2 : ℚ) ^ binadeOf x) : ℚ) * (2 : ℚ) ^ binadeOf x :=
    mul_le_mul_of_nonneg_right hm (le_of_lt hp)
  have h2 : (x / (2 : ℚ) ^ binadeOf x - 1 / 2) * (2 : ℚ) ^ binadeOf x =
      x - (2 : ℚ) ^ binadeOf x / 2 := by
    field_simp
    ring
  rw [h2] at h1
  have h3 : (2 : ℚ) ^ (52 : Int) = 2 ^ 52 := by norm_cast
  rw [h3] at hb
  refine le_trans ?_ h1
  have h4 : (2 : ℚ) ^ binadeOf x ≤ x / 2 ^ 52 := by
    rw [le_div_iff₀ (by positivity)]
    exact hb
  have h5 : x / 2 ^ 52 / 2 = x * (1 / 2 ^ 53) := by
    ring
  linarith

theorem roundDouble_ge_of_pos {x : ℚ} (hx : 0 < x) : 99 / 100 * x ≤ roundDouble x := by
  have h := roundDouble_ge hx
  have : 99 / 100 * x ≤ x * (1 - 1 / 2 ^ 53) := by
    have h1 : (99 / 100 : ℚ) ≤ 1 - 1 / 2 ^ 53 := by norm_num
    nlinarith
  linarith

theorem le_truncToInt {q : ℚ} {n : Nat} (h : (n : ℚ) ≤ q) : (n : Int) ≤ truncToInt q := by
  unfold truncToInt
  have hq : (0 : ℚ) ≤ q := le_trans (by positivity) h
  have hnum : 0 ≤ q.num := Rat.num_nonneg.mpr hq
  rw [Int.tdiv_eq_ediv hnum (by positivity)]
  have : ⌊q⌋ = q.num / (q.den : Int) := Rat.floor_def
  rw [← this]
  exact Int.le_floor.mpr (by exact_mod_cast h)

/-- The growth formula of line 405, computed with doubles, leaves room for the
rows asked for. -/
theorem regrowEstn_ge (a : Args) (i need : Nat) (h1 : 1 ≤ i) (h2 : i < a.ngrp) :
    (need : Int) ≤ regrowEstn a i need := by
  unfold regrowEstn regrowDouble
  apply le_truncToInt
  have hi : (0 : ℚ) < (i : ℚ) := by exact_mod_cast h1
  have hq : (1 : ℚ) ≤ (a.ngrp : ℚ) / (i : ℚ) := by
    rw [le_div_iff₀ hi, one_mul]
    exact_mod_cast le_of_lt h2
  have ha := roundDouble_ge_of_pos (lt_of_lt_of_le one_pos hq)
  have hc := roundDouble_ge_of_pos (by norm_num : (0 : ℚ) < 11 / 10)
  have ha1 : (99 / 100 : ℚ) ≤ roundDouble ((a.ngrp : ℚ) / (i : ℚ)) := by linarith
  have hc1 : (1089 / 1000 : ℚ) ≤ roundDouble (11 / 10) := by linarith
  have hp : (107 / 100 : ℚ) ≤
      roundDouble ((a.ngrp : ℚ) / (i : ℚ)) * roundDouble (11 / 10) := by
    have := mul_le_mul ha1 hc1 (by norm_num) (by linarith)
    linarith
  have ht := roundDouble_ge_of_pos (lt_of_lt_of_le (by norm_num) hp)
  have ht1 : (105 / 100 : ℚ) ≤
      roundDouble (roundDouble ((a.ngrp : ℚ) / (i : ℚ)) * roundDouble (11 / 10)) := by
    linarith
  by_cases hz : need = 0
  · subst hz
    simp [roundDouble]
  · have hn : (1 : ℚ) ≤ (need : ℚ) := by exact_mod_cast Nat.one_le_iff_ne_zero.mpr hz
    have hprod : (105 / 100 : ℚ) * (need : ℚ) ≤
        roundDouble (roundDouble ((a.ngrp : ℚ) / (i : ℚ)) * roundDouble (11 / 10)) *
          (need : ℚ) := mul_le_mul_of_nonneg_right ht1 (by linarith)
    have hr := roundDouble_ge_of_pos (lt_of_lt_of_le (by linarith) hprod)
    linarith

theorem firstEstn_ge (a : Args) (grpn : Int) (maxn : Nat) :
    (firstMaxn grpn maxn : Int) ≤ firstEstn a grpn maxn := by
  unfold firstEstn
  split <;> omega

/-- The rows of one group written into every column of the accumulator. -/
theorem write_ok {a : Args} {i : Nat} {igrp grpn : Int} {ansloc maxn N njval : Nat}
    {tys : Nat → SEXPTYPE} {jval : SEXP} {ans keys res : List SEXP}
    (hok : AnsOK a njval tys ans N) (hroom : ansloc + maxn ≤ N)
    (h1 : writeKeys a igrp ansloc maxn ans = .ok keys)
    (h2 : writeRes a i grpn ansloc maxn jval njval ans = .ok res) :
    AnsOK a njval tys (keys ++ res) N ∧
      ∀ c : Nat, c < a.ngrpcols + njval →
        (getS (keys ++ res) c).items.take (ansloc + maxn) =
          (getS ans c).items.take ansloc ++
            (if c < a.ngrpcols then
              List.replicate maxn (getI (getS a.groups (getInt a.grpcols c - 1)).items igrp)
             else resBlock (tys c) maxn (VECTOR_ELT jval ((c - a.ngrpcols : Nat) : Int))) := by
  obtain ⟨lk, hkeys⟩ := writeKeys_ok h1 hok hroom
  obtain ⟨lr, hres⟩ := writeRes_ok h2 hok hroom
  have htake : ∀ (A B C : List Item), A.length = ansloc → B.length = maxn →
      (A ++ B ++ C).take (ansloc + maxn) = A ++ B := by
    intro A B C hA hB
    rw [List.take_append_of_le_length (by simp [hA, hB])]
    exact List.take_of_length_le (by simp [hA, hB])
  refine ⟨⟨by rw [List.length_append, lk, lr], ?_⟩, ?_⟩
  · intro c hc
    by_cases hck : c < a.ngrpcols
    · rw [getS_append_left (by rw [lk]; exact hck)]
      exact (hkeys c hck).1
    · rw [getS_append_right (by rw [lk]; exact Nat.le_of_not_lt hck), lk]
      have := (hres (c - a.ngrpcols) (by omega)).1
      rw [Nat.sub_add_cancel (Nat.le_of_not_lt hck)] at this
      exact this
  · intro c hc
    have hlen := (hok.2 c hc).length_items
    by_cases hck : c < a.ngrpcols
    · rw [getS_append_left (by rw [lk]; exact hck), if_pos hck, (hkeys c hck).2]
      exact htake _ _ _ (by rw [List.length_take, hlen]; omega) (by simp)
    · rw [getS_append_right (by rw [lk]; exact Nat.le_of_not_lt hck), lk, if_neg hck]
      have := (hres (c - a.ngrpcols) (by omega)).2
      rw [Nat.sub_add_cancel (Nat.le_of_not_lt hck)] at this
      rw [this]
      exact htake _ _ _ (by rw [List.length_take, hlen]; omega) (resBlock_length _ _ _)

/-! ## The invariant of the aggregation loop -/

theorem rowsAt_first {a : Args} {n : Nat} {cols : SEXP} (hr : resultAt a n = some cols)
    (hf : isFirst a n = true) :
    rowsAt a n = firstMaxn (grpnOf a n) (maxnOf cols (LENGTH cols)) := by
  unfold rowsAt firstMaxn widthAt
  rw [hf, hr]
  simp

theorem rowsAt_later {a : Args} {n : Nat} {cols : SEXP} (hr : resultAt a n = some cols)
    (hf : isFirst a n = false) : rowsAt a n = maxnOf cols (LENGTH cols) := by
  unfold rowsAt widthAt
  rw [hf, hr]
  simp

theorem blockAt_of_some {a : Args} {ty : SEXPTYPE} {c k : Nat} {cols : SEXP}
    (h : resultAt a k = some cols) :
    blockAt a ty c k =
      if c < a.ngrpcols then
        List.replicate (rowsAt a k)
          (getI (getS a.groups (getInt a.grpcols c - 1)).items (igrpOf a k))
      else resBlock ty (rowsAt a k) (VECTOR_ELT cols ((c - a.ngrpcols : Nat) : Int)) := by
  unfold blockAt keyItem
  rw [h]

theorem runInv_zero {a : Args} {s : State} (h : stateAt a 0 = .ok s) : RunInv a 0 s := by
  rw [stateAt_zero] at h
  obtain ⟨ws, _, e⟩ := preamble_eq h
  subst e
  exact ⟨rfl, Or.inl ⟨fun k hk => absurd hk (Nat.not_lt_zero k), rfl, rfl, rfl, rfl⟩⟩

theorem runInv_step {a : Args} {n : Nat} {s s1 : State} (hagg : a.lhs = none) (hk : KeysOK a)
    (hn : n < a.ngrp) (hs : stateAt a n = .ok s) (hinv : RunInv a n s)
    (h : groupStep a n s = .ok s1) : RunInv a (n + 1) s1 := by
  obtain ⟨hdt, hcase⟩ := hinv
  rcases step_cases hagg hs h with ⟨hnone, e1, e2, e3, e4, e5⟩ | ⟨cols, ws, hr, hw, hstep⟩
  · refine ⟨by rw [e1]; exact hdt, ?_⟩
    have hcn : contributes a n = false := by unfold contributes; rw [hnone]; rfl
    rcases hcase with hN | hS
    · left
      obtain ⟨h1, h2, h3, h4, h5⟩ := hN
      refine ⟨?_, by rw [e5]; exact h2, by rw [e2]; exact h3, by rw [e3]; exact h4,
        by rw [e4]; exact h5⟩
      intro k hk1
      by_cases hkn : k < n
      · exact h1 k hkn
      · have : k = n := by omega
        subst this
        exact hcn
    · right
      obtain ⟨f, colsf, ans, hf, hfr, hnj, hpos, hest, hloc, hans, hok, hrows, hwr⟩ := hS
      refine ⟨f, colsf, ans, by omega, hfr, by rw [e3]; exact hnj, by rw [e3]; exact hpos,
        by rw [e5]; exact hest, by rw [e4, e5]; exact hloc, by rw [e2]; exact hans,
        by rw [e3, e5]; exact hok,
        by rw [e4, rowsUpTo_succ, rowsAt_of_none hnone]; exact hrows, ?_⟩
      intro c hc
      rw [e3] at hc
      rw [e4, writtenUpTo_succ, blockAt_of_none hnone, List.append_nil]
      exact hwr c hc
  · obtain ⟨hnj, r, keys, res, hroom, hkeys, hres, d1, d2, d3, d4, d5⟩ := aggStep_eq hstep
    have hcpos := resultAt_pos hr
    refine ⟨by rw [d1]; exact hdt, Or.inr ?_⟩
    rcases hcase with hN | hS
    · obtain ⟨hnone, hestn, hans0, hnj0, hloc0⟩ := hN
      have hfirst := isFirst_of_none_before hr hnone
      have hrw := rowsAt_first hr hfirst
      rw [hnj] at hroom hres d3
      rcases ensureRoom_cases hroom with ⟨_, halloc, hre, hrm⟩ | ⟨hne, _⟩ | ⟨hle, _⟩
      · have hok := allocAns_ok halloc hk
        have hge := firstEstn_ge a (grpnOf a n) (maxnOf cols (LENGTH cols))
        have hroom2 : s.ansloc + r.maxn ≤ (firstEstn a (grpnOf a n) (maxnOf cols (LENGTH cols))).toNat := by
          rw [hloc0, hrm]; omega
        obtain ⟨hok2, htk⟩ := write_ok hok hroom2 hkeys hres
        refine ⟨n, cols, keys ++ res, by omega, ⟨hr, hnone⟩, d3, by rw [d3]; exact hcpos,
          by rw [d5, hre]; omega, by rw [d4, d5, hre, hloc0, hrm]; omega, d2,
          by rw [d3, d5, hre]; exact hok2,
          by rw [d4, hloc0, rowsUpTo_succ, rowsUpTo_of_none hnone, hrw, hrm], ?_⟩
        intro c hc
        rw [d3] at hc
        rw [d4, htk c hc, writtenUpTo_succ, writtenUpTo_of_none hnone, hloc0, List.take_zero,
          blockAt_of_some hr, hrw, hrm]
      · exact absurd hestn hne
      · rw [hestn] at hle; omega
    · obtain ⟨f, colsf, ans, hf, hfr, hnj0, hpos, hest, hloc, hans, hok, hrows, hwr⟩ := hS
      have hnjv : njvalOf s cols = s.njval := by
        unfold njvalOf; rw [if_neg (by omega)]
      rw [hnjv] at hnj hroom hres d3
      have hcf : contributes a f = true := by unfold contributes; rw [hfr.1]; rfl
      have hrw := rowsAt_later hr (isFirst_false_of_earlier hf hcf)
      rw [← hnj] at hrw
      rcases ensureRoom_cases hroom with ⟨h1, _⟩ | ⟨hne, hgt, hgrow, hre, hrm⟩ | ⟨hle, hra, hre, hrm⟩
      · omega
      · rw [hans] at hgrow
        simp only [Option.getD_some] at hgrow
        obtain ⟨hok1, hkeep⟩ := growAns_ok hgrow hok
        have hge := regrowEstn_ge a n (s.ansloc + maxnOf cols s.njval) (by omega) hn
        have hroom2 : s.ansloc + r.maxn ≤
            (regrowEstn a n (s.ansloc + maxnOf cols s.njval)).toNat := by
          rw [hrm]; omega
        obtain ⟨hok2, htk⟩ := write_ok hok1 hroom2 hkeys hres
        refine ⟨f, colsf, keys ++ res, by omega, hfr, by rw [d3]; exact hnj0,
          by rw [d3]; exact hpos, by rw [d5, hre]; omega, by rw [d4, d5, hre, hrm]; omega, d2,
          by rw [d3, d5, hre]; exact hok2,
          by rw [d4, rowsUpTo_succ, ← hrows, hrw, hrm], ?_⟩
        intro c hc
        rw [d3] at hc
        rw [d4, htk c hc, hkeep c hc s.ansloc (by omega) (by omega), hwr c hc, writtenUpTo_succ,
          blockAt_of_some hr, hrw, hrm]
      · rw [hans] at hra
        simp only [Option.getD_some] at hra
        rw [hra] at hkeys hres
        have hroom2 : s.ansloc + r.maxn ≤ s.estn.toNat := by rw [hrm]; omega
        obtain ⟨hok2, htk⟩ := write_ok hok hroom2 hkeys hres
        refine ⟨f, colsf, keys ++ res, by omega, hfr, by rw [d3]; exact hnj0,
          by rw [d3]; exact hpos, by rw [d5, hre]; exact hest, by rw [d4, d5, hre, hrm]; omega,
          d2, by rw [d3, d5, hre]; exact hok2,
          by rw [d4, rowsUpTo_succ, ← hrows, hrw, hrm], ?_⟩
        intro c hc
        rw [d3] at hc
        rw [d4, htk c hc, hwr c hc, writtenUpTo_succ, blockAt_of_some hr, hrw, hrm]

/-- The invariant holds before every group the run reaches. -/
theorem run_inv {a : Args} (hagg : a.lhs = none) (hk : KeysOK a) :
    ∀ (n : Nat) (s : State), n ≤ a.ngrp → stateAt a n = .ok s → RunInv a n s
  | 0, s, _, h => runInv_zero h
  | n + 1, s, hn, h => by
    rw [stateAt_succ] at h
    obtain ⟨s0, h0, h1⟩ := (bind_ok_iff _ _ _).mp h
    exact runInv_step hagg hk (by omega) h0 (run_inv hagg hk n s0 (by omega) h0) h1

/-! ## The number of columns is fixed by the first contributing group -/

theorem resultAt_eq_some {a : Args} {n : Nat} {cols : SEXP} (h : resultAt a n = some cols) :
    ∃ s ws, stateAt a n = .ok s ∧ evaluated a n s = true ∧
      populate a s.dt n s.ws = .ok ws ∧ shape a n (evalJ a ws) = .ok (some cols) := by
  unfold resultAt at h
  cases hj : jvalAt a n with
  | none => rw [hj] at h; cases h
  | some jv =>
    rw [hj] at h
    simp only at h
    obtain ⟨s, ws, h1, h2, h3, h4⟩ := jvalAt_eq_some hj
    subst h4
    refine ⟨s, ws, h1, h2, h3, ?_⟩
    cases hs : shape a n (evalJ a ws) with
    | error e => rw [hs] at h; cases h
    | ok o =>
      cases o with
      | none => rw [hs] at h; cases h
      | some c =>
        rw [hs] at h
        injection h with h
        rw [h]

/-- In aggregation mode, a group that is evaluated and whose result has the
shape of a list of columns goes through the aggregation step. -/
theorem groupStep_agg {a : Args} {n : Nat} {s : State} {ws : WorkingSet} {cols : SEXP}
    (hagg : a.lhs = none) (he : evaluated a n s = true)
    (hp : populate a s.dt n s.ws = .ok ws) (hsh : shape a n (evalJ a ws) = .ok (some cols)) :
    groupStep a n s = withDt s.dt (aggStep a n s ws cols) := by
  rw [groupStep_of_evaluated he hp]
  unfold afterEval
  rw [hsh]
  simp only [withDt, hagg]
  rfl

theorem contributes_of_firstResult {a : Args} {f : Nat} {colsf : SEXP}
    (h : firstResult a f colsf) : contributes a f = true := by
  unfold contributes
  rw [h.1]
  rfl

theorem firstResult_unique {a : Args} {f g : Nat} {cf cg : SEXP} (hf : firstResult a f cf)
    (hg : firstResult a g cg) : f = g ∧ cf = cg := by
  have h1 := contributes_of_firstResult hf
  have h2 := contributes_of_firstResult hg
  have hfg : f = g := by
    rcases Nat.lt_trichotomy f g with h | h | h
    · have := hg.2 f h
      rw [h1] at this; cases this
    · exact h
    · have := hf.2 g h
      rw [h2] at this; cases this
  subst hfg
  have := hf.1.symm.trans hg.1
  injection this with this
  exact ⟨rfl, this⟩

/-- Before group `n`, the table is untouched, and the number of columns is 0
until a group contributes and the number of columns of the first contributing
group from then on. -/
theorem njval_inv {a : Args} (hagg : a.lhs = none) :
    ∀ (n : Nat) (s : State), stateAt a n = .ok s →
      s.dt = a.dt ∧
      (((∀ k, k < n → contributes a k = false) ∧ s.njval = 0) ∨
        ∃ f colsf, f < n ∧ firstResult a f colsf ∧ s.njval = LENGTH colsf)
  | 0, s, h => by
    rw [stateAt_zero] at h
    obtain ⟨ws, _, e⟩ := preamble_eq h
    subst e
    exact ⟨rfl, Or.inl ⟨fun k hk => absurd hk (Nat.not_lt_zero k), rfl⟩⟩
  | n + 1, s1, h => by
    rw [stateAt_succ] at h
    obtain ⟨s, hs, h1⟩ := (bind_ok_iff _ _ _).mp h
    obtain ⟨hdt, hcase⟩ := njval_inv hagg n s hs
    rcases step_cases hagg hs h1 with ⟨hnone, e1, _, e3, _, _⟩ | ⟨cols, ws, hr, _, hstep⟩
    · refine ⟨by rw [e1]; exact hdt, ?_⟩
      rcases hcase with ⟨hN, h0⟩ | ⟨f, colsf, hf, hfr, hnj⟩
      · left
        refine ⟨?_, by rw [e3]; exact h0⟩
        intro k hk1
        by_cases hkn : k < n
        · exact hN k hkn
        · have : k = n := by omega
          subst this
          unfold contributes
          rw [hnone]
          rfl
      · exact Or.inr ⟨f, colsf, by omega, hfr, by rw [e3]; exact hnj⟩
    · obtain ⟨hnj, r, keys, res, _, _, _, d1, _, d3, _, _⟩ := aggStep_eq hstep
      refine ⟨by rw [d1]; exact hdt, Or.inr ?_⟩
      rcases hcase with ⟨hN, h0⟩ | ⟨f, colsf, hf, hfr, hnj0⟩
      · exact ⟨n, cols, by omega, ⟨hr, hN⟩, by rw [d3]; exact hnj⟩
      · refine ⟨f, colsf, by omega, hfr, ?_⟩
        have := resultAt_pos hfr.1
        rw [d3]
        unfold njvalOf
        rw [if_neg (by omega)]
        exact hnj0

/-- C6: in aggregation mode, once the first contributing group `f` has returned
`LENGTH colsf` columns, a later group `n` whose result `cols` (neither NULL nor
an empty list) has a different number of columns makes `dogroups` fail with
the column-count error; the table is as it was passed in. -/
theorem C6_column_count_is_fixed (a : Args) (f n : Nat) (colsf cols : SEXP)
    (hagg : a.lhs = none) (hf : firstResult a f colsf) (hfn : f < n) (hn : n < a.ngrp)
    (hr : resultAt a n = some cols) (hne : LENGTH cols ≠ LENGTH colsf) :
    dogroups a = .error ⟨.ncolMismatch, a.dt⟩ := by
  obtain ⟨s, ws, hs, he, hp, hsh⟩ := resultAt_eq_some hr
  obtain ⟨hdt, hcase⟩ := njval_inv hagg n s hs
  have hnj : s.njval = LENGTH colsf := by
    rcases hcase with ⟨hN, _⟩ | ⟨g, cg, _, hg, hnj⟩
    · have := hN f hfn
      rw [contributes_of_firstResult hf] at this
      cases this
    · rw [(firstResult_unique hf hg).2]
      exact hnj
  apply dogroups_error_of_step hn hs
  rw [groupStep_agg hagg he hp hsh, ← hdt]
  have hpos := resultAt_pos hf.1
  have : njvalOf s cols ≠ LENGTH cols := by
    unfold njvalOf
    rw [if_neg (by omega), hnj]
    exact fun e => hne e.symm
  unfold aggStep
  rw [if_pos this]
  rfl

/-- C6, witness: the first group returns one column and the second group two. -/
theorem C6_witness : dogroups c6Args = .error ⟨.ncolMismatch, c6Args.dt⟩ :=
  C6_column_count_is_fixed c6Args 0 1 (listOf [intVec [1]]) (listOf [intVec [1], intVec [2]]) rfl
    ⟨some_of_beq (by decide!), fun k hk => absurd hk (Nat.not_lt_zero k)⟩ (by decide) (by decide)
    (some_of_beq (by decide!)) (by decide)

/-! ## The column types are fixed by the first contributing group -/

theorem writeResCol_typeMismatch {i : Nat} {grpn : Int} {ansloc maxn : Nat}
    {target source : SEXP} {j : Nat} (hlen : length source ≠ 0)
    (hty : TYPEOF source ≠ TYPEOF target) :
    writeResCol i grpn ansloc maxn target source j = .error (.typeMismatch (j + 1) (i + 1)) := by
  unfold writeResCol
  rw [if_neg hlen, if_pos hty]

/-- The aggregation step fails when the loop over the result columns does. -/
theorem aggStep_error_of_writeRes {a : Args} {i : Nat} {s : State} {ws : WorkingSet}
    {jval : SEXP}
    (h : ∀ r, ensureRoom a i s (grpnOf a i) jval (njvalOf s jval)
        (maxnOf jval (njvalOf s jval)) = .ok r →
      ∃ e, writeRes a i (grpnOf a i) s.ansloc r.maxn jval (njvalOf s jval) r.ans = .error e) :
    ∃ e, aggStep a i s ws jval = .error e := by
  unfold aggStep
  by_cases hc : njvalOf s jval ≠ LENGTH jval
  · rw [if_pos hc]
    exact ⟨_, rfl⟩
  · rw [if_neg hc]
    cases h1 : ensureRoom a i s (grpnOf a i) jval (njvalOf s jval)
        (maxnOf jval (njvalOf s jval)) with
    | error e => exact ⟨e, (bind_error_iff _ _ _).mpr (Or.inl rfl)⟩
    | ok r =>
      cases h2 : writeKeys a (igrpOf a i) s.ansloc r.maxn r.ans with
      | error e =>
        exact ⟨e, (bind_error_iff _ _ _).mpr (Or.inr ⟨r, rfl,
          (bind_error_iff _ _ _).mpr (Or.inl h2)⟩)⟩
      | ok keys =>
        obtain ⟨e, h3⟩ := h r h1
        exact ⟨e, (bind_error_iff _ _ _).mpr (Or.inr ⟨r, rfl,
          (bind_error_iff _ _ _).mpr (Or.inr ⟨keys, h2,
            (bind_error_iff _ _ _).mpr (Or.inl h3)⟩)⟩)⟩

/-- The columns the rows of group `n` are written to have the types of the
first contributing group, whichever way room was made. -/
theorem ensureRoom_ansOK {a : Args} {n : Nat} {s : State} {grpn : Int} {jval : SEXP}
    {maxn : Nat} {r : Room} {colsf : SEXP} {cols : List SEXP}
    (h : ensureRoom a n s grpn jval s.njval maxn = .ok r) (hest : 0 ≤ s.estn)
    (hans : s.ans = some cols) (hok : AnsOK a s.njval (colType a colsf) cols s.estn.toNat) :
    AnsOK a s.njval (colType a colsf) r.ans r.estn.toNat := by
  rcases ensureRoom_cases h with ⟨h1, _⟩ | ⟨_, _, hgrow, hre, _⟩ | ⟨_, hra, hre, _⟩
  · omega
  · rw [hans] at hgrow
    simp only [Option.getD_some] at hgrow
    rw [hre]
    exact (growAns_ok hgrow hok).1
  · rw [hans] at hra
    simp only [Option.getD_some] at hra
    rw [hra, hre]
    exact hok

/-- C7 (as amended): in aggregation mode, when a later group `n` returns a
column `j` that is not empty and whose type differs from the type of column `j`
of the first contributing group, `dogroups` fails with a fatal error, and the
table is as it was passed in. -/
theorem C7_type_mismatch_is_fatal (a : Args) (f n j : Nat) (colsf cols : SEXP)
    (hagg : a.lhs = none) (hk : KeysOK a) (hf : firstResult a f colsf) (hfn : f < n)
    (hn : n < a.ngrp) (hr : resultAt a n = some cols) (hj : j < LENGTH colsf)
    (hlen : length (VECTOR_ELT cols j) ≠ 0)
    (hty : TYPEOF (VECTOR_ELT cols j) ≠ TYPEOF (VECTOR_ELT colsf j)) :
    ∃ e, dogroups a = .error ⟨e, a.dt⟩ := by
  obtain ⟨s, ws, hs, he, hp, hsh⟩ := resultAt_eq_some hr
  obtain ⟨hdt, hcase⟩ := run_inv hagg hk n s (Nat.le_of_lt hn) hs
  rcases hcase with hN | ⟨g, cg, ans, _, hg, hnj, hpos, hest, _, hans, hok, _, _⟩
  · have := hN.1 f hfn
    rw [contributes_of_firstResult hf] at this
    cases this
  · obtain ⟨_, e2⟩ := firstResult_unique hf hg
    subst e2
    have hnjv : njvalOf s cols = s.njval := by
      unfold njvalOf; rw [if_neg (by omega)]
    obtain ⟨e, hE⟩ : ∃ e, aggStep a n s ws cols = .error e := by
      apply aggStep_error_of_writeRes
      intro r h1
      rw [hnjv] at h1 ⊢
      have hok1 := ensureRoom_ansOK h1 hest hans hok
      have hjn : j < s.njval := by omega
      have hcol := (hok1.2 (j + a.ngrpcols) (by omega)).typeof
      unfold colType at hcol
      rw [if_neg (by omega), Nat.add_sub_cancel] at hcol
      unfold writeRes
      apply forCols_error _ _ 0 j (by rw [List.length_range]; exact hjn)
      simp only [Nat.zero_add]
      exact ⟨_, writeResCol_typeMismatch hlen (by rw [hcol]; exact hty)⟩
    refine ⟨e, ?_⟩
    apply dogroups_error_of_step hn hs
    rw [groupStep_agg hagg he hp hsh, hE, ← hdt]
    rfl

/-- C7, witness: the first group returns an integer and the second a string. -/
theorem C7_witness : ∃ e, dogroups c7Args = .error ⟨e, c7Args.dt⟩ :=
  C7_type_mismatch_is_fatal c7Args 0 1 0 (listOf [intVec [1]]) (listOf [strVec ["a"]]) rfl
    (by intro g hg; simp [c7Args, exArgs] at hg; subst hg; decide)
    ⟨some_of_beq (by decide!), fun k hk => absurd hk (Nat.not_lt_zero k)⟩ (by decide) (by decide)
    (some_of_beq (by decide!)) (by decide) (by decide) (by decide)

/-- C7, counterexample: the second group returns `list(3L, character(0))` where
the first returned `list(1L, 5L)`.  The type of its second column (character)
differs from the contract (integer), yet `dogroups` does not fail: the column
is empty, so its row is filled with NA without a look at its type. -/
theorem C7_counterexample :
    firstResult c7EmptyArgs 0 (listOf [intVec [1], intVec [5]]) ∧
    resultAt c7EmptyArgs 1 = some (listOf [intVec [3], strVec []]) ∧
    TYPEOF (VECTOR_ELT (listOf [intVec [3], strVec []]) 1) ≠
      TYPEOF (VECTOR_ELT (listOf [intVec [1], intVec [5]]) 1) ∧
    ∃ r, dogroups c7EmptyArgs = .ok r ∧
      r.ans = some [intVec [1, 2], intVec [1, 3],
        .vec .INTSXP [.int 5, .na] [] 0 false] := by
  refine ⟨⟨some_of_beq (by decide!), fun k hk => absurd hk (Nat.not_lt_zero k)⟩,
    some_of_beq (by decide!), by decide, ?_⟩
  obtain ⟨r, hr, hp⟩ := exists_of_check
    (o := match dogroups c7EmptyArgs with
      | .ok r => some r
      | .error _ => none)
    (p := fun r => match r.ans with
      | some ans => SEXP.beqCols ans [intVec [1, 2], intVec [1, 3],
          .vec .INTSXP [.int 5, .na] [] 0 false]
      | none => false) (by decide!)
  cases hd : dogroups c7EmptyArgs with
  | error e => rw [hd] at hr; cases hr
  | ok r1 =>
    rw [hd] at hr
    injection hr with hr
    subst hr
    refine ⟨r1, rfl, ?_⟩
    cases ha : r1.ans with
    | none => rw [ha] at hp; cases hp
    | some ans =>
      rw [ha] at hp
      rw [cols_beq_eq _ _ hp]

/-! ## The result returned in aggregation mode -/

theorem exists_ok_of_isOk {ε α : Type} {e : Except ε α} (h : e.isOk = true) :
    ∃ x, e = .ok x := by
  cases e with
  | error f => cases h
  | ok x => exact ⟨x, rfl⟩

theorem keysOK_exArgs (j : WorkingSet → SEXP) : KeysOK (exArgs j) := by
  intro g hg
  simp [exArgs] at hg
  subst hg
  rfl

/-- Lines 477-484: after the loop the columns are cut back to the rows written;
nothing else is changed. -/
theorem trimAns_started {a : Args} {n : Nat} {s : State} {o : Option (List SEXP)}
    (hagg : a.lhs = none) (hS : Started a n s) (h : trimAns a s = .ok o) :
    ∃ f colsf ans, f < n ∧ firstResult a f colsf ∧ o = some ans ∧
      ans.length = a.ngrpcols + LENGTH colsf ∧
      ∀ c : Nat, c < a.ngrpcols + LENGTH colsf →
        IsCol (getS ans c) (colType a colsf c) (rowsUpTo a n) ∧
        (getS ans c).items = writtenUpTo a (colType a colsf c) c n := by
  obtain ⟨f, colsf, ans, hf, hfr, hnj, hpos, hest, hloc, hans, hok, hrows, hwr⟩ := hS
  rw [hnj] at hok hwr
  have h0 : LENGTH (getS ans 0) = s.estn.toNat := by
    have := (hok.2 0 (by omega)).LENGTH_eq
    simpa using this
  unfold trimAns at h
  rw [hagg, hans] at h
  simp only [h0] at h
  by_cases hlt : s.ansloc < s.estn.toNat
  · rw [if_pos hlt] at h
    cases hg : forCols (fun (_ : Nat) (col : SEXP) => growVector col s.ansloc) 0 ans with
    | error e => rw [hg] at h; cases h
    | ok cols =>
      rw [hg] at h
      injection h with h
      subst h
      have hl := forCols_length _ _ _ _ hg
      refine ⟨f, colsf, cols, hf, hfr, rfl, by rw [hl]; exact hok.1, ?_⟩
      intro c hc
      have hcl : c < ans.length := by rw [hok.1]; exact hc
      have hgc := forCols_getS _ _ _ hg c hcl
      rw [← getS_lt hcl] at hgc
      obtain ⟨hcol, hkeep⟩ := growVector_isCol hgc (hok.2 c hc)
      rw [← hrows]
      refine ⟨hcol, ?_⟩
      have := hkeep s.ansloc (by omega) (Nat.le_refl _)
      rw [List.take_of_length_le (by rw [hcol.length_items])] at this
      rw [this]
      exact hwr c hc
  · rw [if_neg hlt] at h
    injection h with h
    subst h
    have he : s.estn.toNat = s.ansloc := by omega
    refine ⟨f, colsf, ans, hf, hfr, rfl, hok.1, ?_⟩
    intro c hc
    have hcol := hok.2 c hc
    rw [he] at hcol
    rw [← hrows]
    refine ⟨hcol, ?_⟩
    rw [← hwr c hc, List.take_of_length_le (by rw [hcol.length_items])]

theorem trimAns_notStarted {a : Args} {n : Nat} {s : State} {o : Option (List SEXP)}
    (hN : NotStarted a n s) (h : trimAns a s = .ok o) : o = none := by
  unfold trimAns at h
  rw [hN.2.2.1] at h
  cases hl : a.lhs with
  | none => rw [hl] at h; injection h with h; exact h.symm
  | some l => rw [hl] at h; injection h with h; exact h.symm

theorem dogroups_eq_ok {a : Args} {r : Result} (h : dogroups a = .ok r) :
    ∃ s, stateAt a a.ngrp = .ok s ∧ trimAns a s = .ok r.ans ∧ r.dt = s.dt := by
  unfold dogroups at h
  obtain ⟨s, hs, h⟩ := (bind_ok_iff _ _ _).mp h
  unfold finish at h
  obtain ⟨o, ho, h⟩ := (bind_ok_iff _ _ _).mp h
  injection h with h
  subst h
  exact ⟨s, hs, (withDt_ok_iff _ _ _).mp ho, rfl⟩

/-- C2 (as amended): in aggregation mode, when `dogroups` accepts the results of
all groups, either no group contributed and nothing is returned, or every
column returned has exactly `rowsUpTo a ngrp` rows, the sum over the groups of
the rows each adds (the length of the longest column of its result; none for a
first contributing group that has no rows itself), and the column is, block
after block in group order, what the groups wrote: no row is left unwritten,
whatever size was guessed from the first contributing group. -/
theorem C2_rows_are_the_rows_written (a : Args) (r : Result) (hagg : a.lhs = none)
    (hk : KeysOK a) (h : dogroups a = .ok r) :
    (r.ans = none ∧ ∀ k, k < a.ngrp → contributes a k = false) ∨
    ∃ f colsf ans, f < a.ngrp ∧ firstResult a f colsf ∧ r.ans = some ans ∧
      ans.length = a.ngrpcols + LENGTH colsf ∧
      ∀ c : Nat, c < a.ngrpcols + LENGTH colsf →
        LENGTH (getS ans c) = rowsUpTo a a.ngrp ∧
        (getS ans c).items = writtenUpTo a (colType a colsf c) c a.ngrp := by
  obtain ⟨s, hs, ht, _⟩ := dogroups_eq_ok h
  obtain ⟨_, hcase⟩ := run_inv hagg hk a.ngrp s (Nat.le_refl _) hs
  rcases hcase with hN | hS
  · exact Or.inl ⟨trimAns_notStarted hN ht, hN.1⟩
  · obtain ⟨f, colsf, ans, hf, hfr, ho, hl, hc⟩ := trimAns_started hagg hS ht
    exact Or.inr ⟨f, colsf, ans, hf, hfr, ho, hl,
      fun c hcc => ⟨(hc c hcc).1.LENGTH_eq, (hc c hcc).2⟩⟩

/-- C2, witness: the first group returns one row, so room is made for 2 rows;
the second returns three, the columns are regrown, and the 4 rows returned are
the rows the two groups wrote. -/
theorem C2_witness :
    rowsUpTo c2Args c2Args.ngrp = 4 ∧
    ∃ r, dogroups c2Args = .ok r ∧
      ((r.ans = none ∧ ∀ k, k < c2Args.ngrp → contributes c2Args k = false) ∨
      ∃ f colsf ans, f < c2Args.ngrp ∧ firstResult c2Args f colsf ∧ r.ans = some ans ∧
        ans.length = c2Args.ngrpcols + LENGTH colsf ∧
        ∀ c : Nat, c < c2Args.ngrpcols + LENGTH colsf →
          LENGTH (getS ans c) = rowsUpTo c2Args c2Args.ngrp ∧
          (getS ans c).items = writtenUpTo c2Args (colType c2Args colsf c) c c2Args.ngrp) := by
  refine ⟨by decide!, ?_⟩
  obtain ⟨r, hr⟩ := exists_ok_of_isOk (e := dogroups c2Args) (by decide!)
  exact ⟨r, hr, C2_rows_are_the_rows_written c2Args r rfl (keysOK_exArgs _) hr⟩

/-- C2, counterexample: on a table without rows the single, empty group is
evaluated and returns one column of length 1, so it contributes and the width
of its result is 1; the columns `dogroups` returns have no row. -/
theorem C2_counterexample :
    contributes c2EmptyArgs 0 = true ∧ widthAt c2EmptyArgs 0 = 1 ∧
    ∃ r, dogroups c2EmptyArgs = .ok r ∧ r.ans = some [intVec [], intVec []] := by
  refine ⟨by decide!, by decide!, ?_⟩
  obtain ⟨r, hr, hp⟩ := exists_of_check
    (o := match dogroups c2EmptyArgs with
      | .ok r => some r
      | .error _ => none)
    (p := fun r => match r.ans with
      | some ans => SEXP.beqCols ans [intVec [], intVec []]
      | none => false) (by decide!)
  cases hd : dogroups c2EmptyArgs with
  | error e => rw [hd] at hr; cases hr
  | ok r1 =>
    rw [hd] at hr
    injection hr with hr
    subst hr
    refine ⟨r1, rfl, ?_⟩
    cases ha : r1.ans with
    | none => rw [ha] at hp; cases hp
    | some ans =>
      rw [ha] at hp
      rw [cols_beq_eq _ _ hp]

/-! ## Steps that cannot fail -/

theorem forCols_ok_of_get {α β : Type} (f : Nat → α → Except Err β) :
    ∀ (xs : List α) (k : Nat),
      (∀ (j : Nat) (hj : j < xs.length), ∃ y, f (k + j) (xs.get ⟨j, hj⟩) = .ok y) →
      ∃ ys, forCols f k xs = .ok ys := by
  intro xs
  induction xs with
  | nil => intro k _; exact ⟨[], rfl⟩
  | cons x xs ih =>
    intro k h
    obtain ⟨y, hy⟩ := h 0 (by simp)
    have hrest : ∀ (j : Nat) (hj : j < xs.length),
        ∃ y, f (k + 1 + j) (xs.get ⟨j, hj⟩) = .ok y := by
      intro j hj
      obtain ⟨z, hz⟩ := h (j + 1) (by simpa using hj)
      refine ⟨z, ?_⟩
      simp only [List.get_eq_getElem, List.getElem_cons_succ] at hz ⊢
      rw [← hz]; congr 1; omega
    obtain ⟨ys, hys⟩ := ih (k + 1) hrest
    simp only [Nat.add_zero, List.get_eq_getElem, List.getElem_cons_zero] at hy
    exact ⟨y :: ys, by simp [forCols, hy, hys]⟩

theorem allocVector_ok {ty : SEXPTYPE} (n : Nat) (h : ty.isVector = true) :
    ∃ v, allocVector ty n = .ok v := by
  unfold allocVector
  by_cases h0 : ty = .NILSXP
  · rw [if_pos h0]; exact ⟨_, rfl⟩
  · rw [if_neg h0, if_pos h]; exact ⟨_, rfl⟩

theorem allocKey_ok {a : Args} (N : Nat) {g : Int}
    (h : isVector (getS a.groups (g - 1)) = true) : ∃ v, allocKey a N g = .ok v := by
  unfold allocKey
  obtain ⟨v, hv⟩ := allocVector_ok N h
  rw [hv]
  exact ⟨_, rfl⟩

theorem allocRes_ok {jval : SEXP} (N j : Nat) (h0 : isNull (VECTOR_ELT jval j) = false)
    (h : (TYPEOF (VECTOR_ELT jval j)).isVector = true) : ∃ v, allocRes jval N j = .ok v := by
  unfold allocRes
  rw [h0]
  obtain ⟨v, hv⟩ := allocVector_ok N h
  simp only [Bool.false_eq_true, if_false]
  rw [hv]
  exact ⟨_, rfl⟩

theorem allocAns_succeeds (a : Args) (jval : SEXP) (njval N : Nat) (hk : KeysOK a)
    (h : ∀ j : Nat, j < njval → isNull (VECTOR_ELT jval j) = false ∧
      (TYPEOF (VECTOR_ELT jval j)).isVector = true) :
    ∃ ans, allocAns a jval njval N = .ok ans := by
  unfold allocAns
  obtain ⟨keys, h1⟩ := forCols_ok_of_get (fun (_ : Nat) (g : Int) => allocKey a N g) a.grpcols 0
    (fun j hj => allocKey_ok N (hk _ (List.get_mem _ _ _)))
  obtain ⟨res, h2⟩ := forCols_ok_of_get (fun (j : Nat) (_ : Nat) => allocRes jval N j)
    (List.range njval) 0
    (fun j hj => by
      rw [List.length_range] at hj
      simp only [Nat.zero_add]
      exact allocRes_ok N j (h j hj).1 (h j hj).2)
  exact ⟨keys ++ res, (bind_ok_iff _ _ _).mpr ⟨keys, h1, (bind_ok_iff _ _ _).mpr ⟨res, h2, rfl⟩⟩⟩

theorem writeKeys_succeeds (a : Args) (igrp : Int) (ansloc maxn : Nat) (ans : List SEXP) :
    ∃ keys, writeKeys a igrp ansloc maxn ans = .ok keys := by
  unfold writeKeys
  exact forCols_ok _ (fun j g => memrecycle_ok _ _ _ _ _ _ _ (Or.inl rfl)) _ _

theorem aggStep_ok_of_parts {a : Args} {i : Nat} {s : State} (ws : WorkingSet) {jval : SEXP}
    {r : Room} {keys res : List SEXP} (h0 : njvalOf s jval = LENGTH jval)
    (h1 : ensureRoom a i s (grpnOf a i) jval (njvalOf s jval)
      (maxnOf jval (njvalOf s jval)) = .ok r)
    (h2 : writeKeys a (igrpOf a i) s.ansloc r.maxn r.ans = .ok keys)
    (h3 : writeRes a i (grpnOf a i) s.ansloc r.maxn jval (njvalOf s jval) r.ans = .ok res) :
    ∃ s1, aggStep a i s ws jval = .ok s1 ∧ s1.estn = r.estn := by
  unfold aggStep
  rw [if_neg (by rw [h0]; exact fun h => h rfl)]
  exact ⟨_, (bind_ok_iff _ _ _).mpr ⟨r, h1, (bind_ok_iff _ _ _).mpr ⟨keys, h2,
    (bind_ok_iff _ _ _).mpr ⟨res, h3, rfl⟩⟩⟩, rfl⟩

theorem ensureRoom_first {a : Args} {i : Nat} {s : State} {grpn : Int} {jval : SEXP}
    {njval maxn : Nat} {ans : List SEXP} (h : s.estn = -1)
    (halloc : allocAns a jval njval (firstEstn a grpn maxn).toNat = .ok ans) :
    ensureRoom a i s grpn jval njval maxn =
      .ok { ans := ans, names := namesOfAns a jval njval, estn := firstEstn a grpn maxn,
            maxn := firstMaxn grpn maxn } := by
  unfold ensureRoom
  rw [if_pos (by rw [h]; omega), if_pos h, bind_of_ok halloc]

/-- In assignment mode, a group that is evaluated and whose result has the
shape of a list of columns goes through the assignment step. -/
theorem groupStep_assign {a : Args} {i : Nat} {s : State} {ws : WorkingSet} {jval : SEXP}
    {lhs : List Int} (hl : a.lhs = some lhs) (he : evaluated a i s = true)
    (hp : populate a s.dt i s.ws = .ok ws) (hsh : shape a i (evalJ a ws) = .ok (some jval)) :
    groupStep a i s =
      (assignStep a i lhs jval (grpnOf a i) s.dt >>= fun dt =>
        .ok { s with ws := ws, dt := dt }) := by
  rw [groupStep_of_evaluated he hp]
  unfold afterEval
  rw [hsh]
  simp only [withDt, hl]
  rfl

/-- The loop of lines 301-311 stops with one of its two errors when some target
is rejected. -/
theorem checkRHS_error (jval : SEXP) (i : Nat) (grpn : Int) :
    ∀ (lhs : List Int) (k j : Nat), j < lhs.length → badRHS jval grpn (k + j) = true →
      ∃ e, checkRHS jval i grpn k lhs = .error e ∧ e.isAssignLength = true
  | [], _, _, hj, _ => absurd hj (Nat.not_lt_zero _)
  | l :: r, k, j, hj, hbad => by
    unfold checkRHS
    by_cases h1 : isNull (RHSof jval k) = true
    · rw [if_pos h1]; exact ⟨_, rfl, rfl⟩
    · rw [if_neg h1]
      by_cases h2 : 1 < length (RHSof jval k) ∧ (length (RHSof jval k) : Int) ≠ grpn
      · rw [if_pos h2]; exact ⟨_, rfl, rfl⟩
      · rw [if_neg h2]
        cases j with
        | zero =>
          unfold badRHS at hbad
          simp only [Nat.add_zero, Bool.or_eq_true, Bool.and_eq_true, decide_eq_true_eq] at hbad
          rcases hbad with hb | hb
          · exact absurd hb h1
          · exact absurd hb h2
        | succ j =>
          apply checkRHS_error jval i grpn r (k + 1) j (by simpa using hj)
          rw [← hbad]
          congr 1
          omega

theorem assignStep_error_of_bad {a : Args} {i j : Nat} {lhs : List Int} {jval : SEXP}
    {grpn : Int} (dt : Table) (hj : j < lhs.length) (hbad : badRHS jval grpn j = true) :
    ∃ e, assignStep a i lhs jval grpn dt = .error ⟨e, dt⟩ ∧ e.isAssignLength = true := by
  obtain ⟨e, he, hie⟩ := checkRHS_error jval i grpn lhs 0 j hj
    (by rw [Nat.zero_add]; exact hbad)
  refine ⟨e, ?_, hie⟩
  unfold assignStep
  rw [he]
  rfl

theorem stateAt_zero_dt {a : Args} {s : State} (h : stateAt a 0 = .ok s) : s.dt = a.dt := by
  rw [stateAt_zero] at h
  obtain ⟨ws, _, e⟩ := preamble_eq h
  subst e
  rfl

/-- C5: in assignment mode, when the result of group `i` gives some target `j`
a value that is NULL, or that has more than one element and not as many as the
group has rows, `dogroups` fails with the error of the check of lines 301-311,
and the table it leaves is the table as it stood before group `i` was
processed: no column added, no name added, no value written.  A failure on the
first group leaves the table as it was passed in. -/
theorem C5_failed_check_leaves_table (a : Args) (lhs : List Int) (i j : Nat) (jval : SEXP)
    (hl : a.lhs = some lhs) (hi : i < a.ngrp) (hr : resultAt a i = some jval)
    (hj : j < lhs.length) (hbad : badRHS jval (grpnOf a i) j = true) :
    ∃ s e, stateAt a i = .ok s ∧ dogroups a = .error ⟨e, s.dt⟩ ∧ e.isAssignLength = true ∧
      (i = 0 → s.dt = a.dt) := by
  obtain ⟨s, ws, hs, he, hp, hsh⟩ := resultAt_eq_some hr
  obtain ⟨e, hE, hie⟩ := assignStep_error_of_bad (a := a) (i := i) s.dt hj hbad
  refine ⟨s, e, hs, ?_, hie, ?_⟩
  · apply dogroups_error_of_step hi hs
    rw [groupStep_assign hl he hp hsh, hE]
    rfl
  · intro h0
    subst h0
    exact stateAt_zero_dt hs

/-- C5, witness: the first group assigns 10 to the new column `z`; the second
group, of two rows, returns three items: `dogroups` fails and leaves the table
as the first group left it. -/
theorem C5_witness :
    ∃ s e, stateAt c5Args 1 = .ok s ∧ dogroups c5Args = .error ⟨e, s.dt⟩ ∧
      e.isAssignLength = true ∧ (1 = 0 → s.dt = c5Args.dt) :=
  C5_failed_check_leaves_table c5Args [3] 1 0 (listOf [intVec [1, 2, 3]]) rfl (by decide)
    (some_of_beq (by decide!)) (by decide) (by decide!)

/-! ## Reading back what was stored -/

theorem setI_length (t : List Item) (r : Int) (v : Item) : (setI t r v).length = t.length := by
  unfold setI
  split <;> simp

theorem getI_setI_same {t : List Item} {r : Int} (v : Item) (h0 : 0 ≤ r)
    (h1 : r < t.length) : getI (setI t r v) r = v := by
  unfold getI setI
  rw [if_neg (by omega), if_neg (by omega)]
  rw [List.getD_eq_getElem _ _ (by simp; omega)]
  simp

theorem getI_setI_other {t : List Item} {r r1 : Int} (v : Item) (h : r ≠ r1) :
    getI (setI t r v) r1 = getI t r1 := by
  unfold getI setI
  by_cases h1 : r1 < 0
  · rw [if_pos h1, if_pos h1]
  · rw [if_neg h1, if_neg h1]
    by_cases h0 : r < 0
    · rw [if_pos h0]
    · rw [if_neg h0]
      simp only [List.getD_eq_getElem?_getD]
      rw [List.getElem?_set_ne (by omega)]

/-- After the stores `t[row k] := v k` for `k = 0, ..., len-1`, made in that
order, row `row k` holds `v k` when it lies inside the array and no later store
to the same row stores another value. -/
theorem foldl_setI_get (row : Nat → Int) (v : Nat → Item) :
    ∀ (len : Nat) (t : List Item) (k : Nat), k < len → 0 ≤ row k → row k < t.length →
      (∀ k1, k < k1 → k1 < len → row k1 = row k → v k1 = v k) →
      getI ((List.range len).foldl (fun (t : List Item) (k : Nat) => setI t (row k) (v k)) t)
        (row k) = v k := by
  intro len
  induction len with
  | zero => intro t k hk; exact absurd hk (Nat.not_lt_zero k)
  | succ n ih =>
    intro t k hk h0 h1 hlast
    rw [List.range_succ, List.foldl_append]
    simp only [List.foldl_cons, List.foldl_nil]
    by_cases hkn : k = n
    · subst hkn
      exact getI_setI_same _ h0 (by rw [foldl_setI_length]; exact h1)
    · have hk1 : k < n := by omega
      by_cases hr : row n = row k
      · rw [hr, getI_setI_same _ h0 (by rw [foldl_setI_length]; exact h1)]
        exact hlast n hk1 (Nat.lt_succ_self n) hr
      · rw [getI_setI_other _ hr]
        exact ih t k hk1 h0 h1 (fun k1 h2 h3 h4 => hlast k1 h2 (by omega) h4)

/-- The stores of `memrecycle`, one per row of the group: a row index below 1
in `where` is skipped, which is what a store at a negative position is here. -/
theorem memrecycleItems_eq_foldl (tgt : List Item) (wher : List Int) (start : Int) (len : Nat)
    (src : List Item) (ss : Int) (slen : Nat) :
    memrecycleItems tgt wher start len src ss slen =
      (List.range len).foldl
        (fun (t : List Item) (k : Nat) =>
          setI t (if wher.isEmpty then start + k else getInt wher (start + k) - 1)
            (getI src (if slen = 1 then ss else ss + k))) tgt := by
  unfold memrecycleItems
  congr 1
  funext t k
  by_cases hw : wher.isEmpty = true
  · simp only [hw, if_true]
  · simp only [hw, Bool.false_eq_true, if_false]
    by_cases h1 : getInt wher (start + k) < 1
    · rw [if_pos h1]
      unfold setI
      rw [if_pos (by omega)]
    · rw [if_neg h1]

theorem memrecycle_eq {t t1 : SEXP} {wher : List Int} {start len : Int} {src : SEXP} {ss : Int}
    (h : memrecycle t wher start len src ss (-1) = .ok t1) (hlen : 1 ≤ len)
    (hsrc : length src ≠ 0) :
    t1 = t.withItems (memrecycleItems t.items wher start len.toNat src.items ss (length src)) := by
  unfold memrecycle at h
  rw [if_neg (by omega)] at h
  simp only [show ¬ ((0 : Int) ≤ -1) by omega, if_false] at h
  rw [if_neg hsrc] at h
  by_cases h3 : 1 < length src ∧ ((length src : Nat) : Int) ≠ len
  · rw [if_pos h3] at h; cases h
  · rw [if_neg h3] at h
    injection h with h
    exact h.symm

/-- The cell `memrecycle` leaves in row `k` of the group. -/
theorem memrecycle_cell {t t1 : SEXP} {wher : List Int} {start len : Int} {src : SEXP}
    {ty : SEXPTYPE} {m : Nat} (h : memrecycle t wher start len src 0 (-1) = .ok t1)
    (hc : IsCol t ty m) (hsrc : length src ≠ 0) (k : Nat) (hk : (k : Int) < len)
    (h0 : 0 ≤ (if wher.isEmpty then start + k else getInt wher (start + k) - 1))
    (h1 : (if wher.isEmpty then start + k else getInt wher (start + k) - 1) < m)
    (hlast : ∀ k1 : Nat, k < k1 → (k1 : Int) < len →
      (if wher.isEmpty then start + k1 else getInt wher (start + k1) - 1) =
        (if wher.isEmpty then start + k else getInt wher (start + k) - 1) →
      getI src.items (if length src = 1 then 0 else 0 + k1) =
        getI src.items (if length src = 1 then 0 else 0 + k)) :
    getI t1.items (if wher.isEmpty then start + k else getInt wher (start + k) - 1) =
      getI src.items (if length src = 1 then 0 else 0 + k) := by
  rw [memrecycle_eq h (by omega) hsrc,
    (hc.withItems _ m (by rw [memrecycleItems_length]; exact hc.length_items)).2,
    memrecycleItems_eq_foldl]
  exact foldl_setI_get
    (fun (k : Nat) => if wher.isEmpty then start + k else getInt wher (start + k) - 1)
    (fun (k : Nat) => getI src.items (if length src = 1 then 0 else 0 + k))
    len.toNat t.items k (by omega) h0 (by rw [hc.length_items]; exact h1)
    (fun k1 h2 h3 h4 => hlast k1 h2 (by omega) h4)

/-! ## Slots of the table -/

theorem setS_length (xs : List SEXP) (c : Int) (v : SEXP) : (setS xs c v).length = xs.length := by
  unfold setS
  split <;> simp

theorem getS_setS_same {xs : List SEXP} {c : Int} (v : SEXP) (h0 : 0 ≤ c)
    (h1 : c < xs.length) : getS (setS xs c v) c = v := by
  unfold getS setS
  rw [if_neg (by omega), if_neg (by omega)]
  rw [List.getD_eq_getElem _ _ (by simp; omega)]
  simp

theorem getS_setS_other {xs : List SEXP} {c c1 : Int} (v : SEXP) (h : c ≠ c1) :
    getS (setS xs c v) c1 = getS xs c1 := by
  unfold getS setS
  by_cases h1 : c1 < 0
  · rw [if_pos h1, if_pos h1]
  · rw [if_neg h1, if_neg h1]
    by_cases h0 : c < 0
    · rw [if_pos h0]
    · rw [if_neg h0]
      simp only [List.getD_eq_getElem?_getD]
      rw [List.getElem?_set_ne (by omega)]

theorem getInt_cons_zero (l : Int) (r : List Int) : getInt (l :: r) ((0 : Nat) : Int) = l := by
  simp [getInt]

theorem getInt_cons_succ (l : Int) (r : List Int) (j : Nat) :
    getInt (l :: r) ((j + 1 : Nat) : Int) = getInt r (j : Int) := by
  unfold getInt
  rw [if_neg (by omega), if_neg (by omega)]
  simp

/-! ## Assignment by reference: the writes -/

theorem isNull_false_of_isCol {c : SEXP} {ty : SEXPTYPE} {n : Nat} (h : IsCol c ty n) :
    isNull c = false := by
  obtain ⟨its, att, tl, alt, rfl, hv, _⟩ := h
  unfold isNull TYPEOF SEXP.node
  cases ty <;> first | rfl | cases hv

/-- Lines 317-330 on a target that can take the value: the slot of the target
holds a vector afterwards, and no other slot is touched. -/
theorem addColumn_target (a : Args) {dt : Table} (origncol n : Nat) {l : Int} {RHS : SEXP}
    (h : TargetOK dt l RHS) :
    ∃ dt1, addColumn a dt origncol n (l - 1) RHS = .ok dt1 ∧
      dt1.cols.length = dt.cols.length ∧
      (∀ c, c ≠ l - 1 → getS dt1.cols c = getS dt.cols c) ∧
      ∃ ty m, IsCol (getS dt1.cols (l - 1)) ty m := by
  obtain ⟨h1, h2, h3⟩ := h
  unfold addColumn
  by_cases hn : isNull (getS dt.cols (l - 1)) = true
  · rw [if_pos hn] at h3
    rw [if_pos hn, if_neg (by omega)]
    obtain ⟨v, hv⟩ := allocVector_ok n h3
    have hcol := (allocVector_isCol hv h3).1
    have hnew : IsCol (copyMostAttrib RHS (writeNA (copyMostAttrib RHS v) 0 n)) (TYPEOF RHS) n :=
      (copyMostAttrib_isCol (writeNA_isCol (copyMostAttrib_isCol hcol).1)).1
    have ha : allocNAVectorLike RHS n = .ok (writeNA (copyMostAttrib RHS v) 0 n) := by
      unfold allocNAVectorLike
      rw [hv]
      rfl
    rw [bind_of_ok ha]
    refine ⟨_, rfl, setS_length _ _ _, fun c hc => getS_setS_other _ (Ne.symm hc),
      TYPEOF RHS, n, ?_⟩
    show IsCol (getS (setS dt.cols (l - 1) _) (l - 1)) _ _
    rw [getS_setS_same _ (by omega) (by omega)]
    exact hnew
  · rw [if_neg hn] at h3
    rw [if_neg hn]
    exact ⟨dt, rfl, rfl, fun c _ => rfl, h3⟩

/-- Lines 314-340 for one target that passed the check: the write cannot fail;
it leaves in the slot of the target the column `memrecycle` returns, and leaves
every other slot alone. -/
theorem assignOne_target (a : Args) (i : Nat) {jval : SEXP} {grpn : Int} (origncol n : Nat)
    {j : Nat} {l : Int} {dt : Table} (h : TargetOK dt l (RHSof jval j))
    (hgood : badRHS jval grpn j = false) :
    ∃ dt2 tgt t ty m, assignOne a i jval grpn origncol n j l dt = .ok dt2 ∧
      dt2.cols.length = dt.cols.length ∧
      (∀ c, c ≠ l - 1 → getS dt2.cols c = getS dt.cols c) ∧
      getS dt2.cols (l - 1) = t ∧ IsCol tgt ty m ∧ IsCol t ty m ∧
      memrecycle tgt a.order (getInt a.starts i - 1) grpn (guarded tgt (RHSof jval j)) 0 (-1) =
        .ok t := by
  obtain ⟨dt1, hadd, hlen, hother, ty, m, hcol⟩ := addColumn_target a origncol n h
  unfold badRHS at hgood
  simp only [Bool.or_eq_false_iff, Bool.and_eq_false_iff, decide_eq_false_iff_not] at hgood
  have hmem : ∃ t, memrecycle (getS dt1.cols (l - 1)) a.order (getInt a.starts i - 1) grpn
      (guarded (getS dt1.cols (l - 1)) (RHSof jval j)) 0 (-1) = .ok t := by
    unfold memrecycle
    by_cases hl : grpn < 1
    · rw [if_pos hl]; exact ⟨_, rfl⟩
    · rw [if_neg hl]
      simp only [show ¬ ((0 : Int) ≤ -1) by omega, if_false, guarded_length]
      by_cases h0 : length (RHSof jval j) = 0
      · rw [if_pos h0]; exact ⟨_, rfl⟩
      · rw [if_neg h0]
        have h3 : ¬ (1 < length (RHSof jval j) ∧ ((length (RHSof jval j) : Nat) : Int) ≠ grpn) := by
          intro hb
          rcases hgood.2 with hg | hg
          · exact hg hb.1
          · exact hg hb.2
        rw [if_neg h3]
        exact ⟨_, rfl⟩
  obtain ⟨t, ht⟩ := hmem
  refine ⟨{ dt1 with cols := setS dt1.cols (l - 1) t }, getS dt1.cols (l - 1), t, ty, m,
    ?_, ?_, ?_, ?_, hcol, memrecycle_isCol ht hcol, ht⟩
  · unfold assignOne
    rw [hadd]
    simp only [withDt]
    rw [bind_of_ok rfl, ht]
    rfl
  · show (setS dt1.cols (l - 1) t).length = dt.cols.length
    rw [setS_length, hlen]
  · intro c hc
    show getS (setS dt1.cols (l - 1) t) c = getS dt.cols c
    rw [getS_setS_other _ (Ne.symm hc), hother c hc]
  · show getS (setS dt1.cols (l - 1) t) (l - 1) = t
    exact getS_setS_same _ (by have := h.1; omega) (by rw [hlen]; have := h.2.1; omega)

/-- A target that can take its value still can after another target was
written. -/
theorem TargetOK_of_step {dt dt2 : Table} {l l1 : Int} {RHS : SEXP} {t : SEXP} {ty : SEXPTYPE}
    {m : Nat} (h : TargetOK dt l1 RHS) (hlen : dt2.cols.length = dt.cols.length)
    (hother : ∀ c, c ≠ l - 1 → getS dt2.cols c = getS dt.cols c)
    (hsame : getS dt2.cols (l - 1) = t) (ht : IsCol t ty m) : TargetOK dt2 l1 RHS := by
  obtain ⟨h1, h2, h3⟩ := h
  refine ⟨h1, by rw [hlen]; exact h2, ?_⟩
  by_cases e : l1 - 1 = l - 1
  · rw [e, hsame, isNull_false_of_isCol ht]
    simp only [Bool.false_eq_true, if_false]
    exact ⟨ty, m, ht⟩
  · rw [hother _ e]
    exact h3

/-- Lines 313-341 when every target passed the check and can take its value:
the loop cannot fail, and the slot of a target that is not a target again later
in the list holds what `memrecycle` returned for it. -/
theorem assignCols_targets (a : Args) (i : Nat) (jval : SEXP) (grpn : Int) (origncol n : Nat) :
    ∀ (lhs : List Int) (k : Nat) (dt : Table),
      (∀ j : Nat, j < lhs.length → badRHS jval grpn (k + j) = false ∧
        TargetOK dt (getInt lhs j) (RHSof jval (k + j))) →
      ∃ dtF, assignCols a i jval grpn origncol n k lhs dt = .ok dtF ∧
        dtF.cols.length = dt.cols.length ∧
        (∀ c, (∀ j : Nat, j < lhs.length → getInt lhs j - 1 ≠ c) →
          getS dtF.cols c = getS dt.cols c) ∧
        ∀ j : Nat, j < lhs.length →
          (∀ j1 : Nat, j < j1 → j1 < lhs.length → getInt lhs j1 ≠ getInt lhs j) →
          ∃ tgt t ty m, getS dtF.cols (getInt lhs j - 1) = t ∧ IsCol tgt ty m ∧ IsCol t ty m ∧
            memrecycle tgt a.order (getInt a.starts i - 1) grpn
              (guarded tgt (RHSof jval (k + j))) 0 (-1) = .ok t
  | [], k, dt, _ => ⟨dt, rfl, rfl, fun _ _ => rfl, fun j hj => absurd hj (Nat.not_lt_zero j)⟩
  | l :: r, k, dt, h => by
    have h0 := h 0 (by simp)
    rw [getInt_cons_zero, Nat.add_zero] at h0
    obtain ⟨dt2, tgt, t, ty, m, hone, hlen, hother, hsame, htgt, ht, hmem⟩ :=
      assignOne_target a i origncol n h0.2 h0.1
    have hrest : ∀ j : Nat, j < r.length → badRHS jval grpn (k + 1 + j) = false ∧
        TargetOK dt2 (getInt r j) (RHSof jval (k + 1 + j)) := by
      intro j hj
      have := h (j + 1) (by simpa using hj)
      rw [getInt_cons_succ, show k + (j + 1) = k + 1 + j by omega] at this
      exact ⟨this.1, TargetOK_of_step this.2 hlen hother hsame ht⟩
    obtain ⟨dtF, hF, hlenF, hotherF, htargets⟩ := assignCols_targets a i jval grpn origncol n
      r (k + 1) dt2 hrest
    refine ⟨dtF, ?_, by rw [hlenF, hlen], ?_, ?_⟩
    · unfold assignCols
      rw [bind_of_ok hone]
      exact hF
    · intro c hc
      rw [hotherF c (fun j hj => by
        have := hc (j + 1) (by simpa using hj)
        rw [getInt_cons_succ] at this
        exact this)]
      apply hother
      have := hc 0 (by simp)
      rw [getInt_cons_zero] at this
      exact Ne.symm this
    · intro j hj hlast
      cases j with
      | zero =>
        rw [getInt_cons_zero, Nat.add_zero]
        refine ⟨tgt, t, ty, m, ?_, htgt, ht, hmem⟩
        rw [hotherF (l - 1) (fun j1 hj1 => by
          have := hlast (j1 + 1) (by omega) (by simpa using hj1)
          rw [getInt_cons_succ, getInt_cons_zero] at this
          omega)]
        exact hsame
      | succ j =>
        have hj1 : j < r.length := by simpa using hj
        obtain ⟨tgt1, t1, ty1, m1, e1, e2, e3, e4⟩ := htargets j hj1 (fun j1 h1 h2 => by
          have := hlast (j1 + 1) (by omega) (by simpa using h2)
          rw [getInt_cons_succ, getInt_cons_succ] at this
          exact this)
        rw [getInt_cons_succ, show k + (j + 1) = k + 1 + j by omega]
        exact ⟨tgt1, t1, ty1, m1, e1, e2, e3, e4⟩

theorem checkRHS_ok (jval : SEXP) (i : Nat) (grpn : Int) :
    ∀ (lhs : List Int) (k : Nat), (∀ j : Nat, j < lhs.length → badRHS jval grpn (k + j) = false) →
      checkRHS jval i grpn k lhs = .ok ()
  | [], _, _ => rfl
  | l :: r, k, h => by
    have h0 := h 0 (by simp)
    unfold badRHS at h0
    simp only [Nat.add_zero, Bool.or_eq_false_iff, Bool.and_eq_false_iff,
      decide_eq_false_iff_not] at h0
    unfold checkRHS
    rw [if_neg (by rw [h0.1]; exact Bool.false_ne_true), if_neg (by
      intro hb
      rcases h0.2 with hg | hg
      · exact hg hb.1
      · exact hg hb.2)]
    exact checkRHS_ok jval i grpn r (k + 1) (fun j hj => by
      have := h (j + 1) (by simpa using hj)
      rw [show k + (j + 1) = k + 1 + j by omega] at this
      exact this)

/-! ## The recycling law of assignment by reference -/

theorem recycled_of_memrecycle {a : Args} {lhs : List Int} {i j : Nat} {jval : SEXP}
    {dt : Table} {tgt t : SEXP} {ty : SEXPTYPE} {m : Nat}
    (e1 : getS dt.cols (getInt lhs j - 1) = t) (e2 : IsCol tgt ty m) (e3 : IsCol t ty m)
    (e4 : memrecycle tgt a.order (getInt a.starts i - 1) (grpnOf a i)
      (guarded tgt (RHSof jval j)) 0 (-1) = .ok t) : Recycled a lhs i jval dt j := by
  intro k hk h0 h1
  rw [e1, e3.LENGTH_eq] at h1
  rw [e1, e3.typeof, ← guarded_eq_guardFor e2.typeof]
  unfold rowOf at h0 h1 ⊢
  constructor
  · intro hlen
    have hg : length (guarded tgt (RHSof jval j)) = 1 := by rw [guarded_length]; exact hlen
    have := memrecycle_cell e4 e2 (by omega) k hk h0 h1 (fun k1 _ _ _ => by rw [if_pos hg, if_pos hg])
    rw [if_pos hg] at this
    exact this
  · intro hlen hrows
    have hg : (length (guarded tgt (RHSof jval j)) : Int) = grpnOf a i := by
      rw [guarded_length]; exact hlen
    have := memrecycle_cell e4 e2 (by omega) k hk h0 h1 (fun k1 h2 h3 h4 => by
      have := hrows k1 h2 h3
      unfold rowOf at this
      exact absurd h4 this)
    rw [this]
    by_cases h1g : length (guarded tgt (RHSof jval j)) = 1
    · rw [if_pos h1g]
      have : k = 0 := by omega
      subst this
      rfl
    · rw [if_neg h1g, Int.zero_add]

/-- C4 (as amended): in assignment mode, for a group `i` that the run reaches
and whose result is `jval`: if some target gets a value that is NULL, or that
has more than one element and not as many as the group has rows, `dogroups`
fails with a fatal error; otherwise (every target column being a slot of the
table that holds a vector, or an empty slot that receives a vector) the group
is processed without error, and for every target a value of length 1 is
broadcast to all rows of the group and a value of length equal to the group's
row count is copied element-wise.  A value of length 0 that is not NULL is not
an error. -/
theorem C4_assignment_recycling (a : Args) (lhs : List Int) (i : Nat) (s : State) (jval : SEXP)
    (hl : a.lhs = some lhs) (hi : i < a.ngrp) (hs : stateAt a i = .ok s)
    (hr : resultAt a i = some jval) :
    ((∃ j : Nat, j < lhs.length ∧ badRHS jval (grpnOf a i) j = true) →
      ∃ e, dogroups a = .error ⟨e, s.dt⟩ ∧ e.isAssignLength = true) ∧
    ((∀ j : Nat, j < lhs.length → badRHS jval (grpnOf a i) j = false ∧
        TargetOK s.dt (getInt lhs j) (RHSof jval j)) →
      ∃ s1, stateAt a (i + 1) = .ok s1 ∧
        ∀ j : Nat, j < lhs.length →
          (∀ j1 : Nat, j < j1 → j1 < lhs.length → getInt lhs j1 ≠ getInt lhs j) →
          Recycled a lhs i jval s1.dt j) := by
  obtain ⟨s0, ws, hs0, he, hp, hsh⟩ := resultAt_eq_some hr
  rw [hs] at hs0
  injection hs0 with hs0
  subst hs0
  constructor
  · intro ⟨j, hj, hbad⟩
    obtain ⟨e, hE, hie⟩ := assignStep_error_of_bad (a := a) (i := i) s.dt hj hbad
    refine ⟨e, ?_, hie⟩
    apply dogroups_error_of_step hi hs
    rw [groupStep_assign hl he hp hsh, hE]
    rfl
  · intro hgood
    have hchk := checkRHS_ok jval i (grpnOf a i) lhs 0
      (fun j hj => by rw [Nat.zero_add]; exact (hgood j hj).1)
    obtain ⟨dtF, hF, _, _, htargets⟩ := assignCols_targets a i jval (grpnOf a i) s.dt.ncol
      (LENGTH (getS s.dt.cols 0)) lhs 0 s.dt
      (fun j hj => by rw [Nat.zero_add]; exact hgood j hj)
    refine ⟨{ s with ws := ws, dt := dtF }, ?_, ?_⟩
    · rw [stateAt_succ, bind_of_ok hs, groupStep_assign hl he hp hsh]
      unfold assignStep
      rw [hchk]
      simp only [withDt]
      rw [bind_of_ok rfl, bind_of_ok hF]
    · intro j hj hlast
      obtain ⟨tgt, t, ty, m, e1, e2, e3, e4⟩ := htargets j hj hlast
      rw [Nat.zero_add] at e4
      exact recycled_of_memrecycle e1 e2 e3 e4

/-- C4, witness: `z := y + 10L` by group on the example table.  The first
group (rows 1 and 3) passes the check, the run goes on to the second group, and
the recycling law holds for the target `z`; in the end `z` is 11, 12, 13, 14. -/
theorem C4_witness :
    (∃ r, dogroups c4Args = .ok r ∧ getS r.dt.cols 2 = intVec [11, 12, 13, 14]) ∧
    ∃ s1, stateAt c4Args 1 = .ok s1 ∧
      ∀ j : Nat, j < [(3 : Int)].length →
        (∀ j1 : Nat, j < j1 → j1 < [(3 : Int)].length → getInt [3] j1 ≠ getInt [3] j) →
        Recycled c4Args [3] 0 (listOf [intVec [11, 13]]) s1.dt j := by
  constructor
  · obtain ⟨r, hr, hp⟩ := exists_of_check
      (o := match dogroups c4Args with
        | .ok r => some r
        | .error _ => none)
      (p := fun r => SEXP.beq (getS r.dt.cols 2) (intVec [11, 12, 13, 14])) (by decide!)
    cases hd : dogroups c4Args with
    | error e => rw [hd] at hr; cases hr
    | ok r1 =>
      rw [hd] at hr
      injection hr with hr
      subst hr
      exact ⟨r1, rfl, sexp_beq_eq _ _ hp⟩
  · obtain ⟨s, hs⟩ := exists_state_of_isOk (a := c4Args) (i := 0) (by decide!)
    have hdt := stateAt_zero_dt hs
    apply (C4_assignment_recycling c4Args [3] 0 s (listOf [intVec [11, 13]]) rfl (by decide) hs
      (some_of_beq (by decide!))).2
    intro j hj
    have hj0 : j = 0 := by simpa using hj
    subst hj0
    rw [hdt]
    refine ⟨by decide!, by decide!, by decide!, ?_⟩
    rw [if_pos (by decide!)]
    decide!

/-- C4, counterexample: `z := integer(0)` by group.  For the first group, of two
rows, the value is not NULL and its length, 0, is neither 1 nor 2; `dogroups`
does not fail: it adds the column and assigns nothing. -/
theorem C4_counterexample :
    c4ZeroArgs.lhs = some [3] ∧ resultAt c4ZeroArgs 0 = some (listOf [intVec []]) ∧
    length (RHSof (listOf [intVec []]) 0) = 0 ∧ grpnOf c4ZeroArgs 0 = 2 ∧
    ∃ r, dogroups c4ZeroArgs = .ok r ∧
      getS r.dt.cols 2 = .vec .INTSXP [.na, .na, .na, .na] [] 0 false := by
  refine ⟨rfl, some_of_beq (by decide!), by decide!, by decide!, ?_⟩
  obtain ⟨r, hr, hp⟩ := exists_of_check
    (o := match dogroups c4ZeroArgs with
      | .ok r => some r
      | .error _ => none)
    (p := fun r => SEXP.beq (getS r.dt.cols 2) (.vec .INTSXP [.na, .na, .na, .na] [] 0 false))
    (by decide!)
  cases hd : dogroups c4ZeroArgs with
  | error e => rw [hd] at hr; cases hr
  | ok r1 =>
    rw [hd] at hr
    injection hr with hr
    subst hr
    exact ⟨r1, rfl, sexp_beq_eq _ _ hp⟩

/-! ## The scratch buffers of `.SD` stay marked -/

mutual
theorem instantiate_copyAsPlain (ws : WorkingSet) :
    ∀ (x : SEXP), instantiate ws (copyAsPlain x) = copyAsPlain x
  | .null => rfl
  | .vec ty its att _ _ => by
      simp only [copyAsPlain, instantiate]
      rw [instantiateItems_copyAsPlain ws its, instantiateAttribs_copyAsPlain ws att]
  | .buf _ v => by
      simp only [copyAsPlain]
      exact instantiate_copyAsPlain ws v
theorem instantiateItem_copyAsPlain (ws : WorkingSet) :
    ∀ (it : Item), instantiateItem ws (copyAsPlainItem it) = copyAsPlainItem it
  | .elt x => by
      simp only [copyAsPlainItem, instantiateItem]
      rw [instantiate_copyAsPlain ws x]
  | .na => rfl
  | .int _ => rfl
  | .str _ => rfl
  | .uninit => rfl
theorem instantiateItems_copyAsPlain (ws : WorkingSet) :
    ∀ (its : List Item), instantiateItems ws (copyAsPlainItems its) = copyAsPlainItems its
  | [] => rfl
  | it :: r => by
      simp only [copyAsPlainItems, instantiateItems]
      rw [instantiateItem_copyAsPlain ws it, instantiateItems_copyAsPlain ws r]
theorem instantiateAttribs_copyAsPlain (ws : WorkingSet) :
    ∀ (att : List (String × SEXP)),
      instantiateAttribs ws (copyAsPlainAttribs att) = copyAsPlainAttribs att
  | [] => rfl
  | (t, v) :: r => by
      simp only [copyAsPlainAttribs, instantiateAttribs]
      rw [instantiate_copyAsPlain ws v, instantiateAttribs_copyAsPlain ws r]
end

theorem forUpTo_succ {σ ε : Type} (n : Nat) (body : Nat → σ → Except ε σ) (s : σ) :
    forUpTo (n + 1) body s =
      match forUpTo n body s with
      | .error e => .error e
      | .ok s1 => body n s1 := by
  unfold forUpTo
  rw [List.range_succ, List.foldlM_append]
  cases h : List.foldlM (fun s i => body i s) s (List.range n) with
  | error e => rfl
  | ok s1 =>
    show (List.foldlM (fun s i => body i s) s1 [n]) = body n s1
    simp [List.foldlM]

/-- A loop whose body raises the error `g i`, if any, and else applies `f i`, raises the
first error met and else applies every `f i` in turn. -/
theorem forUpTo_eq {σ ε : Type} (g : Nat → Option ε) (f : Nat → σ → σ)
    (body : Nat → σ → Except ε σ)
    (hb : ∀ i s, body i s = (g i).elim (.ok (f i s)) .error) :
    ∀ (n : Nat) (s : σ), forUpTo n body s =
      ((List.range n).findSome? g).elim (.ok ((List.range n).foldl (fun s i => f i s) s)) .error
  | 0, s => rfl
  | n + 1, s => by
    rw [forUpTo_succ, forUpTo_eq g f body hb n s, List.range_succ, List.findSome?_append,
      List.foldl_append]
    cases h : (List.range n).findSome? g with
    | some e => rfl
    | none =>
      simp only [Option.none_or, List.findSome?_cons, List.findSome?_nil, List.foldl_cons,
        List.foldl_nil, Option.elim]
      rw [hb]
      cases g n <;> rfl

theorem findSome?_range_none {ε : Type} (g : Nat → Option ε) (n : Nat) :
    (List.range n).findSome? g = none ↔ ∀ i, i < n → g i = none := by
  rw [List.findSome?_eq_none_iff]
  simp [List.mem_range]

theorem findSome?_range_some {ε : Type} (g : Nat → Option ε) (n : Nat) (e : ε)
    (h : (List.range n).findSome? g = some e) : ∃ i, i < n ∧ g i = some e := by
  obtain ⟨i, hi, h1⟩ := List.exists_of_findSome?_eq_some h
  exact ⟨i, List.mem_range.mp hi, h1⟩

theorem getD_set_eq {α : Type} (l : List α) (n idx : Nat) (a d : α) :
    (l.set n a).getD idx d = if n = idx ∧ n < l.length then a else l.getD idx d := by
  simp only [List.getD_eq_getElem?_getD, List.getElem?_set]
  by_cases h : n = idx
  · subst h
    by_cases h1 : n < l.length
    · simp [h1]
    · simp [h1, List.getElem?_eq_none (Nat.le_of_not_lt h1)]
  · simp [h]

theorem pair_div (nk i j : Nat) (hj : j < nk) : (i * nk + j) / nk = i := by
  rw [Nat.add_comm, Nat.add_mul_div_right _ _ (by omega), Nat.div_eq_of_lt hj, Nat.zero_add]

theorem pair_mod (nk i j : Nat) (hj : j < nk) : (i * nk + j) % nk = j := by
  rw [Nat.add_comm, Nat.add_mul_mod_self_right, Nat.mod_eq_of_lt hj]

/-- The inner loop over the windows `j < m` of column `i`: cell `i * nk + j` is updated,
the others are left alone. -/
theorem row_fold {α : Type} (d : α) (nk i : Nat) (upd : Nat → α → α) :
    ∀ (m : Nat) (l : List α), i * nk + m ≤ l.length →
      ((List.range m).foldl (fun l j => l.set (i * nk + j) (upd j (l.getD (i * nk + j) d)))
        l).length = l.length ∧
      ∀ idx, ((List.range m).foldl (fun l j => l.set (i * nk + j) (upd j (l.getD (i * nk + j) d)))
        l).getD idx d =
          if i * nk ≤ idx ∧ idx < i * nk + m then upd (idx - i * nk) (l.getD idx d)
          else l.getD idx d
  | 0, l, _ => ⟨rfl, fun idx => by rw [if_neg (by omega)]; rfl⟩
  | m + 1, l, h => by
    obtain ⟨h1, h2⟩ := row_fold d nk i upd m l (by omega)
    rw [List.range_succ, List.foldl_append]
    simp only [List.foldl_cons, List.foldl_nil, List.length_set]
    refine ⟨h1, fun idx => ?_⟩
    rw [getD_set_eq, h1]
    by_cases hi : i * nk + m = idx
    · subst hi
      rw [if_pos ⟨rfl, by omega⟩, h2, if_neg (by omega), if_pos ⟨by omega, by omega⟩]
      congr 1
      omega
    · rw [if_neg (fun hh => hi hh.1), h2]
      by_cases hc : i * nk ≤ idx ∧ idx < i * nk + m
      · rw [if_pos hc, if_pos ⟨hc.1, by omega⟩]
      · rw [if_neg hc, if_neg (by omega)]

/-- The loops over the columns `i < nx` and the windows `j < nk`: cell `i * nk + j` is
updated for each pair, once, and no other cell is touched. -/
theorem grid_fold {α : Type} (d : α) (nk : Nat) (upd : Nat → Nat → α → α) :
    ∀ (nx : Nat) (l : List α), nx * nk ≤ l.length →
      ((List.range nx).foldl (fun l i => (List.range nk).foldl
        (fun l j => l.set (i * nk + j) (upd i j (l.getD (i * nk + j) d))) l) l).length
          = l.length ∧
      ∀ idx, ((List.range nx).foldl (fun l i => (List.range nk).foldl
        (fun l j => l.set (i * nk + j) (upd i j (l.getD (i * nk + j) d))) l) l).getD idx d =
          if idx < nx * nk then upd (idx / nk) (idx % nk) (l.getD idx d) else l.getD idx d
  | 0, l, _ => ⟨rfl, fun idx => by rw [if_neg (by omega)]; rfl⟩
  | nx + 1, l, h => by
    have hle : nx * nk + nk ≤ l.length := by rw [Nat.succ_mul] at h; exact h
    obtain ⟨h1, h2⟩ := grid_fold d nk upd nx l (by omega)
    rw [List.range_succ, List.foldl_append]
    simp only [List.foldl_cons, List.foldl_nil]
    obtain ⟨h3, h4⟩ := row_fold d nk nx (upd nx) nk _ (by rw [h1]; exact hle)
    refine ⟨by rw [h3, h1], fun idx => ?_⟩
    rw [h4, h2, Nat.succ_mul]
    by_cases hc : nx * nk ≤ idx ∧ idx < nx * nk + nk
    · rw [if_pos hc, if_neg (by omega), if_pos hc.2]
      have e : idx = nx * nk + (idx - nx * nk) := by omega
      have hlt : idx - nx * nk < nk := by omega
      rw [show idx / nk = nx by rw [e]; exact pair_div nk nx _ hlt,
        show idx % nk = idx - nx * nk by rw [e]; rw [pair_mod nk nx _ hlt]; omega]
    · rw [if_neg hc]
      by_cases hlt : idx < nx * nk
      · rw [if_pos hlt, if_pos (by omega)]
      · rw [if_neg hlt, if_neg (by omega)]

/-! ## The allocation of the answer (lines 115-134) -/

theorem allocAnswers_eq (b : Bool) (x : List (List Dbl)) (kl : List (List Int)) (nk : Nat) :
    allocAnswers b x kl nk =
      ((List.range x.length).findSome?
          (fun i => (List.range nk).findSome? (allocCheck b x kl i))).elim
        (.ok ((List.range x.length).foldl (fun (l : List Slot) i => (List.range nk).foldl
          (fun (l : List Slot) j => l.set (i * nk + j) (some (List.replicate (inx x i) none))) l)
          (List.replicate (nk * x.length) none))) .error := by
  unfold allocAnswers
  exact forUpTo_eq (fun i => (List.range nk).findSome? (allocCheck b x kl i))
    (fun i (l : List Slot) => (List.range nk).foldl (fun (l : List Slot) j => l.set (i * nk + j)
      (some (List.replicate (inx x i) none))) l)
    (fun i ans => forUpTo nk (fun j ans => allocOne b x kl nk i j ans) ans)
    (fun i s => forUpTo_eq (allocCheck b x kl i)
      (fun j (l : List Slot) => l.set (i * nk + j) (some (List.replicate (inx x i) none)))
      (fun j ans => allocOne b x kl nk i j ans)
      (fun j s => by
        show allocOne b x kl nk i j s = _
        unfold allocOne
        cases allocCheck b x kl i j <;> rfl) nk s) x.length _

theorem allocAnswers_ok {b : Bool} {x : List (List Dbl)} {kl : List (List Int)} {nk : Nat}
    {ans : List Slot} (h : allocAnswers b x kl nk = .ok ans) :
    ans.length = x.length * nk ∧
    (∀ i j, i < x.length → j < nk →
      ans.getD (i * nk + j) none = some (List.replicate (inx x i) none)) ∧
    (∀ i j, i < x.length → j < nk → allocCheck b x kl i j = none) := by
  rw [allocAnswers_eq] at h
  cases hf : (List.range x.length).findSome?
      (fun i => (List.range nk).findSome? (allocCheck b x kl i)) with
  | some e => rw [hf] at h; cases h
  | none =>
    rw [hf] at h
    injection h with h
    obtain ⟨h1, h2⟩ := grid_fold (none : Slot) nk
      (fun (i _ : Nat) (_ : Slot) => (some (List.replicate (inx x i) none) : Slot)) x.length
      (List.replicate (nk * x.length) none) (by rw [List.length_replicate, Nat.mul_comm])
    subst h
    refine ⟨by rw [Nat.mul_comm x.length nk]; exact h1.trans (List.length_replicate _ _),
      fun i j hi hj => ?_, fun i j hi hj => ?_⟩
    · have hlt : i * nk + j < x.length * nk :=
        calc i * nk + j < i * nk + nk := by omega
          _ = (i + 1) * nk := by rw [Nat.succ_mul]
          _ ≤ x.length * nk := Nat.mul_le_mul_right nk hi
      refine (h2 (i * nk + j)).trans ?_
      rw [if_pos hlt, pair_div nk i j hj]
    · exact (findSome?_range_none _ nk).mp ((findSome?_range_none _ x.length).mp hf i hi) j hj

theorem allocAnswers_error {b : Bool} {x : List (List Dbl)} {kl : List (List Int)} {nk : Nat}
    {e : FErr} (h : allocAnswers b x kl nk = .error e) :
    ∃ i j, i < x.length ∧ j < nk ∧ allocCheck b x kl i j = some e := by
  rw [allocAnswers_eq] at h
  cases hf : (List.range x.length).findSome?
      (fun i => (List.range nk).findSome? (allocCheck b x kl i)) with
  | none => rw [hf] at h; cases h
  | some e1 =>
    rw [hf] at h
    injection h with h
    subst h
    obtain ⟨i, hi, h1⟩ := findSome?_range_some _ _ _ hf
    obtain ⟨j, hj, h2⟩ := findSome?_range_some _ _ _ h1
    exact ⟨i, j, hi, hj, h2⟩

theorem allocAnswers_succeeds {b : Bool} {x : List (List Dbl)} {kl : List (List Int)} {nk : Nat}
    (h : ∀ i j, i < x.length → j < nk → allocCheck b x kl i j = none) :
    ∃ ans, allocAnswers b x kl nk = .ok ans := by
  cases ha : allocAnswers b x kl nk with
  | ok ans => exact ⟨ans, rfl⟩
  | error e =>
    obtain ⟨i, j, hi, hj, hc⟩ := allocAnswers_error ha
    rw [h i j hi hj] at hc
    cases hc

/-! ## The calls of the kernels (lines 182-202) -/

theorem kernelCall_ans (K : Kernels) (p : Plan) (i j : Nat) :
    (kernelCall K p i j).1.ans = i * p.widths.nk + j ∧ (kernelCall K p i j).1.x = i ∧
      (kernelCall K p i j).1.nx = inx p.x i := by
  unfold kernelCall
  cases p.sfun <;> cases p.widths <;> exact ⟨rfl, rfl, rfl⟩

theorem dispatchRow_calls (K : Kernels) (p : Plan) (i : Nat) :
    ∀ (js : List Nat) (d : Dispatch),
      (js.foldl (fun d j => dispatchOne K p i j d) d).calls =
        d.calls ++ js.map (fun j => (kernelCall K p i j).1)
  | [], d => by simp
  | j :: js, d => by
    rw [List.foldl_cons, dispatchRow_calls K p i js]
    simp [dispatchOne]

theorem dispatchGrid_calls (K : Kernels) (p : Plan) (js : List Nat) :
    ∀ (is : List Nat) (d : Dispatch),
      (is.foldl (fun d i => js.foldl (fun d j => dispatchOne K p i j d) d) d).calls =
        d.calls ++ is.flatMap (fun i => js.map (fun j => (kernelCall K p i j).1))
  | [], d => by simp
  | i :: is, d => by
    rw [List.foldl_cons, dispatchGrid_calls K p js is, dispatchRow_calls]
    simp

/-- The calls made: one per pair, in the order of the loops. -/
theorem dispatch_calls (K : Kernels) (p : Plan) :
    (dispatch K p).calls = (List.range p.x.length).flatMap
      (fun i => (List.range p.widths.nk).map (fun j => (kernelCall K p i j).1)) := by
  unfold dispatch
  rw [dispatchGrid_calls]
  rfl

theorem dispatchRow_ans (K : Kernels) (p : Plan) (i : Nat) :
    ∀ (js : List Nat) (d : Dispatch),
      (js.foldl (fun d j => dispatchOne K p i j d) d).ans =
        js.foldl (fun (l : List Slot) j => l.set (i * p.widths.nk + j)
          (written (l.getD (i * p.widths.nk + j) none) (kernelCall K p i j).2.dbl_v)) d.ans
  | [], d => rfl
  | j :: js, d => by
    rw [List.foldl_cons, dispatchRow_ans K p i js, List.foldl_cons]
    congr 1
    show List.set d.ans (kernelCall K p i j).1.ans _ = _
    rw [(kernelCall_ans K p i j).1]

theorem dispatchGrid_ans (K : Kernels) (p : Plan) (js : List Nat) :
    ∀ (is : List Nat) (d : Dispatch),
      (is.foldl (fun d i => js.foldl (fun d j => dispatchOne K p i j d) d) d).ans =
        is.foldl (fun (l : List Slot) i => js.foldl
          (fun (l : List Slot) j => l.set (i * p.widths.nk + j)
            (written (l.getD (i * p.widths.nk + j) none) (kernelCall K p i j).2.dbl_v)) l) d.ans
  | [], d => rfl
  | i :: is, d => by
    rw [List.foldl_cons, dispatchGrid_ans K p js is, List.foldl_cons, dispatchRow_ans]

/-- The answer after the calls: the vector of pair `(i, j)` holds what the kernel called
for that pair wrote, and nothing else is changed. -/
theorem dispatch_ans (K : Kernels) (p : Plan) (h : p.x.length * p.widths.nk ≤ p.ans.length) :
    (dispatch K p).ans.length = p.ans.length ∧
    ∀ idx, (dispatch K p).ans.getD idx none =
      if idx < p.x.length * p.widths.nk then
        written (p.ans.getD idx none)
          (kernelCall K p (idx / p.widths.nk) (idx % p.widths.nk)).2.dbl_v
      else p.ans.getD idx none := by
  have e : (dispatch K p).ans = _ := dispatchGrid_ans K p (List.range p.widths.nk)
    (List.range p.x.length) ⟨[], p.ans, List.replicate (p.x.length * p.widths.nk) 0⟩
  rw [e]
  exact grid_fold (none : Slot) p.widths.nk
    (fun i j old => written old (kernelCall K p i j).2.dbl_v) p.x.length p.ans h

/-! ## The checks of `frollfunR` -/

theorem coerceAsReal_length (a : Atomic) : (coerceAsReal a).length = a.length := by
  cases a <;> simp [coerceAsReal, Atomic.length]

theorem coerceElts_ok : ∀ {xs : List Elt} {x : List (List Dbl)}, coerceElts xs = .ok x →
    x.length = xs.length ∧ ∀ i, inx x i = (xs.getD i (.other 0)).length
  | [], x, h => by
    injection h with h
    subst h
    exact ⟨rfl, fun i => rfl⟩
  | .other n :: r, x, h => by cases h
  | .atomic a :: r, x, h => by
    have key : ∀ ys, coerceElts r = .ok ys → x = coerceAsReal a :: ys →
        x.length = (Elt.atomic a :: r).length ∧
          ∀ i, inx x i = ((Elt.atomic a :: r).getD i (.other 0)).length := by
      intro ys hys hx
      obtain ⟨h1, h2⟩ := coerceElts_ok hys
      subst hx
      refine ⟨by simp [h1], fun i => ?_⟩
      cases i with
      | zero => simp [inx, coerceAsReal_length, Elt.length]
      | succ i => simpa [inx] using h2 i
    cases a with
    | str s => cases h
    | lgl v =>
      unfold coerceElts at h
      cases hr : coerceElts r with
      | error e => rw [hr] at h; cases h
      | ok ys => rw [hr] at h; injection h with h; exact key ys hr h.symm
    | int v =>
      unfold coerceElts at h
      cases hr : coerceElts r with
      | error e => rw [hr] at h; cases h
      | ok ys => rw [hr] at h; injection h with h; exact key ys hr h.symm
    | real v =>
      unfold coerceElts at h
      cases hr : coerceElts r with
      | error e => rw [hr] at h; cases h
      | ok ys => rw [hr] at h; injection h with h; exact key ys hr h.symm

theorem coerceElts_error : ∀ {xs : List Elt} {e : FErr}, coerceElts xs = .error e → e = .xType
  | [], e, h => by cases h
  | .other n :: r, e, h => by injection h with h; exact h.symm
  | .atomic a :: r, e, h => by
    cases a with
    | str s => injection h with h; exact h.symm
    | lgl v =>
      unfold coerceElts at h
      cases hr : coerceElts r with
      | error e1 => rw [hr] at h; injection h with h; subst h; exact coerceElts_error hr
      | ok ys => rw [hr] at h; cases h
    | int v =>
      unfold coerceElts at h
      cases hr : coerceElts r with
      | error e1 => rw [hr] at h; injection h with h; subst h; exact coerceElts_error hr
      | ok ys => rw [hr] at h; cases h
    | real v =>
      unfold coerceElts at h
      cases hr : coerceElts r with
      | error e1 => rw [hr] at h; injection h with h; subst h; exact coerceElts_error hr
      | ok ys => rw [hr] at h; cases h

theorem coerceToRealListR_error {obj : RObj} {e : FErr} (h : coerceToRealListR obj = .error e) :
    e = .xType := by
  cases obj with
  | null => cases h
  | atomic a => exact coerceElts_error h
  | list xs => exact coerceElts_error h

theorem adaptiveElts_ok : ∀ {ks : List Elt} {kl : List (List Int)}, adaptiveElts ks = .ok kl →
    kl.length = ks.length ∧ ∀ j, (kl.getD j []).length = (ks.getD j (.other 0)).length
  | [], kl, h => by
    injection h with h
    subst h
    exact ⟨rfl, fun i => rfl⟩
  | .other n :: r, kl, h => by cases h
  | .atomic a :: r, kl, h => by
    have key : ∀ (v : List Int) ys, v.length = a.length → adaptiveElts r = .ok ys → kl = v :: ys →
        kl.length = (Elt.atomic a :: r).length ∧
          ∀ j, (kl.getD j []).length = ((Elt.atomic a :: r).getD j (.other 0)).length := by
      intro v ys hv hys hx
      obtain ⟨h1, h2⟩ := adaptiveElts_ok hys
      subst hx
      refine ⟨by simp [h1], fun i => ?_⟩
      cases i with
      | zero => simp [hv, Elt.length]
      | succ i => simpa using h2 i
    cases a with
    | str s => cases h
    | lgl v => cases h
    | int v =>
      unfold adaptiveElts at h
      cases hr : adaptiveElts r with
      | error e => rw [hr] at h; cases h
      | ok ys => rw [hr] at h; injection h with h; exact key v ys rfl hr h.symm
    | real v =>
      unfold adaptiveElts at h
      cases hr : adaptiveElts r with
      | error e => rw [hr] at h; cases h
      | ok ys =>
        rw [hr] at h; injection h with h
        exact key _ ys (by simp [Atomic.length]) hr h.symm

theorem adaptiveElts_error :
    ∀ {ks : List Elt} {e : FErr}, adaptiveElts ks = .error e → e = .nAdaptive
  | [], e, h => by cases h
  | .other n :: r, e, h => by injection h with h; exact h.symm
  | .atomic a :: r, e, h => by
    cases a with
    | str s => injection h with h; exact h.symm
    | lgl v => injection h with h; exact h.symm
    | int v =>
      unfold adaptiveElts at h
      cases hr : adaptiveElts r with
      | error e1 => rw [hr] at h; injection h with h; subst h; exact adaptiveElts_error hr
      | ok ys => rw [hr] at h; cases h
    | real v =>
      unfold adaptiveElts at h
      cases hr : adaptiveElts r with
      | error e1 => rw [hr] at h; injection h with h; subst h; exact adaptiveElts_error hr
      | ok ys => rw [hr] at h; cases h

theorem checkPositive_error {ik : List Int} {e : FErr} (h : checkPositive ik = .error e) :
    e = .nPositive := by
  unfold checkPositive at h
  by_cases hc : (ik.takeWhile (fun v => decide (v > 0))).length ≠ ik.length
  · rw [if_pos hc] at h; injection h with h; exact h.symm
  · rw [if_neg hc] at h; cases h

theorem checkN_error {k : RObj} {b : Bool} {e : FErr} (h : checkN k b = .error e) :
    e = .nList ∨ e = .nInteger ∨ e = .nPositive ∨ e = .nAdaptive := by
  unfold checkN at h
  cases b with
  | false =>
    simp only [Bool.not_false, if_true] at h
    cases k with
    | null => injection h with h; exact Or.inl h.symm
    | list xs => injection h with h; exact Or.inl h.symm
    | atomic a =>
      cases a with
      | int ks => exact Or.inr (Or.inr (Or.inl (checkPositive_error h)))
      | real ks => exact Or.inr (Or.inr (Or.inl (checkPositive_error h)))
      | lgl v => injection h with h; exact Or.inr (Or.inl h.symm)
      | str v => injection h with h; exact Or.inr (Or.inl h.symm)
  | true =>
    simp only [Bool.not_true, Bool.false_eq_true, if_false] at h
    cases k with
    | null => cases h
    | list xs =>
      simp only at h
      cases hr : adaptiveElts xs with
      | error e1 =>
        rw [hr] at h; injection h with h; subst h
        exact Or.inr (Or.inr (Or.inr (adaptiveElts_error hr)))
      | ok kl => rw [hr] at h; cases h
    | atomic a =>
      cases a with
      | int ks => cases h
      | real ks => cases h
      | lgl v => injection h with h; exact Or.inr (Or.inr (Or.inr h.symm))
      | str v => injection h with h; exact Or.inr (Or.inr (Or.inr h.symm))

theorem checkHasNA_error {hasna : RObj} {b : Bool} {e : FErr} (h : checkHasNA hasna b = .error e) :
    e = .hasNA ∨ e = .hasNAnarm := by
  unfold checkHasNA at h
  split at h
  · split at h
    · injection h with h; exact Or.inr h.symm
    · cases h
  · injection h with h; exact Or.inl h.symm

theorem decodeAlign_error {align : String} {e : FErr} (h : decodeAlign align = .error e) :
    e = .internal "align" := by
  unfold decodeAlign at h
  split at h
  · cases h
  · split at h
    · cases h
    · split at h
      · cases h
      · injection h with h; exact h.symm

theorem decodeFun_error {fn : String} {e : FErr} (h : decodeFun fn = .error e) :
    e = .internal "fun" := by
  unfold decodeFun at h
  split at h
  · cases h
  · split at h
    · cases h
    · injection h with h; exact h.symm

theorem decodeAlgo_error {algo : String} {e : FErr} (h : decodeAlgo algo = .error e) :
    e = .internal "algo" := by
  unfold decodeAlgo at h
  split at h
  · cases h
  · split at h
    · cases h
    · injection h with h; exact h.symm

theorem checkFill_error {fill : RObj} {e : FErr} (h : checkFill fill = .error e) :
    e = .fillLength ∨ e = .fillType := by
  unfold checkFill at h
  split at h
  · split at h
    · injection h with h; exact Or.inl h.symm
    · injection h with h; exact Or.inr h.symm
  · split at h
    · injection h with h; exact Or.inl h.symm
    · cases h
  · split at h
    · injection h with h; exact Or.inl h.symm
    · injection h with h; exact Or.inr h.symm
  · injection h with h; exact Or.inl h.symm

theorem checkArgs_ok {obj k : RObj} {align : String} {narm hasna adaptive : RObj} {c : Checked}
    (h : checkArgs obj k align narm hasna adaptive = .ok c) :
    coerceToRealListR obj = .ok c.x ∧ k.xlength ≠ 0 ∧ adaptive.trueOrFalse = some c.badaptive ∧
      checkN k c.badaptive = .ok c.widths ∧ narm.trueOrFalse = some c.bnarm ∧
      checkHasNA hasna c.bnarm = .ok c.ihasna ∧ decodeAlign align = .ok c.ialign ∧
      ¬ (c.badaptive = true ∧ c.ialign ≠ 1) := by
  unfold checkArgs at h
  obtain ⟨x, hx, h⟩ := (bind_ok_iff _ _ _).mp h
  by_cases hk : k.xlength = 0
  · rw [if_pos hk] at h; cases h
  · rw [if_neg hk] at h
    cases ha : adaptive.trueOrFalse with
    | none => rw [ha] at h; cases h
    | some b =>
      rw [ha] at h
      simp only at h
      obtain ⟨w, hw, h⟩ := (bind_ok_iff _ _ _).mp h
      cases hn : narm.trueOrFalse with
      | none => rw [hn] at h; cases h
      | some bn =>
        rw [hn] at h
        simp only at h
        obtain ⟨ih, hih, h⟩ := (bind_ok_iff _ _ _).mp h
        obtain ⟨ia, hia, h⟩ := (bind_ok_iff _ _ _).mp h
        by_cases hc : b = true ∧ ia ≠ 1
        · rw [if_pos hc] at h; cases h
        · rw [if_neg hc] at h
          injection h with h
          subst h
          exact ⟨hx, hk, rfl, hw, rfl, hih, hia, hc⟩

/-- The checks made before the allocation raise errors about the arguments (the internal
error for `align` apart), and neither of the two errors about the lengths in adaptive
mode. -/
theorem checkArgs_error {obj k : RObj} {align : String} {narm hasna adaptive : RObj} {e : FErr}
    (h : checkArgs obj k align narm hasna adaptive = .error e) :
    (e.isParameter = true ∨ (e = .internal "align" ∧ decodeAlign align = .error e)) ∧
      e ≠ .xLengths ∧ e ≠ .nLengths := by
  unfold checkArgs at h
  rcases (bind_error_iff _ _ _).mp h with h | ⟨x, hx, h⟩
  · rw [coerceToRealListR_error h]; exact ⟨Or.inl rfl, by decide, by decide⟩
  by_cases hk : k.xlength = 0
  · rw [if_pos hk] at h; injection h with h; subst h; exact ⟨Or.inl rfl, by decide, by decide⟩
  rw [if_neg hk] at h
  cases ha : adaptive.trueOrFalse with
  | none => rw [ha] at h; injection h with h; subst h; exact ⟨Or.inl rfl, by decide, by decide⟩
  | some b =>
    rw [ha] at h
    simp only at h
    rcases (bind_error_iff _ _ _).mp h with h | ⟨w, hw, h⟩
    · rcases checkN_error h with e1 | e1 | e1 | e1 <;> subst e1 <;>
        exact ⟨Or.inl rfl, by decide, by decide⟩
    cases hn : narm.trueOrFalse with
    | none =>
      rw [hn] at h; injection h with h; subst h; exact ⟨Or.inl rfl, by decide, by decide⟩
    | some bn =>
      rw [hn] at h
      simp only at h
      rcases (bind_error_iff _ _ _).mp h with h | ⟨ih, hih, h⟩
      · rcases checkHasNA_error h with e1 | e1 <;> subst e1 <;>
          exact ⟨Or.inl rfl, by decide, by decide⟩
      rcases (bind_error_iff _ _ _).mp h with h | ⟨ia, hia, h⟩
      · have he := decodeAlign_error h
        subst he
        exact ⟨Or.inr ⟨rfl, h⟩, by decide, by decide⟩
      by_cases hc : b = true ∧ ia ≠ 1
      · rw [if_pos hc] at h; injection h with h; subst h
        exact ⟨Or.inl rfl, by decide, by decide⟩
      · rw [if_neg hc] at h; cases h

theorem allocCheck_error {b : Bool} {x : List (List Dbl)} {kl : List (List Int)} {i j : Nat}
    {e : FErr} (h : allocCheck b x kl i j = some e) :
    b = true ∧ ((e = .xLengths ∧ i > 0 ∧ inx x i ≠ inx x (i - 1)) ∨
      (e = .nLengths ∧ (kl.getD j []).length ≠ inx x 0)) := by
  unfold allocCheck at h
  by_cases hb : b = true
  · rw [if_pos hb] at h
    refine ⟨hb, ?_⟩
    by_cases h1 : i > 0 ∧ inx x i ≠ inx x (i - 1)
    · rw [if_pos h1] at h; injection h with h; exact Or.inl ⟨h.symm, h1⟩
    · rw [if_neg h1] at h
      by_cases h2 : (kl.getD j []).length ≠ inx x 0
      · rw [if_pos h2] at h; injection h with h; exact Or.inr ⟨h.symm, h2⟩
      · rw [if_neg h2] at h; cases h
  · rw [if_neg hb] at h; cases h

theorem allocCheck_none {x : List (List Dbl)} {kl : List (List Int)} {i j : Nat}
    (h : allocCheck true x kl i j = none) :
    (i > 0 → inx x i = inx x (i - 1)) ∧ (kl.getD j []).length = inx x 0 := by
  unfold allocCheck at h
  rw [if_pos rfl] at h
  by_cases h1 : i > 0 ∧ inx x i ≠ inx x (i - 1)
  · rw [if_pos h1] at h; cases h
  · rw [if_neg h1] at h
    by_cases h2 : (kl.getD j []).length ≠ inx x 0
    · rw [if_pos h2] at h; cases h
    · exact ⟨fun hi => by_contra (fun hne => h1 ⟨hi, hne⟩), by simpa using h2⟩

theorem validate_ok {fn : String} {obj k fill : RObj} {algo align : String}
    {narm hasna adaptive : RObj} {p : Plan}
    (h : validate fn obj k fill algo align narm hasna adaptive = .ok p) :
    ∃ c, checkArgs obj k align narm hasna adaptive = .ok c ∧
      allocAnswers c.badaptive c.x c.widths.kl c.widths.nk = .ok p.ans ∧
      p.x = c.x ∧ p.widths = c.widths ∧ decodeFun fn = .ok p.sfun ∧
      checkFill fill = .ok p.dfill ∧ decodeAlgo algo = .ok p.ialgo := by
  unfold validate at h
  obtain ⟨c, hc, h⟩ := (bind_ok_iff _ _ _).mp h
  obtain ⟨ans, ha, h⟩ := (bind_ok_iff _ _ _).mp h
  obtain ⟨sf, hs, h⟩ := (bind_ok_iff _ _ _).mp h
  obtain ⟨df, hd, h⟩ := (bind_ok_iff _ _ _).mp h
  obtain ⟨al, hal, h⟩ := (bind_ok_iff _ _ _).mp h
  injection h with h
  subst h
  exact ⟨c, hc, ha, rfl, rfl, hs, hd, hal⟩

/-- The errors of the checks of `frollfunR`: all are about the arguments or internal, and
the two about the lengths in adaptive mode are raised by the loop of lines 121-134 only; an
error raised by that loop or before it is about the arguments, or the internal error for
`align`. -/
theorem validate_error {fn : String} {obj k fill : RObj} {algo align : String}
    {narm hasna adaptive : RObj} {e : FErr}
    (h : validate fn obj k fill algo align narm hasna adaptive = .error e) :
    (e.isParameter = true ∨ ∃ w, e = .internal w) ∧
    ((∀ c, checkArgs obj k align narm hasna adaptive = .ok c →
        ∃ e1, allocAnswers c.badaptive c.x c.widths.kl c.widths.nk = .error e1) →
      e.isParameter = true ∨ (e = .internal "align" ∧ decodeAlign align = .error e)) ∧
    ((e = .xLengths ∨ e = .nLengths) →
      ∃ c i j, checkArgs obj k align narm hasna adaptive = .ok c ∧ i < c.x.length ∧
        j < c.widths.nk ∧ allocCheck c.badaptive c.x c.widths.kl i j = some e) := by
  unfold validate at h
  rcases (bind_error_iff _ _ _).mp h with h | ⟨c, hc, h⟩
  · obtain ⟨h1, h2, h3⟩ := checkArgs_error h
    refine ⟨?_, fun _ => h1, fun hh => by rcases hh with hh | hh <;> contradiction⟩
    rcases h1 with h1 | h1
    · exact Or.inl h1
    · exact Or.inr ⟨_, h1.1⟩
  rcases (bind_error_iff _ _ _).mp h with h | ⟨ans, ha, h⟩
  · obtain ⟨i, j, hi, hj, hij⟩ := allocAnswers_error h
    have hp : e.isParameter = true := by
      rcases (allocCheck_error hij).2 with ⟨e1, _⟩ | ⟨e1, _⟩ <;> subst e1 <;> rfl
    exact ⟨Or.inl hp, fun _ => Or.inl hp, fun _ => ⟨c, i, j, hc, hi, hj, hij⟩⟩
  have hno : (∀ c, checkArgs obj k align narm hasna adaptive = .ok c →
        ∃ e1, allocAnswers c.badaptive c.x c.widths.kl c.widths.nk = .error e1) →
      e.isParameter = true ∨ (e = .internal "align" ∧ decodeAlign align = .error e) := by
    intro hall
    obtain ⟨e1, he1⟩ := hall c hc
    rw [ha] at he1
    cases he1
  rcases (bind_error_iff _ _ _).mp h with h | ⟨sf, hs, h⟩
  · rw [decodeFun_error h]
    exact ⟨Or.inr ⟨_, rfl⟩, by rw [← decodeFun_error h]; exact hno,
      fun hh => by rcases hh with hh | hh <;> cases hh⟩
  rcases (bind_error_iff _ _ _).mp h with h | ⟨df, hd, h⟩
  · refine ⟨?_, hno, ?_⟩
    · rcases checkFill_error h with e1 | e1 <;> subst e1 <;> exact Or.inl rfl
    · rcases checkFill_error h with e1 | e1 <;> subst e1 <;>
        exact fun hh => by rcases hh with hh | hh <;> cases hh
  rcases (bind_error_iff _ _ _).mp h with h | ⟨al, hal, h⟩
  · rw [decodeAlgo_error h]
    exact ⟨Or.inr ⟨_, rfl⟩, by rw [← decodeAlgo_error h]; exact hno,
      fun hh => by rcases hh with hh | hh <;> cases hh⟩
  cases h

theorem decodeAlign_error_strings {align : String} {e : FErr}
    (h : decodeAlign align = .error e) :
    align ≠ "right" ∧ align ≠ "center" ∧ align ≠ "left" := by
  unfold decodeAlign at h
  by_cases h1 : align = "right"
  · rw [if_pos h1] at h; cases h
  · rw [if_neg h1] at h
    by_cases h2 : align = "center"
    · rw [if_pos h2] at h; cases h
    · rw [if_neg h2] at h
      by_cases h3 : align = "left"
      · rw [if_pos h3] at h; cases h
      · exact ⟨h1, h2, h3⟩

/-- When the check of `k` fails, the checks fail with an error about the arguments. -/
theorem checkArgs_error_of_checkN {obj k : RObj} {align : String} {narm hasna adaptive : RObj}
    {b : Bool} {e0 : FErr} (ha : adaptive.trueOrFalse = some b) (hn : checkN k b = .error e0) :
    ∃ e, checkArgs obj k align narm hasna adaptive = .error e ∧ e.isParameter = true := by
  unfold checkArgs
  cases hx : coerceToRealListR obj with
  | error e1 => exact ⟨e1, rfl, by rw [coerceToRealListR_error hx]; rfl⟩
  | ok x =>
    show ∃ e, (if k.xlength = 0 then Except.error FErr.nLength else _) = Except.error e ∧ _
    by_cases hk : k.xlength = 0
    · rw [if_pos hk]; exact ⟨_, rfl, rfl⟩
    · rw [if_neg hk, ha]
      simp only
      rw [hn]
      refine ⟨e0, rfl, ?_⟩
      rcases checkN_error hn with e1 | e1 | e1 | e1 <;> subst e1 <;> rfl

/-! ## `frollfunR` after its checks -/

theorem frollfunR_of_error (K : Kernels) {fn : String} {obj k fill : RObj} {algo align : String}
    {narm hasna adaptive : RObj} {e : FErr} (hx : obj.xlength ≠ 0)
    (h : validate fn obj k fill algo align narm hasna adaptive = .error e) :
    (frollfunR K fn obj k fill algo align narm hasna adaptive).calls = [] ∧
      (frollfunR K fn obj k fill algo align narm hasna adaptive).value = .error e := by
  unfold frollfunR
  rw [if_neg hx, h]
  exact ⟨rfl, rfl⟩

theorem frollfunR_of_ok (K : Kernels) {fn : String} {obj k fill : RObj} {algo align : String}
    {narm hasna adaptive : RObj} {p : Plan} (hx : obj.xlength ≠ 0)
    (h : validate fn obj k fill algo align narm hasna adaptive = .ok p) :
    (frollfunR K fn obj k fill algo align narm hasna adaptive).calls = (dispatch K p).calls ∧
      (frollfunR K fn obj k fill algo align narm hasna adaptive).value =
        if ansMsg K (dispatch K p).status = true then .error .kernel
        else .ok (returned obj (dispatch K p).ans) := by
  unfold frollfunR
  rw [if_neg hx, h]
  exact ⟨rfl, rfl⟩

theorem getD_mem_of_lt {α : Type} {l : List α} {i : Nat} (h : i < l.length) (d : α) :
    l.getD i d ∈ l := by
  rw [List.getD_eq_getElem _ _ h]
  exact List.getElem_mem _

theorem exists_getD_of_mem {α : Type} {l : List α} {a : α} (h : a ∈ l) (d : α) :
    ∃ i, i < l.length ∧ l.getD i d = a := by
  obtain ⟨i, hi, e⟩ := List.getElem_of_mem h
  exact ⟨i, hi, by rw [List.getD_eq_getElem _ _ hi]; exact e⟩

/-- When the loop of lines 121-134 raises no error in adaptive mode, the sequences have one
length and every array of widths has that length. -/
theorem adaptive_lengths_of_checks {xs ks : List Elt} {x : List (List Dbl)}
    {kl : List (List Int)} (hx : coerceElts xs = .ok x) (hk : adaptiveElts ks = .ok kl)
    (hxs : xs ≠ []) (hks : ks ≠ [])
    (h : ∀ i j, i < x.length → j < kl.length → allocCheck true x kl i j = none) :
    ∃ n, (∀ e, e ∈ xs → e.length = n) ∧ ∀ w, w ∈ ks → w.length = n := by
  obtain ⟨hx1, hx2⟩ := coerceElts_ok hx
  obtain ⟨hk1, hk2⟩ := adaptiveElts_ok hk
  have hxl : 0 < xs.length := List.length_pos.mpr hxs
  have hkl : 0 < ks.length := List.length_pos.mpr hks
  have hall : ∀ i, i < x.length → inx x i = inx x 0 := by
    intro i
    induction i with
    | zero => intro _; rfl
    | succ i ih =>
      intro hi
      have := (allocCheck_none (h (i + 1) 0 hi (by omega))).1 (by omega)
      rw [this]
      exact ih (by omega)
  refine ⟨inx x 0, fun e he => ?_, fun w hw => ?_⟩
  · obtain ⟨i, hi, e1⟩ := exists_getD_of_mem he (.other 0)
    rw [← e1, ← hx2 i]
    exact hall i (by omega)
  · obtain ⟨j, hj, e1⟩ := exists_getD_of_mem hw (.other 0)
    rw [← e1, ← hk2 j]
    exact (allocCheck_none (h 0 j (by omega) (by omega))).2

/-- When the loop of lines 121-134 raises an error, two sequences differ in length, or an
array of widths has not the length of the first sequence. -/
theorem adaptive_violation {xs ks : List Elt} {x : List (List Dbl)} {kl : List (List Int)}
    {e : FErr} {i j : Nat} (hx : coerceElts xs = .ok x) (hk : adaptiveElts ks = .ok kl)
    (hi : i < x.length) (hj : j < kl.length) (h : allocCheck true x kl i j = some e) :
    ¬ ∃ n, (∀ e, e ∈ xs → e.length = n) ∧ ∀ w, w ∈ ks → w.length = n := by
  obtain ⟨hx1, hx2⟩ := coerceElts_ok hx
  obtain ⟨hk1, hk2⟩ := adaptiveElts_ok hk
  rintro ⟨n, h1, h2⟩
  have hxn : ∀ i, i < x.length → inx x i = n := fun i hi => by
    rw [hx2 i]; exact h1 _ (getD_mem_of_lt (by omega) _)
  rcases (allocCheck_error h).2 with ⟨_, hpos, hne⟩ | ⟨_, hne⟩
  · exact hne (by rw [hxn i hi, hxn (i - 1) (by omega)])
  · apply hne
    rw [hk2 j, hxn 0 (by omega)]
    exact h2 _ (getD_mem_of_lt (by omega) _)

theorem checkArgs_adaptive_list {xs ks : List Elt} {align : String} {narm hasna : RObj}
    {c : Checked} (h : checkArgs (.list xs) (.list ks) align narm hasna rTRUE = .ok c) :
    c.badaptive = true ∧ coerceElts xs = .ok c.x ∧
      ∃ kl, adaptiveElts ks = .ok kl ∧ c.widths = .adaptive kl := by
  obtain ⟨h1, _, h3, h4, _⟩ := checkArgs_ok h
  have hb : c.badaptive = true := by
    have : some true = some c.badaptive := h3
    injection this with this
    exact this.symm
  refine ⟨hb, h1, ?_⟩
  rw [hb] at h4
  unfold checkN at h4
  simp only [Bool.not_true, Bool.false_eq_true, if_false] at h4
  cases hk : adaptiveElts ks with
  | error e => rw [hk] at h4; cases h4
  | ok kl =>
    rw [hk] at h4
    injection h4 with h4
    exact ⟨kl, rfl, h4.symm⟩

/-- C13: in adaptive mode, for a non-empty list `xs` of sequences and a non-empty list `ks`
of arrays of widths, `frollfunR` fails with an error about its arguments, before any kernel
is called, unless all the sequences have one length and every array of widths has that
length (the error is the internal one for `align` when `align` is none of the three strings
the R caller passes); it raises one of the two errors about these lengths only when they
are violated; and when it does not fail, both conditions hold. -/
theorem C13_adaptive_lengths (K : Kernels) (fn : String) (xs ks : List Elt) (fill : RObj)
    (algo align : String) (narm hasna : RObj) (hxs : xs ≠ []) (hks : ks ≠ []) :
    (¬ (∃ n, (∀ e, e ∈ xs → e.length = n) ∧ ∀ w, w ∈ ks → w.length = n) →
      ∃ e, (frollfunR K fn (.list xs) (.list ks) fill algo align narm hasna rTRUE).value
          = .error e ∧
        (e.isParameter = true ∨
          (e = .internal "align" ∧ align ≠ "right" ∧ align ≠ "center" ∧ align ≠ "left")) ∧
        (frollfunR K fn (.list xs) (.list ks) fill algo align narm hasna rTRUE).calls = []) ∧
    ((frollfunR K fn (.list xs) (.list ks) fill algo align narm hasna rTRUE).value
          = .error .xLengths ∨
        (frollfunR K fn (.list xs) (.list ks) fill algo align narm hasna rTRUE).value
          = .error .nLengths →
      ¬ ∃ n, (∀ e, e ∈ xs → e.length = n) ∧ ∀ w, w ∈ ks → w.length = n) ∧
    ((∀ e, (frollfunR K fn (.list xs) (.list ks) fill algo align narm hasna rTRUE).value
          ≠ .error e) →
      ∃ n, (∀ e, e ∈ xs → e.length = n) ∧ ∀ w, w ∈ ks → w.length = n) := by
  have hne : (RObj.list xs).xlength ≠ 0 := fun h => hxs (List.length_eq_zero.mp h)
  cases hv : validate fn (.list xs) (.list ks) fill algo align narm hasna rTRUE with
  | error e =>
    obtain ⟨hc, hval⟩ := frollfunR_of_error K hne hv
    refine ⟨fun hn => ⟨e, hval, ?_, hc⟩, fun hh => ?_, fun hh => absurd hval (hh e)⟩
    · have hp := (validate_error hv).2.1 (fun c hcA => by
        obtain ⟨hb, hx, kl, hk, hw⟩ := checkArgs_adaptive_list hcA
        cases hal : allocAnswers c.badaptive c.x c.widths.kl c.widths.nk with
        | error e1 => exact ⟨e1, rfl⟩
        | ok ans =>
          rw [hb, hw] at hal
          exact absurd (adaptive_lengths_of_checks hx hk hxs hks (allocAnswers_ok hal).2.2) hn)
      rcases hp with hp | ⟨hp1, hp2⟩
      · exact Or.inl hp
      · exact Or.inr ⟨hp1, decodeAlign_error_strings hp2⟩
    rw [hval] at hh
    have he : e = .xLengths ∨ e = .nLengths := by
      rcases hh with hh | hh
      · injection hh with hh; exact Or.inl hh
      · injection hh with hh; exact Or.inr hh
    obtain ⟨c, i, j, hcA, hi, hj, hij⟩ := (validate_error hv).2.2 he
    obtain ⟨hb, hx, kl, hk, hw⟩ := checkArgs_adaptive_list hcA
    rw [hb, hw] at hij
    rw [hw] at hj
    exact adaptive_violation hx hk hi hj hij
  | ok p =>
    obtain ⟨hc, hval⟩ := frollfunR_of_ok K hne hv
    obtain ⟨c, hcA, hal, _⟩ := validate_ok hv
    obtain ⟨hb, hx, kl, hk, hw⟩ := checkArgs_adaptive_list hcA
    rw [hb, hw] at hal
    have hconds := adaptive_lengths_of_checks hx hk hxs hks (allocAnswers_ok hal).2.2
    refine ⟨fun hn => absurd hconds hn, fun hh => ?_, fun _ => hconds⟩
    rw [hval] at hh
    by_cases hm : ansMsg K (dispatch K p).status = true
    · rw [if_pos hm] at hh
      rcases hh with hh | hh <;> · injection hh with hh; cases hh
    · rw [if_neg hm] at hh
      rcases hh with hh | hh <;> cases hh

/-- C13, witness: two sequences of lengths 2 and 1 with one array of two widths. -/
theorem C13_witness :
    ∃ e, (frollfunR exKernels "sum"
        (.list [.atomic (.real [.num 1, .num 2]), .atomic (.int [1])])
        (.list [.atomic (.int [1, 1])]) rNA "fast" "right" rFALSE rNA rTRUE).value = .error e ∧
      (e.isParameter = true ∨
        (e = .internal "align" ∧ "right" ≠ "right" ∧ "right" ≠ "center" ∧ "right" ≠ "left")) ∧
      (frollfunR exKernels "sum"
        (.list [.atomic (.real [.num 1, .num 2]), .atomic (.int [1])])
        (.list [.atomic (.int [1, 1])]) rNA "fast" "right" rFALSE rNA rTRUE).calls = [] :=
  (C13_adaptive_lengths exKernels "sum"
    [.atomic (.real [.num 1, .num 2]), .atomic (.int [1])] [.atomic (.int [1, 1])] rNA "fast"
    "right" rFALSE rNA (by simp) (by simp)).1 (by
      rintro ⟨n, h1, _⟩
      have a := h1 (.atomic (.real [.num 1, .num 2])) (by simp)
      have b := h1 (.atomic (.int [1])) (by simp)
      simp [Elt.length, Atomic.length] at a b
      omega)

theorem range_pairs (nk : Nat) : ∀ nx : Nat,
    (List.range nx).flatMap (fun i => (List.range nk).map (fun j => i * nk + j)) =
      List.range (nx * nk)
  | 0 => by simp
  | nx + 1 => by
    rw [List.range_succ, List.flatMap_append, range_pairs nk nx, Nat.succ_mul, List.range_add]
    simp

theorem written_fresh (n : Nat) (v : Nat → Dbl) :
    written (some (List.replicate n none)) v = some ((List.range n).map (fun q => some (v q))) := by
  simp [written]

/-- C14: when the arguments pass the checks, with `nx` sequences and `nk` windows,
`frollfunR` allocates `nx * nk` output vectors; the vector for sequence `i` and window `j`
is at position `i * nk + j` of the answer and has the length of sequence `i`; the kernels
are called once per pair, in the order of the loops, the call for the pair `(i, j)` being
handed sequence `i` and the output `i * nk + j`, so that every output is handed to one call;
and after the calls the vector at `i * nk + j` holds what the call for `(i, j)` wrote. -/
theorem C14_one_output_per_pair (K : Kernels) (fn : String) (obj k fill : RObj)
    (algo align : String) (narm hasna adaptive : RObj) (p : Plan) (hx : obj.xlength ≠ 0)
    (h : validate fn obj k fill algo align narm hasna adaptive = .ok p) :
    coerceToRealListR obj = .ok p.x ∧
    p.ans.length = p.x.length * p.widths.nk ∧
    (∀ i j, i < p.x.length → j < p.widths.nk →
      p.ans.getD (i * p.widths.nk + j) none = some (List.replicate (inx p.x i) none)) ∧
    (frollfunR K fn obj k fill algo align narm hasna adaptive).calls =
      (List.range p.x.length).flatMap
        (fun i => (List.range p.widths.nk).map (fun j => (kernelCall K p i j).1)) ∧
    (∀ i j, (kernelCall K p i j).1.x = i ∧ (kernelCall K p i j).1.nx = inx p.x i ∧
      (kernelCall K p i j).1.ans = i * p.widths.nk + j) ∧
    (frollfunR K fn obj k fill algo align narm hasna adaptive).calls.map Call.ans =
      List.range (p.x.length * p.widths.nk) ∧
    (dispatch K p).ans.length = p.x.length * p.widths.nk ∧
    (∀ i j, i < p.x.length → j < p.widths.nk →
      (dispatch K p).ans.getD (i * p.widths.nk + j) none =
        some ((List.range (inx p.x i)).map (fun q => some ((kernelCall K p i j).2.dbl_v q)))) ∧
    (frollfunR K fn obj k fill algo align narm hasna adaptive).value =
      if ansMsg K (dispatch K p).status = true then .error .kernel
      else .ok (returned obj (dispatch K p).ans) := by
  obtain ⟨c, hc, hal, hpx, hpw, _⟩ := validate_ok h
  rw [← hpx, ← hpw] at hal
  obtain ⟨h1, h2, _⟩ := allocAnswers_ok hal
  obtain ⟨hcalls, hval⟩ := frollfunR_of_ok K hx h
  obtain ⟨h3, h4⟩ := dispatch_ans K p (by rw [h1])
  have hlt : ∀ i j, i < p.x.length → j < p.widths.nk →
      i * p.widths.nk + j < p.x.length * p.widths.nk := fun i j hi hj =>
    calc i * p.widths.nk + j < i * p.widths.nk + p.widths.nk := by omega
      _ = (i + 1) * p.widths.nk := by rw [Nat.succ_mul]
      _ ≤ p.x.length * p.widths.nk := Nat.mul_le_mul_right _ hi
  refine ⟨by rw [hpx]; exact (checkArgs_ok hc).1, h1, h2, ?_,
    fun i j => ⟨(kernelCall_ans K p i j).2.1, (kernelCall_ans K p i j).2.2,
      (kernelCall_ans K p i j).1⟩, ?_, by rw [h3, h1], fun i j hi hj => ?_, hval⟩
  · rw [hcalls, dispatch_calls]
  · rw [hcalls, dispatch_calls, List.map_flatMap, ← range_pairs]
    congr 1
    funext i
    rw [List.map_map]
    congr 1
    funext j
    exact (kernelCall_ans K p i j).1
  · rw [h4, if_pos (hlt i j hi hj), pair_div _ i j hj, pair_mod _ i j hj, h2 i j hi hj,
      written_fresh]

/-- C14, witness: two sequences, of lengths 3 and 2, and two windows. -/
theorem C14_witness :
    ∃ p, validate "mean" (.list [.atomic (.int [1, 2, 3]), .atomic (.lgl [some true, none])])
        (ints [2, 1]) rNA "exact" "center" rFALSE rNA rFALSE = .ok p ∧
      (frollfunR exKernels "mean"
        (.list [.atomic (.int [1, 2, 3]), .atomic (.lgl [some true, none])])
        (ints [2, 1]) rNA "exact" "center" rFALSE rNA rFALSE).calls.map Call.ans =
          List.range (p.x.length * p.widths.nk) := by
  obtain ⟨p, hp⟩ := exists_ok_of_isOk
    (e := validate "mean" (.list [.atomic (.int [1, 2, 3]), .atomic (.lgl [some true, none])])
      (ints [2, 1]) rNA "exact" "center" rFALSE rNA rFALSE) (by decide!)
  exact ⟨p, hp, (C14_one_output_per_pair exKernels "mean"
    (.list [.atomic (.int [1, 2, 3]), .atomic (.lgl [some true, none])])
    (ints [2, 1]) rNA "exact" "center" rFALSE rNA rFALSE p (by decide) hp).2.2.2.2.2.1⟩

/-- The fixed widths are checked (lines 60-63): when a width of an integer `k` is zero,
negative or NA, `frollfunR` fails with an error about its arguments and calls no kernel. -/
theorem fixed_width_checked (K : Kernels) (fn : String) (obj : RObj) (ks : List Int)
    (fill : RObj) (algo align : String) (narm hasna : RObj) (hx : obj.xlength ≠ 0)
    (hbad : ∃ v, v ∈ ks ∧ v ≤ 0) :
    ∃ e, (frollfunR K fn obj (ints ks) fill algo align narm hasna rFALSE).value = .error e ∧
      e.isParameter = true ∧
      (frollfunR K fn obj (ints ks) fill algo align narm hasna rFALSE).calls = [] := by
  have hpos : checkN (ints ks) false = .error .nPositive := by
    show checkPositive ks = _
    unfold checkPositive
    by_cases hc : (ks.takeWhile (fun v => decide (v > 0))).length ≠ ks.length
    · rw [if_pos hc]
    · exfalso
      have heq : ks.takeWhile (fun v => decide (v > 0)) = ks :=
        (List.takeWhile_sublist _).eq_of_length (by simpa using hc)
      obtain ⟨v, hv1, hv2⟩ := hbad
      have := List.takeWhile_eq_self_iff.mp heq v hv1
      simp at this
      omega
  obtain ⟨e, he, hp⟩ := @checkArgs_error_of_checkN obj (ints ks) align narm hasna rFALSE false
    .nPositive rfl hpos
  have hv : validate fn obj (ints ks) fill algo align narm hasna rFALSE = .error e := by
    unfold validate
    rw [bind_of_error he]
  obtain ⟨hc, hval⟩ := frollfunR_of_error K hx hv
  exact ⟨e, hval, hp, hc⟩

/-- C11: at the failing input, the sequence `c(1, 2, 3)` with the adaptive widths
`c(0L, -1L, NA)`, `frollfunR` raises no error about its arguments: it calls the kernel
`fadaptiverollsum` with these widths, and the only error it can end with is one the kernel
reports. -/
theorem C11_adaptive_widths_not_checked (K : Kernels) :
    (frollfunR K "sum" (reals [1, 2, 3]) (ints [0, -1, NA_INTEGER]) rNA "fast" "right" rFALSE rNA
        rTRUE).calls = [⟨"fadaptiverollsum", 0, 3, 0, .adaptive [0, -1, NA_INTEGER]⟩] ∧
    ∀ e, (frollfunR K "sum" (reals [1, 2, 3]) (ints [0, -1, NA_INTEGER]) rNA "fast" "right" rFALSE
        rNA rTRUE).value = .error e → e.isParameter = false := by
  refine ⟨by with_unfolding_all rfl, fun e he => ?_⟩
  obtain ⟨p, hp⟩ := exists_ok_of_isOk
    (e := validate "sum" (reals [1, 2, 3]) (ints [0, -1, NA_INTEGER]) rNA "fast" "right" rFALSE
      rNA rTRUE) (by decide!)
  rw [(frollfunR_of_ok K (by decide) hp).2] at he
  by_cases hm : ansMsg K (dispatch K p).status = true
  · rw [if_pos hm] at he
    injection he with he
    subst he
    rfl
  · rw [if_neg hm] at he
    cases he

/-- C12: at the failing inputs, `frollapplyR` raises no error about its arguments. For the
width `0L` over `c(1, 2, 3)` it calls the kernel `frollapply`, which runs the callback, with
width 0. For the widths `c(2L, -1L)` it calls `frollapply` for the width 2 first, and fails
after that call, with the error of the callback or with the error of the allocation of a
window of negative length. -/
theorem C12_apply_widths_not_checked (K : Kernels) :
    (frollapplyR K (reals [1, 2, 3]) (ints [0]) rNA "right").calls
      = [⟨"frollapply", 0, 3, 0, .fixed 0⟩] ∧
    (∀ e, (frollapplyR K (reals [1, 2, 3]) (ints [0]) rNA "right").value = .error e →
      e.isParameter = false) ∧
    (frollapplyR K (reals [1, 2, 3]) (ints [2, -1]) rNA "right").calls
      = [⟨"frollapply", 0, 3, 0, .fixed 2⟩] ∧
    ((frollapplyR K (reals [1, 2, 3]) (ints [2, -1]) rNA "right").value = .error .kernel ∨
      (frollapplyR K (reals [1, 2, 3]) (ints [2, -1]) rNA "right").value
        = .error .negativeLength) := by
  have hv0 : validateApply K (reals [1, 2, 3]) (ints [0]) rNA "right" =
      .ok ⟨[[.num 1, .num 2, .num 3]], [0], 1, .na, [some [none, none, none]]⟩ := by
    with_unfolding_all rfl
  have hv1 : validateApply K (reals [1, 2, 3]) (ints [2, -1]) rNA "right" =
      .ok ⟨[[.num 1, .num 2, .num 3]], [2, -1], 1, .na,
        [some [none, none, none], some [none, none, none]]⟩ := by
    with_unfolding_all rfl
  have hr : List.range ([[Dbl.num 1, Dbl.num 2, Dbl.num 3]] : List (List Dbl)).length = [0] := rfl
  have hx : (reals [1, 2, 3]).xlength ≠ 0 := by decide
  have hg : ([[Dbl.num 1, Dbl.num 2, Dbl.num 3]] : List (List Dbl)).getD 0 [] =
      [.num 1, .num 2, .num 3] := rfl
  have e0 : frollapplyR K (reals [1, 2, 3]) (ints [0]) rNA "right" =
      match K.frollapply [.num 1, .num 2, .num 3] 0 1 .na with
      | none => ⟨[⟨"frollapply", 0, 3, 0, .fixed 0⟩], .error .kernel⟩
      | some v => ⟨[⟨"frollapply", 0, 3, 0, .fixed 0⟩],
          .ok (.vec (some [some (v 0), some (v 1), some (v 2)]))⟩ := by
    unfold frollapplyR
    rw [if_neg hx, hv0]
    simp only [applyWindows, hr, applyCols, hg]
    cases K.frollapply [.num 1, .num 2, .num 3] 0 1 .na <;> rfl
  have e1 : frollapplyR K (reals [1, 2, 3]) (ints [2, -1]) rNA "right" =
      match K.frollapply [.num 1, .num 2, .num 3] 2 1 .na with
      | none => ⟨[⟨"frollapply", 0, 3, 0, .fixed 2⟩], .error .kernel⟩
      | some _ => ⟨[⟨"frollapply", 0, 3, 0, .fixed 2⟩], .error .negativeLength⟩ := by
    unfold frollapplyR
    rw [if_neg hx, hv1]
    simp only [applyWindows, hr, applyCols, hg]
    cases K.frollapply [.num 1, .num 2, .num 3] 2 1 .na <;> rfl
  rw [e0, e1]
  refine ⟨?_, ?_, ?_, ?_⟩
  · cases K.frollapply [.num 1, .num 2, .num 3] 0 1 .na <;> rfl
  · intro e he
    cases h : K.frollapply [.num 1, .num 2, .num 3] 0 1 .na with
    | none => rw [h] at he; injection he with he; subst he; rfl
    | some v => rw [h] at he; cases he
  · cases K.frollapply [.num 1, .num 2, .num 3] 2 1 .na <;> rfl
  · cases K.frollapply [.num 1, .num 2, .num 3] 2 1 .na
    · exact Or.inl rfl
    · exact Or.inr rfl

/-- C15: for the sequence `1, 2, 3, 4, 5`, the window width 3, right alignment and the sum,
`frollfunR` returns `fill, fill, 6, 9, 12` with the fast algorithm, and the same values with
the exact algorithm, whatever the fill value; the two algorithms agree as well when the
sequence is handed over as integers.  `frollsum` is the kernel of the spec. -/
theorem C15_sum_of_five (K : Kernels) (fill : Dbl) :
    (frollfunR (withSpecSum K) "sum" (reals [1, 2, 3, 4, 5]) (ints [3]) (.atomic (.real [fill]))
        "fast" "right" rFALSE rNA rFALSE).value =
      .ok (.vec (some [some fill, some fill, some (.num 6), some (.num 9), some (.num 12)])) ∧
    (frollfunR (withSpecSum K) "sum" (reals [1, 2, 3, 4, 5]) (ints [3]) (.atomic (.real [fill]))
        "exact" "right" rFALSE rNA rFALSE).value =
      .ok (.vec (some [some fill, some fill, some (.num 6), some (.num 9), some (.num 12)])) ∧
    (frollfunR (withSpecSum K) "sum" (ints [1, 2, 3, 4, 5]) (ints [3]) (.atomic (.real [fill]))
        "fast" "right" rFALSE rNA rFALSE).value =
      (frollfunR (withSpecSum K) "sum" (ints [1, 2, 3, 4, 5]) (ints [3]) (.atomic (.real [fill]))
        "exact" "right" rFALSE rNA rFALSE).value :=
  ⟨by with_unfolding_all rfl, by with_unfolding_all rfl, by with_unfolding_all rfl⟩

/-! ## The progress report does not touch the run -/

/-- The report of lines 448-461 assigns to `nextTime` and `hasPrinted` and prints; it
leaves the other local variables as they are. -/
theorem reportStep_s (a : Args) (sp : Bool) (clock : Nat → ℚ) (i : Nat) (v : Locals) :
    (reportStep a sp clock i v).s = v.s := by
  unfold reportStep
  by_cases h : sp = true ∧ clock (i + 1) ≥ v.nextTime
  · rw [if_pos h]
  · rw [if_neg h]

theorem lastReport_s (a : Args) (sp : Bool) (clock : Nat → ℚ) (v : Locals) :
    (lastReport a sp clock v).s = v.s := by
  unfold lastReport
  cases (sp && v.hasPrinted) <;> rfl

/-- The aggregation step with the report does to the variables of `State` what the
aggregation step does. -/
theorem aggStepShowing_s (a : Args) (sp : Bool) (clock : Nat → ℚ) (i : Nat) (v : Locals)
    (ws : WorkingSet) (jval : SEXP) :
    (aggStepShowing a sp clock i v ws jval).map Locals.s = aggStep a i v.s ws jval := by
  unfold aggStepShowing aggStep
  by_cases hc : njvalOf v.s jval ≠ LENGTH jval
  · rw [if_pos hc, if_pos hc]
    rfl
  · rw [if_neg hc, if_neg hc]
    simp only [bind, Except.bind, Except.map]
    cases ensureRoom a i v.s (grpnOf a i) jval (njvalOf v.s jval)
        (maxnOf jval (njvalOf v.s jval)) with
    | error e => rfl
    | ok r =>
      simp only
      cases writeKeys a (igrpOf a i) v.s.ansloc r.maxn r.ans with
      | error e => rfl
      | ok keys =>
        simp only
        cases writeRes a i (grpnOf a i) v.s.ansloc r.maxn jval (njvalOf v.s jval) r.ans with
        | error e => rfl
        | ok res =>
          simp only [reportStep_s]

theorem afterEvalShowing_s (a : Args) (sp : Bool) (clock : Nat → ℚ) (i : Nat) (v : Locals)
    (ws : WorkingSet) (jv : SEXP) :
    (afterEvalShowing a sp clock i v ws jv).map Locals.s = afterEval a i v.s ws jv := by
  unfold afterEvalShowing afterEval
  cases h1 : withDt v.s.dt (shape a i jv) with
  | error f => rfl
  | ok r =>
    cases r with
    | none => rfl
    | some jval =>
      cases hl : a.lhs with
      | some lhs =>
        simp only [bind, Except.bind]
        cases assignStep a i lhs jval (grpnOf a i) v.s.dt <;> rfl
      | none =>
        simp only [bind, Except.bind]
        rw [← aggStepShowing_s a sp clock i v ws jval]
        cases aggStepShowing a sp clock i v ws jval <;> rfl

theorem groupStepShowing_s (a : Args) (sp : Bool) (clock : Nat → ℚ) (i : Nat) (v : Locals) :
    (groupStepShowing a sp clock i v).map Locals.s = groupStep a i v.s := by
  unfold groupStepShowing groupStep
  by_cases he : evaluated a i v.s = true
  · rw [if_pos he, if_pos he]
    cases hp : withDt v.s.dt (populate a v.s.dt i v.s.ws) with
    | error f => rfl
    | ok ws =>
      simp only [bind, Except.bind]
      exact afterEvalShowing_s a sp clock i v ws (evalJ a ws)
  · rw [if_neg he, if_neg he]
    rfl

/-- The loop with the report and the loop without it go through the same states. -/
theorem runShowing_s (a : Args) (sp : Bool) (clock : Nat → ℚ) (v : Locals) :
    ∀ n, (runShowing a sp clock v n).map Locals.s = runUpTo a v.s n
  | 0 => rfl
  | n + 1 => by
    have ih := runShowing_s a sp clock v n
    unfold runShowing runUpTo
    rw [← ih]
    cases h : runShowing a sp clock v n with
    | error f => rfl
    | ok v1 =>
      simp only [bind, Except.bind, Except.map]
      exact groupStepShowing_s a sp clock n v1

/-- What `dogroups` returns or how it fails, whatever the report does. -/
theorem dogroupsShowing_value (a : Args) (showProgressArg : Bool) (clock : Nat → ℚ) :
    (dogroupsShowing a showProgressArg clock).map Prod.fst = dogroups a := by
  unfold dogroupsShowing dogroups stateAt
  cases hp : preamble a with
  | error f => rfl
  | ok s0 =>
    simp only [bind, Except.bind]
    have h1 := runShowing_s a (showProgressOf a showProgressArg) clock
      (initLocals (showProgressOf a showProgressArg) clock s0) a.ngrp
    have h0 : (initLocals (showProgressOf a showProgressArg) clock s0).s = s0 := rfl
    rw [h0] at h1
    rw [← h1]
    cases hr : runShowing a (showProgressOf a showProgressArg) clock
        (initLocals (showProgressOf a showProgressArg) clock s0) a.ngrp with
    | error f => rfl
    | ok v =>
      simp only [Except.map, lastReport_s]
      cases finish a v.s <;> rfl

/-- C16: for all arguments and all readings of the wall clock, `dogroups` called with
`showProgress` true and `dogroups` called with `showProgress` false end alike: both fail
with the same error and the same table, or both return the same value and leave the same
table. -/
theorem C16_progress_is_advisory (a : Args) (clock1 clock2 : Nat → ℚ) :
    (dogroupsShowing a true clock1).map Prod.fst =
      (dogroupsShowing a false clock2).map Prod.fst := by
  rw [dogroupsShowing_value, dogroupsShowing_value]

/-- The report is live in the model: with two groups and a clock that advances by 10
seconds between its readings, a line is printed after each group, and a last one; nothing
is printed without `showProgress`. -/
theorem progress_is_printed :
    (match dogroupsShowing c1Args true (fun n => 10 * n) with
      | .ok p => some p.2
      | .error _ => none) = some [⟨1, 2, 10, 10⟩, ⟨2, 2, 20, 0⟩, ⟨2, 2, 30, 0⟩] ∧
    (match dogroupsShowing c1Args false (fun n => 10 * n) with
      | .ok p => some p.2
      | .error _ => none) = some [] := by
  constructor <;> decide!

/-! ## The first allocation and the regrowth of the accumulator -/

/-- The state before the first contributing group has no accumulator. -/
theorem notStarted_of_firstResult {a : Args} {n : Nat} {cols : SEXP} {s : State}
    (hagg : a.lhs = none) (hk : KeysOK a) (hn : n ≤ a.ngrp) (hf : firstResult a n cols)
    (hs : stateAt a n = .ok s) : NotStarted a n s := by
  rcases (run_inv hagg hk n s hn hs).2 with hN | hS
  · exact hN
  · obtain ⟨f, colsf, ans, hlt, hfr, _⟩ := hS
    have := hf.2 f hlt
    rw [contributes_of_firstResult hfr] at this
    cases this

/-- The step of a contributing group in aggregation mode. -/
theorem step_of_result {a : Args} {n : Nat} {s s1 : State} {cols : SEXP} (hagg : a.lhs = none)
    (hs : stateAt a n = .ok s) (hr : resultAt a n = some cols) (h : groupStep a n s = .ok s1) :
    ∃ ws, aggStep a n s ws cols = .ok s1 := by
  rcases step_cases hagg hs h with ⟨hnone, _⟩ | ⟨cols1, ws, hr1, _, hstep⟩
  · rw [hnone] at hr; cases hr
  · rw [hr] at hr1
    injection hr1 with hr1
    subst hr1
    exact ⟨ws, hstep⟩

theorem roundMantissa_le (s : ℚ) : (roundMantissa s : ℚ) ≤ s + 1 / 2 := by
  have h1 := Int.floor_le s
  have h2 := Int.lt_floor_add_one s
  unfold roundMantissa
  split_ifs <;> push_cast <;> linarith

/-- Rounding to a double raises a positive number by at most one part in `2^53`. -/
theorem roundDouble_le {x : ℚ} (hx : 0 < x) : roundDouble x ≤ x * (1 + 1 / 2 ^ 53) := by
  unfold roundDouble
  rw [if_neg (ne_of_gt hx)]
  have hp : (0 : ℚ) < (2 : ℚ) ^ binadeOf x := zpow_pos (by norm_num) _
  have hb := binadeOf_le hx
  rw [zpow_add₀ (by norm_num : (2 : ℚ) ≠ 0)] at hb
  have hm := roundMantissa_le (x / (2 : ℚ) ^ binadeOf x)
  have h1 : (roundMantissa (x / (2 : ℚ) ^ binadeOf x) : ℚ) * (2 : ℚ) ^ binadeOf x ≤
      (x / (2 : ℚ) ^ binadeOf x + 1 / 2) * (2 : ℚ) ^ binadeOf x :=
    mul_le_mul_of_nonneg_right hm (le_of_lt hp)
  have h2 : (x / (2 : ℚ) ^ binadeOf x + 1 / 2) * (2 : ℚ) ^ binadeOf x =
      x + (2 : ℚ) ^ binadeOf x / 2 := by
    field_simp
    ring
  rw [h2] at h1
  have h3 : (2 : ℚ) ^ (52 : Int) = 2 ^ 52 := by norm_cast
  rw [h3] at hb
  refine le_trans h1 ?_
  have h4 : (2 : ℚ) ^ binadeOf x ≤ x / 2 ^ 52 := by
    rw [le_div_iff₀ (by positivity)]
    exact hb
  have h5 : x / 2 ^ 52 / 2 = x * (1 / 2 ^ 53) := by
    ring
  linarith

theorem roundDouble_zero : roundDouble 0 = 0 := by
  unfold roundDouble
  rw [if_pos rfl]

theorem roundDouble_pos {x : ℚ} (hx : 0 < x) : 0 < roundDouble x :=
  lt_of_lt_of_le (by positivity) (roundDouble_ge_of_pos hx)

/-- The double product of line 405 is within one part in `2^50` of the exact
product `1.1 * (G / i) * need`. -/
theorem regrowDouble_near (a : Args) (i need : Nat) (h1 : 1 ≤ i) (h2 : 1 ≤ a.ngrp) :
    (1 - 1 / 2 ^ 50) * ((11 / 10 : ℚ) * ((a.ngrp : ℚ) / i) * (need : ℚ)) ≤
      regrowDouble a i need ∧
    regrowDouble a i need ≤
      (1 + 1 / 2 ^ 50) * ((11 / 10 : ℚ) * ((a.ngrp : ℚ) / i) * (need : ℚ)) := by
  unfold regrowDouble
  by_cases hz : need = 0
  · subst hz
    simp [roundDouble_zero]
  · have hn : (0 : ℚ) < (need : ℚ) := by exact_mod_cast Nat.pos_of_ne_zero hz
    have hq : (0 : ℚ) < (a.ngrp : ℚ) / (i : ℚ) := by
      apply div_pos
      · exact_mod_cast h2
      · exact_mod_cast h1
    have hc : (0 : ℚ) < 11 / 10 := by norm_num
    have hA := roundDouble_pos hq
    have hB := roundDouble_pos hc
    have hP := roundDouble_pos (mul_pos hA hB)
    have hT := mul_pos hP hn
    generalize (a.ngrp : ℚ) / (i : ℚ) = q at *
    have a1 := roundDouble_ge hq
    have a2 := roundDouble_le hq
    have b1 := roundDouble_ge hc
    have b2 := roundDouble_le hc
    have p1 := roundDouble_ge (mul_pos hA hB)
    have p2 := roundDouble_le (mul_pos hA hB)
    have t1 := roundDouble_ge hT
    have t2 := roundDouble_le hT
    generalize roundDouble (roundDouble (roundDouble q * roundDouble (11 / 10)) * (need : ℚ)) = D
      at *
    generalize roundDouble (roundDouble q * roundDouble (11 / 10)) = P at *
    generalize roundDouble q = A at *
    generalize roundDouble (11 / 10) = B at *
    generalize (need : ℚ) = m at *
    have hu : (0 : ℚ) < 1 - 1 / 2 ^ 53 := by norm_num
    have hv : (0 : ℚ) < 1 + 1 / 2 ^ 53 := by norm_num
    have lo1 : q * (1 - 1 / 2 ^ 53) * ((11 / 10) * (1 - 1 / 2 ^ 53)) ≤ A * B :=
      mul_le_mul a1 b1 (by positivity) (le_of_lt hA)
    have hi1 : A * B ≤ q * (1 + 1 / 2 ^ 53) * ((11 / 10) * (1 + 1 / 2 ^ 53)) :=
      mul_le_mul a2 b2 (le_of_lt hB) (by positivity)
    have lo2 : q * (1 - 1 / 2 ^ 53) * ((11 / 10) * (1 - 1 / 2 ^ 53)) * (1 - 1 / 2 ^ 53) ≤ P :=
      le_trans (mul_le_mul_of_nonneg_right lo1 (le_of_lt hu)) p1
    have hi2 : P ≤ q * (1 + 1 / 2 ^ 53) * ((11 / 10) * (1 + 1 / 2 ^ 53)) * (1 + 1 / 2 ^ 53) :=
      le_trans p2 (mul_le_mul_of_nonneg_right hi1 (le_of_lt hv))
    have lo3 : q * (1 - 1 / 2 ^ 53) * ((11 / 10) * (1 - 1 / 2 ^ 53)) * (1 - 1 / 2 ^ 53) * m *
        (1 - 1 / 2 ^ 53) ≤ D :=
      le_trans (mul_le_mul_of_nonneg_right (mul_le_mul_of_nonneg_right lo2 (le_of_lt hn))
        (le_of_lt hu)) t1
    have hi3 : D ≤ q * (1 + 1 / 2 ^ 53) * ((11 / 10) * (1 + 1 / 2 ^ 53)) * (1 + 1 / 2 ^ 53) * m *
        (1 + 1 / 2 ^ 53) :=
      le_trans t2 (mul_le_mul_of_nonneg_right (mul_le_mul_of_nonneg_right hi2 (le_of_lt hn))
        (le_of_lt hv))
    have hqm : (0 : ℚ) < q * m := mul_pos hq hn
    have e1 : q * (1 - 1 / 2 ^ 53) * ((11 / 10) * (1 - 1 / 2 ^ 53)) * (1 - 1 / 2 ^ 53) * m *
        (1 - 1 / 2 ^ 53) = (1 - 1 / 2 ^ 53) ^ 4 * (11 / 10) * (q * m) := by ring
    have e2 : q * (1 + 1 / 2 ^ 53) * ((11 / 10) * (1 + 1 / 2 ^ 53)) * (1 + 1 / 2 ^ 53) * m *
        (1 + 1 / 2 ^ 53) = (1 + 1 / 2 ^ 53) ^ 4 * (11 / 10) * (q * m) := by ring
    have e3 : ∀ k : ℚ, k * ((11 / 10 : ℚ) * q * m) = k * (11 / 10) * (q * m) := by
      intro k
      ring
    rw [e1] at lo3
    rw [e2] at hi3
    rw [e3, e3]
    constructor
    · refine le_trans ?_ lo3
      apply mul_le_mul_of_nonneg_right _ (le_of_lt hqm)
      norm_num
    · refine le_trans hi3 ?_
      apply mul_le_mul_of_nonneg_right _ (le_of_lt hqm)
      norm_num

/-- The capacity of line 405 as the general rounded product, for the rounding
to the nearest double. -/
theorem regrowEstn_eq_rounded (a : Args) (i need : Nat) :
    regrowEstn a i need = regrowEstnRounded roundDouble a i need := rfl

/-- The size of line 405 is large enough whatever the rounding of the doubles, as long as
it is monotone and leaves 1 and the number of rows needed as they are. -/
theorem regrowEstnRounded_ge (fl : ℚ → ℚ) (a : Args) (i need : Nat) (h1 : 1 ≤ i)
    (h2 : i < a.ngrp) (hmono : ∀ x y, x ≤ y → fl x ≤ fl y) (hone : fl 1 = 1)
    (hneed : fl (need : ℚ) = (need : ℚ)) : (need : Int) ≤ regrowEstnRounded fl a i need := by
  unfold regrowEstnRounded
  apply le_truncToInt
  have hi : (0 : ℚ) < (i : ℚ) := by exact_mod_cast h1
  have hq : (1 : ℚ) ≤ (a.ngrp : ℚ) / (i : ℚ) := by
    rw [le_div_iff₀ hi, one_mul]
    exact_mod_cast le_of_lt h2
  have ha : (1 : ℚ) ≤ fl ((a.ngrp : ℚ) / (i : ℚ)) := by
    have := hmono _ _ hq
    rwa [hone] at this
  have hc : (1 : ℚ) ≤ fl (11 / 10) := by
    have := hmono 1 (11 / 10) (by norm_num)
    rwa [hone] at this
  have ht : (1 : ℚ) ≤ fl (fl ((a.ngrp : ℚ) / (i : ℚ)) * fl (11 / 10)) := by
    have := hmono 1 _ (one_le_mul_of_one_le_of_one_le ha hc)
    rwa [hone] at this
  have hn : (0 : ℚ) ≤ (need : ℚ) := by positivity
  have := hmono (need : ℚ) (fl (fl ((a.ngrp : ℚ) / (i : ℚ)) * fl (11 / 10)) * (need : ℚ))
    (le_mul_of_one_le_left hn ht)
  rwa [hneed] at this

/-- C18 (as amended): when the accumulator exists and the rows of group `n` (0-based) do
not fit, that is `ansloc + maxn > estn`, then `n ≥ 1`, so that `G / n` is defined; the
double computed by line 405 is within one part in `2^50` of `1.1 * (G / n) * (ansloc + maxn)`;
the new capacity, that double converted to `int`, is at least `ansloc + maxn` (as it is for
every rounding `fl` of the doubles that is monotone and exact on 1 and on `ansloc + maxn`);
and when the group is processed, that is the capacity after it, every column of the
accumulator has that length, and the rows of the group fit. -/
theorem C18_regrowth_fits (a : Args) (n : Nat) (s : State) (cols : SEXP) (hagg : a.lhs = none)
    (hk : KeysOK a) (hn : n < a.ngrp) (hs : stateAt a n = .ok s)
    (hr : resultAt a n = some cols) (hex : s.ans.isSome = true)
    (hgrow : ((s.ansloc + maxnOf cols (LENGTH cols) : Nat) : Int) > s.estn) :
    1 ≤ n ∧
    regrowEstn a n (s.ansloc + maxnOf cols (LENGTH cols)) =
      truncToInt (regrowDouble a n (s.ansloc + maxnOf cols (LENGTH cols))) ∧
    (1 - 1 / 2 ^ 50) * ((11 / 10 : ℚ) * ((a.ngrp : ℚ) / n) *
        ((s.ansloc + maxnOf cols (LENGTH cols) : Nat) : ℚ)) ≤
      regrowDouble a n (s.ansloc + maxnOf cols (LENGTH cols)) ∧
    regrowDouble a n (s.ansloc + maxnOf cols (LENGTH cols)) ≤
      (1 + 1 / 2 ^ 50) * ((11 / 10 : ℚ) * ((a.ngrp : ℚ) / n) *
        ((s.ansloc + maxnOf cols (LENGTH cols) : Nat) : ℚ)) ∧
    ((s.ansloc + maxnOf cols (LENGTH cols) : Nat) : Int) ≤
      regrowEstn a n (s.ansloc + maxnOf cols (LENGTH cols)) ∧
    (∀ fl : ℚ → ℚ, (∀ x y, x ≤ y → fl x ≤ fl y) → fl 1 = 1 →
      fl ((s.ansloc + maxnOf cols (LENGTH cols) : Nat) : ℚ) =
        ((s.ansloc + maxnOf cols (LENGTH cols) : Nat) : ℚ) →
      ((s.ansloc + maxnOf cols (LENGTH cols) : Nat) : Int) ≤
        regrowEstnRounded fl a n (s.ansloc + maxnOf cols (LENGTH cols))) ∧
    ∀ s1, stateAt a (n + 1) = .ok s1 →
      s1.estn = regrowEstn a n (s.ansloc + maxnOf cols (LENGTH cols)) ∧
      s1.ansloc = s.ansloc + maxnOf cols (LENGTH cols) ∧
      ∃ ans, s1.ans = some ans ∧ ∀ c : Nat, c < a.ngrpcols + LENGTH cols →
        LENGTH (getS ans c) = s1.estn.toNat ∧
        s.ansloc + maxnOf cols (LENGTH cols) ≤ LENGTH (getS ans c) := by
  have hS : Started a n s := by
    rcases (run_inv hagg hk n s (by omega) hs).2 with hN | hS
    · rw [hN.2.2.1] at hex; cases hex
    · exact hS
  obtain ⟨f, colsf, ans0, hlt, hfr, hnjf, hpos, hest, _, _, _, _, _⟩ := hS
  have h1 : 1 ≤ n := by omega
  have hge := regrowEstn_ge a n (s.ansloc + maxnOf cols (LENGTH cols)) h1 hn
  have hnear := regrowDouble_near a n (s.ansloc + maxnOf cols (LENGTH cols)) h1 (by omega)
  refine ⟨h1, rfl, hnear.1, hnear.2, hge,
    fun fl hmono hone hneed => regrowEstnRounded_ge fl a n _ h1 hn hmono hone hneed,
    fun s1 hs1 => ?_⟩
  have hs1' := hs1
  rw [stateAt_succ, bind_of_ok hs] at hs1
  obtain ⟨ws, hagg1⟩ := step_of_result hagg hs hr hs1
  obtain ⟨hnj, r, keys, res, hroom, _, _, _, _, hnj1, hloc, hestn⟩ := aggStep_eq hagg1
  have hnj0 : njvalOf s cols = LENGTH cols := hnj
  rw [hnj0] at hroom hnj1
  have hne : s.estn ≠ -1 := by omega
  have hr2 : r.estn = regrowEstn a n (s.ansloc + maxnOf cols (LENGTH cols)) ∧
      r.maxn = maxnOf cols (LENGTH cols) := by
    rcases ensureRoom_cases hroom with ⟨he, _⟩ | ⟨_, _, _, he, hm⟩ | ⟨hle, _⟩
    · exact absurd he hne
    · exact ⟨he, hm⟩
    · omega
  have hestn1 : s1.estn = regrowEstn a n (s.ansloc + maxnOf cols (LENGTH cols)) := by
    rw [hestn, hr2.1]
  refine ⟨hestn1, by rw [hloc, hr2.2], ?_⟩
  rcases (run_inv hagg hk (n + 1) s1 (by omega) hs1').2 with hN1 | hS1
  · have : contributes a n = true := by unfold contributes; rw [hr]; rfl
    rw [hN1.1 n (by omega)] at this
    cases this
  · obtain ⟨f1, colsf1, ans, _, _, _, _, _, _, hans, hok, _⟩ := hS1
    rw [hnj1] at hok
    refine ⟨ans, hans, fun c hc => ?_⟩
    have hl := (hok.2 c hc).LENGTH_eq
    refine ⟨hl, ?_⟩
    rw [hl, hestn1]
    omega

/-- C18, witness: in `c2Args` the first group returns one row, which sets the capacity to
the number of groups, 2; the second group (index 1) returns three rows, which do not
fit. -/
theorem C18_witness :
    ∃ s, stateAt c2Args 1 = .ok s ∧ 1 ≤ 1 ∧
      ((s.ansloc + maxnOf (listOf [intVec [7, 8, 9]]) (LENGTH (listOf [intVec [7, 8, 9]])) : Nat)
          : Int) ≤
        regrowEstn c2Args 1
          (s.ansloc + maxnOf (listOf [intVec [7, 8, 9]]) (LENGTH (listOf [intVec [7, 8, 9]]))) := by
  obtain ⟨s, h1, hp⟩ := exists_of_check
    (o := match stateAt c2Args 1 with
      | .ok s => some s
      | .error _ => none)
    (p := fun s => s.ans.isSome && decide (((s.ansloc +
      maxnOf (listOf [intVec [7, 8, 9]]) (LENGTH (listOf [intVec [7, 8, 9]])) : Nat) : Int)
        > s.estn)) (by decide!)
  cases hs : stateAt c2Args 1 with
  | error e => rw [hs] at h1; cases h1
  | ok s0 =>
    rw [hs] at h1
    injection h1 with h1
    subst h1
    simp only [Bool.and_eq_true, decide_eq_true_eq] at hp
    have h := C18_regrowth_fits c2Args 1 s0 (listOf [intVec [7, 8, 9]]) rfl
      (keysOK_exArgs _) (by decide) hs (some_of_beq (by decide!)) hp.1 hp.2
    exact ⟨s0, rfl, h.1, h.2.2.2.2.1⟩

/-- C18, counterexample: in `c18Args` (`G = 23` groups) the accumulator has 23 rows and
5 of them are written when the group of index 5 returns 45 rows, so 50 rows are needed and
the accumulator is regrown.  The integer part of `1.1 * (23 / 5) * 50 = 253` is 253; the
capacity after the group is 252, the double product being just below 253. -/
theorem C18_counterexample :
    c18Args.ngrp = 23 ∧ widthAt c18Args 5 = 45 ∧
    (∃ s, stateAt c18Args 5 = .ok s ∧ s.ans.isSome = true ∧ s.ansloc = 5 ∧ s.estn = 23) ∧
    (∃ s1, stateAt c18Args 6 = .ok s1 ∧ s1.estn = 252) ∧
    ⌊(11 / 10 : ℚ) * ((23 : ℚ) / 5) * ((5 + 45 : Nat) : ℚ)⌋ = 253 ∧
    regrowDouble c18Args 5 50 < 253 := by
  refine ⟨rfl, by decide!, ?_, ?_, by decide!, by decide!⟩
  · obtain ⟨s, h1, hp⟩ := exists_of_check
      (o := match stateAt c18Args 5 with
        | .ok s => some s
        | .error _ => none)
      (p := fun s => s.ans.isSome && decide (s.ansloc = 5) && decide (s.estn = 23)) (by decide!)
    cases hs : stateAt c18Args 5 with
    | error e => rw [hs] at h1; cases h1
    | ok s0 =>
      rw [hs] at h1
      injection h1 with h1
      subst h1
      simp only [Bool.and_eq_true, decide_eq_true_eq] at hp
      exact ⟨s0, rfl, hp.1.1, hp.1.2, hp.2⟩
  · obtain ⟨s, h1, hp⟩ := exists_of_check
      (o := match stateAt c18Args 6 with
        | .ok s => some s
        | .error _ => none)
      (p := fun s => decide (s.estn = 252)) (by decide!)
    cases hs : stateAt c18Args 6 with
    | error e => rw [hs] at h1; cases h1
    | ok s0 =>
      rw [hs] at h1
      injection h1 with h1
      subst h1
      exact ⟨s0, rfl, by simpa using hp⟩

/-! ## `anySpecialStatic` is the scan of the spec -/

/-- The body of `anySpecialStatic` at a node: the scan stops at the node, or it goes on
through the elements of a list. -/
theorem anySpecialVec_eq (ty : SEXPTYPE) (items : List Item) (attrib : List (String × SEXP))
    (tl : Int) (alt : Bool) :
    anySpecialVec ty (lengthOf ty items) tl alt (anySpecialLoop items) =
      (isSpecial (.vec ty items attrib tl alt) ||
        (if ty = .VECSXP then anySpecialLoop items else false)) := by
  cases items with
  | nil =>
    cases ty <;>
      simp [anySpecialVec, lengthOf, isSpecial, length, LENGTH, SEXP.items, SEXP.node, TYPEOF,
        isVectorAtomic, SEXPTYPE.isVectorAtomic, SEXPTYPE.isVector, ALTREP, TRUELENGTH,
        anySpecialLoop]
  | cons it r =>
    cases ty <;>
      simp [anySpecialVec, lengthOf, isSpecial, length, LENGTH, SEXP.items, SEXP.node, TYPEOF,
        isVectorAtomic, SEXPTYPE.isVectorAtomic, SEXPTYPE.isVector, ALTREP, TRUELENGTH]

mutual
theorem anySpecialStatic_eq : ∀ (x : SEXP), anySpecialStatic x = (reachable x).any isSpecial
  | .null => by simp [anySpecialStatic, reachable, isSpecial, length, TYPEOF, SEXP.node]
  | .buf _ v => by
      simp only [anySpecialStatic, reachable]
      exact anySpecialStatic_eq v
  | .vec ty items attrib tl alt => by
      simp only [anySpecialStatic, reachable]
      rw [anySpecialVec_eq ty items attrib tl alt, List.any_cons, anySpecialLoop_eq items]
      by_cases h : ty = .VECSXP <;> simp [h]
theorem anySpecialLoop_eq : ∀ (items : List Item),
    anySpecialLoop items = (reachableItems items).any isSpecial
  | [] => rfl
  | it :: r => by
      simp only [anySpecialLoop, reachableItems, List.any_append]
      rw [anySpecialIter_eq it, anySpecialLoop_eq r]
theorem anySpecialIter_eq : ∀ (it : Item), anySpecialIter it = (reachableItem it).any isSpecial
  | .elt x => by
      simp only [anySpecialIter, reachableItem]
      exact anySpecialElt_eq x
  | .na => rfl
  | .int _ => rfl
  | .str _ => rfl
  | .uninit => rfl
theorem anySpecialElt_eq : ∀ (x : SEXP), anySpecialElt x = (reachableElt x).any isSpecial
  | .null => by simp [anySpecialElt, reachableElt, isSpecial, length, TYPEOF, SEXP.node]
  | .buf _ v => by
      simp only [anySpecialElt, reachableElt]
      exact anySpecialElt_eq v
  | .vec ty items attrib tl alt => by
      simp only [anySpecialElt, reachableElt]
      rw [anySpecialVec_eq ty items attrib tl alt, List.any_append, List.any_cons,
        anySpecialLoop_eq items, anySpecialAttribs_eq attrib]
      by_cases h : ty = .VECSXP <;> simp [h]
theorem anySpecialAttribs_eq : ∀ (att : List (String × SEXP)),
    anySpecialAttribs att = (reachableAttribs att).any isSpecial
  | [] => rfl
  | (_, v) :: r => by
      simp only [anySpecialAttribs, reachableAttribs, List.any_append]
      rw [anySpecialStatic_eq v, anySpecialAttribs_eq r]
end

theorem isSpecial_buf (b : BufId) (v : SEXP) : isSpecial (.buf b v) = isSpecial v := by
  simp [isSpecial, length, LENGTH, SEXP.items, SEXP.node, TYPEOF, isVectorAtomic, ALTREP,
    TRUELENGTH]

/-- The value itself is among the values the scan looks at. -/
theorem reachable_self : ∀ (x : SEXP), ∃ y, y ∈ reachable x ∧ isSpecial y = isSpecial x
  | .null => ⟨.null, by simp [reachable], rfl⟩
  | .vec ty items attrib tl alt => ⟨.vec ty items attrib tl alt, by simp [reachable], rfl⟩
  | .buf b v => by
    obtain ⟨y, h1, h2⟩ := reachable_self v
    exact ⟨y, by simpa [reachable] using h1, by rw [h2, isSpecial_buf]⟩

/-- C19 as amended: `anySpecialStatic(x)` is true exactly when the scan of `x`, through
the elements of lists and the attributes of these elements at any depth, meets a value that
is not empty and is an atomic vector that is marked (negative `TRUELENGTH`) or ALTREP, or a
list that is marked.  So it is true when `x` itself is such a value, and it is false when no
value the scan meets is marked or ALTREP; it is also false for a marked value that is
empty. -/
theorem C19_scan_for_the_marker (x : SEXP) :
    (anySpecialStatic x = true ↔ ∃ y, y ∈ reachable x ∧ isSpecial y = true) ∧
    (isSpecial x = true → anySpecialStatic x = true) ∧
    ((∀ y, y ∈ reachable x → ¬ TRUELENGTH y < 0 ∧ ALTREP y = false) →
      anySpecialStatic x = false) ∧
    ((∀ y, y ∈ reachable x → length y = 0) → anySpecialStatic x = false) := by
  have key : anySpecialStatic x = true ↔ ∃ y, y ∈ reachable x ∧ isSpecial y = true := by
    rw [anySpecialStatic_eq, List.any_eq_true]
  refine ⟨key, fun h => ?_, fun h => ?_, fun h => ?_⟩
  · obtain ⟨y, h1, h2⟩ := reachable_self x
    exact key.mpr ⟨y, h1, by rw [h2, h]⟩
  · cases hx : anySpecialStatic x with
    | false => rfl
    | true =>
      obtain ⟨y, h1, h2⟩ := key.mp hx
      obtain ⟨h3, h4⟩ := h y h1
      simp [isSpecial, h3, h4] at h2
  · cases hx : anySpecialStatic x with
    | false => rfl
    | true =>
      obtain ⟨y, h1, h2⟩ := key.mp hx
      simp [isSpecial, h y h1] at h2

/-- C19, witness: a list whose element carries, as an attribute, a list that holds a
marked vector. -/
theorem C19_witness :
    anySpecialStatic (listOf [.vec .INTSXP [.int 1]
      [("a", listOf [.vec .INTSXP [.int 7] [] (-2) false])] 0 false]) = true :=
  (C19_scan_for_the_marker _).1.mpr
    ⟨.vec .INTSXP [.int 7] [] (-2) false, by simp [reachable, reachableItems, reachableItem,
      reachableElt, reachableAttribs, listOf], by decide⟩

/-- C19, counterexample: a vector that carries the marker but has no elements, such as the
column of `.SD` for an empty group, and a list that holds it: `anySpecialStatic` is false
for both (line 46). -/
theorem C19_counterexample :
    TRUELENGTH (.vec .INTSXP [] [] (-2) false) < 0 ∧
    anySpecialStatic (.vec .INTSXP [] [] (-2) false) = false ∧
    anySpecialStatic (listOf [.vec .INTSXP [] [] (-2) false]) = false := by
  refine ⟨by decide, by decide, by decide⟩

/-! ## The empty sentinel (line 182) -/

theorem skipEmpty_of_start {a : Args} {i : Nat} {s : State} (h0 : getInt a.starts i = 0)
    (h : i + 1 < a.ngrp ∨ s.estn > -1) : skipEmpty a i s = true := by
  unfold skipEmpty
  rw [h0]
  rcases h with h | h <;> simp [h]

theorem not_skipEmpty_of_last {a : Args} {i : Nat} {s : State} (h1 : ¬ i + 1 < a.ngrp)
    (h2 : ¬ s.estn > -1) : skipEmpty a i s = false := by
  unfold skipEmpty
  simp [h1, h2]

theorem noMatch_of_empty {a : Args} {i : Nat} (h0 : getInt a.starts i = 0)
    (ho : a.order.length = 0) : noMatch a i = false := by
  unfold noMatch
  rw [h0, ho]
  simp

/-- While every group is skipped, the state is the one the loop started with. -/
theorem stateAt_of_skipped {a : Args} {s0 : State} (hs0 : stateAt a 0 = .ok s0) :
    ∀ n, (∀ g, g < n → evaluated a g s0 = false) → stateAt a n = .ok s0
  | 0, _ => hs0
  | n + 1, h => by
    rw [stateAt_succ, bind_of_ok (stateAt_of_skipped hs0 n (fun g hg => h g (by omega)))]
    exact groupStep_of_skipped (h n (by omega))

theorem writeResCol_ok_zero (i ansloc : Nat) {target source : SEXP} (j : Nat)
    (hty : TYPEOF source = TYPEOF target) :
    ∃ t, writeResCol i 0 ansloc 0 target source j = .ok t := by
  unfold writeResCol
  by_cases h0 : length source = 0
  · rw [if_pos h0]; exact ⟨_, rfl⟩
  · rw [if_neg h0, if_neg (by simpa using hty), if_neg (by omega)]
    unfold memrecycle
    rw [if_pos (by decide)]
    exact ⟨_, rfl⟩

theorem writeRes_succeeds_zero (a : Args) (i ansloc : Nat) (jval : SEXP) (njval : Nat)
    (ans : List SEXP)
    (h : ∀ j : Nat, j < njval →
      TYPEOF (VECTOR_ELT jval j) = TYPEOF (getS ans ((j + a.ngrpcols : Nat) : Int))) :
    ∃ res, writeRes a i 0 ansloc 0 jval njval ans = .ok res := by
  unfold writeRes
  apply forCols_ok_of_get
  intro j hj
  rw [List.length_range] at hj
  simp only [Nat.zero_add]
  exact writeResCol_ok_zero _ _ _ (h j hj)

theorem firstEstn_zero (a : Args) (maxn : Nat) :
    firstEstn a 0 maxn = 0 ∧ firstMaxn 0 maxn = 0 := by
  simp [firstEstn, guessEstn, firstMaxn]

/-- C20 as amended: a group whose start is 0 is skipped, the state being left as it is, when
it is not the last group of the plan or when `estn > -1` (an accumulator is allocated); in
aggregation mode it is evaluated when it is the last group and `estn = -1`.  So, in
aggregation mode, when every group of a plan without ordering permutation has start 0 and
size 0 and the checks before the loop pass, the expression is evaluated for the last group
and for no other; and when its value there is a list of one or more columns that are
vectors, none NULL, `dogroups` returns a result that is not NULL, with one column per key
column and per column of that value, all of 0 rows. -/
theorem C20_all_empty_plan (a : Args) (G : Nat) (s0 : State) (ws : WorkingSet) (cols : SEXP)
    (hagg : a.lhs = none) (hk : KeysOK a) (hG : a.ngrp = G + 1)
    (hall : ∀ g, g ≤ G → getInt a.starts g = 0 ∧ getInt a.lens g = 0)
    (hperm : a.order.length = 0 ∧ a.grporder.length = 0)
    (hs0 : stateAt a 0 = .ok s0) (hpop : populate a s0.dt G s0.ws = .ok ws)
    (hsh : shape a G (evalJ a ws) = .ok (some cols))
    (hcols : ∀ j : Nat, j < LENGTH cols →
      isNull (VECTOR_ELT cols j) = false ∧ (TYPEOF (VECTOR_ELT cols j)).isVector = true) :
    (∀ (i : Nat) (s : State), getInt a.starts i = 0 → (i + 1 < a.ngrp ∨ s.estn > -1) →
      evaluated a i s = false ∧ groupStep a i s = .ok s) ∧
    (∀ (i : Nat) (s : State), getInt a.starts i = 0 → ¬ i + 1 < a.ngrp → ¬ s.estn > -1 →
      evaluated a i s = true) ∧
    (∀ g, g < G → wsAt a g = none) ∧ wsAt a G = some ws ∧
    ∃ r ans, dogroups a = .ok r ∧ r.ans = some ans ∧ ans.length = a.ngrpcols + LENGTH cols ∧
      ∀ c : Nat, c < a.ngrpcols + LENGTH cols → LENGTH (getS ans c) = 0 := by
  have hskip : ∀ (i : Nat) (s : State), getInt a.starts i = 0 →
      (i + 1 < a.ngrp ∨ s.estn > -1) → evaluated a i s = false := by
    intro i s h0 h
    unfold evaluated
    rw [skipEmpty_of_start h0 h]
    rfl
  have hlast : ∀ (i : Nat) (s : State), getInt a.starts i = 0 → ¬ i + 1 < a.ngrp →
      ¬ s.estn > -1 → evaluated a i s = true := by
    intro i s _ h1 h2
    unfold evaluated
    rw [not_skipEmpty_of_last h1 h2, hagg]
    rfl
  have hbefore : ∀ g, g < G → evaluated a g s0 = false := fun g hg =>
    hskip g s0 (hall g (by omega)).1 (Or.inl (by omega))
  have hstate : ∀ g, g ≤ G → stateAt a g = .ok s0 := fun g hg =>
    stateAt_of_skipped hs0 g (fun k hk1 => hbefore k (by omega))
  obtain ⟨ws0, _, e0⟩ := preamble_eq (by rw [← stateAt_zero]; exact hs0)
  have hestn : s0.estn = -1 := by rw [e0]; rfl
  have hnjval : s0.njval = 0 := by rw [e0]; rfl
  have hloc : s0.ansloc = 0 := by rw [e0]; rfl
  have hev : evaluated a G s0 = true :=
    hlast G s0 (hall G (Nat.le_refl _)).1 (by omega) (by omega)
  have hw : wsAt a G = some ws := wsAt_of_state (hstate G (Nat.le_refl _)) hev hpop
  have hres : resultAt a G = some cols := by rw [resultAt_of_ws hw, hsh]
  have hfirst : firstResult a G cols := by
    refine ⟨hres, fun k hk1 => ?_⟩
    unfold contributes
    rw [resultAt_of_not_evaluated (hstate k (by omega)) (hbefore k hk1)]
    rfl
  have hgrpn : grpnOf a G = 0 := by
    unfold grpnOf
    rw [noMatch_of_empty (hall G (Nat.le_refl _)).1 hperm.1]
    exact (hall G (Nat.le_refl _)).2
  have hnj : njvalOf s0 cols = LENGTH cols := by unfold njvalOf; rw [if_pos hnjval]
  obtain ⟨ans1, halloc⟩ := allocAns_succeeds a cols (LENGTH cols) 0 hk hcols
  have hroom : ensureRoom a G s0 (grpnOf a G) cols (njvalOf s0 cols)
      (maxnOf cols (njvalOf s0 cols)) =
      .ok { ans := ans1, names := namesOfAns a cols (LENGTH cols), estn := 0, maxn := 0 } := by
    rw [hnj, hgrpn]
    have h := @ensureRoom_first a G s0 0 cols (LENGTH cols) (maxnOf cols (LENGTH cols)) ans1
      hestn (by rw [(firstEstn_zero a _).1]; exact halloc)
    rw [h, (firstEstn_zero a _).1, (firstEstn_zero a _).2]
  obtain ⟨keys, hkeys⟩ := writeKeys_succeeds a (igrpOf a G) s0.ansloc 0 ans1
  have hok1 := allocAns_ok halloc hk
  obtain ⟨res, hwr⟩ := writeRes_succeeds_zero a G s0.ansloc cols (LENGTH cols) ans1
    (fun j hj => by
      have ht := (hok1.2 (j + a.ngrpcols) (by omega)).typeof
      rw [ht]
      unfold colType
      rw [if_neg (by omega)]
      congr 3
      omega)
  obtain ⟨s1, hs1, hest1⟩ := @aggStep_ok_of_parts a G s0 ws cols
    { ans := ans1, names := namesOfAns a cols (LENGTH cols), estn := 0, maxn := 0 }
    keys res hnj hroom hkeys (by rw [hgrpn, hnj]; exact hwr)
  have hest1 : s1.estn = 0 := hest1
  have hstep : stateAt a (G + 1) = .ok s1 := by
    rw [stateAt_succ, bind_of_ok (hstate G (Nat.le_refl _)), groupStep_agg hagg hev hpop hsh,
      hs1]
    rfl
  have hloc1 : s1.ansloc = 0 := by
    obtain ⟨_, r, _, _, hr, _, _, _, _, _, hl, _⟩ := aggStep_eq hs1
    rw [hroom] at hr
    injection hr with hr
    rw [hl, ← hr, hloc]
    rfl
  refine ⟨fun i s h0 h => ⟨hskip i s h0 h, groupStep_of_skipped (hskip i s h0 h)⟩, hlast,
    fun g hg => ?_, hw, ?_⟩
  · unfold wsAt
    rw [hstate g (by omega)]
    simp [hbefore g hg]
  · have hinv := run_inv hagg hk (G + 1) s1 (by omega) hstep
    rcases hinv.2 with hN | hS
    · have := hN.1 G (by omega)
      rw [contributes_of_firstResult hfirst] at this
      cases this
    · have hS1 := hS
      obtain ⟨f, colsf, ans, _, hfr, hnjf, hpos, _, _, hans, hok, _, _⟩ := hS
      obtain ⟨_, ec⟩ := firstResult_unique hfr hfirst
      subst ec
      rw [hnjf] at hok hpos
      have hlen : ∀ c : Nat, c < a.ngrpcols + LENGTH colsf → LENGTH (getS ans c) = 0 := by
        intro c hc
        have := (hok.2 c hc).LENGTH_eq
        rw [this, hest1]
        rfl
      have ht : trimAns a s1 = .ok (some ans) := by
        unfold trimAns
        rw [hagg, hans]
        simp only
        have h0 : LENGTH (getS ans 0) = 0 := hlen 0 (by omega)
        rw [if_neg (by rw [hloc1, h0]; omega)]
      refine ⟨{ ans := some ans, ansNames := s1.ansNames, dt := s1.dt, ws := resetWS a s1.ws,
                warnings := s1.warnings }, ans, ?_, rfl, hok.1, hlen⟩
      unfold dogroups
      rw [hG, bind_of_ok hstep]
      unfold finish
      rw [ht]
      rfl

theorem keysOK_c20Args : KeysOK c20Args := by
  intro g hg
  simp [c20Args, c2EmptyArgs] at hg
  subst hg
  decide

/-- C20, witness: a plan of two empty groups on a table without rows, with `j = 7L`. -/
theorem C20_witness :
    ∃ r ans, dogroups c20Args = .ok r ∧ r.ans = some ans ∧
      ans.length = c20Args.ngrpcols + LENGTH (listOf [intVec [7]]) ∧
      ∀ c : Nat, c < c20Args.ngrpcols + LENGTH (listOf [intVec [7]]) →
        LENGTH (getS ans c) = 0 := by
  obtain ⟨s0, hs0⟩ := exists_state_of_isOk (a := c20Args) (i := 0) (by decide!)
  obtain ⟨ws, hpop⟩ := populate_ok c20Args s0.dt 1 s0.ws
  exact (C20_all_empty_plan c20Args 1 s0 ws (listOf [intVec [7]]) rfl keysOK_c20Args rfl
    (fun g hg => by interval_cases g <;> decide) (by decide) hs0 hpop rfl
    (fun j hj => by
      have hj1 : j < 1 := hj
      interval_cases j
      decide)).2.2.2.2

/-- C20, counterexample: `DT[, NULL, by = x]` on a table without rows.  The only group has
start 0 and size 0 and the expression is evaluated for it, yet `dogroups` returns NULL:
a value that is NULL allocates no accumulator (lines 266-270). -/
theorem C20_counterexample :
    c20NullArgs.lhs = none ∧
    (∀ g, g < c20NullArgs.ngrp →
      getInt c20NullArgs.starts g = 0 ∧ getInt c20NullArgs.lens g = 0) ∧
    (wsAt c20NullArgs 0).isSome = true ∧
    ∃ r, dogroups c20NullArgs = .ok r ∧ r.ans = none := by
  refine ⟨rfl, fun g hg => ?_, by decide!, ?_⟩
  · have hg1 : g < 1 := hg
    interval_cases g
    decide
  · obtain ⟨r, hr, hp⟩ := exists_of_check
      (o := match dogroups c20NullArgs with
        | .ok r => some r
        | .error _ => none)
      (p := fun r => r.ans.isNone) (by decide!)
    cases hd : dogroups c20NullArgs with
    | error e => rw [hd] at hr; cases hr
    | ok r1 =>
      rw [hd] at hr
      injection hr with hr
      subst hr
      exact ⟨r1, rfl, by simpa using hp⟩

/-! ## `growVector` -/

theorem isGrowable_isVector {ty : SEXPTYPE} (h : ty.isGrowable = true) :
    ty.isVector = true ∧ ty ≠ .NILSXP := by
  cases ty <;> simp_all [SEXPTYPE.isGrowable, SEXPTYPE.isVector]

theorem length_of_isVector {x : SEXP} (h : (TYPEOF x).isVector = true) : length x = LENGTH x := by
  unfold length
  cases ht : TYPEOF x <;> simp_all [SEXPTYPE.isVector]

/-- What `growVector` returns for a vector of a type it copies: a fresh vector
of the same type that starts with the items of `x` kept, followed by what
`allocVector` left there, with the attributes of `x`. -/
theorem growVector_eq (x : SEXP) (n : Nat) (hty : (TYPEOF x).isGrowable = true) :
    growVector x n = .ok (.vec (TYPEOF x)
      (x.items.take (if n < length x then n else length x) ++
        List.replicate (n - (if n < length x then n else length x)) (freshItem (TYPEOF x)))
      (ATTRIB x) 0 false) := by
  obtain ⟨hv, hn⟩ := isGrowable_isVector hty
  have hnull : isNull x = false := by
    unfold isNull
    simpa using hn
  have ha : allocVector (TYPEOF x) n =
      .ok (.vec (TYPEOF x) (List.replicate n (freshItem (TYPEOF x))) [] 0 false) := by
    unfold allocVector
    rw [if_neg hn, if_pos hv]
  unfold growVector
  rw [hnull, ha]
  simp only [Bool.false_eq_true, if_false]
  have hitems : (SEXP.vec (TYPEOF x) (List.replicate n (freshItem (TYPEOF x))) [] 0 false).items =
      List.replicate n (freshItem (TYPEOF x)) := by
    simp [SEXP.items, SEXP.node, hv]
  by_cases hz : (if n < length x then n else length x) = 0
  · rw [if_pos hz, hz]
    simp [keepattr, SEXP.withAttrib]
  · rw [if_neg hz]
    have hbody : keepattr ((SEXP.vec (TYPEOF x) (List.replicate n (freshItem (TYPEOF x))) [] 0
          false).withItems (x.items.take (if n < length x then n else length x) ++
            (SEXP.vec (TYPEOF x) (List.replicate n (freshItem (TYPEOF x))) [] 0 false).items.drop
              (if n < length x then n else length x))) x =
        .vec (TYPEOF x)
          (x.items.take (if n < length x then n else length x) ++
            List.replicate (n - (if n < length x then n else length x)) (freshItem (TYPEOF x)))
          (ATTRIB x) 0 false := by
      rw [hitems]
      simp [keepattr, SEXP.withAttrib, SEXP.withItems]
    rw [hbody]
    cases ht : TYPEOF x <;> simp_all [SEXPTYPE.isGrowable]

/-- C26: for every vector `x` of a type `growVector` copies (so `x` is not
`NULL`) and every `n`, `growVector(x, n)` returns a vector of the type of `x`
and of length exactly `n`, whose first `min(length(x), n)` elements are those of
`x` and whose attributes are those of `x`; `growVector` fails on `NULL`; and
`growVector(x, length(x))` has the elements of `x`. -/
theorem C26_growVector_keeps_elements (x : SEXP) (n : Nat)
    (hty : (TYPEOF x).isGrowable = true) :
    (∃ y, growVector x n = .ok y ∧ TYPEOF y = TYPEOF x ∧ LENGTH y = n ∧ length y = n ∧
      (∀ k : Nat, k < min (length x) n → getI y.items k = getI x.items k) ∧
      y.items.take (min (length x) n) = x.items.take (min (length x) n) ∧
      ATTRIB y = ATTRIB x) ∧
    (∀ (z : SEXP) (m : Nat), isNull z = true → growVector z m = .error .growVectorNull) ∧
    (∃ y, growVector x (length x) = .ok y ∧ y.items = x.items) := by
  obtain ⟨hv, hn⟩ := isGrowable_isVector hty
  have hlen := length_of_isVector hv
  have hmin : ∀ m : Nat, (if m < length x then m else length x) = min (length x) m := by
    intro m
    by_cases h : m < length x
    · rw [if_pos h]; omega
    · rw [if_neg h]; omega
  have hitems : ∀ its : List Item,
      (SEXP.vec (TYPEOF x) its (ATTRIB x) 0 false).items = its := by
    intro its
    simp [SEXP.items, SEXP.node, hv]
  have hxl : x.items.length = length x := by rw [hlen]; rfl
  refine ⟨⟨_, growVector_eq x n hty, ?_, ?_, ?_, ?_, ?_, ?_⟩, ?_, ⟨_, growVector_eq x _ hty, ?_⟩⟩
  · simp [TYPEOF, SEXP.node]
  · unfold LENGTH
    rw [hitems, hmin]
    simp only [List.length_append, List.length_take, List.length_replicate, hxl]
    omega
  · have ht : TYPEOF (SEXP.vec (TYPEOF x)
        (x.items.take (if n < length x then n else length x) ++
          List.replicate (n - (if n < length x then n else length x)) (freshItem (TYPEOF x)))
        (ATTRIB x) 0 false) = TYPEOF x := by simp [TYPEOF, SEXP.node]
    rw [length_of_isVector (by rw [ht]; exact hv)]
    unfold LENGTH
    rw [hitems, hmin]
    simp only [List.length_append, List.length_take, List.length_replicate, hxl]
    omega
  · intro k hk
    rw [hitems, hmin, getI_nat, getI_nat]
    rw [List.getD_append _ _ _ _ (by simp only [List.length_take, hxl]; omega)]
    simp only [List.getD_eq_getElem?_getD, List.getElem?_take]
    rw [if_pos hk]
  · rw [hitems, hmin]
    simp only [List.take_append_eq_append_take, List.take_take, List.length_take, hxl]
    simp
  · simp [ATTRIB, SEXP.node]
  · intro z m hz
    unfold growVector
    rw [if_pos hz]
  · rw [hitems]
    simp [hxl]

/-- C26, witness: a vector of three integers with a `class` attribute, grown
to five elements and cut back to two. -/
theorem C26_witness :
    (TYPEOF (.vec .INTSXP [.int 1, .int 2, .int 3] [("class", strVec ["a"])] 0 false)).isGrowable
      = true ∧
    (∃ y, growVector (.vec .INTSXP [.int 1, .int 2, .int 3] [("class", strVec ["a"])] 0 false) 5
        = .ok y ∧ y.items = [.int 1, .int 2, .int 3, .uninit, .uninit]) ∧
    (∃ y, growVector (.vec .INTSXP [.int 1, .int 2, .int 3] [("class", strVec ["a"])] 0 false) 2
        = .ok y ∧ LENGTH y = 2 ∧
      y.items.take 2 =
        (SEXP.vec .INTSXP [.int 1, .int 2, .int 3] [("class", strVec ["a"])] 0 false).items.take 2 ∧
      ATTRIB y = [("class", strVec ["a"])]) :=
  ⟨rfl, ⟨_, growVector_eq _ 5 rfl, rfl⟩,
    (C26_growVector_keeps_elements
      (.vec .INTSXP [.int 1, .int 2, .int 3] [("class", strVec ["a"])] 0 false) 2 rfl).1.imp
      (fun _ h => ⟨h.1, h.2.2.1, h.2.2.2.2.2.1, h.2.2.2.2.2.2⟩)⟩

/-! ## The lengths of the columns of a result -/

theorem writeResCol_error_of_length {i : Nat} {grpn : Int} {ansloc maxn : Nat}
    {target source : SEXP} {j : Nat} (h1 : 1 < length source) (h2 : length source ≠ maxn)
    (h3 : 0 < grpn) : ∃ e, writeResCol i grpn ansloc maxn target source j = .error e := by
  unfold writeResCol
  rw [if_neg (by omega)]
  by_cases hty : TYPEOF source ≠ TYPEOF target
  · rw [if_pos hty]
    exact ⟨_, rfl⟩
  · rw [if_neg hty, if_pos ⟨h1, h2, h3⟩]
    exact ⟨_, rfl⟩

theorem widthAt_of_some {a : Args} {i : Nat} {cols : SEXP} (hr : resultAt a i = some cols) :
    widthAt a i = maxnOf cols (LENGTH cols) := by
  unfold widthAt
  rw [hr]

/-- The number of rows room is made for is the width of the result when the
group has rows. -/
theorem ensureRoom_maxn {a : Args} {i : Nat} {s : State} {grpn : Int} {jval : SEXP}
    {njval maxn : Nat} {r : Room} (h : ensureRoom a i s grpn jval njval maxn = .ok r)
    (hg : 0 < grpn) : r.maxn = maxn := by
  rcases ensureRoom_cases h with ⟨_, _, _, hm⟩ | ⟨_, _, _, _, hm⟩ | ⟨_, _, _, hm⟩
  · rw [hm]
    unfold firstMaxn
    rw [if_neg (by omega)]
  · exact hm
  · exact hm

/-- C25: in aggregation mode, when group `i` has at least one row (`grpn > 0`)
and column `j` of its result has more than one item and not as many as the
longest column of that result, `dogroups` fails; hence, when `dogroups`
returns, that column has 0 items, 1 item, or as many as the longest column. -/
theorem C25_column_lengths_in_aggregation (a : Args) (i j : Nat) (cols : SEXP)
    (hagg : a.lhs = none) (hi : i < a.ngrp) (hr : resultAt a i = some cols)
    (hg : 0 < grpnOf a i) (hj : j < LENGTH cols) :
    (1 < length (VECTOR_ELT cols j) → length (VECTOR_ELT cols j) ≠ widthAt a i →
      ∃ f, dogroups a = .error f) ∧
    (∀ r, dogroups a = .ok r →
      length (VECTOR_ELT cols j) = 0 ∨ length (VECTOR_ELT cols j) = 1 ∨
        length (VECTOR_ELT cols j) = widthAt a i) := by
  have key : 1 < length (VECTOR_ELT cols j) → length (VECTOR_ELT cols j) ≠ widthAt a i →
      ∃ f, dogroups a = .error f := by
    intro h1 h2
    rw [widthAt_of_some hr] at h2
    obtain ⟨s, ws, hs, he, hp, hsh⟩ := resultAt_eq_some hr
    obtain ⟨e, hE⟩ : ∃ e, aggStep a i s ws cols = .error e := by
      by_cases hc : njvalOf s cols = LENGTH cols
      · apply aggStep_error_of_writeRes
        intro r hroom
        rw [hc] at hroom ⊢
        rw [ensureRoom_maxn hroom hg]
        unfold writeRes
        apply forCols_error _ _ 0 j (by rw [List.length_range]; exact hj)
        simp only [Nat.zero_add]
        simpa using writeResCol_error_of_length h1 h2 hg
      · unfold aggStep
        rw [if_pos hc]
        exact ⟨_, rfl⟩
    refine ⟨⟨e, s.dt⟩, ?_⟩
    apply dogroups_error_of_step hi hs
    rw [groupStep_agg hagg he hp hsh, hE]
    rfl
  refine ⟨key, fun r hok => ?_⟩
  by_cases h0 : length (VECTOR_ELT cols j) = 0
  · exact Or.inl h0
  · by_cases h1 : length (VECTOR_ELT cols j) = 1
    · exact Or.inr (Or.inl h1)
    · by_cases h2 : length (VECTOR_ELT cols j) = widthAt a i
      · exact Or.inr (Or.inr h2)
      · obtain ⟨f, hf⟩ := key (by omega) h2
        rw [hf] at hok
        cases hok

/-- C25, witness: the first group of `exTable` has two rows and `j` returns
`list(1:3, 1:2)` for it: the second column has two items, the result three
rows. -/
theorem C25_witness :
    resultAt c25Args 0 = some (listOf [intVec [1, 2, 3], intVec [1, 2]]) ∧
    grpnOf c25Args 0 = 2 ∧ widthAt c25Args 0 = 3 ∧
    length (VECTOR_ELT (listOf [intVec [1, 2, 3], intVec [1, 2]]) 1) = 2 ∧
    ∃ f, dogroups c25Args = .error f :=
  ⟨some_of_beq (by decide!), by decide!, by decide!, by decide!,
    (C25_column_lengths_in_aggregation c25Args 0 1 (listOf [intVec [1, 2, 3], intVec [1, 2]])
      rfl (by decide) (some_of_beq (by decide!)) (by decide!) (by decide!)).1
      (by decide!) (by decide!)⟩

/-! ## The accumulator between iterations -/

theorem ansloc_eq_rowsUpTo {a : Args} {n : Nat} {s : State} (h : RunInv a n s) :
    s.ansloc = rowsUpTo a n := by
  rcases h.2 with hN | hS
  · rw [hN.2.2.2.2, rowsUpTo_of_none hN.1]
  · obtain ⟨_, _, _, _, _, _, _, _, _, _, _, hrows, _⟩ := hS
    exact hrows

theorem started_of_ans {a : Args} {n : Nat} {s : State} {ans : List SEXP} (h : RunInv a n s)
    (hans : s.ans = some ans) : Started a n s := by
  rcases h.2 with hN | hS
  · rw [hN.2.2.1] at hans
    cases hans
  · exact hS

/-- C23: in aggregation mode, in every state the loop reaches after the
accumulator was allocated (the state before group `n`, that is at the end of
iteration `n - 1`), the accumulator has one column per key column and per
result column, every column has `estn` elements, and `ansloc ≤ estn`; the rows
of the group just processed, written at `[ansloc, ansloc + rows)` for the
`ansloc` before it, lie within every column; and after the last group, the
columns `dogroups` returns are the accumulator cut back to `ansloc` elements,
which is never more than the columns have. -/
theorem C23_accumulator_invariant (a : Args) (n : Nat) (s : State) (ans : List SEXP)
    (hagg : a.lhs = none) (hk : KeysOK a) (hn : n ≤ a.ngrp) (hs : stateAt a n = .ok s)
    (hans : s.ans = some ans) :
    ans.length = a.ngrpcols + s.njval ∧ 0 ≤ s.estn ∧
    (∀ c : Nat, c < ans.length → LENGTH (getS ans c) = s.estn.toNat) ∧
    (s.ansloc : Int) ≤ s.estn ∧
    (∀ m s0, m + 1 = n → stateAt a m = .ok s0 →
      s.ansloc = s0.ansloc + rowsAt a m ∧
      ∀ c : Nat, c < ans.length → s0.ansloc + rowsAt a m ≤ LENGTH (getS ans c)) ∧
    (n = a.ngrp → ∀ r, dogroups a = .ok r →
      ∃ out, r.ans = some out ∧ out.length = ans.length ∧
        ∀ c : Nat, c < ans.length →
          LENGTH (getS out c) = s.ansloc ∧ LENGTH (getS out c) ≤ LENGTH (getS ans c)) := by
  have hinv := run_inv hagg hk n s hn hs
  have hS := started_of_ans hinv hans
  obtain ⟨f, colsf, ans1, hlt, hfr, hnj, hpos, hest, hloc, hans1, hok, hrows, hwr⟩ := hS
  rw [hans] at hans1
  injection hans1 with hans1
  subst hans1
  have hlen : ∀ c : Nat, c < ans.length → LENGTH (getS ans c) = s.estn.toNat := by
    intro c hc
    exact (hok.2 c (by rw [← hok.1]; exact hc)).LENGTH_eq
  refine ⟨hok.1, hest, hlen, hloc, ?_, ?_⟩
  · intro m s0 hm hs0
    subst hm
    have h0 := ansloc_eq_rowsUpTo (run_inv hagg hk m s0 (by omega) hs0)
    have h1 : s.ansloc = s0.ansloc + rowsAt a m := by
      rw [hrows, rowsUpTo_succ, h0]
    refine ⟨h1, fun c hc => ?_⟩
    rw [hlen c hc, ← h1]
    omega
  · intro hlast r hr
    subst hlast
    obtain ⟨s2, hs2, ht, _⟩ := dogroups_eq_ok hr
    rw [hs] at hs2
    injection hs2 with hs2
    subst hs2
    obtain ⟨f2, colsf2, out, _, hfr2, ho, hl, hc⟩ := trimAns_started hagg
      (started_of_ans hinv hans) ht
    obtain ⟨_, e2⟩ := firstResult_unique hfr hfr2
    subst e2
    refine ⟨out, ho, by rw [hl, hok.1, hnj], fun c hcc => ?_⟩
    have h1 := (hc c (by rw [← hnj, ← hok.1]; exact hcc)).1.LENGTH_eq
    rw [← hrows] at h1
    refine ⟨h1, ?_⟩
    rw [h1, hlen c hcc]
    omega

/-- C23, witness: in `c2Args` the first group returns one row, the second
three; after the second group the columns were regrown and hold four rows. -/
theorem C23_witness :
    ∃ s ans, stateAt c2Args 2 = .ok s ∧ s.ans = some ans ∧ s.ansloc = 4 ∧
      (∀ c : Nat, c < ans.length → LENGTH (getS ans c) = s.estn.toNat) ∧
      (s.ansloc : Int) ≤ s.estn ∧
      (∀ m s0, m + 1 = 2 → stateAt c2Args m = .ok s0 →
        s.ansloc = s0.ansloc + rowsAt c2Args m ∧
        ∀ c : Nat, c < ans.length → s0.ansloc + rowsAt c2Args m ≤ LENGTH (getS ans c)) := by
  obtain ⟨s, h1, hp⟩ := exists_of_check
    (o := match stateAt c2Args 2 with
      | .ok s => some s
      | .error _ => none)
    (p := fun s => s.ans.isSome && decide (s.ansloc = 4)) (by decide!)
  cases hs : stateAt c2Args 2 with
  | error e => rw [hs] at h1; cases h1
  | ok s0 =>
    rw [hs] at h1
    injection h1 with h1
    subst h1
    simp only [Bool.and_eq_true, decide_eq_true_eq] at hp
    cases ha : s0.ans with
    | none => rw [ha] at hp; cases hp.1
    | some ans =>
      have h := C23_accumulator_invariant c2Args 2 s0 ans rfl (keysOK_exArgs _) (by decide) hs ha
      exact ⟨s0, ans, rfl, ha, hp.2, h.2.2.1, h.2.2.2.1, h.2.2.2.2.1⟩

/-! ## The rows of one group in a result column -/

theorem rowsUpTo_mono (a : Args) (m : Nat) : ∀ n : Nat, m ≤ n → rowsUpTo a m ≤ rowsUpTo a n
  | 0, h => by
    have : m = 0 := by omega
    subst this
    exact Nat.le_refl _
  | n + 1, h => by
    by_cases hm : m = n + 1
    · subst hm
      exact Nat.le_refl _
    · have := rowsUpTo_mono a m n (by omega)
      rw [rowsUpTo_succ]
      omega

theorem blockAt_length (a : Args) (ty : SEXPTYPE) (c k : Nat) :
    (blockAt a ty c k).length = rowsAt a k := by
  cases hr : resultAt a k with
  | none => rw [blockAt_of_none hr, rowsAt_of_none hr]; rfl
  | some cols =>
    rw [blockAt_of_some hr]
    by_cases hc : c < a.ngrpcols
    · rw [if_pos hc, List.length_replicate]
    · rw [if_neg hc, resBlock_length]

theorem writtenUpTo_length (a : Args) (ty : SEXPTYPE) (c : Nat) :
    ∀ n : Nat, (writtenUpTo a ty c n).length = rowsUpTo a n
  | 0 => rfl
  | n + 1 => by
    rw [writtenUpTo_succ, rowsUpTo_succ, List.length_append, writtenUpTo_length a ty c n,
      blockAt_length]

/-- The rows of group `i` in a column: `rowsAt a i` rows from row `rowsUpTo a i`. -/
theorem writtenUpTo_block (a : Args) (ty : SEXPTYPE) (c i : Nat) :
    ∀ n : Nat, i < n →
      ((writtenUpTo a ty c n).drop (rowsUpTo a i)).take (rowsAt a i) = blockAt a ty c i
  | 0, h => absurd h (Nat.not_lt_zero i)
  | n + 1, h => by
    rw [writtenUpTo_succ]
    by_cases hi : i < n
    · have h1 : rowsUpTo a (i + 1) ≤ rowsUpTo a n := rowsUpTo_mono a (i + 1) n (by omega)
      rw [rowsUpTo_succ] at h1
      rw [List.drop_append_of_le_length (by rw [writtenUpTo_length]; omega),
        List.take_append_of_le_length (by rw [List.length_drop, writtenUpTo_length]; omega)]
      exact writtenUpTo_block a ty c i n hi
    · have : i = n := by omega
      subst this
      rw [List.drop_left' (writtenUpTo_length a ty c i),
        List.take_of_length_le (by rw [blockAt_length])]

theorem length_of_isNull {x : SEXP} (h : isNull x = true) : length x = 0 := by
  unfold isNull at h
  unfold length
  have : TYPEOF x = .NILSXP := by simpa using h
  rw [this]

/-! ## NULL columns -/

/-- A loop over columns that fails was stopped by one of the columns. -/
theorem forCols_error_inv {α β : Type} (f : Nat → α → Except Err β) :
    ∀ (xs : List α) (k : Nat) (e : Err), forCols f k xs = .error e →
      ∃ (j : Nat) (hj : j < xs.length), f (k + j) (xs.get ⟨j, hj⟩) = .error e := by
  intro xs
  induction xs with
  | nil => intro k e h; cases h
  | cons x xs ih =>
    intro k e h
    unfold forCols at h
    cases hy : f k x with
    | error e1 =>
      rw [hy] at h
      injection h with h
      subst h
      exact ⟨0, by simp, by simpa using hy⟩
    | ok y =>
      rw [hy] at h
      simp only at h
      cases hys : forCols f (k + 1) xs with
      | ok ys => rw [hys] at h; cases h
      | error e1 =>
        rw [hys] at h
        injection h with h
        subst h
        obtain ⟨j, hj, hjj⟩ := ih (k + 1) _ hys
        refine ⟨j + 1, by simpa using hj, ?_⟩
        simp only [List.get_eq_getElem, List.getElem_cons_succ] at hjj ⊢
        rw [← hjj]
        congr 1
        omega

theorem allocAns_error_of_null (a : Args) (jval : SEXP) (njval N j : Nat) (hj : j < njval)
    (h : isNull (VECTOR_ELT jval j) = true) : ∃ e, allocAns a jval njval N = .error e := by
  unfold allocAns
  cases hk : forCols (fun (_ : Nat) (g : Int) => allocKey a N g) 0 a.grpcols with
  | error e => exact ⟨e, rfl⟩
  | ok keys =>
    obtain ⟨e, he⟩ := forCols_error (fun (j : Nat) (_ : Nat) => allocRes jval N j)
      (List.range njval) 0 j (by rw [List.length_range]; exact hj)
      ⟨.firstGroupNull (j + 1), by
        simp only [Nat.zero_add]
        unfold allocRes
        rw [if_pos h]⟩
    exact ⟨e, (bind_error_iff _ _ _).mpr (Or.inr ⟨keys, rfl,
      (bind_error_iff _ _ _).mpr (Or.inl he)⟩)⟩

theorem writeResCol_of_empty (i : Nat) (grpn : Int) (ansloc maxn : Nat) (target : SEXP)
    {source : SEXP} (j : Nat) (h : length source = 0) :
    writeResCol i grpn ansloc maxn target source j = .ok (writeNA target ansloc maxn) := by
  unfold writeResCol
  rw [if_pos h]

/-- When the loop over the columns of a result fails, the error was raised for
a column that is not empty. -/
theorem writeRes_error_inv {a : Args} {i : Nat} {grpn : Int} {ansloc maxn : Nat} {jval : SEXP}
    {njval : Nat} {ans : List SEXP} {e : Err}
    (h : writeRes a i grpn ansloc maxn jval njval ans = .error e) :
    ∃ j2, j2 < njval ∧ length (VECTOR_ELT jval j2) ≠ 0 ∧
      writeResCol i grpn ansloc maxn (getS ans ((j2 + a.ngrpcols : Nat) : Int))
        (VECTOR_ELT jval j2) j2 = .error e := by
  unfold writeRes at h
  obtain ⟨j2, hj2, he⟩ := forCols_error_inv _ _ _ _ h
  rw [List.length_range] at hj2
  simp only [Nat.zero_add, List.get_eq_getElem, List.getElem_range] at he
  refine ⟨j2, hj2, ?_, he⟩
  intro h0
  rw [writeResCol_of_empty _ _ _ _ _ _ h0] at he
  cases he

/-- When `dogroups` returns, the result of every group after the first
contributing group has as many columns as the result of that group. -/
theorem ncols_of_ok {a : Args} {r : Result} {f i : Nat} {colsf cols : SEXP}
    (hagg : a.lhs = none) (hok : dogroups a = .ok r) (hf : firstResult a f colsf) (hfi : f < i)
    (hi : i < a.ngrp) (hr : resultAt a i = some cols) : LENGTH cols = LENGTH colsf := by
  obtain ⟨sN, hsN, _, _⟩ := dogroups_eq_ok hok
  obtain ⟨s1, hs1⟩ := stateAt_ok_of_le hsN (i + 1) (by omega)
  obtain ⟨s, ws, hs, _, _, _⟩ := resultAt_eq_some hr
  rw [stateAt_succ, bind_of_ok hs] at hs1
  obtain ⟨ws1, hstep⟩ := step_of_result hagg hs hr hs1
  obtain ⟨hnj, _⟩ := aggStep_eq hstep
  obtain ⟨_, hcase⟩ := njval_inv hagg i s hs
  rcases hcase with ⟨hN, _⟩ | ⟨g, cg, _, hg, hnj0⟩
  · have := hN f hfi
    rw [contributes_of_firstResult hf] at this
    cases this
  · rw [(firstResult_unique hf hg).2]
    have hpos := resultAt_pos hg.1
    unfold njvalOf at hnj
    rw [if_neg (by omega)] at hnj
    omega

/-- C22: in aggregation mode, with `f` the first contributing group: when a
column of its result is NULL, `dogroups` fails and the table is as it was
passed in; whereas for a later group `i`, a column `j` of its result that is
NULL or of length 0 passes the loop over the columns without an error, whatever
its type, with NA written to the rows of the group, which are as many as the
longest column of the result of the group has items; an error of that loop is
raised for another column; and when `dogroups` returns, these rows of column
`j` of the result hold NA. -/
theorem C22_null_columns (a : Args) (f : Nat) (colsf : SEXP) (hagg : a.lhs = none)
    (hk : KeysOK a) (hf : firstResult a f colsf) (hfn : f < a.ngrp) :
    ((∃ j, j < LENGTH colsf ∧ isNull (VECTOR_ELT colsf j) = true) →
      ∃ e, dogroups a = .error ⟨e, a.dt⟩) ∧
    (∀ (i j : Nat) (cols : SEXP), f < i → i < a.ngrp → resultAt a i = some cols →
      j < LENGTH cols →
      (isNull (VECTOR_ELT cols j) = true → length (VECTOR_ELT cols j) = 0) ∧
      (length (VECTOR_ELT cols j) = 0 →
        rowsAt a i = widthAt a i ∧
        (∀ (grpn : Int) (ansloc : Nat) (target : SEXP),
          writeResCol i grpn ansloc (rowsAt a i) target (VECTOR_ELT cols j) j =
            .ok (writeNA target ansloc (rowsAt a i))) ∧
        (∀ (grpn : Int) (ansloc : Nat) (acc : List SEXP) (e : Err),
          writeRes a i grpn ansloc (rowsAt a i) cols (LENGTH cols) acc = .error e →
          ∃ j2, j2 < LENGTH cols ∧ j2 ≠ j ∧
            writeResCol i grpn ansloc (rowsAt a i) (getS acc ((j2 + a.ngrpcols : Nat) : Int))
              (VECTOR_ELT cols j2) j2 = .error e) ∧
        ∀ r, dogroups a = .ok r → ∃ ans, r.ans = some ans ∧
          ((getS ans ((a.ngrpcols + j : Nat) : Int)).items.drop (rowsUpTo a i)).take (rowsAt a i) =
            List.replicate (widthAt a i) (naItem (TYPEOF (VECTOR_ELT colsf j))))) := by
  refine ⟨?_, ?_⟩
  · rintro ⟨j, hj, hnull⟩
    obtain ⟨s, ws, hs, he, hp, hsh⟩ := resultAt_eq_some hf.1
    have hinv := run_inv hagg hk f s (Nat.le_of_lt hfn) hs
    have hN := notStarted_of_firstResult hagg hk (Nat.le_of_lt hfn) hf hs
    obtain ⟨_, hestn, _, hnj, hloc⟩ := hN
    have hnjv : njvalOf s colsf = LENGTH colsf := by
      unfold njvalOf
      rw [if_pos hnj]
    obtain ⟨e, hE⟩ : ∃ e, aggStep a f s ws colsf = .error e := by
      obtain ⟨e, hA⟩ := allocAns_error_of_null a colsf (LENGTH colsf)
        (firstEstn a (grpnOf a f) (maxnOf colsf (LENGTH colsf))).toNat j hj hnull
      refine ⟨e, ?_⟩
      unfold aggStep
      rw [if_neg (by rw [hnjv]; exact fun h => h rfl), hnjv]
      apply (bind_error_iff _ _ _).mpr
      left
      unfold ensureRoom
      rw [if_pos (by rw [hestn]; omega), if_pos hestn]
      exact (bind_error_iff _ _ _).mpr (Or.inl hA)
    refine ⟨e, ?_⟩
    apply dogroups_error_of_step hfn hs
    rw [groupStep_agg hagg he hp hsh, hE, ← hinv.1]
    rfl
  · intro i j cols hfi hi hr hj
    refine ⟨length_of_isNull, fun h0 => ?_⟩
    have hrows : rowsAt a i = widthAt a i := by
      rw [rowsAt_later hr (isFirst_false_of_earlier hfi (contributes_of_firstResult hf)),
        widthAt_of_some hr]
    refine ⟨hrows, fun grpn ansloc target => writeResCol_of_empty _ _ _ _ _ _ h0, ?_, ?_⟩
    · intro grpn ansloc acc e herr
      obtain ⟨j2, hj2, hne, he⟩ := writeRes_error_inv herr
      exact ⟨j2, hj2, fun h => hne (by rw [h]; exact h0), he⟩
    intro r hok
    obtain ⟨s, hs, ht, _⟩ := dogroups_eq_ok hok
    have hinv := run_inv hagg hk a.ngrp s (Nat.le_refl _) hs
    have hnjc : LENGTH cols = LENGTH colsf := ncols_of_ok hagg hok hf hfi hi hr
    rcases hinv.2 with hN | hS
    · have := hN.1 f hfn
      rw [contributes_of_firstResult hf] at this
      cases this
    · obtain ⟨f2, colsf2, ans, _, hfr2, ho, _, hc⟩ := trimAns_started hagg hS ht
      obtain ⟨_, e2⟩ := firstResult_unique hf hfr2
      subst e2
      refine ⟨ans, ho, ?_⟩
      rw [(hc (a.ngrpcols + j) (by omega)).2, writtenUpTo_block a _ _ i a.ngrp hi,
        blockAt_of_some hr, if_neg (by omega), Nat.add_sub_cancel_left]
      unfold resBlock
      rw [if_pos h0, hrows]
      unfold colType
      rw [if_neg (by omega), Nat.add_sub_cancel_left]

/-- C22, witness: in `c8NullArgs` the first group returns `list(1L, 2L)` and the
second `list(1L, NULL)`: `dogroups` returns, and row 2 of the second result
column is NA; in `c22Args` the first group returns `list(1L, NULL)` and
`dogroups` fails. -/
theorem C22_witness :
    firstResult c8NullArgs 0 (listOf [intVec [1], intVec [2]]) ∧
    resultAt c8NullArgs 1 = some (listOf [intVec [1], .null]) ∧
    rowsUpTo c8NullArgs 1 = 1 ∧ rowsAt c8NullArgs 1 = 1 ∧ widthAt c8NullArgs 1 = 1 ∧
    (∃ r ans, dogroups c8NullArgs = .ok r ∧ r.ans = some ans ∧
      ((getS ans 2).items.drop 1).take 1 = [.na]) ∧
    firstResult c22Args 0 (listOf [intVec [1], .null]) ∧
    ∃ e, dogroups c22Args = .error ⟨e, c22Args.dt⟩ := by
  have hf : firstResult c8NullArgs 0 (listOf [intVec [1], intVec [2]]) :=
    ⟨some_of_beq (by decide!), fun k hk => absurd hk (Nat.not_lt_zero k)⟩
  have hr : resultAt c8NullArgs 1 = some (listOf [intVec [1], .null]) :=
    some_of_beq (by decide!)
  have e1 : rowsUpTo c8NullArgs 1 = 1 := by decide!
  have e2 : rowsAt c8NullArgs 1 = 1 := by decide!
  have e3 : widthAt c8NullArgs 1 = 1 := by decide!
  have hf2 : firstResult c22Args 0 (listOf [intVec [1], .null]) :=
    ⟨some_of_beq (by decide!), fun k hk => absurd hk (Nat.not_lt_zero k)⟩
  refine ⟨hf, hr, e1, e2, e3, ?_, hf2,
    (C22_null_columns c22Args 0 _ rfl (keysOK_exArgs _) hf2 (by decide)).1
      ⟨1, by decide, by decide⟩⟩
  obtain ⟨r, hok⟩ := exists_ok_of_isOk (e := dogroups c8NullArgs) (by decide!)
  obtain ⟨ans, ha, hna⟩ :=
    (((C22_null_columns c8NullArgs 0 _ rfl (keysOK_exArgs _) hf (by decide)).2 1 1 _
      (by decide) (by decide) hr (by decide)).2 (by decide)).2.2.2 r hok
  rw [e1, e2, e3] at hna
  exact ⟨r, ans, hok, ha, hna⟩

/-! ## The zero-length warning -/

theorem findSome?_range_first {ε : Type} (g : Nat → Option ε) (k : Nat) (v : ε)
    (hg : g k = some v) (hb : ∀ k1, k1 < k → g k1 = none) :
    ∀ n : Nat, k < n → (List.range n).findSome? g = some v
  | 0, h => absurd h (Nat.not_lt_zero k)
  | n + 1, h => by
    rw [List.range_succ, List.findSome?_append]
    by_cases hk : k < n
    · rw [findSome?_range_first g k v hg hb n hk]
      rfl
    · have : k = n := by omega
      subst this
      rw [(findSome?_range_none g k).mpr hb]
      simp [hg]

theorem find?_range_first (p : Nat → Bool) (j : Nat) (hp : p j = true)
    (hb : ∀ j1, j1 < j → p j1 = false) :
    ∀ n : Nat, j < n → (List.range n).find? p = some j
  | 0, h => absurd h (Nat.not_lt_zero j)
  | n + 1, h => by
    rw [List.range_succ, List.find?_append]
    by_cases hj : j < n
    · rw [find?_range_first p j hp hb n hj]
      rfl
    · have : j = n := by omega
      subst this
      have : (List.range j).find? p = none := by
        rw [List.find?_eq_none]
        intro x hx
        rw [hb x (List.mem_range.mp hx)]
        simp
      rw [this]
      simp [hp]

theorem find?_range_none (p : Nat → Bool) (n : Nat) (h : ∀ j, j < n → p j = false) :
    (List.range n).find? p = none := by
  rw [List.find?_eq_none]
  intro x hx
  rw [h x (List.mem_range.mp hx)]
  simp

theorem warningUpTo_succ (a : Args) (n : Nat) :
    warningUpTo a (n + 1) = (warningUpTo a n).or (warningAt a n) := by
  unfold warningUpTo
  rw [List.range_succ, List.findSome?_append]
  cases (List.range n).findSome? (warningAt a) with
  | some w => rfl
  | none =>
    simp only [Option.none_or, List.findSome?_cons, List.findSome?_nil]
    cases warningAt a n <;> rfl

theorem warningAt_of_none {a : Args} {k : Nat} (h : resultAt a k = none) :
    warningAt a k = none := by
  unfold warningAt zeroColAt
  rw [h]
  rfl

/-- The warning of lines 425-428 for a group that adds `rowsAt a n` rows. -/
theorem zeroLengthWarning_eq {a : Args} {n : Nat} {cols : SEXP} (hr : resultAt a n = some cols)
    (done : Bool) :
    zeroLengthWarning n (rowsAt a n) cols (LENGTH cols) done =
      if done then none else warningAt a n := by
  unfold zeroLengthWarning warningAt zeroColAt
  rw [hr]
  cases done
  · by_cases h1 : 1 < rowsAt a n
    · simp [h1]
    · simp [h1]
  · simp

/-- What one iteration does to the warnings in aggregation mode: nothing when
the group does not contribute; otherwise the group adds `m` rows and the
warning of lines 425-428 for that width is appended. -/
theorem step_warnings {a : Args} {n : Nat} {s s1 : State} (hagg : a.lhs = none)
    (hs : stateAt a n = .ok s) (h : groupStep a n s = .ok s1) :
    (resultAt a n = none ∧ s1.warnings = s.warnings ∧ s1.NullWarnDone = s.NullWarnDone) ∨
    (∃ cols m, resultAt a n = some cols ∧ s1.ansloc = s.ansloc + m ∧
      s1.NullWarnDone = (s.NullWarnDone ||
        (zeroLengthWarning n m cols (LENGTH cols) s.NullWarnDone).isSome) ∧
      s1.warnings = s.warnings ++
        (zeroLengthWarning n m cols (LENGTH cols) s.NullWarnDone).toList) := by
  by_cases he : evaluated a n s = true
  · obtain ⟨ws, hp⟩ := populate_ok a s.dt n s.ws
    have hw := wsAt_of_state hs he hp
    rw [groupStep_of_evaluated he hp] at h
    unfold afterEval at h
    obtain ⟨r, hr, h⟩ := (bind_ok_iff _ _ _).mp h
    have hr := (withDt_ok_iff _ _ _).mp hr
    cases r with
    | none =>
      left
      injection h with h
      subst h
      refine ⟨?_, rfl, rfl⟩
      rw [resultAt_of_ws hw, hr]
    | some cols =>
      right
      simp only [hagg] at h
      have h := (withDt_ok_iff _ _ _).mp h
      have hres : resultAt a n = some cols := by rw [resultAt_of_ws hw, hr]
      unfold aggStep at h
      by_cases hc : njvalOf s cols ≠ LENGTH cols
      · rw [if_pos hc] at h; cases h
      · rw [if_neg hc] at h
        have hc : njvalOf s cols = LENGTH cols := by simpa using hc
        obtain ⟨r, _, h⟩ := (bind_ok_iff _ _ _).mp h
        obtain ⟨keys, _, h⟩ := (bind_ok_iff _ _ _).mp h
        obtain ⟨res, _, h⟩ := (bind_ok_iff _ _ _).mp h
        injection h with h
        subst h
        rw [hc]
        exact ⟨cols, r.maxn, hres, rfl, rfl, rfl⟩
  · have he : evaluated a n s = false := by simpa using he
    left
    rw [groupStep_of_skipped he] at h
    injection h with h
    subst h
    exact ⟨resultAt_of_not_evaluated hs he, rfl, rfl⟩

/-- Before group `n`, the warnings given are the warning of the first group
that is due one, if there is such a group, and the flag records it. -/
theorem warnings_inv {a : Args} (hagg : a.lhs = none) (hk : KeysOK a) :
    ∀ (n : Nat) (s : State), n ≤ a.ngrp → stateAt a n = .ok s →
      s.warnings = (warningUpTo a n).toList ∧ s.NullWarnDone = (warningUpTo a n).isSome
  | 0, s, _, h => by
    rw [stateAt_zero] at h
    obtain ⟨ws, _, e⟩ := preamble_eq h
    subst e
    exact ⟨rfl, rfl⟩
  | n + 1, s1, hn, h => by
    have h' := h
    rw [stateAt_succ] at h
    obtain ⟨s, hs, hstep⟩ := (bind_ok_iff _ _ _).mp h
    obtain ⟨hw, hd⟩ := warnings_inv hagg hk n s (by omega) hs
    rw [warningUpTo_succ]
    rcases step_warnings hagg hs hstep with ⟨hnone, e1, e2⟩ | ⟨cols, m, hr, hloc, e2, e1⟩
    · rw [warningAt_of_none hnone, e1, e2, hw, hd]
      cases warningUpTo a n <;> exact ⟨rfl, rfl⟩
    · have h0 := ansloc_eq_rowsUpTo (run_inv hagg hk n s (by omega) hs)
      have h1 := ansloc_eq_rowsUpTo (run_inv hagg hk (n + 1) s1 hn h')
      rw [rowsUpTo_succ] at h1
      have hm : m = rowsAt a n := by omega
      subst hm
      rw [zeroLengthWarning_eq hr] at e1 e2
      rw [e1, e2, hw, hd]
      cases warningUpTo a n with
      | none =>
        simp only [Option.isSome_none, Bool.false_eq_true, if_false, Option.toList_none,
          List.nil_append, Bool.false_or, Option.none_or]
        exact ⟨trivial, trivial⟩
      | some w =>
        simp

theorem dogroups_warnings {a : Args} {r : Result} (h : dogroups a = .ok r) :
    ∃ s, stateAt a a.ngrp = .ok s ∧ r.warnings = s.warnings := by
  unfold dogroups at h
  obtain ⟨s, hs, h⟩ := (bind_ok_iff _ _ _).mp h
  unfold finish at h
  obtain ⟨o, _, h⟩ := (bind_ok_iff _ _ _).mp h
  injection h with h
  subst h
  exact ⟨s, hs, rfl⟩

theorem zeroColAt_of_first {a : Args} {k j : Nat} {cols : SEXP} (hr : resultAt a k = some cols)
    (hw : 1 < rowsAt a k) (hj : j < LENGTH cols) (h0 : length (VECTOR_ELT cols j) = 0)
    (hb : ∀ j1 : Nat, j1 < j → length (VECTOR_ELT cols j1) ≠ 0) : zeroColAt a k = some j := by
  unfold zeroColAt
  rw [hr]
  simp only
  rw [if_pos hw]
  exact find?_range_first _ j (by simp [h0]) (fun j1 hj1 => by simpa using hb j1 hj1) _ hj

theorem zeroColAt_of_none {a : Args} {k : Nat}
    (h : ∀ (cols : SEXP) (j : Nat), resultAt a k = some cols → 1 < rowsAt a k → j < LENGTH cols →
      length (VECTOR_ELT cols j) ≠ 0) : zeroColAt a k = none := by
  unfold zeroColAt
  cases hr : resultAt a k with
  | none => rfl
  | some cols =>
    simp only
    by_cases hw : 1 < rowsAt a k
    · rw [if_pos hw]
      exact find?_range_none _ _ (fun j hj => by simpa using h cols j hr hw hj)
    · rw [if_neg hw]

/-- When `dogroups` returns, the rows of group `k` in a result column for which
the group returned no item hold NA. -/
theorem na_rows_of_empty {a : Args} {r : Result} {k j : Nat} {cols : SEXP} (hagg : a.lhs = none)
    (hk : KeysOK a) (hok : dogroups a = .ok r) (hkn : k < a.ngrp)
    (hr : resultAt a k = some cols) (hj : j < LENGTH cols)
    (h0 : length (VECTOR_ELT cols j) = 0) :
    ∃ f colsf ans, firstResult a f colsf ∧ f ≤ k ∧ r.ans = some ans ∧
      ((getS ans ((a.ngrpcols + j : Nat) : Int)).items.drop (rowsUpTo a k)).take (rowsAt a k) =
        List.replicate (rowsAt a k) (naItem (TYPEOF (VECTOR_ELT colsf j))) := by
  obtain ⟨s, hs, ht, _⟩ := dogroups_eq_ok hok
  have hinv := run_inv hagg hk a.ngrp s (Nat.le_refl _) hs
  have hck : contributes a k = true := by
    unfold contributes
    rw [hr]
    rfl
  rcases hinv.2 with hN | hS
  · have := hN.1 k hkn
    rw [hck] at this
    cases this
  · obtain ⟨f, colsf, ans, _, hfr, ho, _, hc⟩ := trimAns_started hagg hS ht
    have hfk : f ≤ k := by
      by_contra hlt
      have := hfr.2 k (by omega)
      rw [hck] at this
      cases this
    have hnjc : LENGTH cols = LENGTH colsf := by
      by_cases he : f = k
      · subst he
        have := hfr.1.symm.trans hr
        injection this with this
        rw [this]
      · exact ncols_of_ok hagg hok hfr (by omega) hkn hr
    refine ⟨f, colsf, ans, hfr, hfk, ho, ?_⟩
    rw [(hc (a.ngrpcols + j) (by omega)).2, writtenUpTo_block a _ _ k a.ngrp hkn,
      blockAt_of_some hr, if_neg (by omega), Nat.add_sub_cancel_left]
    unfold resBlock
    rw [if_pos h0]
    unfold colType
    rw [if_neg (by omega), Nat.add_sub_cancel_left]

/-- What one iteration does to the warnings, in either mode: nothing, or the
warning of lines 425-428 is appended, which is none when the flag is set. -/
theorem step_warnings_any {a : Args} {n : Nat} {s s1 : State}
    (h : groupStep a n s = .ok s1) :
    (s1.warnings = s.warnings ∧ s1.NullWarnDone = s.NullWarnDone) ∨
    (∃ cols m njval,
      s1.NullWarnDone = (s.NullWarnDone ||
        (zeroLengthWarning n m cols njval s.NullWarnDone).isSome) ∧
      s1.warnings = s.warnings ++ (zeroLengthWarning n m cols njval s.NullWarnDone).toList) := by
  by_cases he : evaluated a n s = true
  · obtain ⟨ws, hp⟩ := populate_ok a s.dt n s.ws
    rw [groupStep_of_evaluated he hp] at h
    unfold afterEval at h
    obtain ⟨r, _, h⟩ := (bind_ok_iff _ _ _).mp h
    cases r with
    | none =>
      left
      injection h with h
      subst h
      exact ⟨rfl, rfl⟩
    | some cols =>
      cases hl : a.lhs with
      | some lhs =>
        left
        simp only [hl] at h
        obtain ⟨dt, _, h⟩ := (bind_ok_iff _ _ _).mp h
        injection h with h
        subst h
        exact ⟨rfl, rfl⟩
      | none =>
        right
        simp only [hl] at h
        have h := (withDt_ok_iff _ _ _).mp h
        unfold aggStep at h
        by_cases hc : njvalOf s cols ≠ LENGTH cols
        · rw [if_pos hc] at h; cases h
        · rw [if_neg hc] at h
          obtain ⟨r, _, h⟩ := (bind_ok_iff _ _ _).mp h
          obtain ⟨keys, _, h⟩ := (bind_ok_iff _ _ _).mp h
          obtain ⟨res, _, h⟩ := (bind_ok_iff _ _ _).mp h
          injection h with h
          subst h
          exact ⟨cols, r.maxn, njvalOf s cols, rfl, rfl⟩
  · have he : evaluated a n s = false := by simpa using he
    left
    rw [groupStep_of_skipped he] at h
    injection h with h
    subst h
    exact ⟨rfl, rfl⟩

theorem zeroLengthWarning_of_done (i maxn : Nat) (jval : SEXP) (njval : Nat) :
    zeroLengthWarning i maxn jval njval true = none := by
  unfold zeroLengthWarning
  simp

/-- In either mode, at every point of the run at most one warning was given,
and none while the flag is not set. -/
theorem warnings_at_most_one (a : Args) :
    ∀ (n : Nat) (s : State), stateAt a n = .ok s →
      s.warnings.length ≤ 1 ∧ (s.NullWarnDone = false → s.warnings = [])
  | 0, s, h => by
    rw [stateAt_zero] at h
    obtain ⟨ws, _, e⟩ := preamble_eq h
    subst e
    exact ⟨Nat.zero_le _, fun _ => rfl⟩
  | n + 1, s1, h => by
    rw [stateAt_succ] at h
    obtain ⟨s, hs, hstep⟩ := (bind_ok_iff _ _ _).mp h
    obtain ⟨hl, hd⟩ := warnings_at_most_one a n s hs
    rcases step_warnings_any hstep with ⟨e1, e2⟩ | ⟨cols, m, njval, e2, e1⟩
    · rw [e1, e2]
      exact ⟨hl, hd⟩
    · rw [e1, e2]
      cases hdone : s.NullWarnDone with
      | true =>
        rw [zeroLengthWarning_of_done]
        simp only [Option.toList_none, List.append_nil, Option.isSome_none, Bool.or_false]
        exact ⟨hl, fun h => by cases h⟩
      | false =>
        rw [hd hdone]
        cases zeroLengthWarning n m cols njval false <;> simp

/-- C21 (as amended): in either mode the zero-length warning is given at most
once in a call, at every point of the run.  In aggregation mode, when `dogroups`
returns: no warning was given when no group that adds more than one row to the result
has a column of length 0; otherwise the one warning is about the first column
of length 0 (`j`) of the first group (`k`) that adds more than one row and has
such a column, whatever columns of length 0 come later; and for every column
of length 0 of a result, the rows of the group in that column of the result
hold NA.  The number of rows a group adds is the length of the longest column
of its result, except that a first contributing group without rows of its own
adds none, whatever it returns. -/
theorem C21_zero_length_warning_once (a : Args) :
    (∀ (n : Nat) (s : State), stateAt a n = .ok s → s.warnings.length ≤ 1) ∧
    (∀ r, dogroups a = .ok r → r.warnings.length ≤ 1) ∧
    ∀ r, a.lhs = none → KeysOK a → dogroups a = .ok r →
      ((∀ (k : Nat) (cols : SEXP) (j : Nat), k < a.ngrp → resultAt a k = some cols →
          1 < rowsAt a k → j < LENGTH cols → length (VECTOR_ELT cols j) ≠ 0) →
        r.warnings = []) ∧
      (∀ (k : Nat) (cols : SEXP) (j : Nat), k < a.ngrp → resultAt a k = some cols →
        1 < rowsAt a k → j < LENGTH cols → length (VECTOR_ELT cols j) = 0 →
        (∀ j1 : Nat, j1 < j → length (VECTOR_ELT cols j1) ≠ 0) →
        (∀ (k1 : Nat) (cols1 : SEXP) (j1 : Nat), k1 < k → resultAt a k1 = some cols1 →
          1 < rowsAt a k1 → j1 < LENGTH cols1 → length (VECTOR_ELT cols1 j1) ≠ 0) →
        r.warnings = [Warning.zeroLength (j + 1) (k + 1) (rowsAt a k)]) ∧
      (∀ (k : Nat) (cols : SEXP) (j : Nat), k < a.ngrp → resultAt a k = some cols →
        j < LENGTH cols → length (VECTOR_ELT cols j) = 0 →
        ∃ f colsf ans, firstResult a f colsf ∧ f ≤ k ∧ r.ans = some ans ∧
          ((getS ans ((a.ngrpcols + j : Nat) : Int)).items.drop (rowsUpTo a k)).take
              (rowsAt a k) =
            List.replicate (rowsAt a k) (naItem (TYPEOF (VECTOR_ELT colsf j)))) := by
  have hlen : ∀ (n : Nat) (s : State), stateAt a n = .ok s → s.warnings.length ≤ 1 :=
    fun n s hs => (warnings_at_most_one a n s hs).1
  refine ⟨hlen, fun r hok => ?_, fun r hagg hk hok => ?_⟩
  · obtain ⟨s, hs, hw⟩ := dogroups_warnings hok
    rw [hw]
    exact hlen _ s hs
  obtain ⟨s, hs, hw⟩ := dogroups_warnings hok
  have hinv := (warnings_inv hagg hk a.ngrp s (Nat.le_refl _) hs).1
  refine ⟨?_, ?_, ?_⟩
  · intro hnone
    have : warningUpTo a a.ngrp = none := by
      unfold warningUpTo
      rw [findSome?_range_none]
      intro k hkn
      unfold warningAt
      rw [zeroColAt_of_none (fun cols j hr hw1 hj => hnone k cols j hkn hr hw1 hj)]
      rfl
    rw [hw, hinv, this]
    rfl
  · intro k cols j hkn hr hw1 hj h0 hb hbefore
    have : warningUpTo a a.ngrp = some (Warning.zeroLength (j + 1) (k + 1) (rowsAt a k)) := by
      unfold warningUpTo
      apply findSome?_range_first _ k _ _ _ _ hkn
      · unfold warningAt
        rw [zeroColAt_of_first hr hw1 hj h0 hb]
        rfl
      · intro k1 hk1
        unfold warningAt
        rw [zeroColAt_of_none (fun cols1 j1 hr1 hw2 hj1 => hbefore k1 cols1 j1 hk1 hr1 hw2 hj1)]
        rfl
    rw [hw, hinv, this]
    rfl
  · intro k cols j hkn hr hj h0
    exact na_rows_of_empty hagg hk hok hkn hr hj h0

/-- C21, witness: in `c21Args` the first group returns `list(1:2, 5:6, 7:8)`
and the second `list(3:4, integer(0), integer(0))`: `dogroups` returns with
one warning, about column 2 of group 2, which is filled with 2 NAs; rows 3 and
4 of the third and of the fourth column of the result hold NA. -/
theorem C21_witness :
    resultAt c21Args 1 = some (listOf [intVec [3, 4], intVec [], intVec []]) ∧
    rowsUpTo c21Args 1 = 2 ∧ rowsAt c21Args 1 = 2 ∧
    ∃ r, dogroups c21Args = .ok r ∧ r.warnings = [Warning.zeroLength 2 2 2] ∧
      ∃ ans, r.ans = some ans ∧
        ((getS ans 2).items.drop 2).take 2 = [.na, .na] ∧
        ((getS ans 3).items.drop 2).take 2 = [.na, .na] := by
  have hr : resultAt c21Args 1 = some (listOf [intVec [3, 4], intVec [], intVec []]) :=
    some_of_beq (by decide!)
  have hr0 : resultAt c21Args 0 =
      some (listOf [intVec [1, 2], intVec [5, 6], intVec [7, 8]]) := some_of_beq (by decide!)
  have e1 : rowsUpTo c21Args 1 = 2 := by decide!
  have e2 : rowsAt c21Args 1 = 2 := by decide!
  refine ⟨hr, e1, e2, ?_⟩
  obtain ⟨r, hok⟩ := exists_ok_of_isOk (e := dogroups c21Args) (by decide!)
  obtain ⟨_, hone, hna⟩ :=
    (C21_zero_length_warning_once c21Args).2.2 r rfl (keysOK_exArgs _) hok
  have hw := hone 1 _ 1 (by decide) hr (by rw [e2]; decide) (by decide) (by decide)
    (fun j1 hj1 => by
      have : j1 = 0 := by omega
      subst this
      decide)
    (fun k1 cols1 j1 hk1 hr1 _ hj1 => by
      have : k1 = 0 := by omega
      subst this
      rw [hr0] at hr1
      injection hr1 with hr1
      subst hr1
      have h3 : j1 < 3 := hj1
      interval_cases j1 <;> decide)
  rw [e2] at hw
  obtain ⟨f, colsf, ans, hfr, _, ha, h2⟩ := hna 1 _ 1 (by decide) hr (by decide) (by decide)
  obtain ⟨f3, colsf3, ans3, hfr3, _, ha3, h3⟩ := hna 1 _ 2 (by decide) hr (by decide) (by decide)
  rw [ha] at ha3
  injection ha3 with ha3
  subst ha3
  have hf0 : firstResult c21Args 0 (listOf [intVec [1, 2], intVec [5, 6], intVec [7, 8]]) :=
    ⟨hr0, fun k hk => absurd hk (Nat.not_lt_zero k)⟩
  obtain ⟨_, e⟩ := firstResult_unique hfr hf0
  obtain ⟨_, e3⟩ := firstResult_unique hfr3 hf0
  subst e
  subst e3
  rw [e1, e2] at h2 h3
  exact ⟨r, hok, hw, ans, ha, h2, h3⟩

/-- C21, counterexample: on a table without rows the single, empty group
returns `list(1:3, integer(0))`: the longest column of its result has 3 items
and its second column none, yet `dogroups` returns without a warning (the
result has no row). -/
theorem C21_counterexample :
    resultAt c21EmptyArgs 0 = some (listOf [intVec [1, 2, 3], intVec []]) ∧
    widthAt c21EmptyArgs 0 = 3 ∧
    length (VECTOR_ELT (listOf [intVec [1, 2, 3], intVec []]) 1) = 0 ∧
    ∃ r, dogroups c21EmptyArgs = .ok r ∧ r.warnings = [] := by
  refine ⟨some_of_beq (by decide!), by decide!, by decide, ?_⟩
  obtain ⟨r, hr, hp⟩ := exists_of_check
    (o := match dogroups c21EmptyArgs with
      | .ok r => some r
      | .error _ => none)
    (p := fun r => decide (r.warnings = [])) (by decide!)
  cases hd : dogroups c21EmptyArgs with
  | error e => rw [hd] at hr; cases hr
  | ok r1 =>
    rw [hd] at hr
    injection hr with hr
    subst hr
    exact ⟨r1, rfl, by simpa using hp⟩

/-! ## The reads of the permutation arrays -/

/-- The no-match test reads `iorder` at the index `orderTestRead` lists. -/
theorem noMatch_eq_reads (a : Args) (i : Nat) :
    noMatch a i = (getInt a.starts i == NA_INTEGER ||
      (orderTestRead a i).any (fun k => getInt a.order k == NA_INTEGER)) := by
  unfold noMatch orderTestRead
  by_cases h1 : getInt a.starts i = NA_INTEGER
  · simp [h1]
  · by_cases h2 : a.order.length = 0
    · simp [h1, h2]
    · have h3 : (a.order.length != 0) = true := by simpa using h2
      simp [h1, h2, h3]

/-- The key row is found through `grporder` at the index `grporderRead` lists. -/
theorem igrpOf_eq_reads (a : Args) (i : Nat) :
    igrpOf a i = if a.jiscols.isSome then (i : Int)
      else ((grporderRead a i).map (fun k => getInt a.grporder k - 1)).headD
        (getInt a.starts i - 1) := by
  unfold igrpOf grporderRead
  by_cases h1 : a.jiscols.isSome = true
  · simp [h1]
  · by_cases h2 : a.grporder.length = 0
    · simp [h1, h2]
    · simp [h1, h2]

theorem mem_gatherReads {a : Args} {i : Nat} {k : Int} (h : k ∈ gatherReads a i) :
    getInt a.starts i - 1 ≤ k ∧ k < getInt a.starts i - 1 + getInt a.lens i := by
  unfold gatherReads at h
  obtain ⟨j, hj, e⟩ := List.mem_map.mp h
  have hj := List.mem_range.mp hj
  subst e
  omega

theorem mem_orderTestRead {a : Args} {i : Nat} {k : Int} (h : k ∈ orderTestRead a i) :
    k = getInt a.starts i - 1 ∧ getInt a.starts i ≠ NA_INTEGER ∧ a.order.length ≠ 0 := by
  unfold orderTestRead at h
  by_cases h1 : getInt a.starts i = NA_INTEGER
  · rw [if_pos h1] at h
    cases h
  · rw [if_neg h1] at h
    by_cases h2 : a.order.length ≠ 0
    · rw [if_pos h2] at h
      exact ⟨by simpa using h, h1, h2⟩
    · rw [if_neg h2] at h
      cases h

theorem mem_orderReads {a : Args} {i : Nat} {s : State} {k : Int} (h : k ∈ orderReads a i s) :
    skipEmpty a i s = false ∧ a.order.length ≠ 0 ∧
      (k ∈ orderTestRead a i ∨ k ∈ gatherReads a i) := by
  unfold orderReads at h
  by_cases h1 : skipEmpty a i s = true
  · rw [if_pos h1] at h
    cases h
  · rw [if_neg h1] at h
    have h1 : skipEmpty a i s = false := by simpa using h1
    by_cases h2 : (a.lhs.isSome && noMatch a i) = true
    · rw [if_pos h2] at h
      exact ⟨h1, (mem_orderTestRead h).2.2, Or.inl h⟩
    · rw [if_neg h2] at h
      rcases List.mem_append.mp h with h | h
      · rcases List.mem_append.mp h with h | h
        · by_cases h3 : a.lhs.isSome = true
          · rw [if_pos h3] at h
            exact ⟨h1, (mem_orderTestRead h).2.2, Or.inl h⟩
          · rw [if_neg h3] at h
            cases h
        · exact ⟨h1, (mem_orderTestRead h).2.2, Or.inl h⟩
      · by_cases h3 : (noMatch a i || a.order.length == 0) = true
        · rw [if_pos h3] at h
          cases h
        · rw [if_neg h3] at h
          refine ⟨h1, ?_, Or.inr h⟩
          intro h0
          apply h3
          simp [h0]

/-- Where the reads are within bounds: every index at which the iteration of a
group with a start of 1 or more reads `iorder` or `grporder` is within the
array, when the start is no more than the length of the array and
`start - 1 + length` is within the permutation; and a group with start NA
reads `iorder` nowhere. -/
theorem reads_in_bounds_of_start (a : Args) (i : Nat) (s : State) :
    (1 ≤ getInt a.starts i →
      (a.order.length ≠ 0 → getInt a.starts i ≤ (a.order.length : Int) ∧
        getInt a.starts i - 1 + getInt a.lens i ≤ (a.order.length : Int)) →
      ∀ k, k ∈ orderReads a i s → inBounds a.order k = true) ∧
    (1 ≤ getInt a.starts i →
      (a.grporder.length ≠ 0 → getInt a.starts i ≤ (a.grporder.length : Int)) →
      ∀ k, k ∈ grporderReads a i s → inBounds a.grporder k = true) ∧
    (getInt a.starts i = NA_INTEGER → orderReads a i s = []) := by
  refine ⟨?_, ?_, ?_⟩
  · intro h1 ho k hk
    obtain ⟨_, hne, hk⟩ := mem_orderReads hk
    obtain ⟨ho1, ho2⟩ := ho hne
    unfold inBounds
    rcases hk with hk | hk
    · obtain ⟨e, _, _⟩ := mem_orderTestRead hk
      subst e
      simp only [Bool.and_eq_true, decide_eq_true_eq]
      omega
    · have := mem_gatherReads hk
      simp only [Bool.and_eq_true, decide_eq_true_eq]
      omega
  · intro h1 hg k hk
    unfold grporderReads at hk
    by_cases he : evaluated a i s = true
    · rw [if_pos he] at hk
      unfold grporderRead at hk
      by_cases hj : a.jiscols.isSome = true
      · rw [if_pos hj] at hk
        cases hk
      · rw [if_neg hj] at hk
        by_cases h2 : a.grporder.length ≠ 0
        · rw [if_pos h2] at hk
          have e : k = getInt a.starts i - 1 := by simpa using hk
          subst e
          have := hg h2
          unfold inBounds
          simp only [Bool.and_eq_true, decide_eq_true_eq]
          omega
        · rw [if_neg h2] at hk
          cases hk
    · rw [if_neg he] at hk
      cases hk
  · intro hna
    have ht : orderTestRead a i = [] := by
      unfold orderTestRead
      rw [if_pos hna]
    have hnm : noMatch a i = true := by
      unfold noMatch
      simp [hna]
    unfold orderReads
    rw [ht, hnm]
    by_cases h1 : skipEmpty a i s = true
    · rw [if_pos h1]
    · rw [if_neg h1]
      cases a.lhs.isSome <;> simp

/-- The indices read by the iteration of a group with start 0 that is not
skipped, when a permutation is given, in aggregation mode: the test of line
218 reads `iorder[-1]`. -/
theorem orderReads_of_empty_start {a : Args} {i : Nat} {s : State} (hagg : a.lhs = none)
    (h0 : getInt a.starts i = 0) (hs : skipEmpty a i s = false) (ho : a.order.length ≠ 0) :
    (-1 : Int) ∈ orderReads a i s ∧ inBounds a.order (-1) = false := by
  refine ⟨?_, by unfold inBounds; simp⟩
  have ht : orderTestRead a i = [-1] := by
    unfold orderTestRead
    rw [if_neg (by rw [h0]; decide), if_pos ho, h0]
    rfl
  unfold orderReads
  rw [hs, hagg, ht]
  simp

theorem planOK_c24Args (n : Nat) : PlanOK c24Args n := by
  intro i hi
  have : i = 0 := by
    have : i < 1 := hi
    omega
  subst this
  exact Or.inl rfl

/-- C24, the read outside the array: in the join of `c24Args`, where the one key
row matches nothing, the plan (one group, start 0, length 0) is well formed;
the group is the last one and no result was started, so it is evaluated; the
permutation has four entries; and the iteration reads `iorder` at index -1,
which is not within the array, and nowhere else. -/
theorem C24_read_before_the_permutation :
    (∀ n : Nat, PlanOK c24Args n) ∧ c24Args.order.length = 4 ∧
    ∃ s, stateAt c24Args 0 = .ok s ∧ evaluated c24Args 0 s = true ∧
      orderReads c24Args 0 s = [-1] ∧ inBounds c24Args.order (-1) = false := by
  refine ⟨planOK_c24Args, rfl, ?_⟩
  obtain ⟨s, h1, hp⟩ := exists_of_check
    (o := match stateAt c24Args 0 with
      | .ok s => some s
      | .error _ => none)
    (p := fun s => evaluated c24Args 0 s && decide (orderReads c24Args 0 s = [-1]))
    (by decide!)
  cases hs : stateAt c24Args 0 with
  | error e => rw [hs] at h1; cases h1
  | ok s0 =>
    rw [hs] at h1
    injection h1 with h1
    subst h1
    simp only [Bool.and_eq_true, decide_eq_true_eq] at hp
    exact ⟨s0, rfl, hp.1, hp.2, by decide⟩

/-! ## A column of `.SD` returned as a list element -/

end DataTable
